import Mathlib

/-!
# Thunar tree view model: a shallow embedding

The definitions below follow `src/thunar/thunar-tree-view-model.c`.  C strings are
lists of characters (the bytes before the terminating NUL), `GList`/`GSList`/`gchar **`
are Lean lists, a `GNode` tree is an inductive n-ary tree and, where a function
changes the tree, pointers into the tree are paths of child indices.

What is modelled is the state of the tree and of the side lists.  The emissions to
the view (`row-inserted`, `row-deleted`, `row-changed`, `row-has-child-toggled`) and
the GObject reference counts of files do not act on that state and are left out,
except where the search job goes on using a `GFile` after dropping its only reference
to it: there the run is marked (`SearchRun.freed_file_used`).  The `new_order` array
of a `rows-reordered` emission is returned by the two functions that emit one.  The
checks `_thunar_return_if_fail` are the early returns they are when checks are
compiled in.  `gint` values are unbounded integers; the product of the comparator's
answer and the sort sign is also given as the 32-bit product
(`thunar_tree_view_model_cmp_files_gint`).  An item always holds its file
(`item->file` is set by `thunar_tree_view_model_item_new_with_file` and cleared only
when the item is freed).

What lives outside the model object is passed along explicitly: the sources attached
to the GLib main loop and the launched and cancelled jobs are a `Runtime`, the folder
factory, the normalization of strings for the search and the compiled whitespace
pattern are parameters, and the files that the search job enumerates are a finite
tree `GFile`.  The search job runs in a thread of its own; its function is embedded as
a sequential function of the tree and of the moment from which its cancellable is
found set, each look at the cancellable being counted.  Where the order of the
statements of the two threads matters, the last statements of the job function are
steps of their own and a run is a list of steps (`ThreadStep`).

For the functions that convert between iterators and `GtkTreePath`s the nodes lie in
a memory: at the address of a node there is a cell with the address of its parent and
the addresses of its children (`GNodeCell`), a `GtkTreeIter` holds the address of its
node, and `laid_out` says that a memory holds a given tree.  The indices of a
`GtkTreePath` are integers.  The recursion of `thunar_tree_view_model_get_path` on the
parent is bounded by an argument; the depth of the node is enough.

The section on job operations follows `src/thunar/thunar-job-operation.c`; there
the `GFile` objects are the elements of a type `F`, and `thunar_g_file_is_descendant`,
which is defined elsewhere, is a parameter.
-/

namespace Thunar

/-! ## Search term matching -/

/-- The backwards scan of GLib's `g_strrstr`: `p` runs from `k - 1` down to `0`
and the first offset at which `needle` is found is returned. -/
def g_strrstr_scan (haystack needle : List Char) : Nat → Option Nat
  | 0 => none
  | p + 1 =>
    if needle.isPrefixOf (haystack.drop p) then some p
    else g_strrstr_scan haystack needle p

/-- GLib's `g_strrstr (haystack, needle)`: the offset of the last occurrence of
`needle` in `haystack`, `none` for the `NULL` result.  An empty needle yields the
haystack itself. -/
def g_strrstr (haystack needle : List Char) : Option Nat :=
  if needle.length = 0 then some 0
  else if haystack.length < needle.length then none
  else g_strrstr_scan haystack needle (haystack.length - needle.length + 1)

/-- The loop of `thunar_tree_view_model_search_terms_match`: `FALSE` at the first
term for which `g_strrstr` returns `NULL`, `TRUE` when the terms are exhausted. -/
def thunar_tree_view_model_search_terms_match : List (List Char) → List Char → Bool
  | [], _ => true
  | t :: terms, str =>
    if (g_strrstr str t).isNone then false
    else thunar_tree_view_model_search_terms_match terms str

/-! ## Data model -/

/-- A `ThunarFile` handle.  `id` stands for the pointer identity of the object, the
other fields are what `thunar_file_get_display_name`, `thunar_file_is_hidden`,
`thunar_file_is_directory` and the date accessor report for it. -/
structure ThunarFile where
  id : Nat
  display_name : List Char := []
  is_hidden : Bool := false
  is_directory : Bool := false
  date_modified : Nat := 0
  deriving DecidableEq, Repr

/-- A `ThunarSortFunc` function pointer: `ident` is the address compared by `==`,
`call` is the function it points to (the comparators live in `thunar-file.c` and
`thunar-standard-view-model.c`, outside the sources at hand). -/
structure ThunarSortFunc where
  ident : Nat
  call : ThunarFile → ThunarFile → Bool → Int

/-- The struct `_ThunarTreeViewModelItem` (without the back pointer to the model).
`folder` is the handle of the open `ThunarFolder`, `none` for `NULL`. -/
structure ThunarTreeViewModelItem where
  ref_count : Int := 0
  load_idle_id : Nat := 0
  file : ThunarFile
  folder : Option Nat := none
  files_to_add : List ThunarFile := []
  add_files_timeout : Nat := 0
  invisible_children : List ThunarFile := []
  deriving DecidableEq, Repr

/-- A `GNode`: `data` is the item (`none` for the `NULL` of a dummy node and of the
virtual root), `children` the sibling list hanging off `node->children`. -/
inductive GNode where
  | mk (data : Option ThunarTreeViewModelItem) (children : List GNode)
  deriving Repr

/-- The field `node->data`. -/
def GNode.data : GNode → Option ThunarTreeViewModelItem
  | .mk d _ => d

/-- The child list `node->children`. -/
def GNode.children : GNode → List GNode
  | .mk _ cs => cs

/-- A `ThunarFolder` object as the model sees it: `id` stands for the pointer
identity, the other fields are what `thunar_folder_get_corresponding_file`,
`thunar_folder_get_files` and `thunar_folder_get_loading` report for it. -/
structure ThunarFolder where
  id : Nat
  corresponding_file : ThunarFile
  files : List ThunarFile := []
  loading : Bool := false
  deriving DecidableEq, Repr

/-- The job object made by `thunar_tree_view_model_job_search_directory`: `id` stands
for the pointer identity, the other fields are the two parameters handed to
`thunar_simple_job_new` besides the model. -/
structure ThunarJob where
  id : Nat
  search_query_c : List Char
  directory : ThunarFile
  deriving DecidableEq, Repr

/-- The enumeration `ThunarFolderItemCount` (declared in `thunar-enum-types.h`). -/
inductive ThunarFolderItemCount where
  | THUNAR_FOLDER_ITEM_COUNT_NEVER
  | THUNAR_FOLDER_ITEM_COUNT_ONLY_LOCAL
  | THUNAR_FOLDER_ITEM_COUNT_ALWAYS
  deriving DecidableEq, Repr

/-- The fields of `_ThunarTreeViewModel` that the tree operations read or write.
`has_handler` is the answer of `g_signal_has_handler_pending` for "row-inserted". -/
structure ThunarTreeViewModel where
  root : GNode := GNode.mk none []
  hidden : List ThunarFile := []
  show_hidden : Bool := false
  sort_case_sensitive : Bool := true
  sort_folders_first : Bool := true
  sort_sign : Int := 1
  sort_func : ThunarSortFunc
  has_handler : Bool := true
  folder : Option ThunarFolder := none
  folder_item_count : ThunarFolderItemCount :=
    ThunarFolderItemCount.THUNAR_FOLDER_ITEM_COUNT_NEVER
  search_terms : Option (List (List Char)) := none
  recursive_search_job : Option ThunarJob := none
  files_to_add : List ThunarFile := []
  update_search_results_timeout_id : Nat := 0
  cleanup_idle_id : Nat := 0
  loading : Int := 0

/-- The pair `SortTuple` used by `thunar_tree_view_model_sort`. -/
structure SortTuple where
  offset : Nat
  node : GNode

/-! ## GLib node helpers -/

/-- GLib's `g_node_n_children`. -/
def g_node_n_children (node : GNode) : Nat := node.children.length

mutual
/-- GLib's `g_node_max_height`: 1 for a leaf. -/
def g_node_max_height : GNode → Nat
  | .mk _ cs => g_node_max_height_list cs + 1
/-- The largest `g_node_max_height` among a sibling list, 0 for the empty list. -/
def g_node_max_height_list : List GNode → Nat
  | [] => 0
  | c :: cs => max (g_node_max_height c) (g_node_max_height_list cs)
end

/-- The node a path of child indices leads to, starting at `node`. -/
def g_node_at : List Nat → GNode → Option GNode
  | [], node => some node
  | i :: path, node =>
    match node.children[i]? with
    | some c => g_node_at path c
    | none => none

/-- Replace the node that a path of child indices leads to by its image under `f`
(an in-place update through a `GNode *`); a path leading nowhere changes nothing. -/
def g_node_update_at (f : GNode → GNode) : List Nat → GNode → GNode
  | [], node => f node
  | i :: path, node =>
    match node.children[i]? with
    | some c => GNode.mk node.data (node.children.set i (g_node_update_at f path c))
    | none => node

/-- The macro `G_NODE_HAS_DUMMY`: `node->children != NULL`,
`node->children->data == NULL` and `node->children->next == NULL`. -/
def G_NODE_HAS_DUMMY (node : GNode) : Bool :=
  match node.children with
  | [c] => c.data.isNone
  | _ => false

/-! ## Sorting -/

/-- The function `thunar_tree_view_model_cmp_files`: the folders-first check, then
the column comparator times the sort sign. -/
def thunar_tree_view_model_cmp_files (file_a file_b : ThunarFile)
    (model : ThunarTreeViewModel) : Int :=
  if model.sort_folders_first && (file_a.is_directory != file_b.is_directory) then
    (if file_a.is_directory then -1 else 1)
  else
    model.sort_func.call file_a file_b model.sort_case_sensitive * model.sort_sign

/-- The function `thunar_tree_view_model_cmp_nodes_func`.  It dereferences
`a->data` and `b->data`; for an item-less node (where the C code would read through
`NULL`) the model answers 0. -/
def thunar_tree_view_model_cmp_nodes_func (a b : GNode) (model : ThunarTreeViewModel) : Int :=
  match a.data, b.data with
  | some item_a, some item_b => thunar_tree_view_model_cmp_files item_a.file item_b.file model
  | _, _ => 0

/-- The function `thunar_tree_view_model_cmp_func` on sort tuples. -/
def thunar_tree_view_model_cmp_func (a b : SortTuple) (user_data : ThunarTreeViewModel) : Int :=
  thunar_tree_view_model_cmp_nodes_func a.node b.node user_data

/-- Insertion step of the stable sort standing for `g_qsort_with_data`: `x` goes in
front of the first element it does not compare greater than. -/
def g_qsort_insert {α : Type} (compare_func : α → α → Int) (x : α) : List α → List α
  | [] => [x]
  | y :: ys =>
    if compare_func x y ≤ 0 then x :: y :: ys
    else y :: g_qsort_insert compare_func x ys

/-- GLib's `g_qsort_with_data`, documented as a stable sort: elements that compare
equal keep their order. -/
def g_qsort_with_data {α : Type} (pbase : List α) (compare_func : α → α → Int) : List α :=
  pbase.foldr (g_qsort_insert compare_func) []

/-- The first loop of `thunar_tree_view_model_sort`: `sort_array[n].node` is the
n-th child and `sort_array[n].offset = n`, counting from `n`. -/
def sort_array_from : Nat → List GNode → List SortTuple
  | _, [] => []
  | n, child_node :: rest => { offset := n, node := child_node } :: sort_array_from (n + 1) rest

/-- The function `thunar_tree_view_model_sort`.  The result is the node with its
children relinked and the `new_order` array handed to `gtk_tree_model_rows_reordered`;
`none` when the function returns early (at most one child, or the check
`child_node->data != NULL` fails) and nothing is emitted. -/
def thunar_tree_view_model_sort (store : ThunarTreeViewModel) (node : GNode) :
    GNode × Option (List Nat) :=
  if g_node_n_children node ≤ 1 then (node, none)
  else if node.children.any (fun child_node => child_node.data.isNone) then (node, none)
  else
    let sort_array := g_qsort_with_data (sort_array_from 0 node.children)
      (fun a b => thunar_tree_view_model_cmp_func a b store)
    (GNode.mk node.data (sort_array.map (fun t => t.node)),
      some (sort_array.map (fun t => t.offset)))

mutual
/-- The traversal `g_node_traverse (node, G_POST_ORDER, G_TRAVERSE_NON_LEAVES, -1,
thunar_tree_view_model_node_traverse_sort, store)`: the children are re-sorted
bottom-up, every node after its descendants. -/
def traverse_sort (store : ThunarTreeViewModel) : GNode → GNode
  | .mk data children =>
    (thunar_tree_view_model_sort store (GNode.mk data (traverse_sort_list store children))).1
/-- The sibling loop of the post-order traversal. -/
def traverse_sort_list (store : ThunarTreeViewModel) : List GNode → List GNode
  | [] => []
  | c :: cs => traverse_sort store c :: traverse_sort_list store cs
end

/-! ## Adding children -/

/-- The function `thunar_tree_view_model_item_new_with_file`: a zeroed item holding
the file. -/
def thunar_tree_view_model_item_new_with_file (file : ThunarFile) : ThunarTreeViewModelItem :=
  { file := file }

/-- The function `thunar_tree_view_model_node_insert_dummy`: nothing happens unless
`g_node_n_children (parent) == 0`, then an item-less node is appended. -/
def thunar_tree_view_model_node_insert_dummy (parent : GNode) : GNode :=
  if g_node_n_children parent = 0 then GNode.mk parent.data (parent.children ++ [GNode.mk none []])
  else parent

/-- The function `thunar_tree_view_model_node_drop_dummy`: nothing happens unless the
node has exactly its dummy child, which is then destroyed. -/
def thunar_tree_view_model_node_drop_dummy (node : GNode) : GNode :=
  if G_NODE_HAS_DUMMY node && g_node_n_children node = 1 then GNode.mk node.data []
  else node

/-- The function `thunar_tree_view_model_add_child`: the new item takes the place of
the dummy when the node has only its dummy, else a new node is prepended; a
directory gets a dummy child of its own. -/
def thunar_tree_view_model_add_child (node : GNode) (file : ThunarFile) : GNode :=
  let child_item := thunar_tree_view_model_item_new_with_file file
  if G_NODE_HAS_DUMMY node then
    match node.children with
    | first :: rest =>
      let child_node := GNode.mk (some child_item) first.children
      let child_node :=
        if file.is_directory then thunar_tree_view_model_node_insert_dummy child_node
        else child_node
      GNode.mk node.data (child_node :: rest)
    | [] => node
  else
    let child_node := GNode.mk (some child_item) []
    let child_node :=
      if file.is_directory then thunar_tree_view_model_node_insert_dummy child_node
      else child_node
    GNode.mk node.data (child_node :: node.children)

/-- The function `thunar_tree_view_model_add_children`: returns at once for an empty
list (`files != NULL` is required), else adds every file and sorts the node once. -/
def thunar_tree_view_model_add_children (model : ThunarTreeViewModel) (node : GNode)
    (files : List ThunarFile) : GNode :=
  if files.isEmpty then node
  else (thunar_tree_view_model_sort model (files.foldl thunar_tree_view_model_add_child node)).1

/-- The loop of `thunar_tree_view_model_insert_files`: a hidden file is prepended to
`store->hidden`, and a file that is not hidden, or any file while `show_hidden` is
set, becomes a child of the root. -/
def insert_files_loop (show_hidden : Bool) :
    List ThunarFile → GNode × List ThunarFile → GNode × List ThunarFile
  | [], acc => acc
  | file :: lp, (root, hidden) =>
    let hidden := if file.is_hidden then file :: hidden else hidden
    let root :=
      if !file.is_hidden || show_hidden then thunar_tree_view_model_add_child root file
      else root
    insert_files_loop show_hidden lp (root, hidden)

/-- The function `thunar_tree_view_model_insert_files`: the loop, then one sort of the
root's children. -/
def thunar_tree_view_model_insert_files (store : ThunarTreeViewModel)
    (files : List ThunarFile) : ThunarTreeViewModel :=
  let r := insert_files_loop store.show_hidden files (store.root, store.hidden)
  { store with root := (thunar_tree_view_model_sort store r.1).1, hidden := r.2 }

/-! ## Removing children -/

/-- Pointer equality of two `ThunarFile *`. -/
def file_ptr_eq (a b : ThunarFile) : Bool := a.id == b.id

/-- The test of the child search loops: `child_node->data != NULL` and
`THUNAR_TREE_VIEW_MODEL_ITEM (child_node->data)->file == lp->data`. -/
def node_holds_file (file : ThunarFile) (child_node : GNode) : Bool :=
  match child_node.data with
  | some item => file_ptr_eq item.file file
  | none => false

/-- The search loop followed by `g_node_traverse (child_node, G_POST_ORDER,
G_TRAVERSE_ALL, -1, thunar_tree_view_model_node_traverse_remove, ...)`: the first
child holding the file is destroyed together with all its descendants. -/
def remove_child_for_file (children : List GNode) (file : ThunarFile) : List GNode :=
  children.eraseP (node_holds_file file)

/-- The loop of `thunar_tree_view_model_files_removed` on the root's children and on
`store->hidden` (`g_slist_remove` drops the first link holding the pointer). -/
def files_removed_loop : List ThunarFile → GNode × List ThunarFile → GNode × List ThunarFile
  | [], acc => acc
  | file :: lp, (root, hidden) =>
    let root := GNode.mk root.data (remove_child_for_file root.children file)
    let hidden := if file.is_hidden then hidden.eraseP (file_ptr_eq file) else hidden
    files_removed_loop lp (root, hidden)

/-- The function `thunar_tree_view_model_files_removed`. -/
def thunar_tree_view_model_files_removed (store : ThunarTreeViewModel)
    (files : List ThunarFile) : ThunarTreeViewModel :=
  let r := files_removed_loop files (store.root, store.hidden)
  { store with root := r.1, hidden := r.2 }

/-- The function `thunar_tree_view_model_item_files_removed` on the node of the item:
nothing happens unless `item->folder == folder`; the children holding a removed file
go, and so do the links of `invisible_children` holding one. -/
def thunar_tree_view_model_item_files_removed (node : GNode) (files : List ThunarFile)
    (folder : Nat) : GNode :=
  match node.data with
  | none => node
  | some item =>
    if item.folder != some folder then node
    else
      let children := files.foldl remove_child_for_file node.children
      let invisible := files.foldl (fun l file => l.eraseP (file_ptr_eq file))
        item.invisible_children
      GNode.mk (some { item with invisible_children := invisible }) children

/-! ## Cleanup sweep -/

/-- The callback `thunar_tree_view_model_node_traverse_cleanup`: an item with an open
folder and `ref_count == 0` is disconnected from the folder, loses all its children
and gets a dummy child. -/
def thunar_tree_view_model_node_traverse_cleanup (node : GNode) : GNode :=
  match node.data with
  | some item =>
    if item.folder.isSome && item.ref_count == 0 then
      thunar_tree_view_model_node_insert_dummy
        (GNode.mk (some { item with add_files_timeout := 0, folder := none }) [])
    else node
  | none => node

mutual
/-- The traversal of `thunar_tree_view_model_cleanup_idle`: `g_node_traverse` in
pre-order over all nodes.  The callback runs on a node before its children are
walked; below an evicted node only the fresh dummy is left, on which the callback
does nothing. -/
def cleanup_pre_order : GNode → GNode
  | .mk data children =>
    match data with
    | some item =>
      if item.folder.isSome && item.ref_count == 0 then
        thunar_tree_view_model_node_traverse_cleanup (GNode.mk data children)
      else GNode.mk data (cleanup_pre_order_list children)
    | none => GNode.mk data (cleanup_pre_order_list children)
/-- The sibling loop of the cleanup traversal. -/
def cleanup_pre_order_list : List GNode → List GNode
  | [] => []
  | c :: cs => cleanup_pre_order c :: cleanup_pre_order_list cs
end

/-- The function `thunar_tree_view_model_cleanup_idle`. -/
def thunar_tree_view_model_cleanup_idle (model : ThunarTreeViewModel) : ThunarTreeViewModel :=
  { model with root := cleanup_pre_order model.root }

/-! ## Reference counting -/

/-- The body of `thunar_tree_view_model_unref_node` on the node of the iterator: a
node with an item gets `ref_count -= 1`, a dummy is left alone. -/
def unref_node_body (node : GNode) : GNode :=
  match node.data with
  | some item => GNode.mk (some { item with ref_count := item.ref_count - 1 }) node.children
  | none => node

/-- The function `thunar_tree_view_model_unref_node`; the iterator is the path of
child indices from the root to its node, the empty path being the root itself. -/
def thunar_tree_view_model_unref_node (store : ThunarTreeViewModel) (iter : List Nat) :
    ThunarTreeViewModel :=
  if iter.isEmpty then store
  else { store with root := g_node_update_at unref_node_body iter store.root }

/-! ## Visibility filter -/

/-- What `thunar_tree_view_model_node_traverse_visible` leaves of a node: the node is
destroyed (its file is what goes to the parent's `invisible_children`), or it stays. -/
inductive Visited where
  | removed (file : ThunarFile)
  | kept (node : GNode)

/-- The loop over `item->invisible_children` in
`thunar_tree_view_model_node_traverse_visible`: a file that is to be shown becomes a
child of the node and leaves the list, the others stay in the list (collected in
`kept`, newest first). -/
def visible_restore_loop (show_hidden : Bool) :
    List ThunarFile → GNode → List ThunarFile → GNode × List ThunarFile
  | [], node, kept => (node, kept.reverse)
  | file :: lnext, node, kept =>
    if show_hidden || !file.is_hidden then
      visible_restore_loop show_hidden lnext (thunar_tree_view_model_add_child node file) kept
    else visible_restore_loop show_hidden lnext node (file :: kept)

/-- The callback `thunar_tree_view_model_node_traverse_visible` on one node.  A hidden
node is destroyed with its whole subtree while `show_hidden` is off; a node that
stays and has no dummy takes back the files of its `invisible_children` that are to
be shown and is sorted when the list was not empty (`child_added`). -/
def thunar_tree_view_model_node_traverse_visible (model : ThunarTreeViewModel)
    (node : GNode) : Visited :=
  match node.data with
  | none => Visited.kept node
  | some item =>
    if !model.show_hidden && item.file.is_hidden then Visited.removed item.file
    else if !G_NODE_HAS_DUMMY node then
      let r := visible_restore_loop model.show_hidden item.invisible_children node []
      let node := GNode.mk (some { item with invisible_children := r.2 }) r.1.children
      if item.invisible_children.isEmpty then Visited.kept node
      else Visited.kept (thunar_tree_view_model_sort model node).1
    else Visited.kept node

/-- The statement `parent->invisible_children = g_slist_prepend (...)` under
`if (parent)`, for the files of the destroyed children (`stash` is in list order,
the file stashed last first). -/
def stash_invisible (stash : List ThunarFile) :
    Option ThunarTreeViewModelItem → Option ThunarTreeViewModelItem
  | some parent => some { parent with invisible_children := stash ++ parent.invisible_children }
  | none => none

/-- The sibling loop of the pre-order traversal (`current = child; child =
current->next;` then the visit of `current`): the children that stay, and the files
of those destroyed, the one destroyed last first. -/
def visible_children_loop (visit : GNode → Visited) :
    List GNode → List GNode × List ThunarFile
  | [] => ([], [])
  | current :: next =>
    let r := visible_children_loop visit next
    match visit current with
    | Visited.removed file => (r.1, r.2 ++ [file])
    | Visited.kept node => (node :: r.1, r.2)

/-- The traversal `g_node_traverse (node, G_PRE_ORDER, G_TRAVERSE_ALL, -1,
thunar_tree_view_model_node_traverse_visible, model)`.  The callback runs on the node
first; the children are walked afterwards, those the callback has just added
included, unless the node had no children when it was reached.  The first argument
bounds the depth of the walk; `g_node_max_height` of the node is enough. -/
def visible_pre_order (model : ThunarTreeViewModel) : Nat → GNode → Visited
  | 0, node => Visited.kept node
  | fuel + 1, node =>
    match thunar_tree_view_model_node_traverse_visible model node with
    | Visited.removed file => Visited.removed file
    | Visited.kept node1 =>
      if node.children.isEmpty then Visited.kept node1
      else
        let r := visible_children_loop (visible_pre_order model fuel) node1.children
        Visited.kept (GNode.mk (stash_invisible r.2 node1.data) r.1)

/-- The function `thunar_tree_view_model_refilter`: the pre-order walk from the root. -/
def thunar_tree_view_model_refilter (model : ThunarTreeViewModel) : ThunarTreeViewModel :=
  match visible_pre_order model (g_node_max_height model.root) model.root with
  | Visited.kept root => { model with root := root }
  | Visited.removed _ => model

/-- The function `thunar_tree_view_model_set_show_hidden`: on a change of the flag the
tree is refiltered; when hidden files are switched on, every file of `store->hidden`
is added under the root and all sibling groups are sorted bottom-up. -/
def thunar_tree_view_model_set_show_hidden (store : ThunarTreeViewModel)
    (show_hidden : Bool) : ThunarTreeViewModel :=
  if store.show_hidden != show_hidden then
    let store := { store with show_hidden := show_hidden }
    let store := thunar_tree_view_model_refilter store
    if show_hidden then
      let root := store.hidden.foldl thunar_tree_view_model_add_child store.root
      { store with root := traverse_sort store root }
    else store
  else store

/-! ## Repositioning one node -/

/-- The function `thunar_tree_view_model_unlink_child`; the child is named by its
index in the sibling list, which is also the returned `pos_before`. -/
def thunar_tree_view_model_unlink_child (parent : GNode) (child : Nat) : GNode × Nat :=
  (GNode.mk parent.data (parent.children.eraseIdx child), child)

/-- The loop of `thunar_tree_view_model_insert_child_node_sorted` from `lp` on, `pos`
being the index of `lp`: the last sibling gets the child appended without being
compared, an earlier one gets it in front unless the child compares greater. -/
def insert_child_node_sorted_loop (model : ThunarTreeViewModel) (child : GNode) :
    List GNode → Nat → List GNode × Nat
  | [], pos => ([], pos)
  | [lp], pos => ([lp, child], pos + 1)
  | lp :: next :: rest, pos =>
    if thunar_tree_view_model_cmp_nodes_func child lp model > 0 then
      let r := insert_child_node_sorted_loop model child (next :: rest) (pos + 1)
      (lp :: r.1, r.2)
    else (child :: lp :: next :: rest, pos)

/-- The function `thunar_tree_view_model_insert_child_node_sorted`: the new child
list and the returned position. -/
def thunar_tree_view_model_insert_child_node_sorted (model : ThunarTreeViewModel)
    (parent child : GNode) : GNode × Nat :=
  match parent.children with
  | [] => (GNode.mk parent.data [child], 0)
  | lp :: rest =>
    let r := insert_child_node_sorted_loop model child (lp :: rest) 0
    (GNode.mk parent.data r.1, r.2)

/-- The loop of `thunar_tree_view_model_reorder_if_req` that fills `new_order`, from
index `i` with counter `j`, for `n` more entries. -/
def new_order_loop (pos_before pos_after : Nat) : Nat → Nat → Nat → List Nat
  | 0, _, _ => []
  | n + 1, i, j =>
    if i = pos_after then pos_before :: new_order_loop pos_before pos_after n (i + 1) j
    else
      let j := if j = pos_before then j + 1 else j
      j :: new_order_loop pos_before pos_after n (i + 1) (j + 1)

/-- The function `thunar_tree_view_model_reorder_if_req` for the child with index
`node` of `parent`: the parent after the unlink and the sorted re-insertion, and the
`new_order` array of the one `rows-reordered` emission (`none` when nothing is
emitted: fewer than two siblings, no change of position, or no handler). -/
def thunar_tree_view_model_reorder_if_req (model : ThunarTreeViewModel) (parent : GNode)
    (node : Nat) : GNode × Option (List Nat) :=
  match parent.children[node]? with
  | none => (parent, none)
  | some child =>
    if g_node_n_children parent < 2 then (parent, none)
    else
      let u := thunar_tree_view_model_unlink_child parent node
      let r := thunar_tree_view_model_insert_child_node_sorted model u.1 child
      if r.2 = u.2 || !model.has_handler then (r.1, none)
      else (r.1, some (new_order_loop u.2 r.2 (g_node_n_children r.1) 0 0))

/-! ## A sample comparator -/

/-- A comparator in the shape of `ThunarSortFunc` used to instantiate `sort_func` on
concrete inputs: by modification date, ties broken by identity. -/
def compare_by_date_modified : ThunarSortFunc :=
  { ident := 1
    call := fun a b _ =>
      if a.date_modified < b.date_modified then -1
      else if b.date_modified < a.date_modified then 1
      else if a.id < b.id then -1
      else if b.id < a.id then 1
      else 0 }

/-! ## Properties used in the statements -/

/-- What the specification asks of a column comparator (for the case flag `cs`):
the signs of `f (a, b)` and `f (b, a)` are opposite, and "not greater" is
transitive. -/
structure ThunarSortFunc.IsOrdering (f : ThunarSortFunc) (cs : Bool) : Prop where
  sign_swap : ∀ a b, 0 < f.call a b cs ↔ f.call b a cs < 0
  le_trans : ∀ a b c, f.call a b cs ≤ 0 → f.call b c cs ≤ 0 → f.call a c cs ≤ 0

/-- The model's comparator setting is well formed: the column comparator is an
ordering for the active case flag and `sort_sign` is 1 or -1. -/
def ThunarTreeViewModel.SortOk (model : ThunarTreeViewModel) : Prop :=
  model.sort_func.IsOrdering model.sort_case_sensitive ∧
    (model.sort_sign = 1 ∨ model.sort_sign = -1)

/-- A sibling list is in comparator order: every node compares not greater than
every later one under `thunar_tree_view_model_cmp_nodes_func`. -/
def SiblingsSorted (model : ThunarTreeViewModel) (children : List GNode) : Prop :=
  children.Pairwise (fun a b => thunar_tree_view_model_cmp_nodes_func a b model ≤ 0)

/-- Every node of the list carries an item (none is a dummy). -/
def AllRealized (children : List GNode) : Prop :=
  ∀ c ∈ children, c.data.isSome = true

/-! ## Sample data -/

/-- A model with the default settings of `thunar_tree_view_model_init`, sorting by
modification date. -/
def sample_model : ThunarTreeViewModel := { sort_func := compare_by_date_modified }

/-- A plain file modified at time 10. -/
def file_a : ThunarFile := { id := 1, display_name := "a".toList, date_modified := 10 }

/-- A plain file modified at time 20. -/
def file_b : ThunarFile := { id := 2, display_name := "b".toList, date_modified := 20 }

/-- A plain file modified at time 30. -/
def file_c : ThunarFile := { id := 3, display_name := "c".toList, date_modified := 30 }

/-- A leaf node carrying a fresh item for the file. -/
def leaf_of (file : ThunarFile) : GNode :=
  GNode.mk (some (thunar_tree_view_model_item_new_with_file file)) []

/-- The node `thunar_tree_view_model_add_child` links in for a file: a fresh item,
with a dummy child when the file is a directory. -/
def new_child_node (file : ThunarFile) : GNode :=
  if file.is_directory then
    thunar_tree_view_model_node_insert_dummy
      (GNode.mk (some (thunar_tree_view_model_item_new_with_file file)) [])
  else GNode.mk (some (thunar_tree_view_model_item_new_with_file file)) []

/-- The children of a sibling list that carry an item. -/
def realized_children (children : List GNode) : List GNode :=
  children.filter (fun c => c.data.isSome)

/-- The files carried by the realized nodes of a sibling list, in list order. -/
def child_files (children : List GNode) : List ThunarFile :=
  children.filterMap (fun c => c.data.map (fun item => item.file))

/-- The entries that `thunar_tree_view_model_insert_files` turns into nodes. -/
def shown_files (show_hidden : Bool) (files : List ThunarFile) : List ThunarFile :=
  files.filter (fun file => !file.is_hidden || show_hidden)

instance (model : ThunarTreeViewModel) (children : List GNode) :
    Decidable (SiblingsSorted model children) := by
  unfold SiblingsSorted
  infer_instance

/-- The file `file_c` after its modification date changed to 15. -/
def file_c_changed : ThunarFile := { file_c with date_modified := 15 }

/-- The file `file_b` after its modification date changed to 5. -/
def file_b_changed : ThunarFile := { file_b with date_modified := 5 }

/-- A model like `sample_model` on which no handler is connected to "row-inserted". -/
def sample_model_no_handler : ThunarTreeViewModel :=
  { sort_func := compare_by_date_modified, has_handler := false }

/-- A directory with identity 4. -/
def dir_d : ThunarFile :=
  { id := 4, display_name := "d".toList, is_directory := true, date_modified := 40 }

/-- A tree whose root holds the realized directory d, with an open folder and one
reference, holding a in turn. -/
def sample_tree : GNode :=
  GNode.mk none
    [GNode.mk (some { file := dir_d, ref_count := 1, folder := some 7 }) [leaf_of file_a]]

/-! ## The dummy invariant and the reachable states -/

/-- The shape a child list may have: empty, exactly one dummy, or realized nodes
only. -/
def ShapeOk (children : List GNode) : Prop :=
  children = [] ∨ (∃ c, children = [c] ∧ c.data = none) ∨ AllRealized children

/-- Every node of the tree has a child list of an allowed shape. -/
inductive TreeOk : GNode → Prop where
  | mk (data : Option ThunarTreeViewModelItem) (children : List GNode) :
      ShapeOk children → (∀ c ∈ children, TreeOk c) → TreeOk (GNode.mk data children)

/-- One mutation of the model.  A node-level function is applied to the node that a
path of child indices leads to; `settings` stands for every change of the model that
leaves the tree alone (sort column, flags, side list). -/
inductive Step : ThunarTreeViewModel → ThunarTreeViewModel → Prop where
  | add_child (m : ThunarTreeViewModel) (path : List Nat) (file : ThunarFile) :
      Step m { m with root :=
        g_node_update_at (fun n => thunar_tree_view_model_add_child n file) path m.root }
  | add_children (m : ThunarTreeViewModel) (path : List Nat) (files : List ThunarFile) :
      Step m { m with root :=
        g_node_update_at (fun n => thunar_tree_view_model_add_children m n files) path m.root }
  | insert_files (m : ThunarTreeViewModel) (files : List ThunarFile) :
      Step m (thunar_tree_view_model_insert_files m files)
  | files_removed (m : ThunarTreeViewModel) (files : List ThunarFile) :
      Step m (thunar_tree_view_model_files_removed m files)
  | item_files_removed (m : ThunarTreeViewModel) (path : List Nat) (files : List ThunarFile)
      (folder : Nat) :
      Step m { m with
        root := g_node_update_at
          (fun n => thunar_tree_view_model_item_files_removed n files folder) path m.root }
  | node_insert_dummy (m : ThunarTreeViewModel) (path : List Nat) :
      Step m { m with root :=
        g_node_update_at thunar_tree_view_model_node_insert_dummy path m.root }
  | node_drop_dummy (m : ThunarTreeViewModel) (path : List Nat) :
      Step m { m with root :=
        g_node_update_at thunar_tree_view_model_node_drop_dummy path m.root }
  | cleanup (m : ThunarTreeViewModel) : Step m (thunar_tree_view_model_cleanup_idle m)
  | refilter (m : ThunarTreeViewModel) : Step m (thunar_tree_view_model_refilter m)
  | set_show_hidden (m : ThunarTreeViewModel) (show_hidden : Bool) :
      Step m (thunar_tree_view_model_set_show_hidden m show_hidden)
  | sort (m : ThunarTreeViewModel) (path : List Nat) :
      Step m { m with root :=
        g_node_update_at (fun n => (thunar_tree_view_model_sort m n).1) path m.root }
  | reorder_if_req (m : ThunarTreeViewModel) (path : List Nat) (node : Nat) :
      Step m { m with
        root := g_node_update_at
          (fun n => (thunar_tree_view_model_reorder_if_req m n node).1) path m.root }
  | unref_node (m : ThunarTreeViewModel) (iter : List Nat) :
      Step m (thunar_tree_view_model_unref_node m iter)
  | settings (m m' : ThunarTreeViewModel) : m'.root = m.root → Step m m'

/-- The states reached from a freshly initialised model (`thunar_tree_view_model_init`
allocates a root without children) by any sequence of mutations. -/
inductive Reachable : ThunarTreeViewModel → Prop where
  | init (m : ThunarTreeViewModel) : m.root = GNode.mk none [] → Reachable m
  | step (m m' : ThunarTreeViewModel) : Reachable m → Step m m' → Reachable m'

/-- What a visit of a node may yield: a node with the invariant that is a dummy
exactly when the visited node was one, or the removal of a realized node. -/
def GoodVisit (c : GNode) : Visited → Prop
  | Visited.kept c' => TreeOk c' ∧ c'.data.isSome = c.data.isSome
  | Visited.removed _ => c.data.isSome = true

/-- A hidden plain file. -/
def file_h : ThunarFile :=
  { id := 5, display_name := ".h".toList, is_hidden := true, date_modified := 50 }

/-- The node of the directory d while its folder is open and being loaded: one
reference, the folder handle 7 and the dummy child. -/
def expanded_dir : GNode :=
  GNode.mk (some { file := dir_d, ref_count := 1, folder := some 7 }) [GNode.mk none []]

/-! ## Entry paths -/

/-- The node carries an item for the given file. -/
def holds_entry (file : ThunarFile) (c : GNode) : Bool :=
  match c.data with
  | some item => item.file == file
  | none => false

/-- The tree below `node` has a chain of realized nodes carrying the given entries,
one level per entry, starting with a child of `node`. -/
def has_entry_path : List ThunarFile → GNode → Bool
  | [], _ => true
  | file :: path, node =>
    node.children.any (fun c => holds_entry file c && has_entry_path path c)

/-- Some node reached from `node` along the entry path has `file` on the
`invisible_children` list of its item. -/
def stashed_at : List ThunarFile → GNode → ThunarFile → Bool
  | [], node, file =>
    match node.data with
    | some item => decide (file ∈ item.invisible_children)
    | none => false
  | entry :: path, node, file =>
    node.children.any (fun c => holds_entry entry c && stashed_at path c file)

/-- The filter destroys this node: it is realized, its file is hidden and
`show_hidden` is off. -/
def filtered_out (model : ThunarTreeViewModel) (c : GNode) : Bool :=
  match c.data with
  | some item => !model.show_hidden && item.file.is_hidden
  | none => false

/-- The files of `invisible_children` that the filter turns back into nodes of this
node: those to be shown, when the node is realized and has no dummy. -/
def restored_files (model : ThunarTreeViewModel) (node : GNode) : List ThunarFile :=
  match node.data with
  | some item =>
    if G_NODE_HAS_DUMMY node then []
    else item.invisible_children.filter (fun f => model.show_hidden || !f.is_hidden)
  | none => []

/-- A hidden directory. -/
def dir_hd : ThunarFile :=
  { id := 6, display_name := ".hd".toList, is_hidden := true, is_directory := true,
    date_modified := 60 }

/-- A tree shown with hidden files on: the root holds a, the hidden file .h and the
expanded directory d; d holds b and the hidden file .h as well. -/
def shown_tree : GNode :=
  GNode.mk none
    [leaf_of file_a, leaf_of file_h,
      GNode.mk (some { file := dir_d, ref_count := 1, folder := some 7 })
        [leaf_of file_b, leaf_of file_h]]

/-- A model showing hidden files, with `shown_tree` and .h on `store->hidden`. -/
def shown_model : ThunarTreeViewModel :=
  { sort_func := compare_by_date_modified, show_hidden := true, root := shown_tree,
    hidden := [file_h] }

/-- A model showing hidden files whose root holds the expanded hidden directory .hd,
which holds a. -/
def shown_model_hidden_dir : ThunarTreeViewModel :=
  { sort_func := compare_by_date_modified, show_hidden := true,
    root := GNode.mk none
      [GNode.mk (some { file := dir_hd, ref_count := 1, folder := some 8 }) [leaf_of file_a]],
    hidden := [dir_hd] }

/-- No item of the tree has anything on its `invisible_children` list. -/
inductive NoInvisible : GNode → Prop where
  | mk (data : Option ThunarTreeViewModelItem) (children : List GNode) :
      (∀ item, data = some item → item.invisible_children = []) →
      (∀ c ∈ children, NoInvisible c) → NoInvisible (GNode.mk data children)

/-- Some node reached from `node` along the entry path would turn `file` back into a
child when the filter runs: the file is among its `restored_files`. -/
def restorable_at (model : ThunarTreeViewModel) : List ThunarFile → GNode → ThunarFile → Bool
  | [], node, file => decide (file ∈ restored_files model node)
  | entry :: path, node, file =>
    node.children.any (fun c => holds_entry entry c && restorable_at model path c file)

/-! ## Sources of the main loop and jobs -/

/-- The callbacks of this file that are attached to the GLib main loop, with their
`user_data`; an item is named by the path of child indices of its node. -/
inductive GSourceFunc where
  | item_load_idle (item : List Nat)
  | item_add_files (item : List Nat)
  | add_search_files
  | cleanup_idle
  deriving DecidableEq, Repr

/-- A source attached to the main loop: the id that `g_idle_add_full` or
`g_timeout_add_full` returned for it, and its callback. -/
structure GSource where
  id : Nat
  func : GSourceFunc
  deriving DecidableEq, Repr

/-- What lives outside the model object: the sources attached to the default main
context (`last_source_id` is the id handed out last), the search jobs passed to
`exo_job_launch` and the ids of the jobs on which `exo_job_cancel` was called. -/
structure Runtime where
  last_source_id : Nat := 0
  sources : List GSource := []
  last_job_id : Nat := 0
  launched : List ThunarJob := []
  cancelled : List Nat := []
  deriving DecidableEq, Repr

/-- Attaching a source (`g_idle_add_full`, `g_timeout_add`, `g_timeout_add_full`): the
id of the new source, which is never 0, and the main loop with the source in it. -/
def g_source_attach (rt : Runtime) (func : GSourceFunc) : Nat × Runtime :=
  (rt.last_source_id + 1,
    { rt with
      last_source_id := rt.last_source_id + 1
      sources := rt.sources ++ [{ id := rt.last_source_id + 1, func := func }] })

/-- GLib's `g_source_remove`: the source with the given id leaves the main loop. -/
def g_source_remove (rt : Runtime) (tag : Nat) : Runtime :=
  { rt with sources := rt.sources.filter (fun s => s.id != tag) }

/-! ## Acquiring a node -/

/-- The function `thunar_tree_view_model_item_load_folder`: the "load" idle source is
scheduled unless one is pending (`load_idle_id != 0`) or the folder is open.
`user_data` names the item for the callback. -/
def thunar_tree_view_model_item_load_folder (item : ThunarTreeViewModelItem)
    (user_data : List Nat) (rt : Runtime) : ThunarTreeViewModelItem × Runtime :=
  if item.load_idle_id = 0 && item.folder.isNone then
    let r := g_source_attach rt (GSourceFunc.item_load_idle user_data)
    ({ item with load_idle_id := r.1 }, r.2)
  else (item, rt)

/-- The function `thunar_tree_view_model_ref_node`; the iterator is the path of child
indices from the root to its node.  Nothing happens for the root.  For a dummy node
the parent's item is told to load its folder (a dummy below an item-less parent,
where the C code would read through `NULL`, is left alone); for a realized node a
load is scheduled when `ref_count == 0`, then `ref_count += 1`. -/
def thunar_tree_view_model_ref_node (store : ThunarTreeViewModel) (rt : Runtime)
    (iter : List Nat) : ThunarTreeViewModel × Runtime :=
  if iter.isEmpty then (store, rt)
  else
    match g_node_at iter store.root with
    | none => (store, rt)
    | some node =>
      match node.data with
      | none =>
        match (g_node_at iter.dropLast store.root).bind GNode.data with
        | none => (store, rt)
        | some parent_item =>
          let r := thunar_tree_view_model_item_load_folder parent_item iter.dropLast rt
          ({ store with
             root := g_node_update_at (fun parent => GNode.mk (some r.1) parent.children)
               iter.dropLast store.root }, r.2)
      | some item =>
        let r :=
          if item.ref_count == 0 then thunar_tree_view_model_item_load_folder item iter rt
          else (item, rt)
        ({ store with
           root := g_node_update_at
             (fun node => GNode.mk (some { r.1 with ref_count := r.1.ref_count + 1 })
               node.children)
             iter store.root }, r.2)

/-- A sequence of calls on one iterator: `true` is a call of
`thunar_tree_view_model_ref_node`, `false` one of `thunar_tree_view_model_unref_node`. -/
def ref_unref_calls (iter : List Nat) :
    List Bool → ThunarTreeViewModel × Runtime → ThunarTreeViewModel × Runtime
  | [], s => s
  | true :: calls, s =>
    ref_unref_calls iter calls (thunar_tree_view_model_ref_node s.1 s.2 iter)
  | false :: calls, s =>
    ref_unref_calls iter calls (thunar_tree_view_model_unref_node s.1 iter, s.2)

/-- The node of the directory d before it is expanded: no reference, no folder, no
pending load, and the dummy child. -/
def collapsed_dir : GNode :=
  GNode.mk (some { file := dir_d }) [GNode.mk none []]

/-- A model whose root holds a and the collapsed directory d. -/
def collapsed_model : ThunarTreeViewModel :=
  { sort_func := compare_by_date_modified
    root := GNode.mk none [leaf_of file_a, collapsed_dir] }

/-! ## What the cleanup sweep evicts -/

/-- The test of `thunar_tree_view_model_node_traverse_cleanup`: the node carries an
item with an open folder and `ref_count == 0`. -/
def is_evicted (node : GNode) : Bool :=
  match node.data with
  | some item => item.folder.isSome && item.ref_count == 0
  | none => false

/-- No node on the way from `node` down to the node the path leads to, the latter
left out, passes the test `is_evicted`. -/
def no_evicted_ancestor : List Nat → GNode → Bool
  | [], _ => true
  | i :: path, node =>
    !is_evicted node &&
      match node.children[i]? with
      | some c => no_evicted_ancestor path c
      | none => true

/-- The entries shown by a sibling list, in list order: the file of each realized
node, `none` for a dummy. -/
def child_entries (children : List GNode) : List (Option ThunarFile) :=
  children.map (fun c => c.data.map (fun item => item.file))

/-- A directory with identity 7. -/
def dir_e : ThunarFile :=
  { id := 7, display_name := "e".toList, is_directory := true, date_modified := 70 }

/-- A directory with identity 8. -/
def dir_g : ThunarFile :=
  { id := 8, display_name := "g".toList, is_directory := true, date_modified := 80 }

/-- A model whose root holds two expanded directories with open folders: d, without
a reference, holding a, and e, with one reference, holding b and the expanded
directory g without a reference, which holds c. -/
def sweep_model : ThunarTreeViewModel :=
  { sort_func := compare_by_date_modified
    root := GNode.mk none
      [GNode.mk (some { file := dir_d, folder := some 7, add_files_timeout := 3 })
          [leaf_of file_a],
        GNode.mk (some { file := dir_e, ref_count := 1, folder := some 8 })
          [leaf_of file_b,
            GNode.mk (some { file := dir_g, folder := some 9 }) [leaf_of file_c]]] }

/-! ## Loading the folder of an item -/

/-- The function `thunar_tree_view_model_inc_loading`: nothing happens unless
`model->loading >= 0`. -/
def thunar_tree_view_model_inc_loading (model : ThunarTreeViewModel) : ThunarTreeViewModel :=
  if model.loading < 0 then model
  else { model with loading := model.loading + 1 }

/-- The function `thunar_tree_view_model_dec_loading`: the counter goes down unless it
is not positive. -/
def thunar_tree_view_model_dec_loading (model : ThunarTreeViewModel) : ThunarTreeViewModel :=
  if model.loading > 0 then { model with loading := model.loading - 1 }
  else model

/-- The handler `thunar_tree_view_model_notify_loading` of the model for
"notify::loading" of its folder. -/
def thunar_tree_view_model_notify_loading (model : ThunarTreeViewModel) : ThunarTreeViewModel :=
  thunar_tree_view_model_dec_loading model

/-- The function `thunar_tree_view_model_item_files_added`: the files are appended to
the item's staging list. -/
def thunar_tree_view_model_item_files_added (item : ThunarTreeViewModelItem)
    (files : List ThunarFile) : ThunarTreeViewModelItem :=
  { item with files_to_add := item.files_to_add ++ files }

/-- The item of the node is connected to the folder: `item->folder == folder`.  The
handlers of an item are connected when `item->folder` is set and disconnected when
it is reset. -/
def item_connected (folder : ThunarFolder) (node : GNode) : Bool :=
  match node.data with
  | some item => item.folder == some folder.id
  | none => false

/-- What the handler `thunar_tree_view_model_item_notify_loading` does to the node of
its item once the folder is loaded: the dummy is dropped if the node has one. -/
def item_notify_loading_node (node : GNode) : GNode :=
  if G_NODE_HAS_DUMMY node then thunar_tree_view_model_node_drop_dummy node else node

mutual
/-- The handlers `thunar_tree_view_model_item_notify_loading` of all the items
connected to the folder, run on the tree below `node` (each looks its node up with
`g_node_find`): nothing happens while the folder is loading. -/
def item_notify_loading_tree (folder : ThunarFolder) : GNode → GNode
  | .mk data children =>
    let node := GNode.mk data (item_notify_loading_list folder children)
    if item_connected folder node && !folder.loading then item_notify_loading_node node
    else node
/-- The sibling loop of `item_notify_loading_tree`. -/
def item_notify_loading_list (folder : ThunarFolder) : List GNode → List GNode
  | [] => []
  | c :: cs => item_notify_loading_tree folder c :: item_notify_loading_list folder cs
end

mutual
/-- The number of items below `node`, itself included, that are connected to the
folder. -/
def item_connected_count (folder : ThunarFolder) : GNode → Nat
  | .mk data children =>
    (if item_connected folder (GNode.mk data children) then 1 else 0) +
      item_connected_count_list folder children
/-- The sibling loop of `item_connected_count`. -/
def item_connected_count_list (folder : ThunarFolder) : List GNode → Nat
  | [] => 0
  | c :: cs => item_connected_count folder c + item_connected_count_list folder cs
end

/-- The emission `g_object_notify (G_OBJECT (folder), "loading")`: every handler that
this file connected to "notify::loading" of the folder runs, that of the model when
the folder is the model's own, and that of every item holding the folder; a handler of
an item ends with `thunar_tree_view_model_dec_loading` unless the folder is loading. -/
def g_object_notify_loading (folder : ThunarFolder) (model : ThunarTreeViewModel) :
    ThunarTreeViewModel :=
  let model :=
    if model.folder.map (fun f => f.id) == some folder.id then
      thunar_tree_view_model_notify_loading model
    else model
  let handlers := if folder.loading then 0 else item_connected_count folder model.root
  Nat.iterate thunar_tree_view_model_dec_loading handlers
    { model with root := item_notify_loading_tree folder model.root }

/-- The callback `thunar_tree_view_model_item_load_idle` for the item of the node at
the path `item`; `thunar_folder_get_for_file` is the folder factory.  Nothing happens
when the folder is open already, when the node has children other than a dummy (the
check under `#ifndef NDEBUG`), when the file is not a directory, or when the factory
returns `NULL`.  Else the folder is
taken, the add-files timeout is installed, the current listing is staged and, if the
folder is not loading, "notify::loading" is emitted on it. -/
def thunar_tree_view_model_item_load_idle
    (thunar_folder_get_for_file : ThunarFile → Option ThunarFolder)
    (model : ThunarTreeViewModel) (rt : Runtime) (item : List Nat) :
    ThunarTreeViewModel × Runtime :=
  match g_node_at item model.root with
  | none => (model, rt)
  | some node =>
    match node.data with
    | none => (model, rt)
    | some it =>
      if it.folder.isSome then (model, rt)
      else if !(node.children.isEmpty || G_NODE_HAS_DUMMY node) then (model, rt)
      else if !it.file.is_directory then (model, rt)
      else
        match thunar_folder_get_for_file it.file with
        | none => (model, rt)
        | some folder =>
          let model := thunar_tree_view_model_inc_loading model
          let r := g_source_attach rt (GSourceFunc.item_add_files item)
          let it := { it with folder := some folder.id, add_files_timeout := r.1 }
          let it :=
            if folder.files.isEmpty then it
            else thunar_tree_view_model_item_files_added it folder.files
          let model := { model with
            root := g_node_update_at (fun n => GNode.mk (some it) n.children) item model.root }
          let model := if folder.loading then model else g_object_notify_loading folder model
          (model, r.2)

/-- The function `thunar_tree_view_model_item_load_idle_destroy` on the node of the
item. -/
def thunar_tree_view_model_item_load_idle_destroy (node : GNode) : GNode :=
  match node.data with
  | some item => GNode.mk (some { item with load_idle_id := 0 }) node.children
  | none => node

/-- One dispatch of the "load" idle source of the item at the path `item`: the
callback runs and, as it returns `FALSE`, the source is destroyed, which runs
`thunar_tree_view_model_item_load_idle_destroy`. -/
def dispatch_item_load_idle
    (thunar_folder_get_for_file : ThunarFile → Option ThunarFolder)
    (model : ThunarTreeViewModel) (rt : Runtime) (item : List Nat) :
    ThunarTreeViewModel × Runtime :=
  let tag :=
    match (g_node_at item model.root).bind GNode.data with
    | some it => it.load_idle_id
    | none => 0
  let r := thunar_tree_view_model_item_load_idle thunar_folder_get_for_file model rt item
  ({ r.1 with
     root := g_node_update_at thunar_tree_view_model_item_load_idle_destroy item r.1.root },
    g_source_remove r.2 tag)

/-- The timeout callback `thunar_tree_view_model_item_add_files` for the item of the
node at the path `item`: the model afterwards and the returned value
(`G_SOURCE_CONTINUE` is `true`).  Without an open folder the source is to be removed;
with an empty staging list nothing happens; else the staged files become children of
the node and the staging list is emptied. -/
def thunar_tree_view_model_item_add_files (model : ThunarTreeViewModel) (item : List Nat) :
    ThunarTreeViewModel × Bool :=
  match g_node_at item model.root with
  | none => (model, false)
  | some node =>
    match node.data with
    | none => (model, false)
    | some it =>
      if it.folder.isNone then (model, false)
      else if it.files_to_add.isEmpty then (model, true)
      else
        let node := thunar_tree_view_model_add_children model node it.files_to_add
        ({ model with
           root := g_node_update_at
             (fun _ => GNode.mk (some { it with files_to_add := [] }) node.children)
             item model.root }, true)

/-- A model whose root holds the expanded directory d without a reference: its folder
is open, a is shown below it and b has just been reported by the folder, so that it
is still on the staging list of the item. -/
def staged_model : ThunarTreeViewModel :=
  { sort_func := compare_by_date_modified
    root := GNode.mk none
      [GNode.mk
        (some { file := dir_d, folder := some 7, files_to_add := [file_b],
                add_files_timeout := 3 })
        [leaf_of file_a]] }

/-- A folder factory that opens d, with the loaded listing a, b, and nothing else. -/
def open_dir_d (file : ThunarFile) : Option ThunarFolder :=
  if file.id = 4 then
    some { id := 9, corresponding_file := dir_d, files := [file_a, file_b] }
  else none

/-- A folder factory that opens nothing. -/
def open_nothing (_ : ThunarFile) : Option ThunarFolder := none

/-! ## Binding the model to a folder -/

/-- GLib's `g_ascii_isspace`: space, form feed, newline, carriage return, horizontal
and vertical tab. -/
def g_ascii_isspace (c : Char) : Bool :=
  c.toNat == 32 || (9 ≤ c.toNat && c.toNat ≤ 13)

/-- GLib's `g_strchug`: leading whitespace is removed. -/
def g_strchug (string : List Char) : List Char :=
  string.dropWhile g_ascii_isspace

/-- GLib's `g_strchomp`: trailing whitespace is removed. -/
def g_strchomp (string : List Char) : List Char :=
  (string.reverse.dropWhile g_ascii_isspace).reverse

/-- GLib's macro `g_strstrip`: `g_strchomp (g_strchug (string))`. -/
def g_strstrip (string : List Char) : List Char :=
  g_strchomp (g_strchug string)

/-- The scan of a split at runs of whitespace: `token` is the token read so far,
newest character first, and `in_separator` tells that the character before was
whitespace. -/
def whitespace_split_loop : List Char → List Char → Bool → List (List Char)
  | [], token, _ => [token.reverse]
  | c :: rest, token, in_separator =>
    if g_ascii_isspace c then
      if in_separator then whitespace_split_loop rest token true
      else token.reverse :: whitespace_split_loop rest [] true
    else whitespace_split_loop rest (c :: token) false

/-- What `g_regex_split` returns for the compiled pattern `\s+` on a string whose
whitespace is ASCII: the tokens between the runs of whitespace, an empty token in
front of a leading run and behind a trailing one, and no token at all for the empty
string. -/
def whitespace_regex_split (string : List Char) : List (List Char) :=
  if string.isEmpty then [] else whitespace_split_loop string [] false

/-- The function `thunar_tree_view_model_split_search_query`.  `whitespace_regex` is
what `g_regex_new ("\\s+", 0, 0, error)` returns: `none` for `NULL`, else the compiled
expression, given by what `g_regex_split` computes with it. -/
def thunar_tree_view_model_split_search_query
    (whitespace_regex : Option (List Char → List (List Char))) (search_query : List Char) :
    Option (List (List Char)) :=
  match whitespace_regex with
  | none => none
  | some g_regex_split => some (g_regex_split search_query)

/-- The function `thunar_tree_view_model_cancel_search_job`: a running job is
cancelled and the handle is dropped. -/
def thunar_tree_view_model_cancel_search_job (model : ThunarTreeViewModel) (rt : Runtime) :
    ThunarTreeViewModel × Runtime :=
  match model.recursive_search_job with
  | some job =>
    ({ model with recursive_search_job := none }, { rt with cancelled := job.id :: rt.cancelled })
  | none => (model, rt)

/-- The function `thunar_tree_view_model_release_files`: all the nodes below the root
are destroyed and `store->hidden` is emptied. -/
def thunar_tree_view_model_release_files (model : ThunarTreeViewModel) : ThunarTreeViewModel :=
  { model with root := GNode.mk model.root.data [], hidden := [] }

/-- The function `thunar_tree_view_model_job_search_directory` followed by
`exo_job_launch`: a new job object, handed to the job scheduler. -/
def thunar_tree_view_model_job_search_directory (rt : Runtime) (search_query_c : List Char)
    (directory : ThunarFile) : ThunarJob × Runtime :=
  let job : ThunarJob :=
    { id := rt.last_job_id + 1, search_query_c := search_query_c, directory := directory }
  (job, { rt with last_job_id := rt.last_job_id + 1, launched := rt.launched ++ [job] })

/-- The block of `thunar_tree_view_model_set_folder` under
`if (G_LIKELY (store->folder != NULL))`: the search job is cancelled, the drain timer
is removed, the staging list is emptied and the files are released. -/
def set_folder_unlink (store : ThunarTreeViewModel) (rt : Runtime) :
    ThunarTreeViewModel × Runtime :=
  if store.folder.isSome then
    let r := thunar_tree_view_model_cancel_search_job store rt
    let rt :=
      if r.1.update_search_results_timeout_id > 0 then
        g_source_remove r.2 r.1.update_search_results_timeout_id
      else r.2
    (thunar_tree_view_model_release_files
      { r.1 with update_search_results_timeout_id := 0, files_to_add := [] }, rt)
  else (store, rt)

/-- The statement of `thunar_tree_view_model_set_folder` that reads
`if (search_query == NULL || strlen (g_strstrip (search_query)) == 0)`: the model, the
main loop and jobs, and the list `files` afterwards.  A `NULL` or blank query takes
the listing of the folder and resets `search_terms`; another query is stripped (by
`g_strstrip`, in place), normalized and split, and if the split gave terms the search
job is launched and the drain timer installed, `files` being `NULL`. -/
def set_folder_files (normalize : List Char → List Char)
    (whitespace_regex : Option (List Char → List (List Char)))
    (store : ThunarTreeViewModel) (rt : Runtime) (folder : ThunarFolder)
    (search_query : Option (List Char)) : ThunarTreeViewModel × Runtime × List ThunarFile :=
  match search_query with
  | none => ({ store with search_terms := none }, rt, folder.files)
  | some search_query =>
    if (g_strstrip search_query).length = 0 then
      ({ store with search_terms := none }, rt, folder.files)
    else
      let search_query_c := normalize (g_strstrip search_query)
      let store := { store with
        search_terms :=
          thunar_tree_view_model_split_search_query whitespace_regex search_query_c }
      if store.search_terms.isSome then
        let j := thunar_tree_view_model_job_search_directory rt search_query_c
          folder.corresponding_file
        let t := g_source_attach j.2 GSourceFunc.add_search_files
        ({ store with
           recursive_search_job := some j.1
           update_search_results_timeout_id := t.1 }, t.2, [])
      else (store, rt, [])

/-- The function `thunar_tree_view_model_set_folder`.  `search_query` is `none` for
`NULL`; `normalize` stands for `thunar_g_utf8_normalize_for_search (_, TRUE, TRUE)` and
`whitespace_regex` for the compiled pattern of
`thunar_tree_view_model_split_search_query`. -/
def thunar_tree_view_model_set_folder (normalize : List Char → List Char)
    (whitespace_regex : Option (List Char → List (List Char)))
    (store : ThunarTreeViewModel) (rt : Runtime) (folder : Option ThunarFolder)
    (search_query : Option (List Char)) : ThunarTreeViewModel × Runtime :=
  let unlinked := set_folder_unlink store rt
  let store := { unlinked.1 with folder := folder }
  match folder with
  | none => (store, unlinked.2)
  | some folder =>
    let store := thunar_tree_view_model_inc_loading store
    let searched := set_folder_files normalize whitespace_regex store unlinked.2 folder
      search_query
    let store :=
      if searched.2.2.isEmpty then searched.1
      else thunar_tree_view_model_insert_files searched.1 searched.2.2
    let store := if folder.loading then store else g_object_notify_loading folder store
    (store, searched.2.1)

/-- The function `thunar_tree_view_model_get_folder`. -/
def thunar_tree_view_model_get_folder (store : ThunarTreeViewModel) : Option ThunarFolder :=
  store.folder

/-- The function `thunar_tree_view_model_get_num_files`. -/
def thunar_tree_view_model_get_num_files (store : ThunarTreeViewModel) : Nat :=
  g_node_n_children store.root

/-- The folder of the directory d, loaded, with the listing c, .h, a. -/
def folder_d : ThunarFolder :=
  { id := 9, corresponding_file := dir_d, files := [file_c, file_h, file_a] }

/-- A model bound to `folder_d` while a search runs: a is shown, .h is on
`store->hidden`, b is staged, and the job 1 and the drain timer 2 exist. -/
def bound_model : ThunarTreeViewModel :=
  { sort_func := compare_by_date_modified
    root := GNode.mk none [leaf_of file_a]
    hidden := [file_h]
    folder := some folder_d
    search_terms := some ["a".toList]
    recursive_search_job := some { id := 1, search_query_c := "a".toList, directory := dir_d }
    files_to_add := [file_b]
    update_search_results_timeout_id := 2
    loading := 1 }

/-- The main loop and the jobs that go with `bound_model`. -/
def bound_runtime : Runtime :=
  { last_source_id := 2
    sources := [{ id := 2, func := GSourceFunc.add_search_files }]
    last_job_id := 1
    launched := [{ id := 1, search_query_c := "a".toList, directory := dir_d }] }

/-! ## The search job -/

/-- GIO's enumeration `GFileType`. -/
inductive GFileType where
  | G_FILE_TYPE_UNKNOWN
  | G_FILE_TYPE_REGULAR
  | G_FILE_TYPE_DIRECTORY
  | G_FILE_TYPE_SYMBOLIC_LINK
  | G_FILE_TYPE_SPECIAL
  | G_FILE_TYPE_SHORTCUT
  | G_FILE_TYPE_MOUNTABLE
  deriving DecidableEq, Repr

/-- The attributes of a `GFileInfo` that the search reads; the information is queried
with `G_FILE_QUERY_INFO_NOFOLLOW_SYMLINKS`, so a symbolic link has the type
`G_FILE_TYPE_SYMBOLIC_LINK` whatever it points to. -/
structure GFileInfo where
  display_name : List Char
  is_hidden : Bool := false
  is_backup : Bool := false
  file_type : GFileType := GFileType.G_FILE_TYPE_REGULAR
  deriving DecidableEq, Repr

/-- What the file system answers for one `GFile` of the search.  `info` is the
`GFileInfo` that the enumerator of the directory above yields for it; `target_info`
is what `g_file_query_info` answers for it when it is the target of an entry of a
"recent" directory (`none` for `NULL`); `thunar_file` is the object of
`thunar_file_get`; `uri_scheme_recent` is `g_file_has_uri_scheme (_, "recent")`;
`enumerable` tells whether `g_file_enumerate_children` opens an enumerator for it. -/
structure GFileData where
  info : GFileInfo
  target_info : Option GFileInfo := none
  thunar_file : ThunarFile
  uri_scheme_recent : Bool := false
  enumerable : Bool := true
  deriving DecidableEq, Repr

/-- A file with the files below it: `children` is what `g_file_enumerator_next_file`
yields, one after the other, for an enumerator of the file, up to the `NULL` at the
end (or at an error).  The tree is finite. -/
inductive GFile where
  | mk (data : GFileData) (children : List GFile)
  deriving Repr

/-- What the file system answers for the file itself. -/
def GFile.data : GFile → GFileData
  | .mk d _ => d

/-- What an enumerator of the file yields. -/
def GFile.children : GFile → List GFile
  | .mk _ cs => cs

/-- The enumeration `ThunarStandardViewModelSearch`. -/
inductive ThunarStandardViewModelSearch where
  | THUNAR_STANDARD_VIEW_MODEL_SEARCH_RECURSIVE
  | THUNAR_STANDARD_VIEW_MODEL_SEARCH_NON_RECURSIVE
  deriving DecidableEq, Repr

/-- The enumeration `ThunarRecursiveSearchMode` of the preference
"misc-recursive-search". -/
inductive ThunarRecursiveSearchMode where
  | THUNAR_RECURSIVE_SEARCH_LOCAL
  | THUNAR_RECURSIVE_SEARCH_ALWAYS
  | THUNAR_RECURSIVE_SEARCH_NEVER
  deriving DecidableEq, Repr

/-- The state of a running search job: `checks` counts how often the job has looked
at its cancellable so far, `files_to_add` is `model->files_to_add`, and
`freed_file_used` tells that the job has passed a `GFile` to a function after it
dropped its only reference to it; from there on the behaviour of the program is
undefined, and nothing is said of a state in which the flag is set. -/
structure SearchRun where
  checks : Nat := 0
  files_to_add : List ThunarFile := []
  freed_file_used : Bool := false
  deriving DecidableEq, Repr

/-- The function `exo_job_is_cancelled` at the look number `checks`.  `cancelled_from`
is the number of the first look that finds the job cancelled, `none` when the job is
never cancelled: the cancellable is set from another thread and stays set. -/
def exo_job_is_cancelled (cancelled_from : Option Nat) (checks : Nat) : Bool :=
  match cancelled_from with
  | some k => decide (k ≤ checks)
  | none => false

/-- One look at the cancellable (by `exo_job_is_cancelled`,
`exo_job_set_error_if_cancelled`, or a GIO call that is given the cancellable and
fails once it is set): what the look finds, and the state with the look counted. -/
def look_cancelled (cancelled_from : Option Nat) (run : SearchRun) : Bool × SearchRun :=
  (exo_job_is_cancelled cancelled_from run.checks, { run with checks := run.checks + 1 })

/-- The `GFileInfo` that the loop body of `thunar_tree_view_model_search_folder` works
with: in a "recent" directory the one queried for the target of the entry, else the
one from the enumerator. -/
def entry_info (recent : Bool) (file : GFile) : Option GFileInfo :=
  if recent then file.data.target_info else some file.data.info

mutual
/-- The function `thunar_tree_view_model_search_folder` for the directory `file`.
`search_query_c_terms` are the terms, `normalize` stands for
`thunar_g_utf8_normalize_for_search (_, TRUE, TRUE)`.  The call returns at once when no
enumerator is opened (the job is cancelled, or the directory cannot be read); after
the loop the matches of this directory are appended to `model->files_to_add` unless
the job is cancelled. -/
def thunar_tree_view_model_search_folder (normalize : List Char → List Char)
    (cancelled_from : Option Nat) (search_query_c_terms : List (List Char))
    (search_type : ThunarStandardViewModelSearch) (show_hidden : Bool) :
    GFile → SearchRun → SearchRun
  | .mk data children, run =>
    let opened := look_cancelled cancelled_from run
    if opened.1 || !data.enumerable then opened.2
    else
      let r := search_folder_loop normalize cancelled_from search_query_c_terms search_type
        show_hidden data.uri_scheme_recent children (opened.2, [])
      let last := look_cancelled cancelled_from r.1
      if last.1 then last.2
      else { last.2 with files_to_add := last.2.files_to_add ++ r.2 }
/-- The `while` loop of `thunar_tree_view_model_search_folder` over what the
enumerator still has to yield; the second component is `files_found`.  Each round
looks at the cancellable in the loop condition and in
`g_file_enumerator_next_file`.  In a "recent" directory `file` is made from the target
URI and queried, which looks again, then `g_object_unref (file)` drops the only
reference to it, and `NULL` from the query ends the loop; with an `info` the round
goes on and hands the freed `file` to `g_object_unref` on each of its ways (before
`continue`, or at the end of the round, there after `g_file_get_uri` and
`thunar_file_get` where they are reached): the run is left with `freed_file_used`
set.  In any other directory `file` is `g_file_get_child`: a hidden or backup entry is
skipped unless `show_hidden`; a directory is searched when the search is recursive;
an entry whose normalized display name matches all terms is prepended to
`files_found`. -/
def search_folder_loop (normalize : List Char → List Char)
    (cancelled_from : Option Nat) (search_query_c_terms : List (List Char))
    (search_type : ThunarStandardViewModelSearch) (show_hidden : Bool) :
    Bool → List GFile → SearchRun × List ThunarFile → SearchRun × List ThunarFile
  | _, [], (run, files_found) =>
    let head := look_cancelled cancelled_from run
    if head.1 then (head.2, files_found)
    else ((look_cancelled cancelled_from head.2).2, files_found)
  | recent, file :: rest, (run, files_found) =>
    let head := look_cancelled cancelled_from run
    if head.1 then (head.2, files_found)
    else
      let next := look_cancelled cancelled_from head.2
      if next.1 then (next.2, files_found)
      else
        if recent then
          let queried := look_cancelled cancelled_from next.2
          match (if queried.1 then none else file.data.target_info) with
          | none => (queried.2, files_found)
          | some _ => ({ queried.2 with freed_file_used := true }, files_found)
        else
          let info := file.data.info
          if !show_hidden && (info.is_hidden || info.is_backup) then
            search_folder_loop normalize cancelled_from search_query_c_terms search_type
              show_hidden recent rest (next.2, files_found)
          else
            let run :=
              if info.file_type = GFileType.G_FILE_TYPE_DIRECTORY ∧ search_type =
                  ThunarStandardViewModelSearch.THUNAR_STANDARD_VIEW_MODEL_SEARCH_RECURSIVE then
                thunar_tree_view_model_search_folder normalize cancelled_from
                  search_query_c_terms search_type show_hidden file next.2
              else next.2
            let files_found :=
              if thunar_tree_view_model_search_terms_match search_query_c_terms
                  (normalize info.display_name) then
                file.data.thunar_file :: files_found
              else files_found
            search_folder_loop normalize cancelled_from search_query_c_terms search_type
              show_hidden recent rest (run, files_found)
end

/-- The job function `_thunar_job_search_directory`: the returned value and the state
afterwards.  `mode` and `show_hidden` are the preferences "misc-recursive-search" and
"last-show-hidden", `is_source_device_local` is what
`thunar_g_file_is_on_local_device` answers, `directory` is the file of the job's
directory.  The job fails when it is cancelled at the start or the query cannot be
split; else it searches the directory and returns `TRUE`. -/
def _thunar_job_search_directory (normalize : List Char → List Char)
    (whitespace_regex : Option (List Char → List (List Char)))
    (cancelled_from : Option Nat) (mode : ThunarRecursiveSearchMode) (show_hidden : Bool)
    (is_source_device_local : Bool) (search_query_c : List Char) (directory : GFile)
    (run : SearchRun) : Bool × SearchRun :=
  let start := look_cancelled cancelled_from run
  if start.1 then (false, start.2)
  else
    match thunar_tree_view_model_split_search_query whitespace_regex search_query_c with
    | none => (false, start.2)
    | some search_query_c_terms =>
      let search_type :=
        if mode = ThunarRecursiveSearchMode.THUNAR_RECURSIVE_SEARCH_ALWAYS ∨
            (mode = ThunarRecursiveSearchMode.THUNAR_RECURSIVE_SEARCH_LOCAL ∧
              is_source_device_local = true) then
          ThunarStandardViewModelSearch.THUNAR_STANDARD_VIEW_MODEL_SEARCH_RECURSIVE
        else ThunarStandardViewModelSearch.THUNAR_STANDARD_VIEW_MODEL_SEARCH_NON_RECURSIVE
      (true, thunar_tree_view_model_search_folder normalize cancelled_from
        search_query_c_terms search_type show_hidden directory start.2)

/-! ## What a search is to find -/

/-- The file that a path of child indices leads to, starting at `file`. -/
def entry_at : List Nat → GFile → Option GFile
  | [], file => some file
  | i :: path, file =>
    match file.children[i]? with
    | some c => entry_at path c
    | none => none

/-- The entry is shown by the hidden-file policy: it is neither hidden nor a backup,
or hidden files are shown. -/
def info_visible (show_hidden : Bool) (info : GFileInfo) : Bool :=
  show_hidden || !(info.is_hidden || info.is_backup)

/-- The entry that the path leads to, from the directory `dir`, is a result of the
search: it lies in `dir` itself or, for a recursive search, in a directory reached
from `dir` through entries of type directory; neither it nor a directory on the way
is hidden or a backup, unless hidden files are shown; and its normalized display
name contains every term. -/
def is_search_result (normalize : List Char → List Char) (terms : List (List Char))
    (search_type : ThunarStandardViewModelSearch) (show_hidden : Bool) :
    List Nat → GFile → Bool
  | [], _ => false
  | [i], dir =>
    match dir.children[i]? with
    | some file =>
      match entry_info dir.data.uri_scheme_recent file with
      | some info =>
        info_visible show_hidden info &&
          thunar_tree_view_model_search_terms_match terms (normalize info.display_name)
      | none => false
    | none => false
  | i :: j :: path, dir =>
    match dir.children[i]? with
    | some file =>
      match entry_info dir.data.uri_scheme_recent file with
      | some info =>
        info_visible show_hidden info &&
          decide (info.file_type = GFileType.G_FILE_TYPE_DIRECTORY) &&
          decide (search_type =
            ThunarStandardViewModelSearch.THUNAR_STANDARD_VIEW_MODEL_SEARCH_RECURSIVE) &&
          is_search_result normalize terms search_type show_hidden (j :: path) file
      | none => false
    | none => false

/-- Every enumeration of the search succeeds: the directory can be enumerated, the
information of each of its entries is there, and the same holds for every entry of
type directory. -/
inductive EnumerationSucceeds : GFile → Prop where
  | mk (data : GFileData) (children : List GFile) :
      data.enumerable = true →
      (∀ c ∈ children, (entry_info data.uri_scheme_recent c).isSome = true) →
      (∀ c ∈ children, ∀ info, entry_info data.uri_scheme_recent c = some info →
        info.file_type = GFileType.G_FILE_TYPE_DIRECTORY → EnumerationSucceeds c) →
      EnumerationSucceeds (GFile.mk data children)

mutual
/-- What a call of `thunar_tree_view_model_search_folder` for the directory appends to
`model->files_to_add` when the job is never cancelled, in that order, each file
together with the path of its entry below the directory. -/
def search_staged (normalize : List Char → List Char) (terms : List (List Char))
    (search_type : ThunarStandardViewModelSearch) (show_hidden : Bool) :
    GFile → List (List Nat × ThunarFile)
  | .mk data children =>
    if !data.enumerable then []
    else
      let r := search_staged_loop normalize terms search_type show_hidden
        data.uri_scheme_recent 0 children
      r.1 ++ r.2
/-- The loop of `search_staged` from the entry with index `k` on: what the calls for
the subdirectories append, and `files_found`. -/
def search_staged_loop (normalize : List Char → List Char) (terms : List (List Char))
    (search_type : ThunarStandardViewModelSearch) (show_hidden : Bool) :
    Bool → Nat → List GFile → List (List Nat × ThunarFile) × List (List Nat × ThunarFile)
  | _, _, [] => ([], [])
  | recent, k, file :: rest =>
    match entry_info recent file with
    | none => ([], [])
    | some info =>
      if !show_hidden && (info.is_hidden || info.is_backup) then
        search_staged_loop normalize terms search_type show_hidden recent (k + 1) rest
      else
        let sub :=
          if info.file_type = GFileType.G_FILE_TYPE_DIRECTORY ∧ search_type =
              ThunarStandardViewModelSearch.THUNAR_STANDARD_VIEW_MODEL_SEARCH_RECURSIVE then
            (search_staged normalize terms search_type show_hidden file).map
              (fun e => (k :: e.1, e.2))
          else []
        let own :=
          if thunar_tree_view_model_search_terms_match terms (normalize info.display_name)
          then [([k], file.data.thunar_file)]
          else []
        let r := search_staged_loop normalize terms search_type show_hidden recent (k + 1) rest
        (sub ++ r.1, r.2 ++ own)
end

mutual
/-- No file of the tree has the URI scheme "recent". -/
def no_recent : GFile → Bool
  | .mk data children => !data.uri_scheme_recent && no_recent_list children
/-- The sibling loop of `no_recent`. -/
def no_recent_list : List GFile → Bool
  | [] => true
  | c :: cs => no_recent c && no_recent_list cs
end

mutual
/-- The tree in which every directory that cannot be enumerated is replaced by an
empty directory that can. -/
def open_failures_as_empty : GFile → GFile
  | .mk data children =>
    if data.enumerable then GFile.mk data (open_failures_as_empty_list children)
    else GFile.mk { data with enumerable := true } []
/-- The sibling loop of `open_failures_as_empty`. -/
def open_failures_as_empty_list : List GFile → List GFile
  | [] => []
  | c :: cs => open_failures_as_empty c :: open_failures_as_empty_list cs
end

/-- The file of an entry as the file system reports it: the attributes are those
of the `ThunarFile`. -/
def gfile_of (file : ThunarFile) (children : List GFile) : GFile :=
  GFile.mk
    { info :=
        { display_name := file.display_name, is_hidden := file.is_hidden,
          file_type :=
            if file.is_directory then GFileType.G_FILE_TYPE_DIRECTORY
            else GFileType.G_FILE_TYPE_REGULAR }
      thunar_file := file }
    children

/-- A plain file named ab. -/
def file_ab : ThunarFile := { id := 9, display_name := "ab".toList, date_modified := 90 }

/-- The directory d on disk: it holds a, the hidden directory .hd, which holds ab, and
the directory e, which holds ab and b. -/
def disk_d : GFile :=
  gfile_of dir_d
    [gfile_of file_a [],
      gfile_of dir_hd [gfile_of file_ab []],
      gfile_of dir_e [gfile_of file_ab [], gfile_of file_b []]]

/-- The directory `recent:///` with one entry, whose target is the file a and can be
queried. -/
def disk_recent : GFile :=
  GFile.mk
    { info := { display_name := "recent".toList,
                file_type := GFileType.G_FILE_TYPE_DIRECTORY },
      thunar_file := dir_d, uri_scheme_recent := true }
    [GFile.mk
      { info := { display_name := "a".toList },
        target_info := some { display_name := "a".toList },
        thunar_file := file_a }
      []]

/-- The directory d on disk, holding a, when no enumerator can be opened for it. -/
def disk_d_unreadable : GFile :=
  GFile.mk { info := { display_name := "d".toList }, thunar_file := dir_d, enumerable := false }
    [gfile_of file_a []]

/-- The model `collapsed_model` after `thunar_tree_view_model_ref_node` on the dummy of
d: the load idle 1 of d is pending. -/
def pending_model : ThunarTreeViewModel :=
  { sort_func := compare_by_date_modified
    root := GNode.mk none
      [leaf_of file_a,
        GNode.mk (some { file := dir_d, load_idle_id := 1 }) [GNode.mk none []]] }

/-- The main loop that goes with `pending_model`. -/
def pending_runtime : Runtime :=
  { last_source_id := 1
    sources := [{ id := 1, func := GSourceFunc.item_load_idle [1] }] }

/-! ## The sort column -/

/-- The columns of the enumeration `ThunarColumn` (declared in `thunar-enum-types.h`)
that this file names.  `thunar_tree_view_model_set_sort_column_id` has a `case` label
for each of them but `THUNAR_COLUMN_FILE`, so they are pairwise different values. -/
inductive ThunarColumn where
  | THUNAR_COLUMN_DATE_CREATED
  | THUNAR_COLUMN_DATE_ACCESSED
  | THUNAR_COLUMN_DATE_MODIFIED
  | THUNAR_COLUMN_DATE_DELETED
  | THUNAR_COLUMN_RECENCY
  | THUNAR_COLUMN_LOCATION
  | THUNAR_COLUMN_GROUP
  | THUNAR_COLUMN_MIME_TYPE
  | THUNAR_COLUMN_NAME
  | THUNAR_COLUMN_OWNER
  | THUNAR_COLUMN_PERMISSIONS
  | THUNAR_COLUMN_SIZE
  | THUNAR_COLUMN_SIZE_IN_BYTES
  | THUNAR_COLUMN_TYPE
  | THUNAR_COLUMN_FILE
  | THUNAR_COLUMN_FILE_NAME
  deriving DecidableEq, Repr

/-- GTK's enumeration `GtkSortType`. -/
inductive GtkSortType where
  | GTK_SORT_ASCENDING
  | GTK_SORT_DESCENDING
  deriving DecidableEq, Repr

/-- The comparator functions that this file assigns to `store->sort_func` and compares
it with.  They are defined in `thunar-file.c` and `thunar-standard-view-model.c`. -/
inductive ThunarComparator where
  | thunar_cmp_files_by_date_created
  | thunar_cmp_files_by_date_accessed
  | thunar_cmp_files_by_date_modified
  | thunar_cmp_files_by_date_deleted
  | thunar_cmp_files_by_recency
  | thunar_cmp_files_by_location
  | thunar_cmp_files_by_group
  | thunar_cmp_files_by_mime_type
  | thunar_file_compare_by_name
  | thunar_cmp_files_by_owner
  | thunar_cmp_files_by_permissions
  | thunar_cmp_files_by_size
  | thunar_cmp_files_by_size_and_items_count
  | thunar_cmp_files_by_size_in_bytes
  | thunar_cmp_files_by_type
  deriving DecidableEq, Repr

/-- The address of a comparator function, which is what `==` compares: different
functions have different addresses.  That of `thunar_cmp_files_by_date_modified` is
1, the `ident` of `compare_by_date_modified`. -/
def ThunarComparator.address : ThunarComparator → Nat
  | .thunar_cmp_files_by_date_created => 0
  | .thunar_cmp_files_by_date_modified => 1
  | .thunar_cmp_files_by_date_accessed => 2
  | .thunar_cmp_files_by_date_deleted => 3
  | .thunar_cmp_files_by_recency => 4
  | .thunar_cmp_files_by_location => 5
  | .thunar_cmp_files_by_group => 6
  | .thunar_cmp_files_by_mime_type => 7
  | .thunar_file_compare_by_name => 8
  | .thunar_cmp_files_by_owner => 9
  | .thunar_cmp_files_by_permissions => 10
  | .thunar_cmp_files_by_size => 11
  | .thunar_cmp_files_by_size_and_items_count => 12
  | .thunar_cmp_files_by_size_in_bytes => 13
  | .thunar_cmp_files_by_type => 14

/-- The function pointer of a comparator; `calls` gives what each comparator
computes. -/
def ThunarComparator.pointer (calls : ThunarComparator → ThunarFile → ThunarFile → Bool → Int)
    (comparator : ThunarComparator) : ThunarSortFunc :=
  { ident := comparator.address, call := calls comparator }

/-- The function `thunar_tree_view_model_get_sort_column_id`: the column that goes
with `store->sort_func` and the order that goes with `store->sort_sign`; `none` when
`_thunar_assert_not_reached` is hit, `store->sort_func` being none of the comparators
the function knows. -/
def thunar_tree_view_model_get_sort_column_id (store : ThunarTreeViewModel) :
    Option (ThunarColumn × GtkSortType) :=
  let sort_column_id : Option ThunarColumn :=
    if store.sort_func.ident = ThunarComparator.thunar_cmp_files_by_mime_type.address then
      some ThunarColumn.THUNAR_COLUMN_MIME_TYPE
    else if store.sort_func.ident = ThunarComparator.thunar_file_compare_by_name.address then
      some ThunarColumn.THUNAR_COLUMN_NAME
    else if store.sort_func.ident = ThunarComparator.thunar_cmp_files_by_permissions.address then
      some ThunarColumn.THUNAR_COLUMN_PERMISSIONS
    else if store.sort_func.ident = ThunarComparator.thunar_cmp_files_by_size.address ∨
        store.sort_func.ident =
          ThunarComparator.thunar_cmp_files_by_size_and_items_count.address then
      some ThunarColumn.THUNAR_COLUMN_SIZE
    else if store.sort_func.ident =
        ThunarComparator.thunar_cmp_files_by_size_in_bytes.address then
      some ThunarColumn.THUNAR_COLUMN_SIZE_IN_BYTES
    else if store.sort_func.ident =
        ThunarComparator.thunar_cmp_files_by_date_created.address then
      some ThunarColumn.THUNAR_COLUMN_DATE_CREATED
    else if store.sort_func.ident =
        ThunarComparator.thunar_cmp_files_by_date_accessed.address then
      some ThunarColumn.THUNAR_COLUMN_DATE_ACCESSED
    else if store.sort_func.ident =
        ThunarComparator.thunar_cmp_files_by_date_modified.address then
      some ThunarColumn.THUNAR_COLUMN_DATE_MODIFIED
    else if store.sort_func.ident =
        ThunarComparator.thunar_cmp_files_by_date_deleted.address then
      some ThunarColumn.THUNAR_COLUMN_DATE_DELETED
    else if store.sort_func.ident = ThunarComparator.thunar_cmp_files_by_recency.address then
      some ThunarColumn.THUNAR_COLUMN_RECENCY
    else if store.sort_func.ident = ThunarComparator.thunar_cmp_files_by_location.address then
      some ThunarColumn.THUNAR_COLUMN_LOCATION
    else if store.sort_func.ident = ThunarComparator.thunar_cmp_files_by_type.address then
      some ThunarColumn.THUNAR_COLUMN_TYPE
    else if store.sort_func.ident = ThunarComparator.thunar_cmp_files_by_owner.address then
      some ThunarColumn.THUNAR_COLUMN_OWNER
    else if store.sort_func.ident = ThunarComparator.thunar_cmp_files_by_group.address then
      some ThunarColumn.THUNAR_COLUMN_GROUP
    else none
  let order :=
    if store.sort_sign > 0 then GtkSortType.GTK_SORT_ASCENDING
    else GtkSortType.GTK_SORT_DESCENDING
  sort_column_id.map (fun column => (column, order))

/-- The `switch` of `thunar_tree_view_model_set_sort_column_id`: the comparator for a
column, `none` for the `default` label. -/
def sort_column_comparator (folder_item_count : ThunarFolderItemCount) :
    ThunarColumn → Option ThunarComparator
  | .THUNAR_COLUMN_DATE_CREATED => some ThunarComparator.thunar_cmp_files_by_date_created
  | .THUNAR_COLUMN_DATE_ACCESSED => some ThunarComparator.thunar_cmp_files_by_date_accessed
  | .THUNAR_COLUMN_DATE_MODIFIED => some ThunarComparator.thunar_cmp_files_by_date_modified
  | .THUNAR_COLUMN_DATE_DELETED => some ThunarComparator.thunar_cmp_files_by_date_deleted
  | .THUNAR_COLUMN_RECENCY => some ThunarComparator.thunar_cmp_files_by_recency
  | .THUNAR_COLUMN_LOCATION => some ThunarComparator.thunar_cmp_files_by_location
  | .THUNAR_COLUMN_GROUP => some ThunarComparator.thunar_cmp_files_by_group
  | .THUNAR_COLUMN_MIME_TYPE => some ThunarComparator.thunar_cmp_files_by_mime_type
  | .THUNAR_COLUMN_FILE_NAME => some ThunarComparator.thunar_file_compare_by_name
  | .THUNAR_COLUMN_NAME => some ThunarComparator.thunar_file_compare_by_name
  | .THUNAR_COLUMN_OWNER => some ThunarComparator.thunar_cmp_files_by_owner
  | .THUNAR_COLUMN_PERMISSIONS => some ThunarComparator.thunar_cmp_files_by_permissions
  | .THUNAR_COLUMN_SIZE =>
    if folder_item_count ≠ ThunarFolderItemCount.THUNAR_FOLDER_ITEM_COUNT_NEVER then
      some ThunarComparator.thunar_cmp_files_by_size_and_items_count
    else some ThunarComparator.thunar_cmp_files_by_size
  | .THUNAR_COLUMN_SIZE_IN_BYTES => some ThunarComparator.thunar_cmp_files_by_size_in_bytes
  | .THUNAR_COLUMN_TYPE => some ThunarComparator.thunar_cmp_files_by_type
  | .THUNAR_COLUMN_FILE => none

/-- The function `thunar_tree_view_model_set_sort_column_id`: the comparator and the
sign are set and every sibling group is sorted bottom-up; `none` when the column hits
`_thunar_assert_not_reached`. -/
def thunar_tree_view_model_set_sort_column_id
    (calls : ThunarComparator → ThunarFile → ThunarFile → Bool → Int)
    (store : ThunarTreeViewModel) (sort_column_id : ThunarColumn) (order : GtkSortType) :
    Option ThunarTreeViewModel :=
  match sort_column_comparator store.folder_item_count sort_column_id with
  | none => none
  | some comparator =>
    let store := { store with
      sort_func := comparator.pointer calls
      sort_sign := if order = GtkSortType.GTK_SORT_ASCENDING then 1 else -1 }
    some { store with root := traverse_sort store store.root }

/-- The function `thunar_tree_view_model_set_default_sort_func`: a `g_critical`
message and nothing else.  The arguments are the addresses passed. -/
def thunar_tree_view_model_set_default_sort_func (store : ThunarTreeViewModel)
    (_func _data _destroy : Nat) : ThunarTreeViewModel :=
  store

/-- The function `thunar_tree_view_model_set_sort_func`: a `g_critical` message and
nothing else. -/
def thunar_tree_view_model_set_sort_func (store : ThunarTreeViewModel)
    (_sort_column_id : ThunarColumn) (_func _data _destroy : Nat) : ThunarTreeViewModel :=
  store

/-- The column that `thunar_tree_view_model_get_sort_column_id` reports after a column
was set: `THUNAR_COLUMN_FILE_NAME` shares its comparator with `THUNAR_COLUMN_NAME`
and is reported as that. -/
def reported_column : ThunarColumn → ThunarColumn
  | .THUNAR_COLUMN_FILE_NAME => ThunarColumn.THUNAR_COLUMN_NAME
  | column => column

/-- Sample comparators: each one compares as `compare_by_date_modified` does. -/
def sample_calls (_ : ThunarComparator) : ThunarFile → ThunarFile → Bool → Int :=
  compare_by_date_modified.call

/-- The path leads through realized nodes only: every node on the way from `node` down
to the node the path leads to, `node` itself left out, carries an item. -/
def realized_path : List Nat → GNode → Bool
  | [], _ => true
  | i :: path, node =>
    match node.children[i]? with
    | some c => c.data.isSome && realized_path path c
    | none => false

/-! ## The item count mode and the size column -/

/-- The function `thunar_tree_view_model_set_folder_item_count`: nothing happens when
the setting is the one in place; else it is stored, and when `store->sort_func` is one
of the two comparators of the size column, the one that goes with the new setting is
put in place and every sibling group is sorted bottom-up. -/
def thunar_tree_view_model_set_folder_item_count
    (calls : ThunarComparator → ThunarFile → ThunarFile → Bool → Int)
    (store : ThunarTreeViewModel) (count_as_dir_size : ThunarFolderItemCount) :
    ThunarTreeViewModel :=
  if store.folder_item_count = count_as_dir_size then store
  else
    let store := { store with folder_item_count := count_as_dir_size }
    if store.sort_func.ident = ThunarComparator.thunar_cmp_files_by_size.address ∨
        store.sort_func.ident =
          ThunarComparator.thunar_cmp_files_by_size_and_items_count.address then
      let comparator :=
        if store.folder_item_count ≠ ThunarFolderItemCount.THUNAR_FOLDER_ITEM_COUNT_NEVER then
          ThunarComparator.thunar_cmp_files_by_size_and_items_count
        else ThunarComparator.thunar_cmp_files_by_size
      let store := { store with sort_func := comparator.pointer calls }
      { store with root := traverse_sort store store.root }
    else store

/-- A call of one of the two setters that decide on the comparator of the size
column: `thunar_tree_view_model_set_sort_column_id (THUNAR_COLUMN_SIZE, order)` or
`thunar_tree_view_model_set_folder_item_count (mode)`. -/
inductive SizeColumnCall where
  | sort_by_size (order : GtkSortType)
  | folder_item_count (mode : ThunarFolderItemCount)
  deriving DecidableEq, Repr

/-- The model after one call of `SizeColumnCall`. -/
def SizeColumnCall.run (calls : ThunarComparator → ThunarFile → ThunarFile → Bool → Int)
    (store : ThunarTreeViewModel) : SizeColumnCall → ThunarTreeViewModel
  | .sort_by_size order =>
    match thunar_tree_view_model_set_sort_column_id calls store
        ThunarColumn.THUNAR_COLUMN_SIZE order with
    | some store' => store'
    | none => store
  | .folder_item_count mode => thunar_tree_view_model_set_folder_item_count calls store mode

/-- The mode in place after a list of calls: that of the last
`thunar_tree_view_model_set_folder_item_count` among them, else the one before. -/
def SizeColumnCall.last_mode (mode : ThunarFolderItemCount) :
    List SizeColumnCall → ThunarFolderItemCount
  | [] => mode
  | .sort_by_size _ :: rest => SizeColumnCall.last_mode mode rest
  | .folder_item_count mode' :: rest => SizeColumnCall.last_mode mode' rest

/-! ## Removing a subtree -/

/-- The callback `thunar_tree_view_model_node_traverse_remove`: it returns at once
while the node has children (the check `node->children == NULL`); else the item is
released and the node is destroyed, which is the result `none`.  (The path of a node
of the tree is never `NULL`.) -/
def thunar_tree_view_model_node_traverse_remove (node : GNode) : Option GNode :=
  if node.children.isEmpty then none else some node

mutual
/-- The traversal `g_node_traverse (child_node, G_POST_ORDER, G_TRAVERSE_ALL, -1,
thunar_tree_view_model_node_traverse_remove, model)`: the callback runs on every node
after it ran on the node's children; the result is what is left of the node. -/
def remove_post_order : GNode → Option GNode
  | .mk data children =>
    thunar_tree_view_model_node_traverse_remove (GNode.mk data (remove_post_order_list children))
/-- The sibling loop of the removing traversal: the children that are left. -/
def remove_post_order_list : List GNode → List GNode
  | [] => []
  | c :: cs =>
    match remove_post_order c with
    | none => remove_post_order_list cs
    | some c' => c' :: remove_post_order_list cs
end

/-- The children of a sibling list carry pairwise distinct entries: no two items hold
the same `ThunarFile` pointer. -/
def DistinctEntries (children : List GNode) : Prop :=
  ((child_files children).map (fun file => file.id)).Nodup

/-- The node carries one of the removed entries. -/
def holds_removed (files : List ThunarFile) (child_node : GNode) : Bool :=
  files.any (fun file => node_holds_file file child_node)

/-! ## Draining the search results -/

/-- The timeout callback `thunar_tree_view_model_add_search_files`, which runs with
`mutex_files_to_add` held: the staged files are inserted, the staging list is
emptied, and `TRUE` is returned, which keeps the source. -/
def thunar_tree_view_model_add_search_files (model : ThunarTreeViewModel) :
    ThunarTreeViewModel × Bool :=
  let model := thunar_tree_view_model_insert_files model model.files_to_add
  ({ model with files_to_add := [] }, true)

/-- The handler `thunar_tree_view_model_search_finished` of the job's "finished"
signal: the job handle is dropped; if the drain timer is installed, the staging list
is drained once more and the timer removed; the staging list is emptied; then
"search-done" is emitted.  The third component lists the emissions of "search-done",
each one as the model that its handlers find. -/
def thunar_tree_view_model_search_finished (_job : ThunarJob) (store : ThunarTreeViewModel)
    (rt : Runtime) : ThunarTreeViewModel × Runtime × List ThunarTreeViewModel :=
  let store :=
    if store.recursive_search_job.isSome then { store with recursive_search_job := none }
    else store
  let drained :=
    if store.update_search_results_timeout_id > 0 then
      let model := (thunar_tree_view_model_add_search_files store).1
      ({ model with update_search_results_timeout_id := 0 },
        g_source_remove rt model.update_search_results_timeout_id)
    else (store, rt)
  let store := { drained.1 with files_to_add := [] }
  (store, drained.2, [store])

/-! ## The worker thread and the main loop, step by step -/

/-- Where the thread of a search job stands in the last statements of its top-level
call of `thunar_tree_view_model_search_folder`, with its `files_found`: before
`if (exo_job_is_cancelled (EXO_JOB (job))) return;`, between that statement and
`g_mutex_lock (&model->mutex_files_to_add)`, or after the return. -/
inductive SearchFolderTail where
  | at_check (files_found : List ThunarFile)
  | at_merge (files_found : List ThunarFile)
  | returned
  deriving DecidableEq, Repr

/-- The next statement of the thread of `job` in the tail of
`thunar_tree_view_model_search_folder`.  At the check the thread returns when
`exo_job_cancel` was called on the job; at the merge it appends `files_found` to
`model->files_to_add`, holding the mutex. -/
def search_folder_tail_step (job : ThunarJob) (model : ThunarTreeViewModel) (rt : Runtime) :
    SearchFolderTail → SearchFolderTail × ThunarTreeViewModel
  | .at_check files_found =>
    if job.id ∈ rt.cancelled then (SearchFolderTail.returned, model)
    else (SearchFolderTail.at_merge files_found, model)
  | .at_merge files_found =>
    (SearchFolderTail.returned, { model with files_to_add := model.files_to_add ++ files_found })
  | .returned => (SearchFolderTail.returned, model)

/-- The model, the main loop and jobs, and the thread of the search job `job`. -/
structure Threads where
  model : ThunarTreeViewModel
  rt : Runtime
  job : ThunarJob
  tail : SearchFolderTail

/-- What runs next: the worker thread executes its next statement, or the main loop
runs `thunar_tree_view_model_set_folder` or dispatches the drain timer
`thunar_tree_view_model_add_search_files`.  Neither of the two main-loop functions
waits for the worker: the worker holds the mutex only inside its merge statement. -/
inductive ThreadStep where
  | worker
  | set_folder (folder : Option ThunarFolder) (search_query : Option (List Char))
  | add_search_files
  deriving DecidableEq, Repr

/-- The state after one step of one of the two threads. -/
def ThreadStep.run (normalize : List Char → List Char)
    (whitespace_regex : Option (List Char → List (List Char))) (s : Threads) :
    ThreadStep → Threads
  | .worker =>
    let r := search_folder_tail_step s.job s.model s.rt s.tail
    { s with tail := r.1, model := r.2 }
  | .set_folder folder search_query =>
    let r := thunar_tree_view_model_set_folder normalize whitespace_regex s.model s.rt folder
      search_query
    { s with model := r.1, rt := r.2 }
  | .add_search_files =>
    { s with model := (thunar_tree_view_model_add_search_files s.model).1 }

/-! ## The loading state -/

/-- The function `thunar_tree_view_model_get_loading`: `store->loading > 0`. -/
def thunar_tree_view_model_get_loading (store : ThunarTreeViewModel) : Bool :=
  decide (store.loading > 0)

/-- The folder of the directory d while it is being loaded: no file is listed yet. -/
def folder_d_loading : ThunarFolder :=
  { id := 9, corresponding_file := dir_d, loading := true }

/-! ## Job operations (`thunar-job-operation.c`) -/

/-- The kinds of `ThunarJobOperationKind` (declared in `thunar-enum-types.h`) that
`thunar-job-operation.c` names. -/
inductive ThunarJobOperationKind where
  | THUNAR_JOB_OPERATION_KIND_COPY
  | THUNAR_JOB_OPERATION_KIND_DELETE
  deriving DecidableEq, Repr

/-- The struct `_ThunarJobOperation`; `F` is the type of the `GFile` objects in its
two lists. -/
structure ThunarJobOperation (F : Type) where
  operation_kind : ThunarJobOperationKind
  source_file_list : List F
  target_file_list : List F
  deriving DecidableEq, Repr

/-- The function `thunar_job_operation_new`: the two lists are `NULL` after
`thunar_job_operation_init`. -/
def thunar_job_operation_new {F : Type} (kind : ThunarJobOperationKind) :
    ThunarJobOperation F :=
  { operation_kind := kind, source_file_list := [], target_file_list := [] }

/-- The helper `is_ancestor`: 0 if `descendant` is a descendant of `ancestor`, else 1.
`thunar_g_file_is_descendant (descendant, ancestor)` is defined in
`thunar-gio-extensions.c`. -/
def is_ancestor {F : Type} (thunar_g_file_is_descendant : F → F → Bool)
    (ancestor descendant : F) : Int :=
  if thunar_g_file_is_descendant descendant ancestor then 0 else 1

/-- GLib's `g_list_find_custom`: the first element for which `func (element, data)`
is 0, `none` for `NULL`. -/
def g_list_find_custom {F : Type} (list : List F) (data : F) (func : F → F → Int) :
    Option F :=
  list.find? (fun element => func element data == 0)

/-- The function `thunar_job_operation_add`: nothing happens when
`g_list_find_custom` finds a source file of which `source_file` is a descendant; else
the two files are appended to the two lists. -/
def thunar_job_operation_add {F : Type} (thunar_g_file_is_descendant : F → F → Bool)
    (job_operation : ThunarJobOperation F) (source_file target_file : F) :
    ThunarJobOperation F :=
  if (g_list_find_custom job_operation.source_file_list source_file
      (is_ancestor thunar_g_file_is_descendant)).isSome then job_operation
  else
    { job_operation with
      source_file_list := job_operation.source_file_list ++ [source_file]
      target_file_list := job_operation.target_file_list ++ [target_file] }

/-- A sample for `thunar_g_file_is_descendant` on files given by the components of
their path: a file descends from the files whose path is a prefix of its own. -/
def path_is_descendant (descendant ancestor : List String) : Bool :=
  ancestor.isPrefixOf descendant

/-! ## Paths and iterators -/

/-- The fields of a `GNode` in memory that the conversion between paths and iterators
reads: `parent` (`none` for `NULL`) and the chain `children`, `children->next`, ...,
given as the list of the addresses of the children. -/
structure GNodeCell where
  parent : Option Nat
  children : List Nat
  deriving DecidableEq, Repr

/-- A tree of nodes, each with the address at which it lies. -/
inductive GNodeAt where
  | mk (addr : Nat) (children : List GNodeAt)
  deriving Repr

/-- The address of the node. -/
def GNodeAt.addr : GNodeAt → Nat
  | .mk a _ => a

/-- The children of the node. -/
def GNodeAt.children : GNodeAt → List GNodeAt
  | .mk _ cs => cs

/-- The node that a list of child indices leads to, starting at `node`. -/
def GNodeAt.descend : List Nat → GNodeAt → Option GNodeAt
  | [], node => some node
  | i :: path, node =>
    match node.children[i]? with
    | some c => GNodeAt.descend path c
    | none => none

mutual
/-- The memory holds the tree below a node whose `parent` field is `parent`: at the
address of every node lies a cell with the address of its parent and the addresses of
its children, and the children of a node are different nodes. -/
def laid_out (memory : Nat → Option GNodeCell) (parent : Option Nat) : GNodeAt → Bool
  | .mk addr children =>
    decide (memory addr =
        some { parent := parent, children := children.map GNodeAt.addr }) &&
      decide (children.map GNodeAt.addr).Nodup &&
      laid_out_list memory (some addr) children
/-- The sibling loop of `laid_out`. -/
def laid_out_list (memory : Nat → Option GNodeCell) (parent : Option Nat) :
    List GNodeAt → Bool
  | [] => true
  | c :: cs => laid_out memory parent c && laid_out_list memory parent cs
end

/-- GLib's `g_node_nth_child` for the node at the address `node`: the address of the
child with index `n`, `none` for `NULL`.  `n` is the `gint` that the caller passes for
the `guint` parameter; a negative one arrives as a number beyond the end of any child
list. -/
def g_node_nth_child (memory : Nat → Option GNodeCell) (node : Nat) (n : Int) : Option Nat :=
  match memory node with
  | none => none
  | some cell => if 0 ≤ n then cell.children[n.toNat]? else none

/-- The function `thunar_tree_view_model_iter_nth_child`; `root` is `store->root`,
`parent` is `none` for `NULL`, which stands for the root, and else the node of the
parent iterator.  The node of the child iterator, `none` for `FALSE`. -/
def thunar_tree_view_model_iter_nth_child (memory : Nat → Option GNodeCell) (root : Nat)
    (parent : Option Nat) (n : Int) : Option Nat :=
  g_node_nth_child memory
    (match parent with
      | some user_data => user_data
      | none => root)
    n

/-- The `for` loop of `thunar_tree_view_model_get_iter` over the indices that are left,
`iter` being the node of the iterator reached so far. -/
def get_iter_loop (memory : Nat → Option GNodeCell) (root : Nat) :
    List Int → Nat → Option Nat
  | [], iter => some iter
  | index :: indices, iter =>
    match thunar_tree_view_model_iter_nth_child memory root (some iter) index with
    | none => none
    | some child => get_iter_loop memory root indices child

/-- The function `thunar_tree_view_model_get_iter`; `path` holds the indices of the
`GtkTreePath`.  The node of the iterator, `none` for `FALSE`: a path of depth 0 is
refused, and so is a path on which some `iter_nth_child` fails.  The first step starts
from an iterator for `store->root`. -/
def thunar_tree_view_model_get_iter (memory : Nat → Option GNodeCell) (root : Nat)
    (path : List Int) : Option Nat :=
  match path with
  | [] => none
  | index :: indices =>
    match thunar_tree_view_model_iter_nth_child memory root (some root) index with
    | none => none
    | some iter => get_iter_loop memory root indices iter

/-- The loop of `thunar_tree_view_model_get_path` that looks the node up among the
children of its parent: `tmp_node` runs along the chain of the children, `n` counts,
and the loop ends where `tmp_node == node`; `none` when the chain ends first. -/
def get_path_index_loop (node : Nat) : List Nat → Nat → Option Nat
  | [], _ => none
  | tmp_node :: next, n =>
    if tmp_node = node then some n
    else get_path_index_loop node next (n + 1)

/-- The function `thunar_tree_view_model_get_path` for the iterator whose node lies at
the address `node`; `root` is `store->root`.  The indices of the path, `none` for
`NULL`.  A node without parent has the empty path if it is the root and none else; for
another node the path of the parent is determined (at once when the parent is the
root, else by the function itself), then the index of the node among the children of
the parent is appended.  The first argument bounds the depth of the recursion; the
depth of the node in the tree is enough.  An address at which no cell lies gives
`none`. -/
def thunar_tree_view_model_get_path (memory : Nat → Option GNodeCell) (root : Nat) :
    Nat → Nat → Option (List Int)
  | 0, _ => none
  | fuel + 1, node =>
    match memory node with
    | none => none
    | some cell =>
      match cell.parent with
      | none => if node = root then some [] else none
      | some parent =>
        let path :=
          if parent = root then some []
          else thunar_tree_view_model_get_path memory root fuel parent
        match path with
        | none => none
        | some path =>
          match memory parent with
          | none => none
          | some parent_cell =>
            match get_path_index_loop node parent_cell.children 0 with
            | none => none
            | some n => some (path ++ [(n : Int)])

/-- A tree in memory: the root at 100 with three children at 101, 102 and 103, the one
at 103 with children at 104 and 105. -/
def sample_nodes : GNodeAt :=
  GNodeAt.mk 100
    [GNodeAt.mk 101 [], GNodeAt.mk 102 [],
      GNodeAt.mk 103 [GNodeAt.mk 104 [], GNodeAt.mk 105 []]]

/-- The memory that holds `sample_nodes`. -/
def sample_memory (addr : Nat) : Option GNodeCell :=
  if addr = 100 then some { parent := none, children := [101, 102, 103] }
  else if addr = 101 then some { parent := some 100, children := [] }
  else if addr = 102 then some { parent := some 100, children := [] }
  else if addr = 103 then some { parent := some 100, children := [104, 105] }
  else if addr = 104 then some { parent := some 103, children := [] }
  else if addr = 105 then some { parent := some 103, children := [] }
  else none

/-! ## The comparison in `gint` arithmetic -/

theorem g_strrstr_scan_isSome (h n : List Char) (k : Nat) :
    (g_strrstr_scan h n k).isSome = true ↔ ∃ p, p < k ∧ n <+: h.drop p := by
  induction k with
  | zero => simp [g_strrstr_scan]
  | succ k ih =>
    unfold g_strrstr_scan
    by_cases hp : n.isPrefixOf (h.drop k) = true
    · simp only [hp, if_true, Option.isSome_some, true_iff]
      exact ⟨k, Nat.lt_succ_self k, List.isPrefixOf_iff_prefix.mp hp⟩
    · simp only [hp, Bool.false_eq_true, if_false, ih]
      constructor
      · rintro ⟨p, hlt, hpre⟩
        exact ⟨p, Nat.lt_succ_of_lt hlt, hpre⟩
      · rintro ⟨p, hlt, hpre⟩
        rcases Nat.lt_succ_iff_lt_or_eq.mp hlt with hlt' | heq
        · exact ⟨p, hlt', hpre⟩
        · subst heq
          exact absurd (List.isPrefixOf_iff_prefix.mpr hpre) hp

theorem infix_iff_prefix_drop (h n : List Char) :
    n <:+: h ↔ ∃ p, p + n.length ≤ h.length ∧ n <+: h.drop p := by
  constructor
  · rintro ⟨s, t, rfl⟩
    refine ⟨s.length, by simp, ?_⟩
    simp [List.append_assoc]
  · rintro ⟨p, _, t, ht⟩
    refine ⟨h.take p, t, ?_⟩
    rw [List.append_assoc, ht, List.take_append_drop]

theorem g_strrstr_isSome (h n : List Char) :
    (g_strrstr h n).isSome = true ↔ n <:+: h := by
  unfold g_strrstr
  by_cases h0 : n.length = 0
  · have : n = [] := List.length_eq_zero.mp h0
    subst this
    simp
  · by_cases hlt : h.length < n.length
    · simp only [h0, hlt, if_false, if_true, Option.isSome_none, Bool.false_eq_true, false_iff]
      intro hin
      have := hin.length_le
      omega
    · simp only [h0, hlt, if_false, g_strrstr_scan_isSome, infix_iff_prefix_drop]
      constructor
      · rintro ⟨p, hp, hpre⟩
        exact ⟨p, by omega, hpre⟩
      · rintro ⟨p, hp, hpre⟩
        exact ⟨p, by omega, hpre⟩

theorem search_terms_match_eq_all (terms : List (List Char)) (s : List Char) :
    thunar_tree_view_model_search_terms_match terms s = true ↔
      ∀ t ∈ terms, (g_strrstr s t).isSome = true := by
  induction terms with
  | nil => simp [thunar_tree_view_model_search_terms_match]
  | cons t ts ih =>
    unfold thunar_tree_view_model_search_terms_match
    cases hg : g_strrstr s t with
    | none => simp [hg]
    | some p => simp [hg, ih]

/-- C1: `thunar_tree_view_model_search_terms_match (terms, s)` returns `TRUE` exactly
when every term occurs in `s` as a contiguous substring; with the terms "foo" and
"bar" the name "foobar.txt" matches while "foo.txt" and "baronly.txt" do not. -/
theorem search_terms_match_iff_every_term_infix (terms : List (List Char)) (s : List Char) :
    (thunar_tree_view_model_search_terms_match terms s = true ↔ ∀ t ∈ terms, t <:+: s)
    ∧ thunar_tree_view_model_search_terms_match ["foo".toList, "bar".toList]
        "foobar.txt".toList = true
    ∧ thunar_tree_view_model_search_terms_match ["foo".toList, "bar".toList]
        "foo.txt".toList = false
    ∧ thunar_tree_view_model_search_terms_match ["foo".toList, "bar".toList]
        "baronly.txt".toList = false := by
  refine ⟨?_, by decide, by decide, by decide⟩
  rw [search_terms_match_eq_all]
  constructor
  · intro h t ht
    exact (g_strrstr_isSome s t).mp (h t ht)
  · intro h t ht
    exact (g_strrstr_isSome s t).mpr (h t ht)

/-! ## The stable sort -/

theorem g_qsort_insert_perm {α : Type} (cmp : α → α → Int) (x : α) (l : List α) :
    (g_qsort_insert cmp x l).Perm (x :: l) := by
  induction l with
  | nil => exact List.Perm.refl _
  | cons y ys ih =>
    unfold g_qsort_insert
    split
    · exact List.Perm.refl _
    · exact (List.Perm.cons y ih).trans (List.Perm.swap x y ys)

theorem g_qsort_with_data_perm {α : Type} (l : List α) (cmp : α → α → Int) :
    (g_qsort_with_data l cmp).Perm l := by
  induction l with
  | nil => exact List.Perm.refl _
  | cons x xs ih =>
    have h : g_qsort_with_data (x :: xs) cmp = g_qsort_insert cmp x (g_qsort_with_data xs cmp) := rfl
    rw [h]
    exact (g_qsort_insert_perm cmp x _).trans (List.Perm.cons x ih)

theorem g_qsort_insert_sorted {α : Type} (cmp : α → α → Int) (S : α → Prop) (x : α)
    (l : List α) (hx : S x) (hl : ∀ a ∈ l, S a)
    (htot : ∀ a b, S a → S b → cmp a b ≤ 0 ∨ cmp b a ≤ 0)
    (htr : ∀ a b c, S a → S b → S c → cmp a b ≤ 0 → cmp b c ≤ 0 → cmp a c ≤ 0)
    (hs : l.Pairwise (fun a b => cmp a b ≤ 0)) :
    (g_qsort_insert cmp x l).Pairwise (fun a b => cmp a b ≤ 0) := by
  induction l with
  | nil => simp [g_qsort_insert]
  | cons y ys ih =>
    have hy : S y := hl y (List.mem_cons_self y ys)
    have hys : ∀ a ∈ ys, S a := fun a ha => hl a (List.mem_cons_of_mem y ha)
    rw [List.pairwise_cons] at hs
    unfold g_qsort_insert
    split
    · rename_i hxy
      rw [List.pairwise_cons]
      refine ⟨?_, List.pairwise_cons.mpr hs⟩
      intro z hz
      rcases List.mem_cons.mp hz with rfl | hz
      · exact hxy
      · exact htr x y z hx hy (hys z hz) hxy (hs.1 z hz)
    · rename_i hxy
      rw [List.pairwise_cons]
      refine ⟨?_, ih hys hs.2⟩
      intro z hz
      have hz2 : z ∈ x :: ys := (g_qsort_insert_perm cmp x ys).subset hz
      rcases List.mem_cons.mp hz2 with rfl | hz3
      · rcases htot z y hx hy with h | h
        · exact absurd h hxy
        · exact h
      · exact hs.1 z hz3

theorem g_qsort_with_data_sorted {α : Type} (cmp : α → α → Int) (S : α → Prop)
    (l : List α) (hl : ∀ a ∈ l, S a)
    (htot : ∀ a b, S a → S b → cmp a b ≤ 0 ∨ cmp b a ≤ 0)
    (htr : ∀ a b c, S a → S b → S c → cmp a b ≤ 0 → cmp b c ≤ 0 → cmp a c ≤ 0) :
    (g_qsort_with_data l cmp).Pairwise (fun a b => cmp a b ≤ 0) := by
  induction l with
  | nil => exact List.Pairwise.nil
  | cons x xs ih =>
    have h : g_qsort_with_data (x :: xs) cmp = g_qsort_insert cmp x (g_qsort_with_data xs cmp) := rfl
    rw [h]
    have hxs : ∀ a ∈ xs, S a := fun a ha => hl a (List.mem_cons_of_mem x ha)
    refine g_qsort_insert_sorted cmp S x _ (hl x (List.mem_cons_self x xs)) ?_ htot htr (ih hxs)
    intro a ha
    exact hxs a ((g_qsort_with_data_perm xs cmp).subset ha)

/-! ## The comparator -/

theorem cmp_files_total (model : ThunarTreeViewModel) (h : model.SortOk) (a b : ThunarFile) :
    thunar_tree_view_model_cmp_files a b model ≤ 0 ∨
      thunar_tree_view_model_cmp_files b a model ≤ 0 := by
  obtain ⟨ho, hs⟩ := h
  have h1 := ho.sign_swap a b
  have h2 := ho.sign_swap b a
  unfold thunar_tree_view_model_cmp_files
  cases hff : model.sort_folders_first <;> cases ha : a.is_directory <;>
    cases hb : b.is_directory <;> simp <;>
    rcases hs with hs | hs <;> rw [hs] <;> omega

theorem cmp_files_trans (model : ThunarTreeViewModel) (h : model.SortOk) (a b c : ThunarFile)
    (hab : thunar_tree_view_model_cmp_files a b model ≤ 0)
    (hbc : thunar_tree_view_model_cmp_files b c model ≤ 0) :
    thunar_tree_view_model_cmp_files a c model ≤ 0 := by
  obtain ⟨ho, hs⟩ := h
  have t1 := ho.le_trans a b c
  have t2 := ho.le_trans c b a
  have s1 := ho.sign_swap a b
  have s2 := ho.sign_swap b a
  have s3 := ho.sign_swap b c
  have s4 := ho.sign_swap c b
  have s5 := ho.sign_swap a c
  have s6 := ho.sign_swap c a
  unfold thunar_tree_view_model_cmp_files at *
  cases hff : model.sort_folders_first <;> cases ha : a.is_directory <;>
    cases hb : b.is_directory <;> cases hc : c.is_directory <;>
    simp [hff, ha, hb, hc] at hab hbc ⊢ <;>
    rcases hs with hs | hs <;> rw [hs] at hab hbc ⊢ <;> omega

theorem cmp_nodes_total (model : ThunarTreeViewModel) (h : model.SortOk) (a b : GNode) :
    thunar_tree_view_model_cmp_nodes_func a b model ≤ 0 ∨
      thunar_tree_view_model_cmp_nodes_func b a model ≤ 0 := by
  unfold thunar_tree_view_model_cmp_nodes_func
  cases ha : a.data <;> cases hb : b.data <;> simp
  exact cmp_files_total model h _ _

theorem cmp_nodes_trans (model : ThunarTreeViewModel) (h : model.SortOk) (a b c : GNode)
    (hb : b.data.isSome = true)
    (hab : thunar_tree_view_model_cmp_nodes_func a b model ≤ 0)
    (hbc : thunar_tree_view_model_cmp_nodes_func b c model ≤ 0) :
    thunar_tree_view_model_cmp_nodes_func a c model ≤ 0 := by
  unfold thunar_tree_view_model_cmp_nodes_func at *
  cases ha : a.data <;> cases hb' : b.data <;> cases hc : c.data <;>
    simp [ha, hb', hc] at hab hbc hb ⊢
  exact cmp_files_trans model h _ _ _ hab hbc

theorem sort_array_from_map_node (k : Nat) (cs : List GNode) :
    (sort_array_from k cs).map (fun t => t.node) = cs := by
  induction cs generalizing k with
  | nil => rfl
  | cons c cs ih => simp [sort_array_from, ih]

theorem sort_array_from_map_offset (k : Nat) (cs : List GNode) :
    (sort_array_from k cs).map (fun t => t.offset) = List.range' k cs.length := by
  induction cs generalizing k with
  | nil => rfl
  | cons c cs ih => simp [sort_array_from, ih, List.range']

theorem sort_array_from_mem (k : Nat) (cs : List GNode) (t : SortTuple)
    (ht : t ∈ sort_array_from k cs) :
    k ≤ t.offset ∧ cs[t.offset - k]? = some t.node := by
  induction cs generalizing k with
  | nil => simp [sort_array_from] at ht
  | cons c cs ih =>
    simp only [sort_array_from, List.mem_cons] at ht
    rcases ht with rfl | ht
    · simp
    · obtain ⟨h1, h2⟩ := ih (k + 1) ht
      refine ⟨by omega, ?_⟩
      have : t.offset - k = (t.offset - (k + 1)) + 1 := by omega
      rw [this, List.getElem?_cons_succ]
      exact h2

theorem sort_result (store : ThunarTreeViewModel) (node : GNode)
    (hn : 2 ≤ g_node_n_children node) (hreal : AllRealized node.children) :
    thunar_tree_view_model_sort store node =
      (GNode.mk node.data
        ((g_qsort_with_data (sort_array_from 0 node.children)
          (fun a b => thunar_tree_view_model_cmp_func a b store)).map (fun t => t.node)),
       some ((g_qsort_with_data (sort_array_from 0 node.children)
          (fun a b => thunar_tree_view_model_cmp_func a b store)).map (fun t => t.offset))) := by
  unfold thunar_tree_view_model_sort
  have h1 : ¬ g_node_n_children node ≤ 1 := by omega
  have h2 : node.children.any (fun child_node => child_node.data.isNone) = false := by
    rw [List.any_eq_false]
    intro c hc
    have := hreal c hc
    cases hd : c.data <;> simp [hd] at this ⊢
  simp only [h1, h2, if_false, Bool.false_eq_true]

theorem sort_children_perm (store : ThunarTreeViewModel) (node : GNode) :
    (thunar_tree_view_model_sort store node).1.children.Perm node.children := by
  unfold thunar_tree_view_model_sort
  split
  · exact List.Perm.refl _
  · split
    · exact List.Perm.refl _
    · simp only [GNode.children]
      have hp := (g_qsort_with_data_perm (sort_array_from 0 node.children)
        (fun a b => thunar_tree_view_model_cmp_func a b store)).map (fun t => t.node)
      rw [sort_array_from_map_node] at hp
      exact hp

theorem sort_data (store : ThunarTreeViewModel) (node : GNode) :
    (thunar_tree_view_model_sort store node).1.data = node.data := by
  unfold thunar_tree_view_model_sort
  split
  · rfl
  · split <;> rfl

theorem sort_children_sorted (store : ThunarTreeViewModel) (node : GNode)
    (hok : store.SortOk) (hn : 2 ≤ g_node_n_children node)
    (hreal : AllRealized node.children) :
    SiblingsSorted store (thunar_tree_view_model_sort store node).1.children := by
  rw [sort_result store node hn hreal]
  simp only [GNode.children, SiblingsSorted]
  rw [List.pairwise_map]
  have hs := g_qsort_with_data_sorted (fun a b => thunar_tree_view_model_cmp_func a b store)
    (fun t => t.node.data.isSome = true) (sort_array_from 0 node.children)
    (by
      intro t ht
      have hm := (sort_array_from_mem 0 node.children t ht).2
      exact hreal t.node (List.getElem?_mem hm))
    (fun a b _ _ => cmp_nodes_total store hok a.node b.node)
    (fun a b c _ hb _ hab hbc => cmp_nodes_trans store hok a.node b.node c.node hb hab hbc)
  exact hs

theorem compare_by_date_modified_isOrdering (cs : Bool) :
    compare_by_date_modified.IsOrdering cs := by
  constructor
  · intro a b
    simp only [compare_by_date_modified]
    split_ifs <;> omega
  · intro a b c
    simp only [compare_by_date_modified]
    split_ifs <;> omega

theorem sample_model_sortOk : sample_model.SortOk :=
  ⟨compare_by_date_modified_isOrdering _, Or.inl rfl⟩

/-- C4: for a node with n >= 2 children, all realized, `thunar_tree_view_model_sort`
keeps the item of the node, leaves it with a permutation of the same n children (in
comparator order whenever the comparator is an ordering), and emits a `new_order`
array that is a permutation of 0..n-1 in which, for every new position i, the child
now at position i is the child that was at old position `new_order[i]`. -/
theorem sort_keeps_children_and_reports_order (store : ThunarTreeViewModel) (node : GNode)
    (hn : 2 ≤ g_node_n_children node) (hreal : AllRealized node.children) :
    (thunar_tree_view_model_sort store node).1.data = node.data
    ∧ (thunar_tree_view_model_sort store node).1.children.Perm node.children
    ∧ (store.SortOk → SiblingsSorted store (thunar_tree_view_model_sort store node).1.children)
    ∧ ∃ new_order, (thunar_tree_view_model_sort store node).2 = some new_order
        ∧ new_order.Perm (List.range (g_node_n_children node))
        ∧ ∀ i, i < g_node_n_children node →
            ∃ j, new_order[i]? = some j ∧ j < g_node_n_children node
              ∧ (thunar_tree_view_model_sort store node).1.children[i]? = node.children[j]? := by
  refine ⟨sort_data store node, sort_children_perm store node,
    fun hok => sort_children_sorted store node hok hn hreal, ?_⟩
  rw [sort_result store node hn hreal]
  refine ⟨_, rfl, ?_, ?_⟩
  · have hp := (g_qsort_with_data_perm (sort_array_from 0 node.children)
      (fun a b => thunar_tree_view_model_cmp_func a b store)).map (fun t => t.offset)
    rw [sort_array_from_map_offset] at hp
    rw [List.range_eq_range']
    exact hp
  · intro i hi
    generalize hS : g_qsort_with_data (sort_array_from 0 node.children)
      (fun a b => thunar_tree_view_model_cmp_func a b store) = S
    have hperm : S.Perm (sort_array_from 0 node.children) := by
      rw [← hS]; exact g_qsort_with_data_perm _ _
    have hlen : S.length = node.children.length := by
      rw [hperm.length_eq, ← List.length_map (sort_array_from 0 node.children) (fun t => t.node),
        sort_array_from_map_node]
    have hi2 : i < S.length := by rw [hlen]; exact hi
    have hmem := (sort_array_from_mem 0 node.children _
      (hperm.subset (List.getElem_mem hi2))).2
    simp only [Nat.sub_zero] at hmem
    refine ⟨(S[i]).offset, ?_, ?_, ?_⟩
    · rw [List.getElem?_map, List.getElem?_eq_getElem hi2]; rfl
    · exact (List.getElem?_eq_some_iff.mp hmem).1
    · show (S.map (fun t => t.node))[i]? = node.children[(S[i]).offset]?
      rw [List.getElem?_map, List.getElem?_eq_getElem hi2, hmem]; rfl

/-- Witness for C4: three realized children in the order c, a, b. -/
theorem sort_keeps_children_and_reports_order_witness :
    2 ≤ g_node_n_children (GNode.mk none [leaf_of file_c, leaf_of file_a, leaf_of file_b])
    ∧ (thunar_tree_view_model_sort sample_model
        (GNode.mk none [leaf_of file_c, leaf_of file_a, leaf_of file_b])).2 = some [1, 2, 0]
    ∧ (thunar_tree_view_model_sort sample_model
        (GNode.mk none [leaf_of file_c, leaf_of file_a, leaf_of file_b])).1.children.Perm
          [leaf_of file_c, leaf_of file_a, leaf_of file_b] :=
  ⟨by decide, by decide,
    (sort_keeps_children_and_reports_order sample_model
      (GNode.mk none [leaf_of file_c, leaf_of file_a, leaf_of file_b]) (by decide)
      (by intro c hc; simp [GNode.children] at hc; rcases hc with rfl | rfl | rfl <;> rfl)).2.1⟩

/-! ## Adding children -/

theorem new_child_node_data (file : ThunarFile) :
    (new_child_node file).data = some (thunar_tree_view_model_item_new_with_file file) := by
  unfold new_child_node thunar_tree_view_model_node_insert_dummy
  split <;> simp [GNode.data, g_node_n_children, GNode.children]

theorem has_dummy_false_of_realized (node : GNode) (h : AllRealized node.children) :
    G_NODE_HAS_DUMMY node = false := by
  unfold G_NODE_HAS_DUMMY
  split
  · rename_i c hc
    have := h c (by rw [hc]; exact List.mem_singleton.mpr rfl)
    cases hd : c.data <;> simp [hd] at this ⊢
  · rfl

theorem add_child_of_no_dummy (node : GNode) (file : ThunarFile)
    (h : G_NODE_HAS_DUMMY node = false) :
    thunar_tree_view_model_add_child node file =
      GNode.mk node.data (new_child_node file :: node.children) := by
  unfold thunar_tree_view_model_add_child new_child_node
  simp only [h, Bool.false_eq_true, if_false]

theorem add_child_of_dummy (data : Option ThunarTreeViewModelItem) (file : ThunarFile) :
    thunar_tree_view_model_add_child (GNode.mk data [GNode.mk none []]) file =
      GNode.mk data [new_child_node file] := by
  unfold thunar_tree_view_model_add_child new_child_node
  simp [G_NODE_HAS_DUMMY, GNode.children, GNode.data]

theorem foldl_add_child_realized (files : List ThunarFile) (node : GNode)
    (h : AllRealized node.children) :
    files.foldl thunar_tree_view_model_add_child node =
      GNode.mk node.data ((files.reverse.map new_child_node) ++ node.children) := by
  induction files generalizing node with
  | nil => cases node; rfl
  | cons f fs ih =>
    rw [List.foldl_cons, add_child_of_no_dummy node f (has_dummy_false_of_realized node h)]
    rw [ih]
    · simp [GNode.data, GNode.children]
    · intro c hc
      simp only [GNode.children, List.mem_cons] at hc
      rcases hc with rfl | hc
      · rw [new_child_node_data]; rfl
      · exact h c hc

theorem foldl_add_child_dummy (f : ThunarFile) (fs : List ThunarFile)
    (data : Option ThunarTreeViewModelItem) :
    (f :: fs).foldl thunar_tree_view_model_add_child (GNode.mk data [GNode.mk none []]) =
      GNode.mk data ((f :: fs).reverse.map new_child_node) := by
  rw [List.foldl_cons, add_child_of_dummy, foldl_add_child_realized]
  · simp [GNode.data, GNode.children]
  · intro c hc
    simp only [GNode.children, List.mem_singleton] at hc
    subst hc
    rw [new_child_node_data]; rfl

theorem realized_children_of_realized (cs : List GNode) (h : AllRealized cs) :
    realized_children cs = cs := by
  unfold realized_children
  rw [List.filter_eq_self]
  exact h

theorem foldl_add_child_children (files : List ThunarFile) (node : GNode)
    (hne : files ≠ [])
    (hwf : node.children = [GNode.mk none []] ∨ AllRealized node.children) :
    files.foldl thunar_tree_view_model_add_child node =
      GNode.mk node.data ((files.reverse.map new_child_node) ++ realized_children node.children) := by
  rcases hwf with hd | hr
  · cases files with
    | nil => exact absurd rfl hne
    | cons f fs =>
      cases node with
      | mk data cs =>
        simp only [GNode.children] at hd
        subst hd
        rw [foldl_add_child_dummy]
        simp [realized_children, GNode.data, GNode.children]
  · rw [foldl_add_child_realized files node hr, realized_children_of_realized _ hr]

theorem allRealized_new_children (files : List ThunarFile) (cs : List GNode) :
    AllRealized ((files.map new_child_node) ++ realized_children cs) := by
  intro c hc
  rcases List.mem_append.mp hc with h | h
  · obtain ⟨f, _, rfl⟩ := List.mem_map.mp h
    rw [new_child_node_data]; rfl
  · exact (List.mem_filter.mp h).2

theorem sort_sorted_of_realized (store : ThunarTreeViewModel) (node : GNode)
    (hok : store.SortOk) (hreal : AllRealized node.children) :
    SiblingsSorted store (thunar_tree_view_model_sort store node).1.children := by
  by_cases hn : 2 ≤ g_node_n_children node
  · exact sort_children_sorted store node hok hn hreal
  · unfold thunar_tree_view_model_sort
    have h1 : g_node_n_children node ≤ 1 := by omega
    simp only [h1, if_true, SiblingsSorted]
    unfold g_node_n_children at h1
    match hcs : node.children, h1 with
    | [], _ => exact List.Pairwise.nil
    | [c], _ => exact List.pairwise_singleton _ _

theorem cmp_files_sign_swap (model : ThunarTreeViewModel) (h : model.SortOk) (a b : ThunarFile) :
    thunar_tree_view_model_cmp_files a b model < 0 ↔
      0 < thunar_tree_view_model_cmp_files b a model := by
  obtain ⟨ho, hs⟩ := h
  have h1 := ho.sign_swap a b
  have h2 := ho.sign_swap b a
  unfold thunar_tree_view_model_cmp_files
  cases hff : model.sort_folders_first <;> cases ha : a.is_directory <;>
    cases hb : b.is_directory <;> simp <;>
    rcases hs with hs | hs <;> rw [hs] <;> omega

theorem cmp_files_ne_zero_symm (model : ThunarTreeViewModel) (h : model.SortOk)
    (a b : ThunarFile) (hab : thunar_tree_view_model_cmp_files a b model ≠ 0) :
    thunar_tree_view_model_cmp_files b a model ≠ 0 := by
  have h1 := cmp_files_sign_swap model h a b
  have h2 := cmp_files_sign_swap model h b a
  omega

theorem child_files_map_new (files : List ThunarFile) :
    child_files (files.map new_child_node) = files := by
  induction files with
  | nil => rfl
  | cons f fs ih =>
    unfold child_files at ih ⊢
    rw [List.map_cons, List.filterMap_cons, new_child_node_data]
    simp only [Option.map_some', thunar_tree_view_model_item_new_with_file]
    rw [ih]

theorem child_files_realized (cs : List GNode) :
    child_files (realized_children cs) = child_files cs := by
  induction cs with
  | nil => rfl
  | cons c cs ih =>
    unfold child_files realized_children at ih ⊢
    cases hd : c.data with
    | none => simp [List.filter_cons, List.filterMap_cons, hd, ih]
    | some it => simp [List.filter_cons, List.filterMap_cons, hd, ih]

theorem child_files_append (xs ys : List GNode) :
    child_files (xs ++ ys) = child_files xs ++ child_files ys := by
  unfold child_files
  exact List.filterMap_append _ _ _

theorem child_files_perm {xs ys : List GNode} (h : xs.Perm ys) :
    (child_files xs).Perm (child_files ys) := by
  unfold child_files
  exact h.filterMap _

/-- On a list of realized nodes whose files never compare equal, being sorted
determines the order. -/
theorem sorted_perm_unique (model : ThunarTreeViewModel) (hok : model.SortOk)
    (l₁ l₂ : List GNode) (hp : l₁.Perm l₂) (hreal : AllRealized l₁)
    (hstrict : (child_files l₁).Pairwise
      (fun a b => thunar_tree_view_model_cmp_files a b model ≠ 0))
    (h₁ : SiblingsSorted model l₁) (h₂ : SiblingsSorted model l₂) : l₁ = l₂ := by
  have hpw : l₁.Pairwise (fun a b => a.data.isSome = true → b.data.isSome = true →
      thunar_tree_view_model_cmp_nodes_func a b model ≠ 0) := by
    unfold child_files at hstrict
    rw [List.pairwise_filterMap] at hstrict
    refine hstrict.imp ?_
    intro a b hab ha hb
    unfold thunar_tree_view_model_cmp_nodes_func
    cases hda : a.data with
    | none => simp [hda] at ha
    | some ia =>
      cases hdb : b.data with
      | none => simp [hdb] at hb
      | some ib =>
        simp only
        exact hab ia.file (by simp [hda]) ib.file (by simp [hdb])
  have hsymm : Symmetric (fun a b : GNode => a.data.isSome = true → b.data.isSome = true →
      thunar_tree_view_model_cmp_nodes_func a b model ≠ 0) := by
    intro a b hab hb ha
    have := hab ha hb
    unfold thunar_tree_view_model_cmp_nodes_func at this ⊢
    cases hda : a.data with
    | none => simp [hda] at ha
    | some ia =>
      cases hdb : b.data with
      | none => simp [hdb] at hb
      | some ib =>
        simp only [hda, hdb] at this ⊢
        exact cmp_files_ne_zero_symm model hok _ _ this
  refine List.Perm.eq_of_sorted ?_ h₁ h₂ hp
  intro a b ha hb hab hba
  by_contra hne
  have hb1 : b ∈ l₁ := hp.symm.subset hb
  have hra := hreal a ha
  have hrb := hreal b hb1
  have hn := hpw.forall hsymm ha hb1 hne hra hrb
  unfold thunar_tree_view_model_cmp_nodes_func at hab hba hn
  cases hda : a.data with
  | none => simp [hda] at hra
  | some ia =>
    cases hdb : b.data with
    | none => simp [hdb] at hrb
    | some ib =>
      simp only [hda, hdb] at hab hba hn
      have h1 := cmp_files_sign_swap model hok ia.file ib.file
      omega

theorem sort_eq_of_perm (model : ThunarTreeViewModel) (hok : model.SortOk)
    (data : Option ThunarTreeViewModelItem) (l₁ l₂ : List GNode) (hp : l₁.Perm l₂)
    (hreal : AllRealized l₁)
    (hstrict : (child_files l₁).Pairwise
      (fun a b => thunar_tree_view_model_cmp_files a b model ≠ 0)) :
    (thunar_tree_view_model_sort model (GNode.mk data l₁)).1 =
      (thunar_tree_view_model_sort model (GNode.mk data l₂)).1 := by
  have hreal2 : AllRealized l₂ := fun c hc => hreal c (hp.symm.subset hc)
  have hs1 := sort_sorted_of_realized model (GNode.mk data l₁) hok hreal
  have hs2 := sort_sorted_of_realized model (GNode.mk data l₂) hok hreal2
  have hp1 := sort_children_perm model (GNode.mk data l₁)
  have hp2 := sort_children_perm model (GNode.mk data l₂)
  have hd1 := sort_data model (GNode.mk data l₁)
  have hd2 := sort_data model (GNode.mk data l₂)
  have hpp : (thunar_tree_view_model_sort model (GNode.mk data l₁)).1.children.Perm
      (thunar_tree_view_model_sort model (GNode.mk data l₂)).1.children :=
    hp1.trans (hp.trans hp2.symm)
  have hst : (child_files (thunar_tree_view_model_sort model (GNode.mk data l₁)).1.children).Pairwise
      (fun a b => thunar_tree_view_model_cmp_files a b model ≠ 0) :=
    ((child_files_perm hp1).pairwise_iff
      (fun {x y} h => cmp_files_ne_zero_symm model hok x y h)).mpr hstrict
  have hr1 : AllRealized (thunar_tree_view_model_sort model (GNode.mk data l₁)).1.children :=
    fun c hc => hreal c (hp1.subset hc)
  have heq := sorted_perm_unique model hok _ _ hpp hr1 hst hs1 hs2
  revert hd1 hd2 heq
  cases thunar_tree_view_model_sort model (GNode.mk data l₁) with
  | mk n1 o1 =>
    cases thunar_tree_view_model_sort model (GNode.mk data l₂) with
    | mk n2 o2 =>
      cases n1; cases n2
      simp only [GNode.data, GNode.children]
      intro h1 h2 h3
      rw [h1, h2, h3]

theorem insert_files_loop_eq (show_hidden : Bool) (files : List ThunarFile) (root : GNode)
    (hidden : List ThunarFile) :
    insert_files_loop show_hidden files (root, hidden) =
      ((shown_files show_hidden files).foldl thunar_tree_view_model_add_child root,
       (files.filter (fun f => f.is_hidden)).reverse ++ hidden) := by
  induction files generalizing root hidden with
  | nil => rfl
  | cons f fs ih =>
    unfold insert_files_loop
    rw [ih]
    unfold shown_files
    cases hh : f.is_hidden <;> cases hs : show_hidden <;>
      simp [List.filter_cons, hh]

theorem add_children_eq (model : ThunarTreeViewModel) (node : GNode) (files : List ThunarFile)
    (hne : files ≠ [])
    (hwf : node.children = [GNode.mk none []] ∨ AllRealized node.children) :
    thunar_tree_view_model_add_children model node files =
      (thunar_tree_view_model_sort model (GNode.mk node.data
        ((files.reverse.map new_child_node) ++ realized_children node.children))).1 := by
  unfold thunar_tree_view_model_add_children
  have : files.isEmpty = false := by
    cases files with
    | nil => exact absurd rfl hne
    | cons f fs => rfl
  simp only [this, Bool.false_eq_true, if_false]
  rw [foldl_add_child_children files node hne hwf]

theorem pairwise_cmp_ne_perm (model : ThunarTreeViewModel) (hok : model.SortOk)
    {l₁ l₂ : List ThunarFile} (hp : l₁.Perm l₂)
    (h : l₁.Pairwise (fun a b => thunar_tree_view_model_cmp_files a b model ≠ 0)) :
    l₂.Pairwise (fun a b => thunar_tree_view_model_cmp_files a b model ≠ 0) :=
  (hp.pairwise_iff (fun {x y} h => cmp_files_ne_zero_symm model hok x y h)).mp h

theorem add_children_facts (model : ThunarTreeViewModel) (node : GNode)
    (files files' : List ThunarFile) (hok : model.SortOk) (hne : files ≠ [])
    (hwf : node.children = [GNode.mk none []] ∨ AllRealized node.children)
    (hperm : files'.Perm files)
    (hstrict : (files ++ child_files node.children).Pairwise
      (fun a b => thunar_tree_view_model_cmp_files a b model ≠ 0)) :
    (thunar_tree_view_model_add_children model node files).children.Perm
        (files.map new_child_node ++ realized_children node.children)
    ∧ SiblingsSorted model (thunar_tree_view_model_add_children model node files).children
    ∧ thunar_tree_view_model_add_children model node files' =
        thunar_tree_view_model_add_children model node files := by
  have hne' : files' ≠ [] := by
    intro h; rw [h] at hperm; exact hne (List.Perm.nil_eq hperm).symm
  rw [add_children_eq model node files hne hwf, add_children_eq model node files' hne' hwf]
  have hreal : ∀ fs : List ThunarFile,
      AllRealized ((fs.reverse.map new_child_node) ++ realized_children node.children) :=
    fun fs => allRealized_new_children fs.reverse node.children
  refine ⟨?_, ?_, ?_⟩
  · refine (sort_children_perm model _).trans ?_
    simp only [GNode.children]
    exact List.Perm.append_right _ ((List.reverse_perm files).map _)
  · exact sort_sorted_of_realized model _ hok (hreal files)
  · refine sort_eq_of_perm model hok node.data _ _ ?_ (hreal files') ?_
    · exact List.Perm.append_right _ (((List.reverse_perm files').trans
        (hperm.trans (List.reverse_perm files).symm)).map _)
    · rw [child_files_append, child_files_map_new, child_files_realized]
      refine pairwise_cmp_ne_perm model hok ?_ hstrict
      exact List.Perm.append_right _ (hperm.symm.trans (List.reverse_perm files').symm)

theorem insert_files_root (store : ThunarTreeViewModel) (files : List ThunarFile)
    (hreal : AllRealized store.root.children) :
    (thunar_tree_view_model_insert_files store files).root =
      (thunar_tree_view_model_sort store (GNode.mk store.root.data
        (((shown_files store.show_hidden files).reverse.map new_child_node)
          ++ store.root.children))).1 := by
  unfold thunar_tree_view_model_insert_files
  simp only [insert_files_loop_eq]
  rw [foldl_add_child_realized _ _ hreal]

theorem shown_files_perm (show_hidden : Bool) {l₁ l₂ : List ThunarFile} (h : l₁.Perm l₂) :
    (shown_files show_hidden l₁).Perm (shown_files show_hidden l₂) :=
  h.filter _

theorem insert_files_facts (store : ThunarTreeViewModel)
    (files files' : List ThunarFile) (hok : store.SortOk)
    (hreal : AllRealized store.root.children)
    (hperm : files'.Perm files)
    (hstrict : (files ++ child_files store.root.children).Pairwise
      (fun a b => thunar_tree_view_model_cmp_files a b store ≠ 0)) :
    (thunar_tree_view_model_insert_files store files).root.children.Perm
        ((shown_files store.show_hidden files).map new_child_node ++ store.root.children)
    ∧ SiblingsSorted store (thunar_tree_view_model_insert_files store files).root.children
    ∧ (thunar_tree_view_model_insert_files store files').root =
        (thunar_tree_view_model_insert_files store files).root := by
  rw [insert_files_root store files hreal, insert_files_root store files' hreal]
  have hr : ∀ fs : List ThunarFile,
      AllRealized ((fs.reverse.map new_child_node) ++ store.root.children) := by
    intro fs
    have := allRealized_new_children fs.reverse store.root.children
    rw [realized_children_of_realized _ hreal] at this
    exact this
  refine ⟨?_, ?_, ?_⟩
  · refine (sort_children_perm store _).trans ?_
    simp only [GNode.children]
    exact List.Perm.append_right _ ((List.reverse_perm _).map _)
  · exact sort_sorted_of_realized store _ hok (hr _)
  · refine sort_eq_of_perm store hok store.root.data _ _ ?_ (hr _) ?_
    · exact List.Perm.append_right _ (((List.reverse_perm _).trans
        ((shown_files_perm _ hperm).trans (List.reverse_perm _).symm)).map _)
    · rw [child_files_append, child_files_map_new]
      have hsub : ((shown_files store.show_hidden files').reverse ++
          child_files store.root.children).Perm
          (shown_files store.show_hidden files ++ child_files store.root.children) :=
        List.Perm.append_right _ ((List.reverse_perm _).trans (shown_files_perm _ hperm))
      refine pairwise_cmp_ne_perm store hok hsub.symm ?_
      refine hstrict.sublist ?_
      exact List.Sublist.append (List.filter_sublist _) (List.Sublist.refl _)

/-- C2: when the comparator is an ordering under which no two of the entries
concerned compare equal, `thunar_tree_view_model_add_children` on a parent (holding
only its dummy, or only realized children) leaves the parent with its previous
realized children plus one node per inserted entry, in ascending order under
`thunar_tree_view_model_cmp_files`, and any other insertion order of the same
entries gives the same node; `thunar_tree_view_model_insert_files` does the same for
the root with the entries it turns into nodes. -/
theorem add_entries_sorted_any_insertion_order (model : ThunarTreeViewModel) (node : GNode)
    (files files' : List ThunarFile) (hok : model.SortOk) (hne : files ≠ [])
    (hwf : node.children = [GNode.mk none []] ∨ AllRealized node.children)
    (hperm : files'.Perm files)
    (hstrict : (files ++ child_files node.children).Pairwise
      (fun a b => thunar_tree_view_model_cmp_files a b model ≠ 0)) :
    ((thunar_tree_view_model_add_children model node files).children.Perm
        (files.map new_child_node ++ realized_children node.children)
      ∧ SiblingsSorted model (thunar_tree_view_model_add_children model node files).children
      ∧ thunar_tree_view_model_add_children model node files' =
          thunar_tree_view_model_add_children model node files)
    ∧ (AllRealized model.root.children →
        (files ++ child_files model.root.children).Pairwise
          (fun a b => thunar_tree_view_model_cmp_files a b model ≠ 0) →
        (thunar_tree_view_model_insert_files model files).root.children.Perm
          ((shown_files model.show_hidden files).map new_child_node ++ model.root.children)
        ∧ SiblingsSorted model (thunar_tree_view_model_insert_files model files).root.children
        ∧ (thunar_tree_view_model_insert_files model files').root =
            (thunar_tree_view_model_insert_files model files).root) :=
  ⟨add_children_facts model node files files' hok hne hwf hperm hstrict,
    fun hreal hs => insert_files_facts model files files' hok hreal hperm hs⟩

/-- Witness for C2: the entries c and a are added, in either order, under a parent
that holds b. -/
theorem add_entries_sorted_any_insertion_order_witness :
    thunar_tree_view_model_add_children sample_model (GNode.mk none [leaf_of file_b])
        [file_a, file_c] =
      thunar_tree_view_model_add_children sample_model (GNode.mk none [leaf_of file_b])
        [file_c, file_a]
    ∧ thunar_tree_view_model_add_children sample_model (GNode.mk none [leaf_of file_b])
        [file_c, file_a] = GNode.mk none [leaf_of file_a, leaf_of file_b, leaf_of file_c] :=
  ⟨(add_entries_sorted_any_insertion_order sample_model (GNode.mk none [leaf_of file_b])
      [file_c, file_a] [file_a, file_c] sample_model_sortOk (by simp)
      (Or.inr (by intro c hc; simp [GNode.children] at hc; subst hc; rfl))
      (List.Perm.swap _ _ _) (by decide)).1.2.2, rfl⟩

/-- C3 (the code at the failing input): the siblings a (date 10), b (date 20) and c
are in order except for c, whose date changed from 30 to 15.  The reposition of c
unlinks it and walks a, b; b is the last sibling, so c is appended behind it without
being compared: the sibling list stays a, b, c and is not sorted. -/
theorem reorder_if_req_last_sibling_not_compared :
    SiblingsSorted sample_model [leaf_of file_a, leaf_of file_b]
    ∧ (thunar_tree_view_model_reorder_if_req sample_model
        (GNode.mk none [leaf_of file_a, leaf_of file_b, leaf_of file_c_changed]) 2).1
      = GNode.mk none [leaf_of file_a, leaf_of file_b, leaf_of file_c_changed]
    ∧ ¬ SiblingsSorted sample_model
        (thunar_tree_view_model_reorder_if_req sample_model
          (GNode.mk none [leaf_of file_a, leaf_of file_b, leaf_of file_c_changed]) 2).1.children
    ∧ SiblingsSorted sample_model
        [leaf_of file_a, leaf_of file_c_changed, leaf_of file_b] :=
  ⟨by decide, rfl, by decide, by decide⟩

/-! ## The `new_order` array of a single reposition -/

/-- Entry `x` of the array that `new_order_loop` builds. -/
theorem new_order_loop_getElem (pb pa : Nat) (n i j t : Nat)
    (hj : j = if (if i ≤ pa then i else i - 1) ≤ pb then (if i ≤ pa then i else i - 1)
      else (if i ≤ pa then i else i - 1) + 1) (ht : t < n) :
    (new_order_loop pb pa n i j)[t]? =
      some (if i + t = pa then pb
        else if (if i + t < pa then i + t else i + t - 1) < pb
          then (if i + t < pa then i + t else i + t - 1)
          else (if i + t < pa then i + t else i + t - 1) + 1) := by
  induction n generalizing i j t with
  | zero => omega
  | succ n ih =>
    unfold new_order_loop
    by_cases hi : i = pa
    · simp only [hi, if_true]
      cases t with
      | zero => simp
      | succ t =>
        rw [List.getElem?_cons_succ, ih (pa + 1) j t (by subst hi; split_ifs at hj ⊢ <;> omega)
          (by omega)]
        congr 1
        split_ifs <;> omega
    · simp only [hi, if_false]
      cases t with
      | zero =>
        simp only [List.getElem?_cons_zero, Nat.add_zero, hi, if_false]
        congr 1
        split_ifs at hj ⊢ <;> omega
      | succ t =>
        rw [List.getElem?_cons_succ, ih (i + 1) _ t (by split_ifs at hj ⊢ <;> omega) (by omega)]
        congr 1
        split_ifs <;> omega

theorem new_order_loop_length (pb pa : Nat) (n i j : Nat) :
    (new_order_loop pb pa n i j).length = n := by
  induction n generalizing i j with
  | zero => rfl
  | succ n ih =>
    unfold new_order_loop
    split
    · simp [ih]
    · simp [ih]

/-! ## Projections of a node -/

@[simp] theorem GNode.children_mk (data : Option ThunarTreeViewModelItem)
    (children : List GNode) : (GNode.mk data children).children = children := rfl

@[simp] theorem GNode.data_mk (data : Option ThunarTreeViewModelItem)
    (children : List GNode) : (GNode.mk data children).data = data := rfl

theorem GNode.eta (node : GNode) : GNode.mk node.data node.children = node := by
  cases node; rfl

theorem insert_child_node_sorted_loop_length (model : ThunarTreeViewModel) (child : GNode)
    (cs : List GNode) (pos : Nat) (hne : cs ≠ []) :
    (insert_child_node_sorted_loop model child cs pos).1.length = cs.length + 1
    ∧ (insert_child_node_sorted_loop model child cs pos).2 ≤ pos + cs.length := by
  induction cs generalizing pos with
  | nil => exact absurd rfl hne
  | cons lp rest ih =>
    cases rest with
    | nil => simp [insert_child_node_sorted_loop]
    | cons next rest =>
      unfold insert_child_node_sorted_loop
      split
      · have := ih (pos + 1) (by simp)
        simp only [List.length_cons] at this ⊢
        omega
      · simp

theorem insert_child_node_sorted_length (model : ThunarTreeViewModel) (parent child : GNode) :
    g_node_n_children (thunar_tree_view_model_insert_child_node_sorted model parent child).1
      = g_node_n_children parent + 1
    ∧ (thunar_tree_view_model_insert_child_node_sorted model parent child).2
      ≤ g_node_n_children parent := by
  unfold thunar_tree_view_model_insert_child_node_sorted g_node_n_children
  split
  · rename_i h
    simp [h]
  · rename_i lp rest h
    have := insert_child_node_sorted_loop_length model child (lp :: rest) 0 (by simp)
    rw [h]
    simp only [GNode.children_mk]
    omega

/-- When the re-insertion index computed by
`thunar_tree_view_model_insert_child_node_sorted` differs from the node's old index
by exactly one, `thunar_tree_view_model_reorder_if_req` emits nothing if no handler
is connected to "row-inserted", and otherwise emits one `new_order` array of the
sibling count that maps the new index to the old one, the old index to the new one
and every other position to itself. -/
theorem reorder_if_req_swap_of_index (model : ThunarTreeViewModel) (parent : GNode)
    (node : Nat) (child : GNode) (hchild : parent.children[node]? = some child)
    (hn : 2 ≤ g_node_n_children parent)
    (hadj : (thunar_tree_view_model_insert_child_node_sorted model
          (thunar_tree_view_model_unlink_child parent node).1 child).2 = node + 1
      ∨ (thunar_tree_view_model_insert_child_node_sorted model
          (thunar_tree_view_model_unlink_child parent node).1 child).2 + 1 = node) :
    (model.has_handler = false →
      (thunar_tree_view_model_reorder_if_req model parent node).2 = none)
    ∧ (model.has_handler = true →
      ∃ new_order, (thunar_tree_view_model_reorder_if_req model parent node).2 = some new_order
        ∧ new_order.length = g_node_n_children parent
        ∧ new_order[(thunar_tree_view_model_insert_child_node_sorted model
            (thunar_tree_view_model_unlink_child parent node).1 child).2]? = some node
        ∧ new_order[node]? = some (thunar_tree_view_model_insert_child_node_sorted model
            (thunar_tree_view_model_unlink_child parent node).1 child).2
        ∧ ∀ i, i < g_node_n_children parent → i ≠ node →
            i ≠ (thunar_tree_view_model_insert_child_node_sorted model
              (thunar_tree_view_model_unlink_child parent node).1 child).2 →
            new_order[i]? = some i) := by
  have hlt : node < parent.children.length := (List.getElem?_eq_some_iff.mp hchild).1
  have hlen := insert_child_node_sorted_length model
    (thunar_tree_view_model_unlink_child parent node).1 child
  have hu : g_node_n_children (thunar_tree_view_model_unlink_child parent node).1
      = g_node_n_children parent - 1 := by
    simp [thunar_tree_view_model_unlink_child, g_node_n_children,
      List.length_eraseIdx, hlt]
  have hn2 : ¬ g_node_n_children parent < 2 := by omega
  unfold thunar_tree_view_model_reorder_if_req
  simp only [hchild, hn2, if_false]
  generalize hpa : (thunar_tree_view_model_insert_child_node_sorted model
    (thunar_tree_view_model_unlink_child parent node).1 child).2 = pa at hadj hlen ⊢
  have hpb : (thunar_tree_view_model_unlink_child parent node).2 = node := rfl
  have hne : pa ≠ node := by omega
  have hN : g_node_n_children (thunar_tree_view_model_insert_child_node_sorted model
      (thunar_tree_view_model_unlink_child parent node).1 child).1
      = g_node_n_children parent := by
    rw [hlen.1, hu]; omega
  have hpaN : pa < g_node_n_children parent := by
    have := hlen.2
    rw [hu] at this
    omega
  have hnodeN : node < g_node_n_children parent := hlt
  constructor
  · intro hh
    simp [hh]
  · intro hh
    simp only [hh, hpb, hne, Bool.not_true, Bool.or_false, decide_False, Bool.false_eq_true,
      if_false, hN]
    refine ⟨_, rfl, ?_, ?_, ?_, ?_⟩
    · rw [new_order_loop_length]
    · rw [new_order_loop_getElem node pa _ 0 0 pa (by simp) hpaN]
      simp
    · rw [new_order_loop_getElem node pa _ 0 0 node (by simp) hnodeN]
      congr 1
      simp only [Nat.zero_add]
      split_ifs <;> omega
    · intro i hi h1 h2
      rw [new_order_loop_getElem node pa _ 0 0 i (by simp) hi]
      congr 1
      simp only [Nat.zero_add]
      split_ifs <;> omega

/-- C5 (counterexample): with no handler connected to "row-inserted", b (date changed
from 20 to 5) is moved from index 1 to index 0 among a, b, c, a swap with its
immediate neighbour that leaves the siblings sorted, and no reorder notification is
emitted. -/
theorem reorder_if_req_silent_without_handler :
    SiblingsSorted sample_model_no_handler [leaf_of file_a, leaf_of file_c]
    ∧ (thunar_tree_view_model_reorder_if_req sample_model_no_handler
        (GNode.mk none [leaf_of file_a, leaf_of file_b_changed, leaf_of file_c]) 1).1
      = GNode.mk none [leaf_of file_b_changed, leaf_of file_a, leaf_of file_c]
    ∧ SiblingsSorted sample_model_no_handler
        [leaf_of file_b_changed, leaf_of file_a, leaf_of file_c]
    ∧ (thunar_tree_view_model_reorder_if_req sample_model_no_handler
        (GNode.mk none [leaf_of file_a, leaf_of file_b_changed, leaf_of file_c]) 1).2
      = none :=
  ⟨by decide, rfl, by decide, rfl⟩

/-! ## Updates through a path -/

theorem list_set_getElem?_self {α : Type} (l : List α) (i : Nat) (a : α)
    (h : l[i]? = some a) : l.set i a = l := by
  induction l generalizing i with
  | nil => rfl
  | cons x xs ih =>
    cases i with
    | zero => simp at h; subst h; rfl
    | succ i => simp at h; simp [ih i h]

theorem g_node_update_at_eq_self (f : GNode → GNode) (p : List Nat) (n m : GNode)
    (hm : g_node_at p n = some m) (hf : f m = m) : g_node_update_at f p n = n := by
  induction p generalizing n with
  | nil =>
    simp only [g_node_at, Option.some.injEq] at hm
    subst hm
    exact hf
  | cons i p ih =>
    unfold g_node_at at hm
    unfold g_node_update_at
    cases hc : n.children[i]? with
    | none => rfl
    | some c =>
      simp only [hc] at hm ⊢
      rw [ih c hm, list_set_getElem?_self _ _ _ hc, GNode.eta]

theorem g_node_update_at_of_none (f : GNode → GNode) (p : List Nat) (n : GNode)
    (hm : g_node_at p n = none) : g_node_update_at f p n = n := by
  induction p generalizing n with
  | nil => simp [g_node_at] at hm
  | cons i p ih =>
    unfold g_node_at at hm
    unfold g_node_update_at
    cases hc : n.children[i]? with
    | none => rfl
    | some c =>
      simp only [hc] at hm ⊢
      rw [ih c hm, list_set_getElem?_self _ _ _ hc, GNode.eta]

/-- Reading the item at any path after an update that keeps the children of the
updated node. -/
theorem g_node_at_update_at_data (f : GNode → GNode)
    (hf : ∀ n, (f n).children = n.children) (p q : List Nat) (n : GNode) :
    (g_node_at q (g_node_update_at f p n)).map GNode.data =
      if q = p then (g_node_at p n).map (fun m => (f m).data)
      else (g_node_at q n).map GNode.data := by
  induction p generalizing q n with
  | nil =>
    cases q with
    | nil => simp [g_node_at, g_node_update_at]
    | cons j q => simp [g_node_at, g_node_update_at, hf]
  | cons i p ih =>
    unfold g_node_update_at
    cases hc : n.children[i]? with
    | none =>
      simp only
      split
      · rename_i hq
        subst hq
        simp [g_node_at, hc]
      · rfl
    | some c =>
      cases q with
      | nil => simp [g_node_at]
      | cons j q =>
        simp only [g_node_at, GNode.children_mk]
        by_cases hji : j = i
        · subst hji
          have hlt : j < n.children.length := (List.getElem?_eq_some_iff.mp hc).1
          rw [List.getElem?_set_self hlt]
          simp only [hc, List.cons.injEq, true_and]
          exact ih q c
        · rw [List.getElem?_set_ne (Ne.symm hji)]
          simp [hji]

theorem g_node_at_update_at_self (f : GNode → GNode) (p : List Nat) (n : GNode) :
    g_node_at p (g_node_update_at f p n) = (g_node_at p n).map f := by
  induction p generalizing n with
  | nil => simp [g_node_at, g_node_update_at]
  | cons i p ih =>
    unfold g_node_update_at
    cases hc : n.children[i]? with
    | none => simp [g_node_at, hc]
    | some c =>
      have hlt : i < n.children.length := (List.getElem?_eq_some_iff.mp hc).1
      simp only [g_node_at, GNode.children_mk, List.getElem?_set_self hlt, hc]
      exact ih c

theorem unref_node_body_children (n : GNode) : (unref_node_body n).children = n.children := by
  unfold unref_node_body
  cases n.data <;> rfl

/-- C10: `thunar_tree_view_model_unref_node` touches nothing but the tree; on the root,
and on a dummy node, it changes nothing at all; on a realized node other than the
root it replaces the item by the same item with `ref_count` one less (whatever the
count was), the node keeps its children, and at every other path of the tree the
same item is found as before. -/
theorem unref_node_only_decrements_ref_count (store : ThunarTreeViewModel) (iter : List Nat) :
    thunar_tree_view_model_unref_node store iter =
      { store with root := (thunar_tree_view_model_unref_node store iter).root }
    ∧ (iter = [] → thunar_tree_view_model_unref_node store iter = store)
    ∧ (∀ node, g_node_at iter store.root = some node → node.data = none →
        thunar_tree_view_model_unref_node store iter = store)
    ∧ (∀ item children, iter ≠ [] →
        g_node_at iter store.root = some (GNode.mk (some item) children) →
        g_node_at iter (thunar_tree_view_model_unref_node store iter).root =
          some (GNode.mk (some { item with ref_count := item.ref_count - 1 }) children)
        ∧ ∀ q, q ≠ iter →
          (g_node_at q (thunar_tree_view_model_unref_node store iter).root).map GNode.data =
            (g_node_at q store.root).map GNode.data) := by
  refine ⟨?_, ?_, ?_, ?_⟩
  · unfold thunar_tree_view_model_unref_node
    split <;> rfl
  · intro h
    subst h
    rfl
  · intro node hnode hdata
    unfold thunar_tree_view_model_unref_node
    split
    · rfl
    · rw [g_node_update_at_eq_self unref_node_body iter store.root node hnode]
      unfold unref_node_body
      rw [hdata]
  · intro item children hne hnode
    have hroot : (thunar_tree_view_model_unref_node store iter).root =
        g_node_update_at unref_node_body iter store.root := by
      unfold thunar_tree_view_model_unref_node
      cases iter with
      | nil => exact absurd rfl hne
      | cons i p => rfl
    rw [hroot]
    constructor
    · rw [g_node_at_update_at_self, hnode]
      rfl
    · intro q hq
      rw [g_node_at_update_at_data unref_node_body unref_node_body_children]
      simp [hq]

/-- Witness for C10: releasing the one reference on the directory d of `sample_tree`
brings its count to zero and leaves its folder handle and its child in place. -/
theorem unref_node_only_decrements_ref_count_witness :
    g_node_at [0] (thunar_tree_view_model_unref_node
        { sample_model with root := sample_tree } [0]).root =
      some (GNode.mk (some { file := dir_d, ref_count := 0, folder := some 7 })
        [leaf_of file_a]) :=
  ((unref_node_only_decrements_ref_count { sample_model with root := sample_tree } [0]).2.2.2
    { file := dir_d, ref_count := 1, folder := some 7 } [leaf_of file_a] (by simp) rfl).1

/-! ## Induction over trees -/

/-- Induction on a tree: a property holds of every node once it holds of a node
whenever it holds of all its children. -/
theorem GNode.induction_on {P : GNode → Prop}
    (h : ∀ data children, (∀ c ∈ children, P c) → P (GNode.mk data children))
    (node : GNode) : P node :=
  @GNode.rec P (fun cs => ∀ c ∈ cs, P c)
    (fun data children ih => h data children ih)
    (fun c hc => absurd hc (List.not_mem_nil c))
    (fun head tail ih1 ih2 c hc => by
      rcases List.mem_cons.mp hc with rfl | hc
      · exact ih1
      · exact ih2 c hc)
    node

theorem traverse_sort_list_eq_map (store : ThunarTreeViewModel) (cs : List GNode) :
    traverse_sort_list store cs = cs.map (traverse_sort store) := by
  induction cs with
  | nil => rfl
  | cons c cs ih => simp [traverse_sort_list, ih]

theorem cleanup_pre_order_list_eq_map (cs : List GNode) :
    cleanup_pre_order_list cs = cs.map cleanup_pre_order := by
  induction cs with
  | nil => rfl
  | cons c cs ih => simp [cleanup_pre_order_list, ih]

/-! ## Shapes of child lists -/

theorem ShapeOk.perm {cs cs' : List GNode} (hp : cs.Perm cs') (h : ShapeOk cs) : ShapeOk cs' := by
  rcases h with h | ⟨c, h, hc⟩ | h
  · subst h
    exact Or.inl (List.Perm.nil_eq hp).symm
  · subst h
    exact Or.inr (Or.inl ⟨c, List.perm_singleton.mp hp.symm, hc⟩)
  · exact Or.inr (Or.inr (fun c hc => h c (hp.symm.subset hc)))

theorem ShapeOk.sublist {cs cs' : List GNode} (hs : cs'.Sublist cs) (h : ShapeOk cs) :
    ShapeOk cs' := by
  rcases h with h | ⟨c, h, hc⟩ | h
  · subst h
    exact Or.inl (List.sublist_nil.mp hs)
  · subst h
    cases cs' with
    | nil => exact Or.inl rfl
    | cons x xs =>
      have hl := hs.length_le
      have hx : x ∈ [c] := hs.subset (List.mem_cons_self x xs)
      have hxs : xs = [] := by
        cases xs with
        | nil => rfl
        | cons y ys => simp at hl
      subst hxs
      rw [List.mem_singleton] at hx
      subst hx
      exact Or.inr (Or.inl ⟨x, rfl, hc⟩)
  · exact Or.inr (Or.inr (fun c hc => h c (hs.subset hc)))

theorem ShapeOk.map {cs : List GNode} (f : GNode → GNode)
    (hf : ∀ c ∈ cs, (f c).data.isSome = c.data.isSome) (h : ShapeOk cs) :
    ShapeOk (cs.map f) := by
  rcases h with h | ⟨c, h, hc⟩ | h
  · subst h
    exact Or.inl rfl
  · subst h
    refine Or.inr (Or.inl ⟨f c, rfl, ?_⟩)
    have := hf c (List.mem_singleton.mpr rfl)
    rw [hc] at this
    cases hd : (f c).data with
    | none => rfl
    | some it => simp [hd] at this
  · refine Or.inr (Or.inr ?_)
    intro c hc
    obtain ⟨x, hx, rfl⟩ := List.mem_map.mp hc
    rw [hf x hx]
    exact h x hx

theorem ShapeOk.of_realized {cs : List GNode} (h : AllRealized cs) : ShapeOk cs :=
  Or.inr (Or.inr h)

theorem TreeOk.shape {node : GNode} (h : TreeOk node) : ShapeOk node.children := by
  cases h with
  | mk data children hs hc => exact hs

theorem TreeOk.child {node : GNode} (h : TreeOk node) : ∀ c ∈ node.children, TreeOk c := by
  cases h with
  | mk data children hs hc => exact hc

theorem TreeOk.of_children (node : GNode) (hs : ShapeOk node.children)
    (hc : ∀ c ∈ node.children, TreeOk c) : TreeOk node := by
  cases node with
  | mk data children => exact TreeOk.mk data children hs hc

theorem TreeOk.dummy : TreeOk (GNode.mk none []) :=
  TreeOk.mk none [] (Or.inl rfl) (fun c hc => absurd hc (List.not_mem_nil c))

/-! ## The node-level operations keep the invariant -/

theorem TreeOk.of_perm {node : GNode} (data : Option ThunarTreeViewModelItem)
    {cs : List GNode} (hp : node.children.Perm cs) (h : TreeOk node) :
    TreeOk (GNode.mk data cs) :=
  TreeOk.mk data cs (h.shape.perm hp) (fun c hc => h.child c (hp.symm.subset hc))

theorem TreeOk.of_sublist {node : GNode} (data : Option ThunarTreeViewModelItem)
    {cs : List GNode} (hs : cs.Sublist node.children) (h : TreeOk node) :
    TreeOk (GNode.mk data cs) :=
  TreeOk.mk data cs (h.shape.sublist hs) (fun c hc => h.child c (hs.subset hc))

theorem insert_dummy_data (node : GNode) :
    (thunar_tree_view_model_node_insert_dummy node).data = node.data := by
  unfold thunar_tree_view_model_node_insert_dummy
  split <;> rfl

theorem insert_dummy_treeOk (node : GNode) (h : TreeOk node) :
    TreeOk (thunar_tree_view_model_node_insert_dummy node) := by
  unfold thunar_tree_view_model_node_insert_dummy
  split
  · rename_i h0
    have hnil : node.children = [] := List.length_eq_zero.mp h0
    rw [hnil]
    refine TreeOk.mk _ _ (Or.inr (Or.inl ⟨GNode.mk none [], rfl, rfl⟩)) ?_
    intro c hc
    simp only [List.nil_append, List.mem_singleton] at hc
    subst hc
    exact TreeOk.dummy
  · exact h

theorem drop_dummy_data (node : GNode) :
    (thunar_tree_view_model_node_drop_dummy node).data = node.data := by
  unfold thunar_tree_view_model_node_drop_dummy
  split <;> rfl

theorem drop_dummy_treeOk (node : GNode) (h : TreeOk node) :
    TreeOk (thunar_tree_view_model_node_drop_dummy node) := by
  unfold thunar_tree_view_model_node_drop_dummy
  split
  · exact TreeOk.mk _ _ (Or.inl rfl) (fun c hc => absurd hc (List.not_mem_nil c))
  · exact h

theorem add_child_data (node : GNode) (file : ThunarFile) :
    (thunar_tree_view_model_add_child node file).data = node.data := by
  unfold thunar_tree_view_model_add_child
  simp only
  split
  · split <;> rfl
  · rfl

theorem new_child_node_treeOk (file : ThunarFile) : TreeOk (new_child_node file) := by
  unfold new_child_node
  split
  · exact insert_dummy_treeOk _
      (TreeOk.mk _ _ (Or.inl rfl) (fun c hc => absurd hc (List.not_mem_nil c)))
  · exact TreeOk.mk _ _ (Or.inl rfl) (fun c hc => absurd hc (List.not_mem_nil c))

theorem has_dummy_iff (node : GNode) :
    G_NODE_HAS_DUMMY node = true ↔ ∃ c, node.children = [c] ∧ c.data = none := by
  unfold G_NODE_HAS_DUMMY
  constructor
  · intro h
    split at h
    · rename_i c hc
      refine ⟨c, hc, ?_⟩
      cases hd : c.data with
      | none => rfl
      | some it => simp [hd] at h
    · exact absurd h (by simp)
  · rintro ⟨c, hc, hd⟩
    rw [hc]
    simp [hd]

theorem add_child_treeOk (node : GNode) (file : ThunarFile) (h : TreeOk node) :
    TreeOk (thunar_tree_view_model_add_child node file) := by
  by_cases hd : G_NODE_HAS_DUMMY node = true
  · obtain ⟨c, hc, hcd⟩ := (has_dummy_iff node).mp hd
    have hct : TreeOk c := h.child c (by rw [hc]; exact List.mem_singleton.mpr rfl)
    unfold thunar_tree_view_model_add_child
    simp only [hd, if_true, hc]
    have hinner : TreeOk (GNode.mk (some (thunar_tree_view_model_item_new_with_file file))
        c.children) := TreeOk.mk _ _ hct.shape hct.child
    refine TreeOk.mk _ _ (Or.inr (Or.inr ?_)) ?_
    · intro x hx
      rw [List.mem_singleton] at hx
      subst hx
      split
      · rw [insert_dummy_data]; rfl
      · rfl
    · intro x hx
      rw [List.mem_singleton] at hx
      subst hx
      split
      · exact insert_dummy_treeOk _ hinner
      · exact hinner
  · have hd' : G_NODE_HAS_DUMMY node = false := by
      cases hb : G_NODE_HAS_DUMMY node with
      | true => exact absurd hb hd
      | false => rfl
    rw [add_child_of_no_dummy node file hd']
    refine TreeOk.mk _ _ (Or.inr (Or.inr ?_)) ?_
    · intro x hx
      rcases List.mem_cons.mp hx with rfl | hx
      · rw [new_child_node_data]; rfl
      · rcases h.shape with h0 | ⟨c, hc, hcd⟩ | hr
        · rw [h0] at hx; exact absurd hx (List.not_mem_nil x)
        · exact absurd ((has_dummy_iff node).mpr ⟨c, hc, hcd⟩) hd
        · exact hr x hx
    · intro x hx
      rcases List.mem_cons.mp hx with rfl | hx
      · exact new_child_node_treeOk file
      · exact h.child x hx

theorem foldl_add_child_treeOk (files : List ThunarFile) (node : GNode) (h : TreeOk node) :
    TreeOk (files.foldl thunar_tree_view_model_add_child node) := by
  induction files generalizing node with
  | nil => exact h
  | cons f fs ih => exact ih _ (add_child_treeOk node f h)

theorem foldl_add_child_data (files : List ThunarFile) (node : GNode) :
    (files.foldl thunar_tree_view_model_add_child node).data = node.data := by
  induction files generalizing node with
  | nil => rfl
  | cons f fs ih => rw [List.foldl_cons, ih, add_child_data]

theorem sort_treeOk (store : ThunarTreeViewModel) (node : GNode) (h : TreeOk node) :
    TreeOk (thunar_tree_view_model_sort store node).1 := by
  have hp := sort_children_perm store node
  have := TreeOk.of_perm (thunar_tree_view_model_sort store node).1.data hp.symm h
  rw [GNode.eta] at this
  exact this

theorem add_children_treeOk (model : ThunarTreeViewModel) (node : GNode)
    (files : List ThunarFile) (h : TreeOk node) :
    TreeOk (thunar_tree_view_model_add_children model node files) := by
  unfold thunar_tree_view_model_add_children
  split
  · exact h
  · exact sort_treeOk model _ (foldl_add_child_treeOk files node h)

theorem add_children_data (model : ThunarTreeViewModel) (node : GNode)
    (files : List ThunarFile) :
    (thunar_tree_view_model_add_children model node files).data = node.data := by
  unfold thunar_tree_view_model_add_children
  split
  · rfl
  · rw [sort_data, foldl_add_child_data]

theorem foldl_remove_sublist (files : List ThunarFile) (cs : List GNode) :
    (files.foldl remove_child_for_file cs).Sublist cs := by
  induction files generalizing cs with
  | nil => exact List.Sublist.refl _
  | cons f fs ih =>
    rw [List.foldl_cons]
    exact (ih _).trans (List.eraseP_sublist _)

theorem item_files_removed_data (node : GNode) (files : List ThunarFile) (folder : Nat) :
    (thunar_tree_view_model_item_files_removed node files folder).data.isSome
      = node.data.isSome := by
  unfold thunar_tree_view_model_item_files_removed
  split
  · rfl
  · rename_i item hitem
    split
    · rfl
    · rw [hitem]; rfl

theorem item_files_removed_treeOk (node : GNode) (files : List ThunarFile) (folder : Nat)
    (h : TreeOk node) :
    TreeOk (thunar_tree_view_model_item_files_removed node files folder) := by
  unfold thunar_tree_view_model_item_files_removed
  split
  · exact h
  · split
    · exact h
    · exact TreeOk.of_sublist _ (foldl_remove_sublist files node.children) h

theorem files_removed_loop_treeOk (files : List ThunarFile) (root : GNode)
    (hidden : List ThunarFile) (h : TreeOk root) :
    TreeOk (files_removed_loop files (root, hidden)).1 := by
  induction files generalizing root hidden with
  | nil => exact h
  | cons f fs ih =>
    unfold files_removed_loop
    exact ih _ _ (TreeOk.of_sublist _ (List.eraseP_sublist _) h)

theorem insert_files_treeOk (store : ThunarTreeViewModel) (files : List ThunarFile)
    (h : TreeOk store.root) : TreeOk (thunar_tree_view_model_insert_files store files).root := by
  unfold thunar_tree_view_model_insert_files
  simp only [insert_files_loop_eq]
  exact sort_treeOk store _ (foldl_add_child_treeOk _ _ h)

theorem cleanup_pre_order_data (node : GNode) :
    (cleanup_pre_order node).data.isSome = node.data.isSome := by
  cases node with
  | mk data children =>
    unfold cleanup_pre_order
    cases data with
    | none => rfl
    | some item =>
      simp only
      split
      · rename_i hcond
        unfold thunar_tree_view_model_node_traverse_cleanup
        simp only [GNode.data_mk, hcond, if_true]
        rw [insert_dummy_data]; rfl
      · rfl

theorem cleanup_pre_order_treeOk (node : GNode) (h : TreeOk node) :
    TreeOk (cleanup_pre_order node) := by
  induction node using GNode.induction_on with
  | h data children ih =>
    have hmap : TreeOk (GNode.mk data (cleanup_pre_order_list children)) := by
      rw [cleanup_pre_order_list_eq_map]
      refine TreeOk.mk _ _ (h.shape.map _ (fun c _ => cleanup_pre_order_data c)) ?_
      intro c hc
      obtain ⟨x, hx, rfl⟩ := List.mem_map.mp hc
      exact ih x hx (h.child x hx)
    unfold cleanup_pre_order
    cases data with
    | none => exact hmap
    | some item =>
      simp only
      split
      · rename_i hcond
        unfold thunar_tree_view_model_node_traverse_cleanup
        simp only [GNode.data_mk, hcond, if_true]
        exact insert_dummy_treeOk _
          (TreeOk.mk _ _ (Or.inl rfl) (fun c hc => absurd hc (List.not_mem_nil c)))
      · exact hmap

theorem traverse_sort_data (store : ThunarTreeViewModel) (node : GNode) :
    (traverse_sort store node).data = node.data := by
  cases node with
  | mk data children =>
    unfold traverse_sort
    rw [sort_data]
    rfl

theorem traverse_sort_treeOk (store : ThunarTreeViewModel) (node : GNode) (h : TreeOk node) :
    TreeOk (traverse_sort store node) := by
  induction node using GNode.induction_on with
  | h data children ih =>
    unfold traverse_sort
    refine sort_treeOk store _ ?_
    rw [traverse_sort_list_eq_map]
    refine TreeOk.mk _ _ (h.shape.map _ (fun c _ => by rw [traverse_sort_data])) ?_
    intro c hc
    obtain ⟨x, hx, rfl⟩ := List.mem_map.mp hc
    exact ih x hx (h.child x hx)

theorem cons_eraseIdx_perm {α : Type} (l : List α) (i : Nat) (a : α) (h : l[i]? = some a) :
    (a :: l.eraseIdx i).Perm l := by
  induction l generalizing i with
  | nil => simp at h
  | cons x xs ih =>
    cases i with
    | zero =>
      simp only [List.getElem?_cons_zero, Option.some.injEq] at h
      subst h
      exact List.Perm.refl _
    | succ i =>
      simp only [List.getElem?_cons_succ] at h
      simp only [List.eraseIdx_cons_succ]
      exact (List.Perm.swap _ _ _).trans ((ih i h).cons x)

theorem insert_child_node_sorted_loop_perm (model : ThunarTreeViewModel) (child : GNode)
    (cs : List GNode) (pos : Nat) (hne : cs ≠ []) :
    (insert_child_node_sorted_loop model child cs pos).1.Perm (child :: cs) := by
  induction cs generalizing pos with
  | nil => exact absurd rfl hne
  | cons lp rest ih =>
    cases rest with
    | nil =>
      simp only [insert_child_node_sorted_loop]
      exact List.Perm.swap _ _ _
    | cons next rest =>
      unfold insert_child_node_sorted_loop
      split
      · exact ((ih (pos + 1) (by simp)).cons lp).trans (List.Perm.swap _ _ _)
      · exact List.Perm.refl _

theorem insert_child_node_sorted_perm (model : ThunarTreeViewModel) (parent child : GNode) :
    (thunar_tree_view_model_insert_child_node_sorted model parent child).1.children.Perm
      (child :: parent.children) := by
  unfold thunar_tree_view_model_insert_child_node_sorted
  split
  · rename_i h
    rw [h]
    exact List.Perm.refl _
  · rename_i lp rest h
    rw [h]
    exact insert_child_node_sorted_loop_perm model child (lp :: rest) 0 (by simp)

theorem insert_child_node_sorted_data (model : ThunarTreeViewModel) (parent child : GNode) :
    (thunar_tree_view_model_insert_child_node_sorted model parent child).1.data
      = parent.data := by
  unfold thunar_tree_view_model_insert_child_node_sorted
  split <;> rfl

theorem reorder_if_req_children_perm (model : ThunarTreeViewModel) (parent : GNode)
    (node : Nat) :
    (thunar_tree_view_model_reorder_if_req model parent node).1.children.Perm
      parent.children := by
  unfold thunar_tree_view_model_reorder_if_req
  split
  · exact List.Perm.refl _
  · rename_i child hchild
    have hp : (thunar_tree_view_model_insert_child_node_sorted model
        (thunar_tree_view_model_unlink_child parent node).1 child).1.children.Perm
        parent.children := by
      refine (insert_child_node_sorted_perm model _ child).trans ?_
      simp only [thunar_tree_view_model_unlink_child, GNode.children_mk]
      exact cons_eraseIdx_perm _ _ _ hchild
    split
    · exact List.Perm.refl _
    · dsimp only
      split <;> exact hp

/-! ## The visibility walk keeps the invariant -/

theorem visible_restore_loop_treeOk (show_hidden : Bool) (files : List ThunarFile)
    (node : GNode) (kept : List ThunarFile) (h : TreeOk node) :
    TreeOk (visible_restore_loop show_hidden files node kept).1 := by
  induction files generalizing node kept with
  | nil => exact h
  | cons f fs ih =>
    unfold visible_restore_loop
    split
    · exact ih _ _ (add_child_treeOk node f h)
    · exact ih _ _ h

theorem node_traverse_visible_good (model : ThunarTreeViewModel) (node : GNode)
    (h : TreeOk node) :
    GoodVisit node (thunar_tree_view_model_node_traverse_visible model node) := by
  unfold thunar_tree_view_model_node_traverse_visible
  split
  · exact ⟨h, rfl⟩
  · rename_i item hitem
    split
    · show node.data.isSome = true
      rw [hitem]; rfl
    · split
      · have hloop := visible_restore_loop_treeOk model.show_hidden item.invisible_children
          node [] h
        have hnode : TreeOk (GNode.mk (some { item with invisible_children :=
            (visible_restore_loop model.show_hidden item.invisible_children node []).2 })
            (visible_restore_loop model.show_hidden item.invisible_children node
              []).1.children) := TreeOk.mk _ _ hloop.shape hloop.child
        dsimp only
        split
        · exact ⟨hnode, by rw [hitem]; rfl⟩
        · exact ⟨sort_treeOk model _ hnode, by rw [sort_data, hitem]; rfl⟩
      · exact ⟨h, rfl⟩

theorem visible_children_loop_mem (visit : GNode → Visited) (cs : List GNode)
    (hv : ∀ c ∈ cs, GoodVisit c (visit c)) :
    ∀ c' ∈ (visible_children_loop visit cs).1,
      TreeOk c' ∧ ∃ c ∈ cs, c'.data.isSome = c.data.isSome := by
  induction cs with
  | nil =>
    intro c' hc'
    exact absurd hc' (List.not_mem_nil c')
  | cons c cs ih =>
    intro c' hc'
    have ih' := ih (fun x hx => hv x (List.mem_cons_of_mem c hx))
    have hvc := hv c (List.mem_cons_self c cs)
    unfold visible_children_loop at hc'
    cases hvis : visit c with
    | removed file =>
      simp only [hvis] at hc'
      obtain ⟨h1, x, hx, h2⟩ := ih' c' hc'
      exact ⟨h1, x, List.mem_cons_of_mem c hx, h2⟩
    | kept node =>
      simp only [hvis, List.mem_cons] at hc'
      rw [hvis] at hvc
      rcases hc' with rfl | hc'
      · exact ⟨hvc.1, c, List.mem_cons_self c cs, hvc.2⟩
      · obtain ⟨h1, x, hx, h2⟩ := ih' c' hc'
        exact ⟨h1, x, List.mem_cons_of_mem c hx, h2⟩

theorem visible_children_loop_shape (visit : GNode → Visited) (cs : List GNode)
    (hv : ∀ c ∈ cs, GoodVisit c (visit c)) (hs : ShapeOk cs) :
    ShapeOk (visible_children_loop visit cs).1 := by
  rcases hs with h | ⟨c, h, hc⟩ | h
  · subst h
    exact Or.inl rfl
  · subst h
    have hvc := hv c (List.mem_singleton.mpr rfl)
    cases hvis : visit c with
    | removed file =>
      rw [hvis] at hvc
      have hvc' : c.data.isSome = true := hvc
      rw [hc] at hvc'
      exact absurd hvc' (by simp)
    | kept node =>
      rw [hvis] at hvc
      have h2 : node.data.isSome = c.data.isSome := hvc.2
      refine Or.inr (Or.inl ⟨node, ?_, ?_⟩)
      · simp [visible_children_loop, hvis]
      · rw [hc] at h2
        cases hd : node.data with
        | none => rfl
        | some it => simp [hd] at h2
  · refine Or.inr (Or.inr ?_)
    intro c' hc'
    obtain ⟨_, x, hx, h2⟩ := visible_children_loop_mem visit cs hv c' hc'
    rw [h2]
    exact h x hx

theorem stash_invisible_isSome (stash : List ThunarFile)
    (data : Option ThunarTreeViewModelItem) :
    (stash_invisible stash data).isSome = data.isSome := by
  cases data <;> rfl

theorem visible_pre_order_good (model : ThunarTreeViewModel) (fuel : Nat) (node : GNode)
    (h : TreeOk node) : GoodVisit node (visible_pre_order model fuel node) := by
  induction fuel generalizing node with
  | zero => exact ⟨h, rfl⟩
  | succ fuel ih =>
    unfold visible_pre_order
    have hcb := node_traverse_visible_good model node h
    cases hvis : thunar_tree_view_model_node_traverse_visible model node with
    | removed file =>
      rw [hvis] at hcb
      exact hcb
    | kept node1 =>
      rw [hvis] at hcb
      obtain ⟨h1, h2⟩ := hcb
      simp only
      split
      · exact ⟨h1, h2⟩
      · have hv : ∀ c ∈ node1.children, GoodVisit c (visible_pre_order model fuel c) :=
          fun c hc => ih c (h1.child c hc)
        refine ⟨TreeOk.mk _ _ (visible_children_loop_shape _ _ hv h1.shape)
          (fun c' hc' => (visible_children_loop_mem _ _ hv c' hc').1), ?_⟩
        simp only [GNode.data_mk]
        rw [stash_invisible_isSome]
        exact h2

theorem refilter_treeOk (model : ThunarTreeViewModel) (h : TreeOk model.root) :
    TreeOk (thunar_tree_view_model_refilter model).root := by
  unfold thunar_tree_view_model_refilter
  have hg := visible_pre_order_good model (g_node_max_height model.root) model.root h
  cases hvis : visible_pre_order model (g_node_max_height model.root) model.root with
  | removed file => exact h
  | kept root =>
    rw [hvis] at hg
    exact hg.1

theorem set_show_hidden_treeOk (store : ThunarTreeViewModel) (show_hidden : Bool)
    (h : TreeOk store.root) :
    TreeOk (thunar_tree_view_model_set_show_hidden store show_hidden).root := by
  unfold thunar_tree_view_model_set_show_hidden
  split
  · have hr := refilter_treeOk { store with show_hidden := show_hidden } h
    dsimp only
    split
    · exact traverse_sort_treeOk _ _ (foldl_add_child_treeOk _ _ hr)
    · exact hr
  · exact h

theorem g_node_update_at_data (f : GNode → GNode)
    (hd : ∀ n, (f n).data.isSome = n.data.isSome) (p : List Nat) (n : GNode) :
    (g_node_update_at f p n).data.isSome = n.data.isSome := by
  cases p with
  | nil => exact hd n
  | cons i p =>
    unfold g_node_update_at
    split <;> rfl

theorem g_node_update_at_treeOk (f : GNode → GNode)
    (hf : ∀ n, TreeOk n → TreeOk (f n))
    (hd : ∀ n, (f n).data.isSome = n.data.isSome) (p : List Nat) (n : GNode)
    (h : TreeOk n) : TreeOk (g_node_update_at f p n) := by
  induction p generalizing n with
  | nil => exact hf n h
  | cons i p ih =>
    unfold g_node_update_at
    cases hc : n.children[i]? with
    | none => exact h
    | some c =>
      simp only
      have hlt : i < n.children.length := (List.getElem?_eq_some_iff.mp hc).1
      have hcm : c ∈ n.children := List.getElem?_mem hc
      refine TreeOk.mk _ _ ?_ ?_
      · rcases h.shape with h0 | ⟨x, hx, hxd⟩ | hr
        · rw [h0] at hlt; simp at hlt
        · rw [hx] at hc hlt ⊢
          have hi : i = 0 := by simp at hlt; exact hlt
          subst hi
          simp only [List.getElem?_cons_zero, Option.some.injEq] at hc
          subst hc
          refine Or.inr (Or.inl ⟨g_node_update_at f p x, rfl, ?_⟩)
          have := g_node_update_at_data f hd p x
          rw [hxd] at this
          cases hdd : (g_node_update_at f p x).data with
          | none => rfl
          | some it => simp [hdd] at this
        · refine Or.inr (Or.inr ?_)
          intro x hx
          rcases List.mem_or_eq_of_mem_set hx with hx | hx
          · exact hr x hx
          · rw [hx, g_node_update_at_data f hd p c]
            exact hr c hcm
      · intro x hx
        rcases List.mem_or_eq_of_mem_set hx with hx | hx
        · exact h.child x hx
        · rw [hx]
          exact ih c (h.child c hcm)

theorem unref_node_body_treeOk (n : GNode) (h : TreeOk n) : TreeOk (unref_node_body n) := by
  unfold unref_node_body
  split
  · exact TreeOk.mk _ _ h.shape h.child
  · exact h

theorem unref_node_body_data (n : GNode) :
    (unref_node_body n).data.isSome = n.data.isSome := by
  unfold unref_node_body
  split
  · rename_i item hitem
    rw [hitem]; rfl
  · rfl

theorem reorder_if_req_data (model : ThunarTreeViewModel) (parent : GNode) (node : Nat) :
    (thunar_tree_view_model_reorder_if_req model parent node).1.data = parent.data := by
  unfold thunar_tree_view_model_reorder_if_req
  split
  · rfl
  · split
    · rfl
    · dsimp only
      split <;> exact insert_child_node_sorted_data model _ _

theorem step_treeOk (m m' : ThunarTreeViewModel) (hs : Step m m') (h : TreeOk m.root) :
    TreeOk m'.root := by
  cases hs with
  | add_child path file =>
    exact g_node_update_at_treeOk _ (fun n hn => add_child_treeOk n file hn)
      (fun n => by rw [add_child_data]) path _ h
  | add_children path files =>
    exact g_node_update_at_treeOk _ (fun n hn => add_children_treeOk m n files hn)
      (fun n => by rw [add_children_data]) path _ h
  | insert_files files => exact insert_files_treeOk m files h
  | files_removed files => exact files_removed_loop_treeOk files _ _ h
  | item_files_removed path files folder =>
    exact g_node_update_at_treeOk _ (fun n hn => item_files_removed_treeOk n files folder hn)
      (fun n => item_files_removed_data n files folder) path _ h
  | node_insert_dummy path =>
    exact g_node_update_at_treeOk _ insert_dummy_treeOk
      (fun n => by rw [insert_dummy_data]) path _ h
  | node_drop_dummy path =>
    exact g_node_update_at_treeOk _ drop_dummy_treeOk
      (fun n => by rw [drop_dummy_data]) path _ h
  | cleanup => exact cleanup_pre_order_treeOk _ h
  | refilter => exact refilter_treeOk m h
  | set_show_hidden show_hidden => exact set_show_hidden_treeOk m show_hidden h
  | sort path =>
    exact g_node_update_at_treeOk _ (fun n hn => sort_treeOk m n hn)
      (fun n => by rw [sort_data]) path _ h
  | reorder_if_req path node =>
    refine g_node_update_at_treeOk _ (fun n hn => ?_) (fun n => ?_) path _ h
    · have := TreeOk.of_perm (thunar_tree_view_model_reorder_if_req m n node).1.data
        (reorder_if_req_children_perm m n node).symm hn
      rw [GNode.eta] at this
      exact this
    · rw [reorder_if_req_data]
  | unref_node iter =>
    unfold thunar_tree_view_model_unref_node
    split
    · exact h
    · exact g_node_update_at_treeOk _ unref_node_body_treeOk unref_node_body_data iter _ h
  | settings hroot =>
    rename_i hr
    rw [hr]; exact h

theorem reachable_treeOk (m : ThunarTreeViewModel) (h : Reachable m) : TreeOk m.root := by
  induction h with
  | init m hroot => rw [hroot]; exact TreeOk.dummy
  | step m m' _ hs ih => exact step_treeOk m m' hs ih

theorem TreeOk.at_path {n m : GNode} (p : List Nat) (h : TreeOk n)
    (hm : g_node_at p n = some m) : TreeOk m := by
  induction p generalizing n with
  | nil =>
    simp only [g_node_at, Option.some.injEq] at hm
    subst hm
    exact h
  | cons i p ih =>
    unfold g_node_at at hm
    cases hc : n.children[i]? with
    | none => simp [hc] at hm
    | some c =>
      simp only [hc] at hm
      exact ih (h.child c (List.getElem?_mem hc)) hm

/-- C6: in every state reached from a fresh model by add_child, add_children,
insert_files, files_removed, node_insert_dummy, node_drop_dummy, the cleanup sweep,
refilter (and set_show_hidden, sort, reorder_if_req, unref_node, changes of the
settings), every node of the tree has no children, or exactly one child that is a
dummy, or only realized children; a dummy child is never together with another
child. -/
theorem reachable_dummy_invariant (m : ThunarTreeViewModel) (h : Reachable m)
    (path : List Nat) (node : GNode) (hnode : g_node_at path m.root = some node) :
    (node.children = [] ∨ (∃ c, node.children = [c] ∧ c.data = none)
      ∨ AllRealized node.children)
    ∧ ∀ c ∈ node.children, c.data = none → node.children = [c] := by
  have hs : ShapeOk node.children := ((reachable_treeOk m h).at_path path hnode).shape
  refine ⟨hs, ?_⟩
  intro c hc hd
  rcases hs with h0 | ⟨x, hx, _⟩ | hr
  · rw [h0] at hc; exact absurd hc (List.not_mem_nil c)
  · rw [hx] at hc ⊢
    rw [List.mem_singleton.mp hc]
  · have := hr c hc
    rw [hd] at this
    exact absurd this (by simp)

/-- Witness for C6: the directory d is inserted into a fresh model; its node is
reached by the path 0 and holds exactly its dummy. -/
theorem reachable_dummy_invariant_witness :
    g_node_at [0] (thunar_tree_view_model_insert_files sample_model [dir_d]).root
      = some (GNode.mk (some (thunar_tree_view_model_item_new_with_file dir_d))
          [GNode.mk none []])
    ∧ ∀ c ∈ (GNode.mk (some (thunar_tree_view_model_item_new_with_file dir_d))
          [GNode.mk none []]).children,
        c.data = none →
        (GNode.mk (some (thunar_tree_view_model_item_new_with_file dir_d))
          [GNode.mk none []]).children = [c] :=
  ⟨rfl, (reachable_dummy_invariant (thunar_tree_view_model_insert_files sample_model [dir_d])
    (Reachable.step _ _ (Reachable.init sample_model rfl)
      (Step.insert_files sample_model [dir_d])) [0] _ rfl).2⟩

/-- C7 (the code at the failing input): with `show_hidden` off, the hidden file .h is
reported for the expanded directory d.  `thunar_tree_view_model_add_children` makes
it a child node of d and leaves the `invisible_children` of d empty, whereas
`thunar_tree_view_model_insert_files` on the root creates no node for the same file
and puts it on `store->hidden`. -/
theorem add_children_shows_hidden_entry :
    sample_model.show_hidden = false
    ∧ file_h.is_hidden = true
    ∧ thunar_tree_view_model_add_children sample_model expanded_dir [file_h]
      = GNode.mk
          (some { file := dir_d, ref_count := 1, folder := some 7, invisible_children := [] })
          [leaf_of file_h]
    ∧ (thunar_tree_view_model_insert_files sample_model [file_h]).root = GNode.mk none []
    ∧ (thunar_tree_view_model_insert_files sample_model [file_h]).hidden = [file_h] :=
  ⟨rfl, rfl, rfl, rfl, rfl⟩

/-! ## The callback of the visibility walk -/

theorem has_dummy_cons_new (data : Option ThunarTreeViewModelItem) (file : ThunarFile)
    (cs : List GNode) : G_NODE_HAS_DUMMY (GNode.mk data (new_child_node file :: cs)) = false := by
  unfold G_NODE_HAS_DUMMY
  cases cs with
  | nil => simp [new_child_node_data]
  | cons c cs => rfl

theorem foldl_add_child_no_dummy (files : List ThunarFile) (node : GNode)
    (h : G_NODE_HAS_DUMMY node = false) :
    files.foldl thunar_tree_view_model_add_child node =
      GNode.mk node.data ((files.reverse.map new_child_node) ++ node.children) := by
  induction files generalizing node with
  | nil => cases node; rfl
  | cons f fs ih =>
    rw [List.foldl_cons, add_child_of_no_dummy node f h, ih _ (has_dummy_cons_new _ _ _)]
    simp

theorem visible_restore_loop_eq (show_hidden : Bool) (files : List ThunarFile) (node : GNode)
    (kept : List ThunarFile) :
    visible_restore_loop show_hidden files node kept =
      ((files.filter (fun f => show_hidden || !f.is_hidden)).foldl
          thunar_tree_view_model_add_child node,
        kept.reverse ++ files.filter (fun f => !(show_hidden || !f.is_hidden))) := by
  induction files generalizing node kept with
  | nil => simp [visible_restore_loop]
  | cons f fs ih =>
    unfold visible_restore_loop
    cases show_hidden <;> cases hh : f.is_hidden <;>
      simp [ih, List.filter_cons, hh]

theorem node_traverse_visible_of_none (model : ThunarTreeViewModel) (node : GNode)
    (hd : node.data = none) :
    thunar_tree_view_model_node_traverse_visible model node = Visited.kept node := by
  unfold thunar_tree_view_model_node_traverse_visible
  rw [hd]

theorem node_traverse_visible_of_hidden (model : ThunarTreeViewModel) (node : GNode)
    (item : ThunarTreeViewModelItem) (hd : node.data = some item)
    (hf : (!model.show_hidden && item.file.is_hidden) = true) :
    thunar_tree_view_model_node_traverse_visible model node = Visited.removed item.file := by
  unfold thunar_tree_view_model_node_traverse_visible
  rw [hd]
  simp only [hf, if_true]

theorem node_traverse_visible_of_dummy (model : ThunarTreeViewModel) (node : GNode)
    (item : ThunarTreeViewModelItem) (hd : node.data = some item)
    (hf : (!model.show_hidden && item.file.is_hidden) = false)
    (hdum : G_NODE_HAS_DUMMY node = true) :
    thunar_tree_view_model_node_traverse_visible model node = Visited.kept node := by
  unfold thunar_tree_view_model_node_traverse_visible
  rw [hd]
  simp only [hf, hdum, Bool.false_eq_true, if_false, Bool.not_true]

theorem node_traverse_visible_of_shown (model : ThunarTreeViewModel) (node : GNode)
    (item : ThunarTreeViewModelItem) (hd : node.data = some item)
    (hf : (!model.show_hidden && item.file.is_hidden) = false)
    (hdum : G_NODE_HAS_DUMMY node = false) :
    ∃ node1, thunar_tree_view_model_node_traverse_visible model node = Visited.kept node1
      ∧ node1.data = some { item with invisible_children :=
          item.invisible_children.filter (fun f => !(model.show_hidden || !f.is_hidden)) }
      ∧ node1.children.Perm
          ((item.invisible_children.filter
            (fun f => model.show_hidden || !f.is_hidden)).map new_child_node ++ node.children)
      ∧ (item.invisible_children = [] → node1 = node) := by
  unfold thunar_tree_view_model_node_traverse_visible
  rw [hd]
  simp only [hf, hdum, Bool.false_eq_true, if_false, Bool.not_false, if_true]
  rw [visible_restore_loop_eq, foldl_add_child_no_dummy _ _ hdum]
  simp only [List.reverse_nil, List.nil_append, GNode.children_mk]
  have hperm : ((item.invisible_children.filter
      (fun f => model.show_hidden || !f.is_hidden)).reverse.map new_child_node
        ++ node.children).Perm
      ((item.invisible_children.filter
        (fun f => model.show_hidden || !f.is_hidden)).map new_child_node ++ node.children) :=
    List.Perm.append_right _ ((List.reverse_perm _).map _)
  split
  · rename_i hemp
    refine ⟨_, rfl, rfl, hperm, ?_⟩
    intro hnil
    rw [hnil]
    cases node with
    | mk data children =>
      simp only [GNode.data_mk] at hd
      subst hd
      simp only [List.filter_nil, List.reverse_nil, List.map_nil, List.nil_append,
        GNode.children_mk]
      cases item
      simp only at hnil
      subst hnil
      rfl
  · rename_i hemp
    refine ⟨_, rfl, ?_, ?_, ?_⟩
    · rw [sort_data]; rfl
    · exact (sort_children_perm model _).trans hperm
    · intro hnil
      rw [hnil] at hemp
      exact absurd rfl hemp

/-! ## The sibling loop and the walk, one level at a time -/

theorem visible_children_loop_mem_kept (visit : GNode → Visited) (cs : List GNode)
    (c' : GNode) :
    c' ∈ (visible_children_loop visit cs).1 ↔ ∃ c ∈ cs, visit c = Visited.kept c' := by
  induction cs with
  | nil => simp [visible_children_loop]
  | cons c cs ih =>
    unfold visible_children_loop
    cases hv : visit c with
    | removed file =>
      simp only [ih, List.mem_cons, exists_eq_or_imp, hv, false_or]
      simp
    | kept node =>
      simp only [List.mem_cons, ih, exists_eq_or_imp, hv, Visited.kept.injEq]
      constructor
      · rintro (h | h)
        · exact Or.inl h.symm
        · exact Or.inr h
      · rintro (h | h)
        · exact Or.inl h.symm
        · exact Or.inr h

theorem visible_children_loop_mem_removed (visit : GNode → Visited) (cs : List GNode)
    (f : ThunarFile) :
    f ∈ (visible_children_loop visit cs).2 ↔ ∃ c ∈ cs, visit c = Visited.removed f := by
  induction cs with
  | nil => simp [visible_children_loop]
  | cons c cs ih =>
    unfold visible_children_loop
    cases hv : visit c with
    | removed file =>
      rw [List.mem_append, ih, List.mem_singleton]
      simp only [List.mem_cons, exists_eq_or_imp, hv, Visited.removed.injEq]
      constructor
      · rintro (h | h)
        · exact Or.inr h
        · exact Or.inl h.symm
      · rintro (h | h)
        · exact Or.inr h.symm
        · exact Or.inl h
    | kept node =>
      simp only [ih, List.mem_cons, exists_eq_or_imp, hv, false_or]
      simp

theorem height_list_ge (cs : List GNode) (c : GNode) (hc : c ∈ cs) :
    g_node_max_height c ≤ g_node_max_height_list cs := by
  induction cs with
  | nil => exact absurd hc (List.not_mem_nil c)
  | cons x xs ih =>
    unfold g_node_max_height_list
    rcases List.mem_cons.mp hc with rfl | hc
    · exact Nat.le_max_left _ _
    · exact Nat.le_trans (ih hc) (Nat.le_max_right _ _)

theorem height_child_lt (n c : GNode) (hc : c ∈ n.children) :
    g_node_max_height c < g_node_max_height n := by
  cases n with
  | mk data children =>
    rw [g_node_max_height]
    exact Nat.lt_succ_of_le (height_list_ge children c hc)

theorem height_pos (n : GNode) : 0 < g_node_max_height n := by
  cases n with
  | mk data children =>
    unfold g_node_max_height
    exact Nat.succ_pos _

theorem visible_pre_order_dummy_leaf (model : ThunarTreeViewModel) (fuel : Nat) :
    visible_pre_order model fuel (GNode.mk none []) = Visited.kept (GNode.mk none []) := by
  cases fuel with
  | zero => rfl
  | succ fuel =>
    unfold visible_pre_order
    rw [node_traverse_visible_of_none model (GNode.mk none []) rfl]
    rfl

theorem stash_invisible_nil (data : Option ThunarTreeViewModelItem) :
    stash_invisible [] data = data := by
  cases data with
  | none => rfl
  | some item => rfl

theorem visible_pre_order_new_child (model : ThunarTreeViewModel) (fuel : Nat)
    (file : ThunarFile) (hf : (!model.show_hidden && file.is_hidden) = false) :
    visible_pre_order model fuel (new_child_node file) = Visited.kept (new_child_node file) := by
  cases fuel with
  | zero => rfl
  | succ fuel =>
    unfold visible_pre_order
    by_cases hdir : file.is_directory = true
    · have hnode : new_child_node file = GNode.mk
          (some (thunar_tree_view_model_item_new_with_file file)) [GNode.mk none []] := by
        unfold new_child_node thunar_tree_view_model_node_insert_dummy
        simp [hdir, g_node_n_children]
      rw [hnode, node_traverse_visible_of_dummy model
        (GNode.mk (some (thunar_tree_view_model_item_new_with_file file)) [GNode.mk none []])
        (thunar_tree_view_model_item_new_with_file file) rfl hf rfl]
      simp only [GNode.children_mk, List.isEmpty_cons, Bool.false_eq_true, if_false,
        visible_children_loop, visible_pre_order_dummy_leaf, GNode.data_mk, stash_invisible_nil]
    · have hnode : new_child_node file = GNode.mk
          (some (thunar_tree_view_model_item_new_with_file file)) [] := by
        unfold new_child_node
        simp [hdir]
      rw [hnode]
      obtain ⟨node1, h1, _, _, h4⟩ := node_traverse_visible_of_shown model
        (GNode.mk (some (thunar_tree_view_model_item_new_with_file file)) [])
        (thunar_tree_view_model_item_new_with_file file) rfl hf rfl
      rw [h1, h4 rfl]
      rfl

theorem filtered_out_eq (model : ThunarTreeViewModel) (n : GNode)
    (item : ThunarTreeViewModelItem) (hd : n.data = some item) :
    filtered_out model n = (!model.show_hidden && item.file.is_hidden) := by
  unfold filtered_out
  rw [hd]

theorem visible_pre_order_succ_removed (model : ThunarTreeViewModel) (fuel : Nat) (n : GNode)
    (item : ThunarTreeViewModelItem) (hd : n.data = some item)
    (hf : filtered_out model n = true) :
    visible_pre_order model (fuel + 1) n = Visited.removed item.file := by
  unfold visible_pre_order
  rw [filtered_out_eq model n item hd] at hf
  rw [node_traverse_visible_of_hidden model n item hd hf]

theorem visible_pre_order_succ_of_kept (model : ThunarTreeViewModel) (fuel : Nat)
    (n node1 : GNode)
    (h : thunar_tree_view_model_node_traverse_visible model n = Visited.kept node1) :
    visible_pre_order model (fuel + 1) n =
      Visited.kept (if n.children.isEmpty then node1
        else GNode.mk
          (stash_invisible
            (visible_children_loop (visible_pre_order model fuel) node1.children).2 node1.data)
          (visible_children_loop (visible_pre_order model fuel) node1.children).1) := by
  rw [visible_pre_order, h]
  simp only
  split <;> rfl

theorem restored_files_shown (model : ThunarTreeViewModel) (n : GNode) (f : ThunarFile)
    (hf : f ∈ restored_files model n) : (!model.show_hidden && f.is_hidden) = false := by
  unfold restored_files at hf
  split at hf
  · split at hf
    · exact absurd hf (List.not_mem_nil f)
    · have := (List.mem_filter.mp hf).2
      cases hs : model.show_hidden <;> cases hh : f.is_hidden <;> simp [hs, hh] at this ⊢
  · exact absurd hf (List.not_mem_nil f)

/-- What the walk leaves of a node it keeps, one level down: the children are the
kept results of the old children and one fresh node per restored file; the file of
the node is unchanged; on its `invisible_children` are the files of the children
the walk removed and the old entries that were not restored. -/
theorem visible_pre_order_succ_kept (model : ThunarTreeViewModel) (fuel : Nat) (n : GNode)
    (hf : filtered_out model n = false) :
    ∃ n', visible_pre_order model (fuel + 1) n = Visited.kept n'
      ∧ (∀ c', c' ∈ n'.children ↔
          (∃ c ∈ n.children, visible_pre_order model fuel c = Visited.kept c')
            ∨ (∃ f ∈ restored_files model n, c' = new_child_node f))
      ∧ n'.data.map (fun it => it.file) = n.data.map (fun it => it.file)
      ∧ (∀ f, stashed_at [] n' f = true ↔
          ((∃ c ∈ n.children, visible_pre_order model fuel c = Visited.removed f)
              ∧ n.data.isSome = true)
            ∨ (∃ item, n.data = some item ∧ f ∈ item.invisible_children
                ∧ f ∉ restored_files model n)) := by
  -- the callback keeps the node; describe what it returns
  have hcb : ∃ node1, thunar_tree_view_model_node_traverse_visible model n = Visited.kept node1
      ∧ node1.children.Perm ((restored_files model n).map new_child_node ++ n.children)
      ∧ node1.data.map (fun it => it.file) = n.data.map (fun it => it.file)
      ∧ node1.data.isSome = n.data.isSome
      ∧ (∀ f, stashed_at [] node1 f = true ↔
          ∃ item, n.data = some item ∧ f ∈ item.invisible_children
            ∧ f ∉ restored_files model n) := by
    cases hd : n.data with
    | none =>
      refine ⟨n, node_traverse_visible_of_none model n hd, ?_, by rw [hd], by rw [hd], ?_⟩
      · simp [restored_files, hd]
      · intro f
        simp [stashed_at, hd]
    | some item =>
      rw [filtered_out_eq model n item hd] at hf
      cases hdum : G_NODE_HAS_DUMMY n with
      | true =>
        refine ⟨n, node_traverse_visible_of_dummy model n item hd hf hdum, ?_, by rw [hd],
          by rw [hd], ?_⟩
        · simp [restored_files, hd, hdum]
        · intro f
          simp [stashed_at, hd, restored_files, hdum]
      | false =>
        obtain ⟨node1, h1, h2, h3, _⟩ := node_traverse_visible_of_shown model n item hd hf hdum
        refine ⟨node1, h1, ?_, ?_, ?_, ?_⟩
        · simp only [restored_files, hd, hdum, Bool.false_eq_true, if_false]
          exact h3
        · rw [h2]; rfl
        · rw [h2]; rfl
        · intro f
          simp only [stashed_at, h2, restored_files, hd, hdum, Bool.false_eq_true, if_false,
            decide_eq_true_eq, List.mem_filter, Option.some.injEq, exists_eq_left']
          cases hs : (model.show_hidden || !f.is_hidden) <;> simp [hs]
  obtain ⟨node1, h1, h2, h3, h4, h5⟩ := hcb
  rw [visible_pre_order_succ_of_kept model fuel n node1 h1]
  refine ⟨_, rfl, ?_⟩
  by_cases hemp : n.children = []
  · simp only [hemp, List.isEmpty_nil, if_true]
    rw [hemp, List.append_nil] at h2
    refine ⟨?_, h3, ?_⟩
    · intro c'
      rw [h2.mem_iff]
      simp [List.mem_map, eq_comm]
    · intro f
      rw [h5]
      simp
  · have hemp' : n.children.isEmpty = false := by
      cases hc : n.children with
      | nil => exact absurd hc hemp
      | cons c cs => rfl
    simp only [hemp', Bool.false_eq_true, if_false]
    have hnew : ∀ f ∈ restored_files model n,
        visible_pre_order model fuel (new_child_node f) = Visited.kept (new_child_node f) :=
      fun f hf' => visible_pre_order_new_child model fuel f (restored_files_shown model n f hf')
    refine ⟨?_, ?_, ?_⟩
    · intro c'
      simp only [GNode.children_mk]
      rw [visible_children_loop_mem_kept]
      constructor
      · rintro ⟨c, hc, hv⟩
        rcases List.mem_append.mp (h2.subset hc) with hc | hc
        · obtain ⟨f, hf1, rfl⟩ := List.mem_map.mp hc
          rw [hnew f hf1] at hv
          injection hv with hv
          exact Or.inr ⟨f, hf1, hv.symm⟩
        · exact Or.inl ⟨c, hc, hv⟩
      · rintro (⟨c, hc, hv⟩ | ⟨f, hf1, rfl⟩)
        · exact ⟨c, h2.symm.subset (List.mem_append_right _ hc), hv⟩
        · exact ⟨new_child_node f,
            h2.symm.subset (List.mem_append_left _ (List.mem_map_of_mem _ hf1)), hnew f hf1⟩
    · simp only [GNode.data_mk]
      rw [← h3]
      cases node1.data <;> rfl
    · intro f
      have hst : stashed_at [] (GNode.mk (stash_invisible
          (visible_children_loop (visible_pre_order model fuel) node1.children).2 node1.data)
          (visible_children_loop (visible_pre_order model fuel) node1.children).1) f = true ↔
          (f ∈ (visible_children_loop (visible_pre_order model fuel) node1.children).2
              ∧ node1.data.isSome = true)
            ∨ stashed_at [] node1 f = true := by
        cases hd1 : node1.data with
        | none => simp [stashed_at, stash_invisible, hd1]
        | some it1 => simp [stashed_at, stash_invisible, hd1]
      rw [hst, h5, h4, visible_children_loop_mem_removed]
      constructor
      · rintro (⟨⟨c, hc, hv⟩, hsome⟩ | h)
        · rcases List.mem_append.mp (h2.subset hc) with hc | hc
          · obtain ⟨g, hg1, rfl⟩ := List.mem_map.mp hc
            rw [hnew g hg1] at hv
            exact absurd hv (by simp)
          · exact Or.inl ⟨⟨c, hc, hv⟩, hsome⟩
        · exact Or.inr h
      · rintro (⟨⟨c, hc, hv⟩, hsome⟩ | h)
        · exact Or.inl ⟨⟨c, h2.symm.subset (List.mem_append_right _ hc), hv⟩, hsome⟩
        · exact Or.inr h

/-! ## Entry paths -/

theorem holds_entry_iff (g : ThunarFile) (c : GNode) :
    holds_entry g c = true ↔ c.data.map (fun it => it.file) = some g := by
  unfold holds_entry
  cases c.data with
  | none => simp
  | some item => simp

theorem has_entry_path_cons (g : ThunarFile) (p : List ThunarFile) (n : GNode) :
    has_entry_path (g :: p) n = true ↔
      ∃ c ∈ n.children, holds_entry g c = true ∧ has_entry_path p c = true := by
  simp [has_entry_path, List.any_eq_true]

theorem holds_entry_new_child (g f : ThunarFile) :
    holds_entry g (new_child_node f) = true ↔ f = g := by
  rw [holds_entry_iff, new_child_node_data]
  simp [thunar_tree_view_model_item_new_with_file]

theorem new_child_node_children (f : ThunarFile) (c : GNode) (hc : c ∈ (new_child_node f).children) :
    c.data = none := by
  unfold new_child_node thunar_tree_view_model_node_insert_dummy at hc
  split at hc
  · simp [g_node_n_children] at hc
    rw [hc]
    rfl
  · simp at hc

theorem has_entry_path_new_child (p : List ThunarFile) (f : ThunarFile) :
    has_entry_path p (new_child_node f) = true ↔ p = [] := by
  cases p with
  | nil => simp [has_entry_path]
  | cons g p =>
    rw [has_entry_path_cons]
    simp only [reduceCtorEq, iff_false, not_exists, not_and]
    intro c hc hh
    rw [holds_entry_iff, new_child_node_children f c hc] at hh
    simp at hh

theorem filtered_out_of_holds (model : ThunarTreeViewModel) (g : ThunarFile) (c : GNode)
    (h : holds_entry g c = true) :
    filtered_out model c = (!model.show_hidden && g.is_hidden) := by
  unfold holds_entry at h
  unfold filtered_out
  cases hd : c.data with
  | none => simp [hd] at h
  | some item =>
    simp only [hd, beq_iff_eq] at h
    simp [h]

theorem holds_entry_congr (g : ThunarFile) (c c' : GNode)
    (h : c'.data.map (fun it => it.file) = c.data.map (fun it => it.file)) :
    holds_entry g c' = holds_entry g c := by
  have h1 := holds_entry_iff g c
  have h2 := holds_entry_iff g c'
  rw [h] at h2
  rw [Bool.eq_iff_iff, h1, h2]

/-- The walk with at least one unit of depth left: a node it keeps is not filtered out
and is described by `visible_pre_order_succ_kept`. -/
theorem visible_pre_order_succ_kept_inv (model : ThunarTreeViewModel) (fuel : Nat)
    (n n' : GNode) (h : visible_pre_order model (fuel + 1) n = Visited.kept n') :
    filtered_out model n = false
      ∧ (∀ c', c' ∈ n'.children ↔
          (∃ c ∈ n.children, visible_pre_order model fuel c = Visited.kept c')
            ∨ (∃ f ∈ restored_files model n, c' = new_child_node f))
      ∧ n'.data.map (fun it => it.file) = n.data.map (fun it => it.file)
      ∧ (∀ f, stashed_at [] n' f = true ↔
          ((∃ c ∈ n.children, visible_pre_order model fuel c = Visited.removed f)
              ∧ n.data.isSome = true)
            ∨ (∃ item, n.data = some item ∧ f ∈ item.invisible_children
                ∧ f ∉ restored_files model n)) := by
  cases hf : filtered_out model n with
  | true =>
    have hd : ∃ item, n.data = some item := by
      unfold filtered_out at hf
      cases hd : n.data with
      | none => simp [hd] at hf
      | some item => exact ⟨item, rfl⟩
    obtain ⟨item, hd⟩ := hd
    rw [visible_pre_order_succ_removed model fuel n item hd hf] at h
    exact absurd h (by simp)
  | false =>
    obtain ⟨n'', h1, h2⟩ := visible_pre_order_succ_kept model fuel n hf
    rw [h1] at h
    injection h with h
    subst h
    exact ⟨rfl, h2⟩

/-! ## Switching hidden files off -/

theorem fuel_of_height (n : GNode) (fuel : Nat) (h : g_node_max_height n ≤ fuel) :
    ∃ k, fuel = k + 1 := by
  have := height_pos n
  exact ⟨fuel - 1, by omega⟩

/-- No entry at any depth below a node that the walk keeps is hidden. -/
theorem visible_pre_order_no_hidden (model : ThunarTreeViewModel)
    (hsh : model.show_hidden = false) (p : List ThunarFile) :
    ∀ (fuel : Nat) (n n' : GNode), g_node_max_height n ≤ fuel →
      visible_pre_order model fuel n = Visited.kept n' →
      has_entry_path p n' = true → ∀ f ∈ p, f.is_hidden = false := by
  induction p with
  | nil =>
    intro _ _ _ _ _ _ f hf
    exact absurd hf (List.not_mem_nil f)
  | cons g p ih =>
    intro fuel n n' hh hv hp f hf
    obtain ⟨k, rfl⟩ := fuel_of_height n fuel hh
    obtain ⟨_, hch, _, _⟩ := visible_pre_order_succ_kept_inv model k n n' hv
    obtain ⟨c', hc', hg, hp'⟩ := (has_entry_path_cons g p n').mp hp
    rcases (hch c').mp hc' with ⟨c, hc, hvc⟩ | ⟨r, hr, rfl⟩
    · have hhc : g_node_max_height c ≤ k := by
        have := height_child_lt n c hc
        omega
      obtain ⟨k', rfl⟩ := fuel_of_height c k hhc
      obtain ⟨hfo, _, hdat, _⟩ := visible_pre_order_succ_kept_inv model k' c c' hvc
      have hgc : holds_entry g c = true := by
        rw [← holds_entry_congr g c c' hdat]; exact hg
      rw [filtered_out_of_holds model g c hgc, hsh] at hfo
      rcases List.mem_cons.mp hf with rfl | hf
      · simpa using hfo
      · exact ih (k' + 1) c c' hhc hvc hp' f hf
    · have hrg : r = g := (holds_entry_new_child g r).mp hg
      subst hrg
      have hp0 : p = [] := (has_entry_path_new_child p r).mp hp'
      subst hp0
      rw [List.mem_singleton] at hf
      subst hf
      have := restored_files_shown model n f hr
      rw [hsh] at this
      simpa using this

/-- Every chain of entries without a hidden one survives the walk. -/
theorem visible_pre_order_keeps_visible (model : ThunarTreeViewModel)
    (p : List ThunarFile) :
    ∀ (fuel : Nat) (n n' : GNode), g_node_max_height n ≤ fuel →
      visible_pre_order model fuel n = Visited.kept n' →
      has_entry_path p n = true → (∀ f ∈ p, f.is_hidden = false) →
      has_entry_path p n' = true := by
  induction p with
  | nil => intro _ _ _ _ _ _ _; rfl
  | cons g p ih =>
    intro fuel n n' hh hv hp hvis
    obtain ⟨k, rfl⟩ := fuel_of_height n fuel hh
    obtain ⟨_, hch, _, _⟩ := visible_pre_order_succ_kept_inv model k n n' hv
    obtain ⟨c, hc, hg, hp'⟩ := (has_entry_path_cons g p n).mp hp
    have hhc : g_node_max_height c ≤ k := by
      have := height_child_lt n c hc
      omega
    obtain ⟨k', rfl⟩ := fuel_of_height c k hhc
    have hfo : filtered_out model c = false := by
      rw [filtered_out_of_holds model g c hg, hvis g (List.mem_cons_self g p)]
      simp
    obtain ⟨c', hvc, _, hdat, _⟩ := visible_pre_order_succ_kept model k' c hfo
    rw [has_entry_path_cons]
    refine ⟨c', (hch c').mpr (Or.inl ⟨c, hc, hvc⟩), ?_, ?_⟩
    · rw [holds_entry_congr g c c' hdat]; exact hg
    · exact ih (k' + 1) c c' hhc hvc hp' (fun f hf => hvis f (List.mem_cons_of_mem g hf))

theorem filtered_out_of_none (model : ThunarTreeViewModel) (n : GNode) (h : n.data = none) :
    filtered_out model n = false := by
  unfold filtered_out
  rw [h]

theorem refilter_root (model : ThunarTreeViewModel) (hroot : model.root.data = none) :
    ∃ root', visible_pre_order model (g_node_max_height model.root) model.root
        = Visited.kept root'
      ∧ thunar_tree_view_model_refilter model = { model with root := root' } := by
  obtain ⟨k, hk⟩ := fuel_of_height model.root _ (Nat.le_refl _)
  obtain ⟨root', h1, _⟩ := visible_pre_order_succ_kept model k model.root
    (filtered_out_of_none model _ hroot)
  refine ⟨root', by rw [hk]; exact h1, ?_⟩
  unfold thunar_tree_view_model_refilter
  rw [hk, h1]

theorem set_show_hidden_off_eq (store : ThunarTreeViewModel) (hshow : store.show_hidden = true) :
    thunar_tree_view_model_set_show_hidden store false =
      thunar_tree_view_model_refilter { store with show_hidden := false } := by
  unfold thunar_tree_view_model_set_show_hidden
  simp [hshow]

theorem NoInvisible.data_nil {n : GNode} (h : NoInvisible n) :
    ∀ item, n.data = some item → item.invisible_children = [] := by
  cases h with
  | mk data children hd hc => exact hd

theorem NoInvisible.of_child {n : GNode} (h : NoInvisible n) : ∀ c ∈ n.children, NoInvisible c := by
  cases h with
  | mk data children hd hc => exact hc

theorem restored_files_of_noInvisible (model : ThunarTreeViewModel) (n : GNode)
    (h : NoInvisible n) : restored_files model n = [] := by
  unfold restored_files
  split
  · rename_i item hitem
    rw [h.data_nil item hitem]
    simp
  · rfl

theorem visible_pre_order_succ_removed_inv (model : ThunarTreeViewModel) (fuel : Nat)
    (c : GNode) (f : ThunarFile)
    (h : visible_pre_order model (fuel + 1) c = Visited.removed f) :
    holds_entry f c = true ∧ filtered_out model c = true := by
  cases hf : filtered_out model c with
  | true =>
    have hd : ∃ item, c.data = some item := by
      unfold filtered_out at hf
      cases hd : c.data with
      | none => simp [hd] at hf
      | some item => exact ⟨item, rfl⟩
    obtain ⟨item, hd⟩ := hd
    rw [visible_pre_order_succ_removed model fuel c item hd hf] at h
    injection h with h
    refine ⟨?_, rfl⟩
    rw [holds_entry_iff, hd, ← h]
    rfl
  | false =>
    obtain ⟨n', h1, _⟩ := visible_pre_order_succ_kept model fuel c hf
    rw [h1] at h
    exact absurd h (by simp)

theorem isSome_of_holds (g : ThunarFile) (c : GNode) (h : holds_entry g c = true) :
    c.data.isSome = true := by
  rw [holds_entry_iff] at h
  cases hd : c.data with
  | none => simp [hd] at h
  | some item => rfl

theorem isSome_of_map_file (c c' : GNode)
    (h : c'.data.map (fun it => it.file) = c.data.map (fun it => it.file)) :
    c'.data.isSome = c.data.isSome := by
  cases hc : c.data <;> cases hc' : c'.data <;> simp [hc, hc'] at h ⊢

/-- With nothing stashed beforehand, the walk that hides adds no chain of entries. -/
theorem visible_pre_order_hide_sub (model : ThunarTreeViewModel) (p : List ThunarFile) :
    ∀ (fuel : Nat) (n n' : GNode), NoInvisible n → g_node_max_height n ≤ fuel →
      visible_pre_order model fuel n = Visited.kept n' →
      has_entry_path p n' = true → has_entry_path p n = true := by
  induction p with
  | nil => intro _ _ _ _ _ _ _; rfl
  | cons g p ih =>
    intro fuel n n' hni hh hv hp
    obtain ⟨k, rfl⟩ := fuel_of_height n fuel hh
    obtain ⟨_, hch, _, _⟩ := visible_pre_order_succ_kept_inv model k n n' hv
    obtain ⟨c', hc', hg, hp'⟩ := (has_entry_path_cons g p n').mp hp
    rw [restored_files_of_noInvisible model n hni] at hch
    rcases (hch c').mp hc' with ⟨c, hc, hvc⟩ | ⟨r, hr, _⟩
    · have hhc : g_node_max_height c ≤ k := by
        have := height_child_lt n c hc
        omega
      obtain ⟨k', rfl⟩ := fuel_of_height c k hhc
      obtain ⟨_, _, hdat, _⟩ := visible_pre_order_succ_kept_inv model k' c c' hvc
      rw [has_entry_path_cons]
      refine ⟨c, hc, ?_, ih (k' + 1) c c' (hni.of_child c hc) hhc hvc hp'⟩
      rw [← holds_entry_congr g c c' hdat]; exact hg
    · exact absurd hr (List.not_mem_nil r)

theorem restorable_at_nil_iff (model : ThunarTreeViewModel) (hsh : model.show_hidden = true)
    (n : GNode) (f : ThunarFile) :
    restorable_at model [] n f = true ↔
      stashed_at [] n f = true ∧ G_NODE_HAS_DUMMY n = false := by
  unfold restorable_at stashed_at restored_files
  cases hd : n.data with
  | none => simp
  | some item =>
    cases hdum : G_NODE_HAS_DUMMY n <;> simp [hsh]

theorem restorable_at_cons (model : ThunarTreeViewModel) (g : ThunarFile)
    (p : List ThunarFile) (n : GNode) (f : ThunarFile) :
    restorable_at model (g :: p) n f = true ↔
      ∃ c ∈ n.children, holds_entry g c = true ∧ restorable_at model p c f = true := by
  simp [restorable_at, List.any_eq_true]

theorem allRealized_of_shape (cs : List GNode) (c : GNode) (hs : ShapeOk cs) (hc : c ∈ cs)
    (hr : c.data.isSome = true) : AllRealized cs := by
  rcases hs with h | ⟨x, hx, hxd⟩ | h
  · rw [h] at hc; exact absurd hc (List.not_mem_nil c)
  · rw [hx, List.mem_singleton] at hc
    subst hc
    rw [hxd] at hr
    exact absurd hr (by simp)
  · exact h

/-- The children of a kept node are realized when the children of the visited node
were and nothing stashed is restored. -/
theorem visible_pre_order_children_realized (model : ThunarTreeViewModel) (fuel : Nat)
    (n n' : GNode) (hv : visible_pre_order model fuel n = Visited.kept n')
    (hr : AllRealized n.children) : AllRealized n'.children := by
  cases fuel with
  | zero =>
    simp only [visible_pre_order, Visited.kept.injEq] at hv
    subst hv
    exact hr
  | succ k =>
    obtain ⟨_, hch, _, _⟩ := visible_pre_order_succ_kept_inv model k n n' hv
    intro c' hc'
    rcases (hch c').mp hc' with ⟨c, hc, hvc⟩ | ⟨r, _, rfl⟩
    · cases k with
      | zero =>
        simp only [visible_pre_order, Visited.kept.injEq] at hvc
        subst hvc
        exact hr c hc
      | succ k' =>
        obtain ⟨_, _, hdat, _⟩ := visible_pre_order_succ_kept_inv model k' c c' hvc
        rw [isSome_of_map_file c c' hdat]
        exact hr c hc
    · rw [new_child_node_data]; rfl

/-- After the walk that hides, on a tree with the dummy invariant and nothing stashed
beforehand: the files that a later walk would restore at the end of a chain of
entries are exactly the hidden entries that hung there, below non-hidden
ancestors. -/
theorem visible_pre_order_hide_restorable (model model2 : ThunarTreeViewModel)
    (hsh : model.show_hidden = false) (hsh2 : model2.show_hidden = true)
    (q : List ThunarFile) :
    ∀ (fuel : Nat) (n n' : GNode) (f : ThunarFile), NoInvisible n → TreeOk n →
      g_node_max_height n ≤ fuel → visible_pre_order model fuel n = Visited.kept n' →
      (restorable_at model2 q n' f = true ↔
        has_entry_path (q ++ [f]) n = true ∧ (∀ g ∈ q, g.is_hidden = false)
          ∧ f.is_hidden = true ∧ (q ≠ [] ∨ n.data.isSome = true)) := by
  induction q with
  | nil =>
    intro fuel n n' f hni hok hh hv
    obtain ⟨k, rfl⟩ := fuel_of_height n fuel hh
    obtain ⟨_, _, _, hst⟩ := visible_pre_order_succ_kept_inv model k n n' hv
    rw [restorable_at_nil_iff model2 hsh2, hst]
    have hkc : ∀ c ∈ n.children, ∃ k', k = k' + 1 := by
      intro c hc
      have := height_child_lt n c hc
      exact fuel_of_height c k (by omega)
    constructor
    · rintro ⟨(⟨⟨c, hc, hvc⟩, hsome⟩ | ⟨item, hitem, hmem, _⟩), _⟩
      · obtain ⟨k', rfl⟩ := hkc c hc
        obtain ⟨hg, hfo⟩ := visible_pre_order_succ_removed_inv model k' c f hvc
        rw [filtered_out_of_holds model f c hg, hsh] at hfo
        refine ⟨?_, ?_, ?_, Or.inr hsome⟩
        · rw [List.nil_append, has_entry_path_cons]
          exact ⟨c, hc, hg, rfl⟩
        · intro g hg'
          exact absurd hg' (List.not_mem_nil g)
        · simpa using hfo
      · rw [hni.data_nil item hitem] at hmem
        exact absurd hmem (List.not_mem_nil f)
    · rintro ⟨hp, _, hhid, hsome⟩
      have hsome' : n.data.isSome = true := by
        rcases hsome with h | h
        · exact absurd rfl h
        · exact h
      rw [List.nil_append, has_entry_path_cons] at hp
      obtain ⟨c, hc, hg, _⟩ := hp
      obtain ⟨k', rfl⟩ := hkc c hc
      have hfo : filtered_out model c = true := by
        rw [filtered_out_of_holds model f c hg, hsh, hhid]; rfl
      obtain ⟨item, hitem⟩ : ∃ item, c.data = some item := by
        have := isSome_of_holds f c hg
        cases hd : c.data with
        | none => simp [hd] at this
        | some item => exact ⟨item, rfl⟩
      have hfile : item.file = f := by
        rw [holds_entry_iff, hitem] at hg
        simpa using hg
      have hvc := visible_pre_order_succ_removed model k' c item hitem hfo
      rw [hfile] at hvc
      refine ⟨Or.inl ⟨⟨c, hc, hvc⟩, hsome'⟩, ?_⟩
      have hall := allRealized_of_shape n.children c hok.shape hc (isSome_of_holds f c hg)
      exact has_dummy_false_of_realized n'
        (visible_pre_order_children_realized model (k' + 1 + 1) n n' hv hall)
  | cons g q ih =>
    intro fuel n n' f hni hok hh hv
    obtain ⟨k, rfl⟩ := fuel_of_height n fuel hh
    obtain ⟨_, hch, _, _⟩ := visible_pre_order_succ_kept_inv model k n n' hv
    rw [restored_files_of_noInvisible model n hni] at hch
    rw [restorable_at_cons]
    have hkc : ∀ c ∈ n.children, g_node_max_height c ≤ k := by
      intro c hc
      have := height_child_lt n c hc
      omega
    constructor
    · rintro ⟨c', hc', hg, hres⟩
      rcases (hch c').mp hc' with ⟨c, hc, hvc⟩ | ⟨r, hr, _⟩
      · obtain ⟨k', rfl⟩ := fuel_of_height c k (hkc c hc)
        obtain ⟨hfo, _, hdat, _⟩ := visible_pre_order_succ_kept_inv model k' c c' hvc
        have hgc : holds_entry g c = true := by
          rw [← holds_entry_congr g c c' hdat]; exact hg
        rw [filtered_out_of_holds model g c hgc, hsh] at hfo
        obtain ⟨h1, h2, h3, _⟩ := (ih (k' + 1) c c' f (hni.of_child c hc) (hok.child c hc)
          (hkc c hc) hvc).mp hres
        refine ⟨?_, ?_, h3, Or.inl (by simp)⟩
        · rw [List.cons_append, has_entry_path_cons]
          exact ⟨c, hc, hgc, h1⟩
        · intro x hx
          rcases List.mem_cons.mp hx with rfl | hx
          · simpa using hfo
          · exact h2 x hx
      · exact absurd hr (List.not_mem_nil r)
    · rintro ⟨hp, hvis, hhid, _⟩
      rw [List.cons_append, has_entry_path_cons] at hp
      obtain ⟨c, hc, hg, hp'⟩ := hp
      obtain ⟨k', rfl⟩ := fuel_of_height c k (hkc c hc)
      have hfo : filtered_out model c = false := by
        rw [filtered_out_of_holds model g c hg, hvis g (List.mem_cons_self g q)]
        simp
      obtain ⟨c', hvc, _, hdat, _⟩ := visible_pre_order_succ_kept model k' c hfo
      refine ⟨c', (hch c').mpr (Or.inl ⟨c, hc, hvc⟩), ?_, ?_⟩
      · rw [holds_entry_congr g c c' hdat]; exact hg
      · exact (ih (k' + 1) c c' f (hni.of_child c hc) (hok.child c hc) (hkc c hc) hvc).mpr
          ⟨hp', fun x hx => hvis x (List.mem_cons_of_mem g hx), hhid,
            Or.inr (isSome_of_holds g c hg)⟩

theorem filtered_out_of_show (model : ThunarTreeViewModel) (hsh : model.show_hidden = true)
    (c : GNode) : filtered_out model c = false := by
  unfold filtered_out
  cases c.data <;> simp [hsh]

/-- The walk that shows hidden files again: the chains of entries afterwards are those
from before and, at the end of such a chain, the restored files. -/
theorem visible_pre_order_show_paths (model : ThunarTreeViewModel)
    (hsh : model.show_hidden = true) (p : List ThunarFile) :
    ∀ (fuel : Nat) (n n' : GNode), g_node_max_height n ≤ fuel →
      visible_pre_order model fuel n = Visited.kept n' →
      (has_entry_path p n' = true ↔
        has_entry_path p n = true
          ∨ ∃ q f, p = q ++ [f] ∧ restorable_at model q n f = true) := by
  induction p with
  | nil =>
    intro _ _ _ _ _
    simp [has_entry_path]
  | cons g p ih =>
    intro fuel n n' hh hv
    obtain ⟨k, rfl⟩ := fuel_of_height n fuel hh
    obtain ⟨_, hch, _, _⟩ := visible_pre_order_succ_kept_inv model k n n' hv
    have hkc : ∀ c ∈ n.children, g_node_max_height c ≤ k := by
      intro c hc
      have := height_child_lt n c hc
      omega
    have hvisit : ∀ c ∈ n.children, ∃ c', visible_pre_order model k c = Visited.kept c'
        ∧ c'.data.map (fun it => it.file) = c.data.map (fun it => it.file) := by
      intro c hc
      obtain ⟨k', rfl⟩ := fuel_of_height c k (hkc c hc)
      obtain ⟨c', h1, _, h3, _⟩ := visible_pre_order_succ_kept model k' c
        (filtered_out_of_show model hsh c)
      exact ⟨c', h1, h3⟩
    rw [has_entry_path_cons]
    constructor
    · rintro ⟨c', hc', hg, hp'⟩
      rcases (hch c').mp hc' with ⟨c, hc, hvc⟩ | ⟨r, hr, rfl⟩
      · obtain ⟨c'', hvc', hdat⟩ := hvisit c hc
        rw [hvc] at hvc'
        injection hvc' with hvc'
        subst hvc'
        have hgc : holds_entry g c = true := by
          rw [← holds_entry_congr g c c' hdat]; exact hg
        rcases (ih k c c' (hkc c hc) hvc).mp hp' with h | ⟨q, f, hq, hres⟩
        · exact Or.inl ((has_entry_path_cons g p n).mpr ⟨c, hc, hgc, h⟩)
        · refine Or.inr ⟨g :: q, f, by rw [hq]; rfl, ?_⟩
          rw [restorable_at_cons]
          exact ⟨c, hc, hgc, hres⟩
      · have hrg : r = g := (holds_entry_new_child g r).mp hg
        subst hrg
        have hp0 : p = [] := (has_entry_path_new_child p r).mp hp'
        subst hp0
        refine Or.inr ⟨[], r, rfl, ?_⟩
        simp [restorable_at, hr]
    · rintro (h | ⟨q, f, hq, hres⟩)
      · obtain ⟨c, hc, hg, hp'⟩ := (has_entry_path_cons g p n).mp h
        obtain ⟨c', hvc, hdat⟩ := hvisit c hc
        refine ⟨c', (hch c').mpr (Or.inl ⟨c, hc, hvc⟩), ?_, ?_⟩
        · rw [holds_entry_congr g c c' hdat]; exact hg
        · exact (ih k c c' (hkc c hc) hvc).mpr (Or.inl hp')
      · cases q with
        | nil =>
          simp only [List.nil_append, List.cons.injEq] at hq
          obtain ⟨rfl, rfl⟩ := hq
          have hmem : g ∈ restored_files model n := by
            simpa [restorable_at] using hres
          exact ⟨new_child_node g, (hch _).mpr (Or.inr ⟨g, hmem, rfl⟩),
            (holds_entry_new_child g g).mpr rfl, rfl⟩
        | cons x q =>
          simp only [List.cons_append, List.cons.injEq] at hq
          obtain ⟨rfl, rfl⟩ := hq
          rw [restorable_at_cons] at hres
          obtain ⟨c, hc, hg, hres'⟩ := hres
          obtain ⟨c', hvc, hdat⟩ := hvisit c hc
          refine ⟨c', (hch c').mpr (Or.inl ⟨c, hc, hvc⟩), ?_, ?_⟩
          · rw [holds_entry_congr g c c' hdat]; exact hg
          · exact (ih k c c' (hkc c hc) hvc).mpr (Or.inr ⟨q, f, rfl, hres'⟩)

/-! ## Sorting does not change the chains of entries -/

theorem has_entry_path_perm (p : List ThunarFile) (d d' : Option ThunarTreeViewModelItem)
    (cs cs' : List GNode) (h : cs.Perm cs') :
    has_entry_path p (GNode.mk d cs) = has_entry_path p (GNode.mk d' cs') := by
  cases p with
  | nil => rfl
  | cons g p =>
    rw [Bool.eq_iff_iff, has_entry_path_cons, has_entry_path_cons]
    simp only [GNode.children_mk]
    constructor
    · rintro ⟨c, hc, h1⟩
      exact ⟨c, h.subset hc, h1⟩
    · rintro ⟨c, hc, h1⟩
      exact ⟨c, h.symm.subset hc, h1⟩

theorem has_entry_path_sort (store : ThunarTreeViewModel) (p : List ThunarFile) (n : GNode) :
    has_entry_path p (thunar_tree_view_model_sort store n).1 = has_entry_path p n := by
  have h := has_entry_path_perm p (thunar_tree_view_model_sort store n).1.data n.data _ _
    (sort_children_perm store n)
  rw [GNode.eta, GNode.eta] at h
  exact h

theorem has_entry_path_traverse_sort (store : ThunarTreeViewModel) (p : List ThunarFile) :
    ∀ n : GNode, has_entry_path p (traverse_sort store n) = has_entry_path p n := by
  induction p with
  | nil => intro n; rfl
  | cons g p ih =>
    intro n
    cases n with
    | mk data children =>
      rw [traverse_sort, has_entry_path_sort, traverse_sort_list_eq_map]
      rw [Bool.eq_iff_iff, has_entry_path_cons, has_entry_path_cons]
      simp only [GNode.children_mk, List.mem_map]
      constructor
      · rintro ⟨c', ⟨c, hc, rfl⟩, hg, hp⟩
        refine ⟨c, hc, ?_, ?_⟩
        · rw [← holds_entry_congr g c (traverse_sort store c)
            (by rw [traverse_sort_data])]
          exact hg
        · rw [← ih c]; exact hp
      · rintro ⟨c, hc, hg, hp⟩
        refine ⟨traverse_sort store c, ⟨c, hc, rfl⟩, ?_, ?_⟩
        · rw [holds_entry_congr g c (traverse_sort store c) (by rw [traverse_sort_data])]
          exact hg
        · rw [ih c]; exact hp

theorem has_entry_path_foldl_add_child (p : List ThunarFile) (files : List ThunarFile)
    (n : GNode) (hd : G_NODE_HAS_DUMMY n = false) :
    has_entry_path p (files.foldl thunar_tree_view_model_add_child n) = true ↔
      has_entry_path p n = true ∨ ∃ f ∈ files, p = [f] := by
  rw [foldl_add_child_no_dummy files n hd]
  cases p with
  | nil => simp [has_entry_path]
  | cons g p =>
    rw [has_entry_path_cons, has_entry_path_cons]
    simp only [GNode.children_mk, List.mem_append, List.mem_map, List.mem_reverse]
    constructor
    · rintro ⟨c, (⟨f, hf, rfl⟩ | hc), hg, hp⟩
      · have hfg : f = g := (holds_entry_new_child g f).mp hg
        subst hfg
        have hp0 : p = [] := (has_entry_path_new_child p f).mp hp
        subst hp0
        exact Or.inr ⟨f, hf, rfl⟩
      · exact Or.inl ⟨c, hc, hg, hp⟩
    · rintro (⟨c, hc, hg, hp⟩ | ⟨f, hf, heq⟩)
      · exact ⟨c, Or.inr hc, hg, hp⟩
      · simp only [List.cons.injEq] at heq
        obtain ⟨rfl, rfl⟩ := heq
        exact ⟨new_child_node g, Or.inl ⟨g, hf, rfl⟩, (holds_entry_new_child g g).mpr rfl, rfl⟩

theorem data_none_of_map_file (c c' : GNode)
    (h : c'.data.map (fun it => it.file) = c.data.map (fun it => it.file))
    (hc : c.data = none) : c'.data = none := by
  rw [hc] at h
  cases hd : c'.data with
  | none => rfl
  | some it => simp [hd] at h

theorem set_show_hidden_on_eq (store : ThunarTreeViewModel) (hshow : store.show_hidden = false) :
    thunar_tree_view_model_set_show_hidden store true =
      { thunar_tree_view_model_refilter { store with show_hidden := true } with
        root := traverse_sort (thunar_tree_view_model_refilter { store with show_hidden := true })
          ((thunar_tree_view_model_refilter { store with show_hidden := true }).hidden.foldl
            thunar_tree_view_model_add_child
            (thunar_tree_view_model_refilter { store with show_hidden := true }).root) } := by
  unfold thunar_tree_view_model_set_show_hidden
  simp [hshow]

/-- The chains of entries after hiding and showing again, for a model that shows
hidden files, has the dummy invariant and nothing stashed, and lists on
`store->hidden` exactly its hidden root entries. -/
theorem hide_then_show_paths (store : ThunarTreeViewModel)
    (hshow : store.show_hidden = true) (hroot : store.root.data = none)
    (hok : TreeOk store.root) (hni : NoInvisible store.root)
    (hhid : ∀ f, f ∈ store.hidden ↔
      (f.is_hidden = true ∧ has_entry_path [f] store.root = true))
    (p : List ThunarFile) :
    has_entry_path p (thunar_tree_view_model_set_show_hidden
        (thunar_tree_view_model_set_show_hidden store false) true).root = true ↔
      (has_entry_path p store.root = true ∧ ∀ g ∈ p.dropLast, g.is_hidden = false) := by
  -- hiding
  rw [set_show_hidden_off_eq store hshow]
  obtain ⟨r2, hv2, heq2⟩ := refilter_root { store with show_hidden := false } hroot
  rw [heq2]
  obtain ⟨k2, hk2⟩ := fuel_of_height store.root _ (Nat.le_refl _)
  have hv2' := hv2
  simp only [hk2] at hv2'
  obtain ⟨_, _, hdat2, _⟩ := visible_pre_order_succ_kept_inv _ k2 store.root r2 hv2'
  have hr2 : r2.data = none := data_none_of_map_file store.root r2 hdat2 hroot
  -- showing again
  rw [set_show_hidden_on_eq _ rfl]
  obtain ⟨r3, hv3, heq3⟩ := refilter_root
    { store with show_hidden := true, root := r2 } hr2
  simp only at heq3 hv3 ⊢
  rw [heq3]
  simp only
  rw [has_entry_path_traverse_sort]
  -- the chains after each walk
  have hP2 := visible_pre_order_show_paths { store with show_hidden := true, root := r2 } rfl
    p _ r2 r3 (Nat.le_refl _) hv3
  have hsub : ∀ p', has_entry_path p' r2 = true ↔
      (has_entry_path p' store.root = true ∧ ∀ g ∈ p', g.is_hidden = false) := by
    intro p'
    constructor
    · intro h
      exact ⟨visible_pre_order_hide_sub _ p' _ _ _ hni (Nat.le_refl _) hv2 h,
        visible_pre_order_no_hidden { store with show_hidden := false } rfl p' _ _ _
          (Nat.le_refl _) hv2 h⟩
    · rintro ⟨h1, h2⟩
      exact visible_pre_order_keeps_visible _ p' _ _ _ (Nat.le_refl _) hv2 h1 h2
  have hP1 := fun q f => visible_pre_order_hide_restorable { store with show_hidden := false }
    { store with show_hidden := true, root := r2 } rfl rfl q _ store.root r2 f hni hok
    (Nat.le_refl _) hv2
  have hfold : has_entry_path p (store.hidden.foldl thunar_tree_view_model_add_child r3) = true ↔
      has_entry_path p r3 = true ∨ ∃ f ∈ store.hidden, p = [f] := by
    by_cases hnil : store.hidden = []
    · rw [hnil]
      simp
    · obtain ⟨f, hf⟩ := List.exists_mem_of_ne_nil _ hnil
      obtain ⟨_, hpath⟩ := (hhid f).mp hf
      obtain ⟨c, hc, hg, _⟩ := (has_entry_path_cons f [] store.root).mp hpath
      have h1 := allRealized_of_shape _ c hok.shape hc (isSome_of_holds f c hg)
      have h2 := visible_pre_order_children_realized _ _ _ _ hv2 h1
      have h3 := visible_pre_order_children_realized _ _ _ _ hv3 h2
      exact has_entry_path_foldl_add_child p store.hidden r3 (has_dummy_false_of_realized r3 h3)
  rw [hfold, hP2, hsub]
  constructor
  · rintro ((⟨h1, h2⟩ | ⟨q, f, rfl, hres⟩) | ⟨f, hf, rfl⟩)
    · exact ⟨h1, fun g hg => h2 g (List.mem_of_mem_dropLast hg)⟩
    · obtain ⟨h1, h2, _, _⟩ := (hP1 q f).mp hres
      refine ⟨h1, ?_⟩
      rw [List.dropLast_concat]
      exact h2
    · exact ⟨((hhid f).mp hf).2, by simp⟩
  · rintro ⟨h1, h2⟩
    rcases List.eq_nil_or_concat p with rfl | ⟨q, f, rfl⟩
    · exact Or.inl (Or.inl ⟨rfl, by simp⟩)
    · simp only [List.concat_eq_append] at h1 h2 ⊢
      rw [List.dropLast_concat] at h2
      cases hh : f.is_hidden with
      | false =>
        refine Or.inl (Or.inl ⟨h1, ?_⟩)
        intro g hg
        rcases List.mem_append.mp hg with hg | hg
        · exact h2 g hg
        · rw [List.mem_singleton.mp hg]; exact hh
      | true =>
        cases q with
        | nil => exact Or.inr ⟨f, (hhid f).mpr ⟨hh, h1⟩, rfl⟩
        | cons x q =>
          exact Or.inl (Or.inr ⟨x :: q, f, rfl,
            (hP1 (x :: q) f).mpr ⟨h1, h2, hh, Or.inl (by simp)⟩⟩)

theorem refilter_show_hidden (model : ThunarTreeViewModel) :
    (thunar_tree_view_model_refilter model).show_hidden = model.show_hidden := by
  unfold thunar_tree_view_model_refilter
  split <;> rfl

theorem set_show_hidden_flag (store : ThunarTreeViewModel) (show_hidden : Bool) :
    (thunar_tree_view_model_set_show_hidden store show_hidden).show_hidden = show_hidden := by
  unfold thunar_tree_view_model_set_show_hidden
  split
  · dsimp only
    split
    · rw [refilter_show_hidden]
    · rw [refilter_show_hidden]
  · rename_i h
    cases hs : store.show_hidden <;> cases show_hidden <;> simp [hs] at h ⊢

theorem leaf_of_treeOk (file : ThunarFile) : TreeOk (leaf_of file) :=
  TreeOk.mk _ _ (Or.inl rfl) (fun c hc => absurd hc (List.not_mem_nil c))

theorem leaf_of_noInvisible (file : ThunarFile) : NoInvisible (leaf_of file) :=
  NoInvisible.mk _ _ (fun item h => by injection h with h; rw [← h]; rfl)
    (fun c hc => absurd hc (List.not_mem_nil c))

theorem shown_tree_treeOk : TreeOk shown_tree := by
  refine TreeOk.mk _ _ (Or.inr (Or.inr ?_)) ?_
  · intro c hc
    simp only [List.mem_cons, List.mem_singleton, List.not_mem_nil, or_false] at hc
    rcases hc with rfl | rfl | rfl <;> rfl
  · intro c hc
    simp only [List.mem_cons, List.mem_singleton, List.not_mem_nil, or_false] at hc
    rcases hc with rfl | rfl | rfl
    · exact leaf_of_treeOk _
    · exact leaf_of_treeOk _
    · refine TreeOk.mk _ _ (Or.inr (Or.inr ?_)) ?_
      · intro c hc
        simp only [List.mem_cons, List.mem_singleton, List.not_mem_nil, or_false] at hc
        rcases hc with rfl | rfl <;> rfl
      · intro c hc
        simp only [List.mem_cons, List.mem_singleton, List.not_mem_nil, or_false] at hc
        rcases hc with rfl | rfl <;> exact leaf_of_treeOk _

theorem shown_tree_noInvisible : NoInvisible shown_tree := by
  refine NoInvisible.mk _ _ (fun item h => by simp at h) ?_
  intro c hc
  simp only [List.mem_cons, List.mem_singleton, List.not_mem_nil, or_false] at hc
  rcases hc with rfl | rfl | rfl
  · exact leaf_of_noInvisible _
  · exact leaf_of_noInvisible _
  · refine NoInvisible.mk _ _ (fun item h => by injection h with h; rw [← h]) ?_
    intro c hc
    simp only [List.mem_cons, List.mem_singleton, List.not_mem_nil, or_false] at hc
    rcases hc with rfl | rfl <;> exact leaf_of_noInvisible _

/-- C9 (amended): let hidden files be switched on, and let the model then have an
item-less root, the dummy invariant, empty `invisible_children` lists, and on
`store->hidden` exactly the hidden entries that hang off the root.  Switching hidden
files off and on again gives a tree whose chains of entries are exactly the chains
from before in which no entry but the last is hidden: every entry is back at its
parent, except the entries below a hidden entry, which are not restored. -/
theorem show_hidden_round_trip (store : ThunarTreeViewModel)
    (hroot : (thunar_tree_view_model_set_show_hidden store true).root.data = none)
    (hok : TreeOk (thunar_tree_view_model_set_show_hidden store true).root)
    (hni : NoInvisible (thunar_tree_view_model_set_show_hidden store true).root)
    (hhid : ∀ f, f ∈ (thunar_tree_view_model_set_show_hidden store true).hidden ↔
      (f.is_hidden = true ∧ has_entry_path [f]
        (thunar_tree_view_model_set_show_hidden store true).root = true))
    (p : List ThunarFile) :
    has_entry_path p (thunar_tree_view_model_set_show_hidden
        (thunar_tree_view_model_set_show_hidden
          (thunar_tree_view_model_set_show_hidden store true) false) true).root = true ↔
      (has_entry_path p (thunar_tree_view_model_set_show_hidden store true).root = true
        ∧ ∀ g ∈ p.dropLast, g.is_hidden = false) :=
  hide_then_show_paths (thunar_tree_view_model_set_show_hidden store true)
    (set_show_hidden_flag store true) hroot hok hni hhid p

/-- Witness for C9 (amended): on `shown_model` the hidden file .h below the directory d
is back after the round trip. -/
theorem show_hidden_round_trip_witness :
    has_entry_path [dir_d, file_h] (thunar_tree_view_model_set_show_hidden
        (thunar_tree_view_model_set_show_hidden
          (thunar_tree_view_model_set_show_hidden shown_model true) false) true).root = true :=
  (show_hidden_round_trip shown_model rfl shown_tree_treeOk shown_tree_noInvisible
    (by
      intro f
      show f ∈ [file_h] ↔ (f.is_hidden = true ∧ has_entry_path [f] shown_tree = true)
      constructor
      · intro hf
        rw [List.mem_singleton.mp hf]
        exact ⟨rfl, rfl⟩
      · rintro ⟨hh, hp⟩
        simp [has_entry_path, shown_tree, holds_entry, leaf_of,
          thunar_tree_view_model_item_new_with_file] at hp
        rcases hp with h | h | h
        · rw [← h] at hh; simp [file_a] at hh
        · rw [← h]; exact List.mem_singleton.mpr rfl
        · rw [← h] at hh; simp [dir_d] at hh)
    [dir_d, file_h]).mpr ⟨rfl, by decide⟩

/-- C9 (counterexample): the root holds the hidden directory .hd, expanded and holding
a.  After the first `set_show_hidden (TRUE)` the entry a hangs below .hd; after
`set_show_hidden (FALSE)` and `set_show_hidden (TRUE)` the directory .hd is back with
a dummy child, and a is gone. -/
theorem show_hidden_round_trip_loses_subtree :
    has_entry_path [dir_hd, file_a]
        (thunar_tree_view_model_set_show_hidden shown_model_hidden_dir true).root = true
    ∧ has_entry_path [dir_hd, file_a] (thunar_tree_view_model_set_show_hidden
        (thunar_tree_view_model_set_show_hidden
          (thunar_tree_view_model_set_show_hidden shown_model_hidden_dir true) false)
          true).root = false
    ∧ (thunar_tree_view_model_set_show_hidden
        (thunar_tree_view_model_set_show_hidden
          (thunar_tree_view_model_set_show_hidden shown_model_hidden_dir true) false)
          true).root
      = GNode.mk none
          [GNode.mk (some (thunar_tree_view_model_item_new_with_file dir_hd))
            [GNode.mk none []]] :=
  ⟨rfl, rfl, rfl⟩

/-- The index at which the loop of `thunar_tree_view_model_insert_child_node_sorted`
links the child, when the child compares greater than the first `k` siblings and
not greater than the next one, and `k` is not the index of the last sibling. -/
theorem insert_child_node_sorted_loop_index (model : ThunarTreeViewModel) (child : GNode) :
    ∀ (cs : List GNode) (k pos : Nat), cs ≠ [] → k ≤ cs.length → k + 1 ≠ cs.length →
      (∀ j c, j < k → cs[j]? = some c →
        0 < thunar_tree_view_model_cmp_nodes_func child c model) →
      (∀ c, cs[k]? = some c → thunar_tree_view_model_cmp_nodes_func child c model ≤ 0) →
      (insert_child_node_sorted_loop model child cs pos).2 = pos + k := by
  intro cs
  induction cs with
  | nil => intro k pos hne; exact absurd rfl hne
  | cons lp rest ih =>
    intro k pos _ hk hslip hbefore hafter
    cases rest with
    | nil =>
      simp only [List.length_singleton] at hk hslip
      have : k = 1 := by omega
      subst this
      simp [insert_child_node_sorted_loop]
    | cons next rest =>
      unfold insert_child_node_sorted_loop
      cases k with
      | zero =>
        have h0 := hafter lp (by simp)
        have : ¬ thunar_tree_view_model_cmp_nodes_func child lp model > 0 := by omega
        simp [this]
      | succ k =>
        have h0 := hbefore 0 lp (by omega) (by simp)
        simp only [gt_iff_lt, h0, if_true]
        rw [ih k (pos + 1) (by simp) (by simp only [List.length_cons] at hk ⊢; omega)
          (by simp only [List.length_cons] at hslip ⊢; omega)
          (fun j c hj hc => hbefore (j + 1) c (by omega) (by simpa using hc))
          (fun c hc => hafter c (by simpa using hc))]
        omega

/-- C5 (amended): let k be the position at which the changed node belongs among its
other siblings (it compares greater than the first k of them and not greater than
the next one), let k differ from the node's old index by exactly one, and let k not
be the position directly in front of the last of the other siblings.  Then
`thunar_tree_view_model_reorder_if_req` emits nothing if no handler is connected to
"row-inserted", and otherwise emits one `new_order` array of the sibling count that
maps k to the old index, the old index to k and every other position to itself. -/
theorem reorder_if_req_neighbour_swap (model : ThunarTreeViewModel) (parent : GNode)
    (node k : Nat) (child : GNode) (hchild : parent.children[node]? = some child)
    (hn : 2 ≤ g_node_n_children parent)
    (hk : k ≤ (parent.children.eraseIdx node).length)
    (hbefore : ∀ j c, j < k → (parent.children.eraseIdx node)[j]? = some c →
      0 < thunar_tree_view_model_cmp_nodes_func child c model)
    (hafter : ∀ c, (parent.children.eraseIdx node)[k]? = some c →
      thunar_tree_view_model_cmp_nodes_func child c model ≤ 0)
    (hlast : k + 1 ≠ (parent.children.eraseIdx node).length)
    (hadj : k = node + 1 ∨ k + 1 = node) :
    (model.has_handler = false →
      (thunar_tree_view_model_reorder_if_req model parent node).2 = none)
    ∧ (model.has_handler = true →
      ∃ new_order, (thunar_tree_view_model_reorder_if_req model parent node).2 = some new_order
        ∧ new_order.length = g_node_n_children parent
        ∧ new_order[k]? = some node
        ∧ new_order[node]? = some k
        ∧ ∀ i, i < g_node_n_children parent → i ≠ node → i ≠ k → new_order[i]? = some i) := by
  have hlt : node < parent.children.length := (List.getElem?_eq_some_iff.mp hchild).1
  have hlen : (parent.children.eraseIdx node).length = parent.children.length - 1 := by
    simp [List.length_eraseIdx, hlt]
  have hne : parent.children.eraseIdx node ≠ [] := by
    intro h
    rw [h] at hlen
    unfold g_node_n_children at hn
    simp at hlen
    omega
  have hidx : (thunar_tree_view_model_insert_child_node_sorted model
      (thunar_tree_view_model_unlink_child parent node).1 child).2 = k := by
    unfold thunar_tree_view_model_insert_child_node_sorted thunar_tree_view_model_unlink_child
    simp only [GNode.children_mk]
    split
    · rename_i h
      exact absurd h hne
    · rename_i lp rest h
      simp only
      rw [← h, insert_child_node_sorted_loop_index model child _ k 0 hne hk hlast hbefore hafter]
      omega
  have h := reorder_if_req_swap_of_index model parent node child hchild hn (by rw [hidx]; exact hadj)
  rw [hidx] at h
  exact h

/-- Witness for C5 (amended): b, whose date changed from 20 to 5, belongs at index 0
among a and c and moves there from index 1. -/
theorem reorder_if_req_neighbour_swap_witness :
    (thunar_tree_view_model_reorder_if_req sample_model
        (GNode.mk none [leaf_of file_a, leaf_of file_b_changed, leaf_of file_c]) 1).2
      = some [1, 0, 2]
    ∧ ∃ new_order, (thunar_tree_view_model_reorder_if_req sample_model
        (GNode.mk none [leaf_of file_a, leaf_of file_b_changed, leaf_of file_c]) 1).2
          = some new_order ∧ new_order.length = 3 :=
  ⟨by decide,
    match (reorder_if_req_neighbour_swap sample_model
      (GNode.mk none [leaf_of file_a, leaf_of file_b_changed, leaf_of file_c]) 1 0
      (leaf_of file_b_changed) rfl (by decide) (by decide)
      (fun j c hj _ => absurd hj (Nat.not_lt_zero j))
      (fun c hc => by
        have : c = leaf_of file_a := by
          simp [List.eraseIdx] at hc
          exact hc.symm
        subst this
        decide)
      (by decide) (Or.inr rfl)).2 rfl with
    | ⟨new_order, h1, h2, _⟩ => ⟨new_order, h1, h2⟩⟩

/-! ## Acquire and release on a dummy node -/

theorem dropLast_ne_self {α : Type} (l : List α) (h : l ≠ []) : l ≠ l.dropLast := by
  intro he
  have := congrArg List.length he
  simp at this
  have hl : 0 < l.length := List.length_pos.mpr h
  omega

theorem unref_node_of_dummy (store : ThunarTreeViewModel) (iter : List Nat) (dummy : GNode)
    (hd : g_node_at iter store.root = some dummy) (hdd : dummy.data = none) :
    thunar_tree_view_model_unref_node store iter = store := by
  unfold thunar_tree_view_model_unref_node
  split
  · rfl
  · have : g_node_update_at unref_node_body iter store.root = store.root :=
      g_node_update_at_eq_self _ _ _ _ hd (by unfold unref_node_body; rw [hdd])
    rw [this]

theorem ref_node_of_dummy (store : ThunarTreeViewModel) (rt : Runtime) (iter : List Nat)
    (dummy : GNode) (parent_item : ThunarTreeViewModelItem) (hne : iter ≠ [])
    (hd : g_node_at iter store.root = some dummy) (hdd : dummy.data = none)
    (hp : (g_node_at iter.dropLast store.root).bind GNode.data = some parent_item) :
    thunar_tree_view_model_ref_node store rt iter =
      ({ store with
         root := g_node_update_at
           (fun parent => GNode.mk
             (some (thunar_tree_view_model_item_load_folder parent_item iter.dropLast rt).1)
             parent.children)
           iter.dropLast store.root },
        (thunar_tree_view_model_item_load_folder parent_item iter.dropLast rt).2) := by
  unfold thunar_tree_view_model_ref_node
  have : iter.isEmpty = false := by
    cases iter with
    | nil => exact absurd rfl hne
    | cons _ _ => rfl
  simp only [this, Bool.false_eq_true, if_false, hd, hdd, hp]

theorem ref_node_of_dummy_pending (store : ThunarTreeViewModel) (rt : Runtime)
    (iter : List Nat) (dummy : GNode) (parent_item : ThunarTreeViewModelItem) (hne : iter ≠ [])
    (hd : g_node_at iter store.root = some dummy) (hdd : dummy.data = none)
    (hp : (g_node_at iter.dropLast store.root).bind GNode.data = some parent_item)
    (hl : parent_item.load_idle_id ≠ 0) :
    thunar_tree_view_model_ref_node store rt iter = (store, rt) := by
  rw [ref_node_of_dummy store rt iter dummy parent_item hne hd hdd hp]
  have hlf : thunar_tree_view_model_item_load_folder parent_item iter.dropLast rt =
      (parent_item, rt) := by
    unfold thunar_tree_view_model_item_load_folder
    simp [hl]
  rw [hlf]
  cases hpn : g_node_at iter.dropLast store.root with
  | none => rw [hpn] at hp; simp at hp
  | some parent =>
    rw [hpn] at hp
    simp only [Option.some_bind] at hp
    have : g_node_update_at (fun parent => GNode.mk (some parent_item) parent.children)
        iter.dropLast store.root = store.root :=
      g_node_update_at_eq_self _ _ _ _ hpn (by simp only [← hp, GNode.eta])
    simp only [this]

theorem ref_unref_calls_pending (iter : List Nat) (calls : List Bool)
    (store : ThunarTreeViewModel) (rt : Runtime)
    (dummy : GNode) (parent_item : ThunarTreeViewModelItem) (hne : iter ≠ [])
    (hd : g_node_at iter store.root = some dummy) (hdd : dummy.data = none)
    (hp : (g_node_at iter.dropLast store.root).bind GNode.data = some parent_item)
    (hl : parent_item.load_idle_id ≠ 0) :
    ref_unref_calls iter calls (store, rt) = (store, rt) := by
  induction calls with
  | nil => rfl
  | cons c calls ih =>
    cases c with
    | true =>
      simp only [ref_unref_calls]
      rw [ref_node_of_dummy_pending store rt iter dummy parent_item hne hd hdd hp hl]
      exact ih
    | false =>
      simp only [ref_unref_calls]
      rw [unref_node_of_dummy store iter dummy hd hdd]
      exact ih

/-- C11: on a dummy node whose parent item has no open folder and no pending load,
any sequence of `thunar_tree_view_model_ref_node` and
`thunar_tree_view_model_unref_node` calls that contains a `ref_node` attaches exactly
one source to the main loop, the load idle of the parent, and changes nothing in the
model but the parent's `load_idle_id`, which becomes the id of that source: no node
is added or removed. -/
theorem ref_unref_on_dummy_schedules_one_load (store : ThunarTreeViewModel) (rt : Runtime)
    (iter : List Nat) (calls : List Bool) (dummy : GNode)
    (parent_item : ThunarTreeViewModelItem) (hne : iter ≠ [])
    (hd : g_node_at iter store.root = some dummy) (hdd : dummy.data = none)
    (hp : (g_node_at iter.dropLast store.root).bind GNode.data = some parent_item)
    (hf : parent_item.folder = none) (hl : parent_item.load_idle_id = 0)
    (hc : true ∈ calls) :
    ref_unref_calls iter calls (store, rt) =
      ({ store with
         root := g_node_update_at
           (fun parent => GNode.mk
             (some { parent_item with load_idle_id := rt.last_source_id + 1 })
             parent.children)
           iter.dropLast store.root },
        { rt with
          last_source_id := rt.last_source_id + 1
          sources := rt.sources ++
            [{ id := rt.last_source_id + 1
               func := GSourceFunc.item_load_idle iter.dropLast }] }) := by
  induction calls with
  | nil => simp at hc
  | cons c calls ih =>
    cases c with
    | false =>
      simp only [ref_unref_calls]
      rw [unref_node_of_dummy store iter dummy hd hdd]
      exact ih (by simpa using hc)
    | true =>
      simp only [ref_unref_calls]
      rw [ref_node_of_dummy store rt iter dummy parent_item hne hd hdd hp]
      have hlf : thunar_tree_view_model_item_load_folder parent_item iter.dropLast rt =
          ({ parent_item with load_idle_id := rt.last_source_id + 1 },
            { rt with
              last_source_id := rt.last_source_id + 1
              sources := rt.sources ++
                [{ id := rt.last_source_id + 1
                   func := GSourceFunc.item_load_idle iter.dropLast }] }) := by
        unfold thunar_tree_view_model_item_load_folder g_source_attach
        simp [hl, hf]
      rw [hlf]
      have hkeep : ∀ n : GNode, ((fun parent : GNode => GNode.mk
          (some { parent_item with load_idle_id := rt.last_source_id + 1 })
          parent.children) n).children = n.children := fun n => rfl
      have h1 := g_node_at_update_at_data _ hkeep iter.dropLast iter store.root
      rw [if_neg (dropLast_ne_self iter hne), hd] at h1
      have h2 := g_node_at_update_at_self (fun parent : GNode => GNode.mk
          (some { parent_item with load_idle_id := rt.last_source_id + 1 })
          parent.children) iter.dropLast store.root
      cases hn : g_node_at iter (g_node_update_at (fun parent : GNode => GNode.mk
          (some { parent_item with load_idle_id := rt.last_source_id + 1 })
          parent.children) iter.dropLast store.root) with
      | none => rw [hn] at h1; simp at h1
      | some dummy1 =>
        rw [hn] at h1
        simp only [Option.map_some', Option.some.injEq] at h1
        refine ref_unref_calls_pending iter calls _ _ dummy1
          { parent_item with load_idle_id := rt.last_source_id + 1 } hne hn (h1.trans hdd)
          ?_ (by simp)
        show (g_node_at iter.dropLast (g_node_update_at _ iter.dropLast store.root)).bind
          GNode.data = _
        rw [h2]
        cases hpn : g_node_at iter.dropLast store.root with
        | none => rw [hpn] at hp; simp at hp
        | some parent => rfl

/-- Two acquires and two releases of the dummy below the collapsed directory d
schedule one load of d and leave the tree as it was. -/
theorem ref_unref_on_dummy_schedules_one_load_witness :
    (ref_unref_calls [1, 0] [true, true, false, false] (collapsed_model, {})).2.sources =
        [{ id := 1, func := GSourceFunc.item_load_idle [1] }] ∧
      (ref_unref_calls [1, 0] [true, true, false, false] (collapsed_model, {})).1.root =
        GNode.mk none
          [leaf_of file_a,
            GNode.mk (some { file := dir_d, load_idle_id := 1 }) [GNode.mk none []]] := by
  have h := ref_unref_on_dummy_schedules_one_load collapsed_model {} [1, 0]
    [true, true, false, false] (GNode.mk none []) { file := dir_d } (by simp) rfl rfl rfl rfl
    rfl (by simp)
  rw [h]
  exact ⟨rfl, rfl⟩

/-! ## The cleanup sweep along a path -/

theorem cleanup_pre_order_of_evicted (node : GNode) (item : ThunarTreeViewModelItem)
    (hd : node.data = some item) (he : is_evicted node = true) :
    cleanup_pre_order node =
      GNode.mk (some { item with add_files_timeout := 0, folder := none })
        [GNode.mk none []] := by
  cases node with
  | mk data children =>
    simp only [GNode.data_mk] at hd
    subst hd
    simp only [is_evicted, GNode.data_mk] at he
    unfold cleanup_pre_order
    simp only [he, if_true]
    unfold thunar_tree_view_model_node_traverse_cleanup
    simp only [GNode.data_mk, he, if_true]
    rfl

theorem cleanup_pre_order_of_not_evicted (node : GNode) (he : is_evicted node = false) :
    cleanup_pre_order node = GNode.mk node.data (node.children.map cleanup_pre_order) := by
  cases node with
  | mk data children =>
    unfold cleanup_pre_order
    rw [cleanup_pre_order_list_eq_map]
    cases data with
    | none => rfl
    | some item =>
      simp only [is_evicted, GNode.data_mk] at he
      simp [he]

theorem cleanup_pre_order_file (node : GNode) :
    (cleanup_pre_order node).data.map (fun item => item.file) =
      node.data.map (fun item => item.file) := by
  cases he : is_evicted node with
  | false => rw [cleanup_pre_order_of_not_evicted node he]; rfl
  | true =>
    cases hd : node.data with
    | none => simp [is_evicted, hd] at he
    | some item => rw [cleanup_pre_order_of_evicted node item hd he]; rfl

theorem cleanup_pre_order_at_path (p : List Nat) (node : GNode)
    (h : no_evicted_ancestor p node = true) :
    g_node_at p (cleanup_pre_order node) = (g_node_at p node).map cleanup_pre_order := by
  induction p generalizing node with
  | nil => simp [g_node_at]
  | cons i p ih =>
    simp only [no_evicted_ancestor, Bool.and_eq_true, Bool.not_eq_true'] at h
    rw [cleanup_pre_order_of_not_evicted node h.1]
    simp only [g_node_at, GNode.children_mk, List.getElem?_map]
    cases hc : node.children[i]? with
    | none => rfl
    | some c =>
      simp only [Option.map_some']
      have h2 := h.2
      rw [hc] at h2
      exact ih c h2

theorem cleanup_pre_order_survivor (p : List Nat) (node n' : GNode)
    (h : g_node_at p (cleanup_pre_order node) = some n') (hd : n'.data.isSome = true) :
    no_evicted_ancestor p node = true := by
  induction p generalizing node with
  | nil => rfl
  | cons i p ih =>
    cases he : is_evicted node with
    | true =>
      exfalso
      cases hnd : node.data with
      | none => simp [is_evicted, hnd] at he
      | some item =>
        rw [cleanup_pre_order_of_evicted node item hnd he] at h
        cases i with
        | zero =>
          cases p with
          | nil =>
            simp [g_node_at] at h
            subst h
            simp at hd
          | cons j q => simp [g_node_at] at h
        | succ i => simp [g_node_at] at h
    | false =>
      rw [cleanup_pre_order_of_not_evicted node he] at h
      simp only [g_node_at, GNode.children_mk, List.getElem?_map] at h
      simp only [no_evicted_ancestor, he, Bool.not_false, Bool.true_and]
      cases hc : node.children[i]? with
      | none => rfl
      | some c =>
        rw [hc] at h
        exact ih c h

theorem child_entries_cleanup (cs : List GNode) :
    child_entries (cs.map cleanup_pre_order) = child_entries cs := by
  unfold child_entries
  rw [List.map_map]
  apply List.map_congr_left
  intro c _
  exact cleanup_pre_order_file c

/-- C12: after one sweep of `thunar_tree_view_model_cleanup_idle`, every item found in
the tree sits at the path it had before, with the same file and reference count, and
if it had an open folder and `ref_count == 0` its folder is closed and its only child
is a dummy; and every item with `ref_count != 0` and no evicted node above it is
found unchanged at its path (folder handle included), above the same entries in the
same order. -/
theorem cleanup_idle_evicts_unreferenced (model : ThunarTreeViewModel) :
    (∀ (p : List Nat) (n' : GNode) (item' : ThunarTreeViewModelItem),
      g_node_at p (thunar_tree_view_model_cleanup_idle model).root = some n' →
      n'.data = some item' →
      ∃ n item, g_node_at p model.root = some n ∧ n.data = some item ∧
        item'.file = item.file ∧ item'.ref_count = item.ref_count ∧
        (item.folder.isSome = true → item.ref_count = 0 →
          item'.folder = none ∧ n'.children = [GNode.mk none []])) ∧
    (∀ (p : List Nat) (n : GNode) (item : ThunarTreeViewModelItem),
      g_node_at p model.root = some n → n.data = some item → item.ref_count ≠ 0 →
      no_evicted_ancestor p model.root = true →
      ∃ n', g_node_at p (thunar_tree_view_model_cleanup_idle model).root = some n' ∧
        n'.data = some item ∧ child_entries n'.children = child_entries n.children) := by
  constructor
  · intro p n' item' h hd
    have hanc := cleanup_pre_order_survivor p model.root n' h (by rw [hd]; rfl)
    have hat := cleanup_pre_order_at_path p model.root hanc
    change g_node_at p (cleanup_pre_order model.root) = some n' at h
    rw [hat] at h
    cases hn : g_node_at p model.root with
    | none => rw [hn] at h; simp at h
    | some n =>
      rw [hn] at h
      simp only [Option.map_some', Option.some.injEq] at h
      subst h
      cases he : is_evicted n with
      | false =>
        rw [cleanup_pre_order_of_not_evicted n he] at hd
        simp only [GNode.data_mk] at hd
        refine ⟨n, item', rfl, hd, rfl, rfl, ?_⟩
        intro hf hr
        simp [is_evicted, hd, hf, hr] at he
      | true =>
        cases hnd : n.data with
        | none => simp [is_evicted, hnd] at he
        | some item =>
          rw [cleanup_pre_order_of_evicted n item hnd he] at hd ⊢
          simp only [GNode.data_mk, Option.some.injEq] at hd
          subst hd
          exact ⟨n, item, rfl, hnd, rfl, rfl, fun _ _ => ⟨rfl, rfl⟩⟩
  · intro p n item hn hd hr hanc
    have hat := cleanup_pre_order_at_path p model.root hanc
    rw [hn] at hat
    have he : is_evicted n = false := by
      simp only [is_evicted, hd, Bool.and_eq_false_imp]
      intro _
      simpa using hr
    rw [Option.map_some', cleanup_pre_order_of_not_evicted n he] at hat
    exact ⟨_, hat, hd, child_entries_cleanup n.children⟩

/-- In `sweep_model` the sweep turns the unreferenced directory d back into a node
with a closed folder and a dummy, and the referenced directory e keeps its folder and
its two entries. -/
theorem cleanup_idle_evicts_unreferenced_witness :
    g_node_at [0] (thunar_tree_view_model_cleanup_idle sweep_model).root =
        some (GNode.mk (some { file := dir_d }) [GNode.mk none []]) ∧
      (∃ n', g_node_at [1] (thunar_tree_view_model_cleanup_idle sweep_model).root = some n' ∧
        n'.data = some { file := dir_e, ref_count := 1, folder := some 8 } ∧
        child_entries n'.children = [some file_b, some dir_g]) :=
  ⟨rfl,
    (cleanup_idle_evicts_unreferenced sweep_model).2 [1]
      (GNode.mk (some { file := dir_e, ref_count := 1, folder := some 8 })
        [leaf_of file_b, GNode.mk (some { file := dir_g, folder := some 9 }) [leaf_of file_c]])
      { file := dir_e, ref_count := 1, folder := some 8 } rfl rfl (by decide) rfl⟩

/-! ## Eviction and re-expansion -/

/-- C13: the sweep leaves the staging list of the item it evicts alone, and the next
load appends the listing to it.  In `staged_model` the directory d shows a and has b
staged; after the sweep d holds only a dummy and still has b staged; after the load
idle (folder listing a, b) and the add-files step d has three children, for a, b and
b: the entry staged before the eviction appears twice. -/
theorem evict_reexpand_duplicates_staged_entry :
    (g_node_at [0] (thunar_tree_view_model_cleanup_idle staged_model).root).map
        (fun n => (n.children, n.data.map (fun item => item.files_to_add))) =
      some ([GNode.mk none []], some [file_b]) ∧
    (g_node_at [0]
        (thunar_tree_view_model_item_add_files
          (dispatch_item_load_idle open_dir_d
            (thunar_tree_view_model_cleanup_idle staged_model) {} [0]).1 [0]).1.root).map
        (fun n => child_files n.children) =
      some [file_a, file_b, file_b] := by
  constructor
  · rfl
  · rfl

/-! ## Unbinding and binding -/

theorem cancel_search_job_fields (model : ThunarTreeViewModel) (rt : Runtime) :
    (thunar_tree_view_model_cancel_search_job model rt).1 =
      { model with recursive_search_job := none } := by
  unfold thunar_tree_view_model_cancel_search_job
  cases h : model.recursive_search_job with
  | none =>
    simp only
    cases model
    simp only at h
    subst h
    rfl
  | some job => rfl

/-- C14: for a model bound to a folder, after
`thunar_tree_view_model_set_folder (model, NULL, NULL)` the root has no children
(`thunar_tree_view_model_get_num_files` is 0), `store->hidden` is empty, there is no
search job handle, the drain timer id is 0, the staging list is empty and
`thunar_tree_view_model_get_folder` returns `NULL`. -/
theorem set_folder_null_clears_model (normalize : List Char → List Char)
    (whitespace_regex : Option (List Char → List (List Char)))
    (store : ThunarTreeViewModel) (rt : Runtime) (hbound : store.folder.isSome = true) :
    (thunar_tree_view_model_set_folder normalize whitespace_regex store rt none none).1.root.children
        = [] ∧
      thunar_tree_view_model_get_num_files
        (thunar_tree_view_model_set_folder normalize whitespace_regex store rt none none).1 = 0 ∧
      (thunar_tree_view_model_set_folder normalize whitespace_regex store rt none none).1.hidden
        = [] ∧
      (thunar_tree_view_model_set_folder normalize whitespace_regex store rt none
        none).1.recursive_search_job = none ∧
      (thunar_tree_view_model_set_folder normalize whitespace_regex store rt none
        none).1.update_search_results_timeout_id = 0 ∧
      (thunar_tree_view_model_set_folder normalize whitespace_regex store rt none
        none).1.files_to_add = [] ∧
      thunar_tree_view_model_get_folder
        (thunar_tree_view_model_set_folder normalize whitespace_regex store rt none none).1
        = none := by
  unfold thunar_tree_view_model_set_folder set_folder_unlink
    thunar_tree_view_model_get_num_files thunar_tree_view_model_get_folder g_node_n_children
  simp only [hbound, if_true, cancel_search_job_fields, thunar_tree_view_model_release_files,
    GNode.children_mk, List.length_nil, and_self]

/-- Unbinding `bound_model` empties it. -/
theorem set_folder_null_clears_model_witness :
    bound_model.folder.isSome = true ∧
      (thunar_tree_view_model_set_folder id (some whitespace_regex_split) bound_model
        bound_runtime none none).1.root.children = [] ∧
      (thunar_tree_view_model_set_folder id (some whitespace_regex_split) bound_model
        bound_runtime none none).1.files_to_add = [] :=
  ⟨rfl,
    (set_folder_null_clears_model id (some whitespace_regex_split) bound_model bound_runtime
      rfl).1,
    (set_folder_null_clears_model id (some whitespace_regex_split) bound_model bound_runtime
      rfl).2.2.2.2.2.1⟩

theorem g_strstrip_of_blank (s : List Char) (h : ∀ c ∈ s, g_ascii_isspace c = true) :
    g_strstrip s = [] := by
  unfold g_strstrip g_strchug g_strchomp
  have : s.dropWhile g_ascii_isspace = [] := List.dropWhile_eq_nil_iff.mpr h
  rw [this]
  rfl

theorem g_strstrip_of_not_blank (s : List Char) (h : ∃ c ∈ s, g_ascii_isspace c = false) :
    (g_strstrip s).length ≠ 0 := by
  unfold g_strstrip g_strchug g_strchomp
  obtain ⟨c, hc, hs⟩ := h
  have h1 : s.dropWhile g_ascii_isspace ≠ [] := by
    intro he
    have := List.dropWhile_eq_nil_iff.mp he c hc
    rw [hs] at this
    exact Bool.noConfusion this
  obtain ⟨d, rest, hd⟩ := List.exists_cons_of_ne_nil h1
  have hdn : g_ascii_isspace d = false := by
    have := List.head_dropWhile_not g_ascii_isspace s h1
    simp only [hd, List.head_cons] at this
    simpa using this
  rw [hd]
  intro hl
  have h2 : (d :: rest).reverse.dropWhile g_ascii_isspace = [] := by
    simpa using hl
  have := List.dropWhile_eq_nil_iff.mp h2 d (by simp)
  rw [hdn] at this
  exact Bool.noConfusion this

theorem inc_loading_eq (m : ThunarTreeViewModel) :
    thunar_tree_view_model_inc_loading m =
      { m with loading := (thunar_tree_view_model_inc_loading m).loading } := by
  unfold thunar_tree_view_model_inc_loading
  split <;> rfl

theorem dec_loading_eq (m : ThunarTreeViewModel) :
    thunar_tree_view_model_dec_loading m =
      { m with loading := (thunar_tree_view_model_dec_loading m).loading } := by
  unfold thunar_tree_view_model_dec_loading
  split <;> rfl

theorem iterate_dec_loading_eq (k : Nat) (m : ThunarTreeViewModel) :
    Nat.iterate thunar_tree_view_model_dec_loading k m =
      { m with loading := (Nat.iterate thunar_tree_view_model_dec_loading k m).loading } := by
  induction k generalizing m with
  | zero => rfl
  | succ k ih =>
    rw [Function.iterate_succ_apply]
    rw [ih (thunar_tree_view_model_dec_loading m)]
    rw [dec_loading_eq m]

theorem g_object_notify_loading_eq (folder : ThunarFolder) (m : ThunarTreeViewModel) :
    g_object_notify_loading folder m =
      { m with
        root := item_notify_loading_tree folder m.root
        loading := (g_object_notify_loading folder m).loading } := by
  unfold g_object_notify_loading
  simp only
  rw [iterate_dec_loading_eq]
  unfold thunar_tree_view_model_notify_loading
  split
  · rw [dec_loading_eq m]
  · rfl

theorem item_notify_loading_list_eq_map (folder : ThunarFolder) (cs : List GNode) :
    item_notify_loading_list folder cs = cs.map (item_notify_loading_tree folder) := by
  induction cs with
  | nil => rfl
  | cons c cs ih => simp [item_notify_loading_list, ih]

theorem item_notify_loading_node_data (node : GNode) :
    (item_notify_loading_node node).data = node.data := by
  unfold item_notify_loading_node
  split
  · exact drop_dummy_data node
  · rfl

theorem item_notify_loading_tree_data (folder : ThunarFolder) (node : GNode) :
    (item_notify_loading_tree folder node).data = node.data := by
  cases node with
  | mk data children =>
    unfold item_notify_loading_tree
    simp only
    split
    · rw [item_notify_loading_node_data]; rfl
    · rfl

theorem item_notify_loading_tree_children (folder : ThunarFolder) (node : GNode)
    (h : G_NODE_HAS_DUMMY node = false) :
    (item_notify_loading_tree folder node).children =
      node.children.map (item_notify_loading_tree folder) := by
  cases node with
  | mk data children =>
    unfold item_notify_loading_tree
    rw [item_notify_loading_list_eq_map]
    have hd : G_NODE_HAS_DUMMY (GNode.mk data (children.map (item_notify_loading_tree folder)))
        = false := by
      unfold G_NODE_HAS_DUMMY at h ⊢
      simp only [GNode.children_mk] at h ⊢
      match children, h with
      | [], _ => rfl
      | [c], h =>
        simp only [List.map_cons, List.map_nil]
        rw [item_notify_loading_tree_data]
        exact h
      | _ :: _ :: _, _ => rfl
    simp only
    split
    · unfold item_notify_loading_node
      rw [hd]
      rfl
    · rfl

theorem child_files_map_of_data (f : GNode → GNode) (hf : ∀ c, (f c).data = c.data)
    (cs : List GNode) : child_files (cs.map f) = child_files cs := by
  unfold child_files
  rw [List.filterMap_map]
  apply List.filterMap_congr
  intro c _
  simp [hf]

theorem siblingsSorted_map_of_data (model : ThunarTreeViewModel) (f : GNode → GNode)
    (hf : ∀ c, (f c).data = c.data) (cs : List GNode) (h : SiblingsSorted model cs) :
    SiblingsSorted model (cs.map f) := by
  unfold SiblingsSorted at h ⊢
  rw [List.pairwise_map]
  refine h.imp ?_
  intro a b hab
  unfold thunar_tree_view_model_cmp_nodes_func at hab ⊢
  rw [hf a, hf b]
  exact hab

theorem siblingsSorted_congr (m1 m2 : ThunarTreeViewModel) (cs : List GNode)
    (h1 : m1.sort_func = m2.sort_func) (h2 : m1.sort_sign = m2.sort_sign)
    (h3 : m1.sort_case_sensitive = m2.sort_case_sensitive)
    (h4 : m1.sort_folders_first = m2.sort_folders_first) (h : SiblingsSorted m1 cs) :
    SiblingsSorted m2 cs := by
  unfold SiblingsSorted at h ⊢
  refine h.imp ?_
  intro a b hab
  unfold thunar_tree_view_model_cmp_nodes_func thunar_tree_view_model_cmp_files at hab ⊢
  rw [← h1, ← h2, ← h3, ← h4]
  exact hab

/-- The insertion step of `thunar_tree_view_model_set_folder` on a root without
children: the root gets one realized child per entry to be shown, in sorted order. -/
theorem insert_files_of_empty_root (m : ThunarTreeViewModel) (files : List ThunarFile)
    (hok : m.SortOk) (hroot : m.root.children = []) :
    (child_files (if files.isEmpty then m
        else thunar_tree_view_model_insert_files m files).root.children).Perm
        (shown_files m.show_hidden files) ∧
      SiblingsSorted m (if files.isEmpty then m
        else thunar_tree_view_model_insert_files m files).root.children ∧
      AllRealized (if files.isEmpty then m
        else thunar_tree_view_model_insert_files m files).root.children := by
  have hreal : AllRealized m.root.children := by
    rw [hroot]; intro c hc; simp at hc
  cases files with
  | nil =>
    simp only [List.isEmpty_nil, if_true, hroot]
    refine ⟨?_, ?_, hroot ▸ hreal⟩
    · simp [child_files, shown_files]
    · simp [SiblingsSorted]
  | cons f fs =>
    simp only [List.isEmpty_cons, Bool.false_eq_true, if_false]
    rw [insert_files_root m (f :: fs) hreal, hroot, List.append_nil]
    have hr : AllRealized ((shown_files m.show_hidden (f :: fs)).reverse.map new_child_node) := by
      intro c hc
      obtain ⟨g, _, rfl⟩ := List.mem_map.mp hc
      rw [new_child_node_data]; rfl
    refine ⟨?_, sort_sorted_of_realized m _ hok hr, ?_⟩
    · refine (child_files_perm (sort_children_perm m _)).trans ?_
      simp only [GNode.children_mk]
      rw [child_files_map_new]
      exact List.reverse_perm _
    · intro c hc
      exact hr c ((sort_children_perm m _).subset hc)

theorem set_folder_unlinked_root (store : ThunarTreeViewModel) (rt : Runtime)
    (hfresh : store.folder = none → store.root.children = [] ∧ store.recursive_search_job = none) :
    ∃ (H F : List ThunarFile) (T : Nat) (R : GNode) (rt1 : Runtime),
      R.children = [] ∧ rt1.launched = rt.launched ∧ rt1.last_job_id = rt.last_job_id ∧
      set_folder_unlink store rt =
      ({ store with root := R, hidden := H, recursive_search_job := none, files_to_add := F,
                    update_search_results_timeout_id := T }, rt1) := by
  unfold set_folder_unlink
  by_cases hs : store.folder.isSome = true
  · simp only [hs, if_true]
    refine ⟨[], [], 0, GNode.mk store.root.data [],
      (if (thunar_tree_view_model_cancel_search_job store rt).1.update_search_results_timeout_id
              > 0 then
            g_source_remove (thunar_tree_view_model_cancel_search_job store rt).2
              (thunar_tree_view_model_cancel_search_job store rt).1.update_search_results_timeout_id
          else (thunar_tree_view_model_cancel_search_job store rt).2), rfl, ?_, ?_, ?_⟩
    · unfold thunar_tree_view_model_cancel_search_job g_source_remove
      cases store.recursive_search_job <;> simp only <;> split <;> rfl
    · unfold thunar_tree_view_model_cancel_search_job g_source_remove
      cases store.recursive_search_job <;> simp only <;> split <;> rfl
    · rw [cancel_search_job_fields]
      rfl
  · have hf : store.folder = none := by
      cases h : store.folder with
      | none => rfl
      | some f => rw [h] at hs; simp at hs
    obtain ⟨h1, h2⟩ := hfresh hf
    refine ⟨store.hidden, store.files_to_add, store.update_search_results_timeout_id,
      store.root, rt, h1, rfl, rfl, ?_⟩
    rw [if_neg hs, ← h2]

theorem set_folder_files_of_blank (normalize : List Char → List Char)
    (whitespace_regex : Option (List Char → List (List Char)))
    (m : ThunarTreeViewModel) (rt : Runtime) (folder : ThunarFolder)
    (search_query : Option (List Char))
    (hblank : ∀ s, search_query = some s → ∀ c ∈ s, g_ascii_isspace c = true) :
    set_folder_files normalize whitespace_regex m rt folder search_query =
      ({ m with search_terms := none }, rt, folder.files) := by
  unfold set_folder_files
  cases search_query with
  | none => rfl
  | some s =>
    simp only [g_strstrip_of_blank s (hblank s rfl), List.length_nil, if_true]

theorem set_folder_files_of_not_blank (normalize : List Char → List Char)
    (g_regex_split : List Char → List (List Char))
    (m : ThunarTreeViewModel) (rt : Runtime) (folder : ThunarFolder) (s : List Char)
    (hs : ∃ c ∈ s, g_ascii_isspace c = false) :
    set_folder_files normalize (some g_regex_split) m rt folder (some s) =
      ({ m with
         search_terms := some (g_regex_split (normalize (g_strstrip s)))
         recursive_search_job := some
           { id := rt.last_job_id + 1, search_query_c := normalize (g_strstrip s),
             directory := folder.corresponding_file }
         update_search_results_timeout_id := rt.last_source_id + 1 },
       { rt with
         last_source_id := rt.last_source_id + 1
         sources := rt.sources ++
           [{ id := rt.last_source_id + 1, func := GSourceFunc.add_search_files }]
         last_job_id := rt.last_job_id + 1
         launched := rt.launched ++
           [{ id := rt.last_job_id + 1, search_query_c := normalize (g_strstrip s),
              directory := folder.corresponding_file }] }, []) := by
  unfold set_folder_files
  simp only [g_strstrip_of_not_blank s hs, if_false,
    thunar_tree_view_model_split_search_query, Option.isSome_some, if_true,
    thunar_tree_view_model_job_search_directory, g_source_attach]

/-- The last two steps of `thunar_tree_view_model_set_folder` on a model whose root has
no children: the insertion of `files` and the emission of "notify::loading". -/
theorem set_folder_tail (m : ThunarTreeViewModel) (folder : ThunarFolder)
    (files : List ThunarFile) (hok : m.SortOk) (hroot : m.root.children = []) :
    ∃ (R : GNode) (H : List ThunarFile) (L : Int),
      (if folder.loading then
          (if files.isEmpty then m else thunar_tree_view_model_insert_files m files)
        else g_object_notify_loading folder
          (if files.isEmpty then m else thunar_tree_view_model_insert_files m files)) =
        { m with root := R, hidden := H, loading := L } ∧
      (child_files R.children).Perm (shown_files m.show_hidden files) ∧
      SiblingsSorted m R.children ∧ (files = [] → R.children = []) := by
  obtain ⟨h1, h2, h3⟩ := insert_files_of_empty_root m files hok hroot
  have hi : (if files.isEmpty then m else thunar_tree_view_model_insert_files m files) =
      { m with
        root := (if files.isEmpty then m
          else thunar_tree_view_model_insert_files m files).root
        hidden := (if files.isEmpty then m
          else thunar_tree_view_model_insert_files m files).hidden } := by
    split <;> rfl
  have hnil : files = [] → (if files.isEmpty then m
      else thunar_tree_view_model_insert_files m files).root.children = [] := by
    intro hf
    subst hf
    exact hroot
  generalize (if files.isEmpty then m else thunar_tree_view_model_insert_files m files) = m3
    at h1 h2 h3 hi hnil ⊢
  cases folder.loading with
  | true =>
    simp only [if_true]
    exact ⟨m3.root, m3.hidden, m.loading, by rw [hi], h1, h2, hnil⟩
  | false =>
    simp only [Bool.false_eq_true, if_false]
    refine ⟨item_notify_loading_tree folder m3.root, m3.hidden,
      (g_object_notify_loading folder m3).loading, ?_, ?_, ?_, ?_⟩
    · rw [g_object_notify_loading_eq, hi]
    · rw [item_notify_loading_tree_children folder m3.root
        (has_dummy_false_of_realized _ h3),
        child_files_map_of_data _ (item_notify_loading_tree_data folder)]
      exact h1
    · rw [item_notify_loading_tree_children folder m3.root
        (has_dummy_false_of_realized _ h3)]
      exact siblingsSorted_map_of_data m _ (item_notify_loading_tree_data folder) _ h2
    · intro hf
      rw [item_notify_loading_tree_children folder m3.root
        (has_dummy_false_of_realized _ h3), hnil hf]
      rfl

/-- C15: `thunar_tree_view_model_set_folder (model, folder, query)` on a model that is
bound, or unbound and empty (no children, no job), with a comparator that is an
ordering and a whitespace pattern that compiles.  For a `NULL` query or one of
whitespace only, no job exists afterwards and none was launched, `search_terms` is
`NULL`, and the root's children carry exactly the entries of the listing that are to
be shown, in sorted order.  For a query with a character that is not whitespace, a
job for the normalized stripped query and the folder's directory exists and was
launched, the drain timer is installed, `search_terms` holds the split of the
normalized stripped query, and the root has no children. -/
theorem set_folder_searches_iff_query_not_blank (normalize : List Char → List Char)
    (g_regex_split : List Char → List (List Char))
    (store : ThunarTreeViewModel) (rt : Runtime) (folder : ThunarFolder)
    (search_query : Option (List Char)) (r : ThunarTreeViewModel × Runtime)
    (hr : r = thunar_tree_view_model_set_folder normalize (some g_regex_split) store rt
      (some folder) search_query)
    (hok : store.SortOk)
    (hfresh : store.folder = none →
      store.root.children = [] ∧ store.recursive_search_job = none) :
    ((∀ s, search_query = some s → ∀ c ∈ s, g_ascii_isspace c = true) →
      r.1.recursive_search_job = none ∧ r.2.launched = rt.launched ∧
      r.1.search_terms = none ∧
      (child_files r.1.root.children).Perm (shown_files store.show_hidden folder.files) ∧
      SiblingsSorted r.1 r.1.root.children) ∧
    (∀ s, search_query = some s → (∃ c ∈ s, g_ascii_isspace c = false) →
      r.1.recursive_search_job = some
        { id := rt.last_job_id + 1, search_query_c := normalize (g_strstrip s),
          directory := folder.corresponding_file } ∧
      r.2.launched = rt.launched ++
        [{ id := rt.last_job_id + 1, search_query_c := normalize (g_strstrip s),
           directory := folder.corresponding_file }] ∧
      0 < r.1.update_search_results_timeout_id ∧
      { id := r.1.update_search_results_timeout_id, func := GSourceFunc.add_search_files }
        ∈ r.2.sources ∧
      r.1.search_terms = some (g_regex_split (normalize (g_strstrip s))) ∧
      r.1.root.children = []) := by
  obtain ⟨H, F, T, R, rt1, hR, hl, hj, hu⟩ := set_folder_unlinked_root store rt hfresh
  unfold thunar_tree_view_model_set_folder at hr
  simp only [] at hr
  rw [hu] at hr
  simp only [] at hr
  rw [inc_loading_eq] at hr
  constructor
  · intro hblank
    rw [set_folder_files_of_blank normalize (some g_regex_split) _ rt1 folder search_query
      hblank] at hr
    simp only [] at hr
    obtain ⟨R', H', L', he, hp, hsrt, _⟩ := set_folder_tail
      { store with
        root := R, hidden := H, folder := some folder, search_terms := none,
        recursive_search_job := none, files_to_add := F,
        update_search_results_timeout_id := T,
        loading := (thunar_tree_view_model_inc_loading
          { store with
            root := R, hidden := H, folder := some folder, recursive_search_job := none,
            files_to_add := F, update_search_results_timeout_id := T }).loading }
      folder folder.files hok hR
    rw [he] at hr
    subst hr
    exact ⟨rfl, hl, rfl, hp, hsrt⟩
  · intro s hq hs
    subst hq
    rw [set_folder_files_of_not_blank normalize g_regex_split _ rt1 folder s hs] at hr
    simp only [] at hr
    obtain ⟨R', H', L', he, _, _, hnil⟩ := set_folder_tail
      { store with
        root := R, hidden := H, folder := some folder,
        search_terms := some (g_regex_split (normalize (g_strstrip s))),
        recursive_search_job := some
          { id := rt1.last_job_id + 1, search_query_c := normalize (g_strstrip s),
            directory := folder.corresponding_file },
        files_to_add := F,
        update_search_results_timeout_id := rt1.last_source_id + 1,
        loading := (thunar_tree_view_model_inc_loading
          { store with
            root := R, hidden := H, folder := some folder, recursive_search_job := none,
            files_to_add := F, update_search_results_timeout_id := T }).loading }
      folder [] hok hR
    rw [he] at hr
    subst hr
    refine ⟨?_, ?_, Nat.succ_pos _, ?_, rfl, hnil rfl⟩
    · simp only [hj]
    · simp only [hj, hl]
    · simp

/-- Rebinding `bound_model` to `folder_d` with the query " c x " launches the job 2 for
"c x" and leaves the root without children; `search_terms` are c and x. -/
theorem set_folder_searches_iff_query_not_blank_witness :
    (thunar_tree_view_model_set_folder id (some whitespace_regex_split) bound_model
        bound_runtime (some folder_d) (some " c x ".toList)).1.recursive_search_job =
      some { id := 2, search_query_c := "c x".toList, directory := dir_d } ∧
    (thunar_tree_view_model_set_folder id (some whitespace_regex_split) bound_model
        bound_runtime (some folder_d) (some " c x ".toList)).1.search_terms =
      some ["c".toList, "x".toList] ∧
    (thunar_tree_view_model_set_folder id (some whitespace_regex_split) bound_model
        bound_runtime (some folder_d) (some " c x ".toList)).1.root.children = [] := by
  have h := (set_folder_searches_iff_query_not_blank id whitespace_regex_split bound_model
    bound_runtime folder_d (some " c x ".toList) _ rfl
    ⟨compare_by_date_modified_isOrdering _, Or.inl rfl⟩
    (fun hf => absurd hf (by simp [bound_model]))).2 " c x ".toList rfl
    ⟨'c', by simp, by decide⟩
  exact ⟨h.1, h.2.2.2.2.1, h.2.2.2.2.2⟩

/-! ## The search without cancellation -/

@[simp] theorem GFile.data_of_mk (d : GFileData) (cs : List GFile) : (GFile.mk d cs).data = d := rfl

@[simp] theorem GFile.children_of_mk (d : GFileData) (cs : List GFile) :
    (GFile.mk d cs).children = cs := rfl

/-- Induction on a file tree: a property holds of every file once it holds of a file
whenever it holds of all the files its enumerator yields. -/
theorem GFile.tree_induction {P : GFile → Prop}
    (h : ∀ data children, (∀ c ∈ children, P c) → P (GFile.mk data children))
    (file : GFile) : P file :=
  @GFile.rec P (fun cs => ∀ c ∈ cs, P c)
    (fun data children ih => h data children ih)
    (fun c hc => absurd hc (List.not_mem_nil c))
    (fun head tail ih1 ih2 c hc => by
      rcases List.mem_cons.mp hc with rfl | hc
      · exact ih1
      · exact ih2 c hc)
    file

theorem look_cancelled_none (run : SearchRun) :
    look_cancelled none run = (false, { run with checks := run.checks + 1 }) := rfl

theorem no_recent_list_iff (cs : List GFile) :
    no_recent_list cs = true ↔ ∀ c ∈ cs, no_recent c = true := by
  induction cs with
  | nil => simp [no_recent_list]
  | cons c cs ih => simp [no_recent_list, ih]

theorem no_recent_iff (data : GFileData) (children : List GFile) :
    no_recent (GFile.mk data children) = true ↔
      data.uri_scheme_recent = false ∧ ∀ c ∈ children, no_recent c = true := by
  simp [no_recent, no_recent_list_iff]

theorem search_folder_loop_uncancelled (normalize : List Char → List Char)
    (terms : List (List Char)) (search_type : ThunarStandardViewModelSearch)
    (show_hidden : Bool) (rest : List GFile)
    (ih : ∀ c ∈ rest, ∀ run : SearchRun,
      (thunar_tree_view_model_search_folder normalize none terms search_type show_hidden
        c run).files_to_add = run.files_to_add ++
          (search_staged normalize terms search_type show_hidden c).map Prod.snd)
    (k : Nat) (run : SearchRun) (files_found : List ThunarFile) :
    (search_folder_loop normalize none terms search_type show_hidden false rest
        (run, files_found)).1.files_to_add = run.files_to_add ++
        (search_staged_loop normalize terms search_type show_hidden false k rest).1.map
          Prod.snd ∧
      (search_folder_loop normalize none terms search_type show_hidden false rest
        (run, files_found)).2 =
        (search_staged_loop normalize terms search_type show_hidden false k rest).2.map
          Prod.snd ++ files_found := by
  induction rest generalizing k run files_found with
  | nil =>
    simp [search_folder_loop, search_staged_loop, look_cancelled_none]
  | cons file rest ihr =>
    have ihr' := fun k run ff => ihr (fun c hc => ih c (List.mem_cons_of_mem _ hc)) k run ff
    have ihf := ih file (List.mem_cons_self _ _)
    unfold search_folder_loop search_staged_loop
    simp only [look_cancelled_none, Bool.false_eq_true, if_false, entry_info]
    split
    · exact ihr' (k + 1) _ _
    · split
      · rename_i hdir
        simp only [if_pos hdir]
        obtain ⟨h1, h2⟩ := ihr' (k + 1)
          (thunar_tree_view_model_search_folder normalize none terms search_type show_hidden
            file { run with checks := run.checks + 1 + 1 })
          (if thunar_tree_view_model_search_terms_match terms
              (normalize file.data.info.display_name) = true then
            file.data.thunar_file :: files_found else files_found)
        rw [h1, h2, ihf]
        constructor
        · simp [List.map_map, Function.comp_def]
        · split <;> simp
      · rename_i hdir
        simp only [if_neg hdir]
        obtain ⟨h1, h2⟩ := ihr' (k + 1)
          { run with checks := run.checks + 1 + 1 }
          (if thunar_tree_view_model_search_terms_match terms
              (normalize file.data.info.display_name) = true then
            file.data.thunar_file :: files_found else files_found)
        rw [h1, h2]
        constructor
        · simp
        · split <;> simp

theorem search_folder_uncancelled (normalize : List Char → List Char)
    (terms : List (List Char)) (search_type : ThunarStandardViewModelSearch)
    (show_hidden : Bool) (dir : GFile) :
    no_recent dir = true → ∀ run : SearchRun,
      (thunar_tree_view_model_search_folder normalize none terms search_type show_hidden
        dir run).files_to_add = run.files_to_add ++
          (search_staged normalize terms search_type show_hidden dir).map Prod.snd := by
  induction dir using GFile.tree_induction with
  | h data children ih =>
    intro hnr run
    obtain ⟨hr, hcs⟩ := (no_recent_iff data children).mp hnr
    unfold thunar_tree_view_model_search_folder search_staged
    simp only [look_cancelled_none, Bool.false_eq_true, Bool.false_or, if_false, hr]
    cases data.enumerable with
    | false => simp
    | true =>
      simp only [Bool.not_true, Bool.false_eq_true, if_false]
      obtain ⟨h1, h2⟩ := search_folder_loop_uncancelled normalize terms search_type show_hidden
        children (fun c hc => ih c hc (hcs c hc)) 0
        { run with checks := run.checks + 1 } []
      rw [h1, h2]
      simp

/-- Every path of `search_staged` is not empty and leads to the entry whose file is
staged with it. -/
theorem search_staged_loop_entry (normalize : List Char → List Char)
    (terms : List (List Char)) (search_type : ThunarStandardViewModelSearch)
    (show_hidden recent : Bool) (data : GFileData) (rest pre : List GFile)
    (ih : ∀ c ∈ rest, ∀ e ∈ search_staged normalize terms search_type show_hidden c,
      e.1 ≠ [] ∧ (entry_at e.1 c).map (fun f => f.data.thunar_file) = some e.2) :
    ∀ e ∈ (search_staged_loop normalize terms search_type show_hidden recent pre.length rest).1
        ++ (search_staged_loop normalize terms search_type show_hidden recent pre.length rest).2,
      (∃ i q, e.1 = i :: q ∧ pre.length ≤ i) ∧
        (entry_at e.1 (GFile.mk data (pre ++ rest))).map (fun f => f.data.thunar_file)
          = some e.2 := by
  induction rest generalizing pre with
  | nil => intro e he; simp [search_staged_loop] at he
  | cons file rest ihr =>
    have ihr' := ihr (pre ++ [file]) (fun c hc => ih c (List.mem_cons_of_mem _ hc))
    simp only [List.length_append, List.length_singleton, List.append_assoc,
      List.singleton_append] at ihr'
    have hrest : ∀ e ∈ (search_staged_loop normalize terms search_type show_hidden recent
          (pre.length + 1) rest).1 ++
        (search_staged_loop normalize terms search_type show_hidden recent
          (pre.length + 1) rest).2,
        (∃ i q, e.1 = i :: q ∧ pre.length ≤ i) ∧
          (entry_at e.1 (GFile.mk data (pre ++ file :: rest))).map
            (fun f => f.data.thunar_file) = some e.2 := by
      intro e he
      obtain ⟨⟨i, q, h1, h2⟩, h3⟩ := ihr' e he
      exact ⟨⟨i, q, h1, by omega⟩, h3⟩
    have hk : (pre ++ file :: rest)[pre.length]? = some file := by
      rw [List.getElem?_append_right (le_refl _)]
      simp
    intro e he
    unfold search_staged_loop at he
    cases hinfo : entry_info recent file with
    | none => simp [hinfo] at he
    | some info =>
      simp only [hinfo] at he
      split at he
      · exact hrest e he
      · simp only [List.mem_append] at he
        have hrest' := fun h => hrest e (List.mem_append.mpr h)
        rcases he with (hsub | h1) | (h2 | hown)
        · split at hsub
          · obtain ⟨e', he', rfl⟩ := List.mem_map.mp hsub
            obtain ⟨_, hl⟩ := ih file (List.mem_cons_self _ _) e' he'
            refine ⟨⟨pre.length, e'.1, rfl, le_refl _⟩, ?_⟩
            simp only [entry_at, GFile.children_of_mk, hk]
            exact hl
          · simp at hsub
        · exact hrest' (Or.inl h1)
        · exact hrest' (Or.inr h2)
        · split at hown
          · simp only [List.mem_singleton] at hown
            subst hown
            refine ⟨⟨pre.length, [], rfl, le_refl _⟩, ?_⟩
            simp [entry_at, hk]
          · simp at hown

theorem search_staged_entry (normalize : List Char → List Char)
    (terms : List (List Char)) (search_type : ThunarStandardViewModelSearch)
    (show_hidden : Bool) (dir : GFile) :
    ∀ e ∈ search_staged normalize terms search_type show_hidden dir,
      e.1 ≠ [] ∧ (entry_at e.1 dir).map (fun f => f.data.thunar_file) = some e.2 := by
  induction dir using GFile.tree_induction with
  | h data children ih =>
    intro e he
    unfold search_staged at he
    split at he
    · simp at he
    · obtain ⟨⟨i, q, h1, _⟩, h2⟩ := search_staged_loop_entry normalize terms search_type
        show_hidden data.uri_scheme_recent data children [] ih e he
      refine ⟨?_, h2⟩
      rw [h1]
      exact List.cons_ne_nil _ _

theorem search_staged_loop_nodup (normalize : List Char → List Char)
    (terms : List (List Char)) (search_type : ThunarStandardViewModelSearch)
    (show_hidden recent : Bool) (data : GFileData) (rest pre : List GFile)
    (ih : ∀ c ∈ rest,
      ((search_staged normalize terms search_type show_hidden c).map Prod.fst).Nodup) :
    (((search_staged_loop normalize terms search_type show_hidden recent pre.length rest).1
        ++ (search_staged_loop normalize terms search_type show_hidden recent pre.length
          rest).2).map Prod.fst).Nodup := by
  induction rest generalizing pre with
  | nil => simp [search_staged_loop]
  | cons file rest ihr =>
    have ihr' := ihr (pre ++ [file]) (fun c hc => ih c (List.mem_cons_of_mem _ hc))
    have hent := search_staged_loop_entry normalize terms search_type show_hidden recent data
      rest (pre ++ [file])
      (fun c _ => search_staged_entry normalize terms search_type show_hidden c)
    simp only [List.length_append, List.length_singleton] at ihr' hent
    unfold search_staged_loop
    cases hinfo : entry_info recent file with
    | none => simp
    | some info =>
      simp only
      split
      · exact ihr'
      · generalize hsub : (if info.file_type = GFileType.G_FILE_TYPE_DIRECTORY ∧ search_type =
              ThunarStandardViewModelSearch.THUNAR_STANDARD_VIEW_MODEL_SEARCH_RECURSIVE then
            (search_staged normalize terms search_type show_hidden file).map
              (fun e => (pre.length :: e.1, e.2))
          else []) = sub
        generalize hown : (if thunar_tree_view_model_search_terms_match terms
              (normalize info.display_name) = true then
            [([pre.length], file.data.thunar_file)] else []) = own
        generalize search_staged_loop normalize terms search_type show_hidden recent
          (pre.length + 1) rest = r at ihr' hent
        have hA : ∀ p ∈ sub.map Prod.fst, ∃ q, q ≠ [] ∧ p = pre.length :: q := by
          intro p hp
          obtain ⟨e, he, rfl⟩ := List.mem_map.mp hp
          rw [← hsub] at he
          split at he
          · obtain ⟨e', he', rfl⟩ := List.mem_map.mp he
            exact ⟨e'.1,
              (search_staged_entry normalize terms search_type show_hidden file e' he').1, rfl⟩
          · simp at he
        have hAn : (sub.map Prod.fst).Nodup := by
          rw [← hsub]
          split
          · rw [List.map_map]
            have : (Prod.fst ∘ fun e : List Nat × ThunarFile => (pre.length :: e.1, e.2)) =
                (fun q => pre.length :: q) ∘ Prod.fst := rfl
            rw [this, ← List.map_map]
            exact (ih file (List.mem_cons_self _ _)).map (fun a b h => List.tail_eq_of_cons_eq h)
          · simp
        have hB : ∀ p ∈ own.map Prod.fst, p = [pre.length] := by
          intro p hp
          rw [← hown] at hp
          split at hp <;> simp at hp
          exact hp
        have hBn : (own.map Prod.fst).Nodup := by
          rw [← hown]
          split <;> simp
        have hC : ∀ p ∈ (r.1 ++ r.2).map Prod.fst, ∃ i q, p = i :: q ∧ pre.length + 1 ≤ i := by
          intro p hp
          obtain ⟨e, he, rfl⟩ := List.mem_map.mp hp
          exact (hent e he).1
        have hperm : (((sub ++ r.1) ++ (r.2 ++ own)).map Prod.fst).Perm
            ((sub.map Prod.fst ++ own.map Prod.fst) ++ (r.1 ++ r.2).map Prod.fst) := by
          simp only [List.map_append, List.append_assoc]
          refine List.Perm.append_left _ ?_
          rw [← List.append_assoc]
          exact List.perm_append_comm
        rw [hperm.nodup_iff, List.nodup_append]
        refine ⟨?_, ihr', ?_⟩
        · rw [List.nodup_append]
          refine ⟨hAn, hBn, ?_⟩
          intro p hpa hpb
          obtain ⟨q, hq, rfl⟩ := hA p hpa
          have := hB _ hpb
          simp only [List.cons.injEq, true_and] at this
          exact hq this
        · intro p hp hpc
          obtain ⟨i, q, rfl, hi⟩ := hC p hpc
          rcases List.mem_append.mp hp with h | h
          · obtain ⟨q', _, h'⟩ := hA _ h
            simp only [List.cons.injEq] at h'
            omega
          · have h' := hB _ h
            simp only [List.cons.injEq] at h'
            omega

theorem search_staged_nodup (normalize : List Char → List Char)
    (terms : List (List Char)) (search_type : ThunarStandardViewModelSearch)
    (show_hidden : Bool) (dir : GFile) :
    ((search_staged normalize terms search_type show_hidden dir).map Prod.fst).Nodup := by
  induction dir using GFile.tree_induction with
  | h data children ih =>
    unfold search_staged
    split
    · simp
    · exact search_staged_loop_nodup normalize terms search_type show_hidden
        data.uri_scheme_recent data children [] ih

theorem is_search_result_single (normalize : List Char → List Char)
    (terms : List (List Char)) (search_type : ThunarStandardViewModelSearch)
    (show_hidden : Bool) (dir file : GFile) (info : GFileInfo) (i : Nat)
    (hc : dir.children[i]? = some file)
    (hi : entry_info dir.data.uri_scheme_recent file = some info) :
    is_search_result normalize terms search_type show_hidden [i] dir =
      (info_visible show_hidden info &&
        thunar_tree_view_model_search_terms_match terms (normalize info.display_name)) := by
  simp only [is_search_result, hc, hi]

theorem is_search_result_deep (normalize : List Char → List Char)
    (terms : List (List Char)) (search_type : ThunarStandardViewModelSearch)
    (show_hidden : Bool) (dir file : GFile) (info : GFileInfo) (i j : Nat) (q : List Nat)
    (hc : dir.children[i]? = some file)
    (hi : entry_info dir.data.uri_scheme_recent file = some info) :
    is_search_result normalize terms search_type show_hidden (i :: j :: q) dir =
      (info_visible show_hidden info &&
        decide (info.file_type = GFileType.G_FILE_TYPE_DIRECTORY) &&
        decide (search_type =
          ThunarStandardViewModelSearch.THUNAR_STANDARD_VIEW_MODEL_SEARCH_RECURSIVE) &&
        is_search_result normalize terms search_type show_hidden (j :: q) file) := by
  simp only [is_search_result, hc, hi]

theorem is_search_result_nil (normalize : List Char → List Char)
    (terms : List (List Char)) (search_type : ThunarStandardViewModelSearch)
    (show_hidden : Bool) (dir : GFile) :
    is_search_result normalize terms search_type show_hidden [] dir = false := by
  simp only [is_search_result]

theorem info_visible_eq (show_hidden : Bool) (info : GFileInfo) :
    info_visible show_hidden info = !(!show_hidden && (info.is_hidden || info.is_backup)) := by
  unfold info_visible
  cases show_hidden <;> cases info.is_hidden <;> cases info.is_backup <;> rfl

theorem search_staged_loop_mem (normalize : List Char → List Char)
    (terms : List (List Char)) (search_type : ThunarStandardViewModelSearch)
    (show_hidden : Bool) (data : GFileData) (rest pre : List GFile)
    (hinfo : ∀ c ∈ rest, (entry_info data.uri_scheme_recent c).isSome = true)
    (ih : ∀ c ∈ rest, ∀ info, entry_info data.uri_scheme_recent c = some info →
      info.file_type = GFileType.G_FILE_TYPE_DIRECTORY →
      ∀ p, p ∈ (search_staged normalize terms search_type show_hidden c).map Prod.fst ↔
        is_search_result normalize terms search_type show_hidden p c = true) (p : List Nat) :
    p ∈ ((search_staged_loop normalize terms search_type show_hidden data.uri_scheme_recent
          pre.length rest).1
        ++ (search_staged_loop normalize terms search_type show_hidden data.uri_scheme_recent
          pre.length rest).2).map Prod.fst ↔
      ∃ i q, p = i :: q ∧ pre.length ≤ i ∧
        is_search_result normalize terms search_type show_hidden (i :: q)
          (GFile.mk data (pre ++ rest)) = true := by
  induction rest generalizing pre with
  | nil =>
    simp only [search_staged_loop, List.append_nil, List.map_nil, List.not_mem_nil, false_iff,
      not_exists, not_and]
    intro i q _ hi
    have hn : pre[i]? = none := List.getElem?_eq_none hi
    cases q with
    | nil => simp [is_search_result, hn]
    | cons j q => simp [is_search_result, hn]
  | cons file rest ihr =>
    have ihr' := ihr (pre ++ [file]) (fun c hc => hinfo c (List.mem_cons_of_mem _ hc))
      (fun c hc => ih c (List.mem_cons_of_mem _ hc))
    simp only [List.length_append, List.length_singleton, List.append_assoc,
      List.singleton_append] at ihr'
    obtain ⟨info, hi⟩ := Option.isSome_iff_exists.mp (hinfo file (List.mem_cons_self _ _))
    have hk : (GFile.mk data (pre ++ file :: rest)).children[pre.length]? = some file := by
      simp only [GFile.children_of_mk]
      rw [List.getElem?_append_right (le_refl _)]
      simp
    have hi' : entry_info (GFile.mk data (pre ++ file :: rest)).data.uri_scheme_recent file
        = some info := hi
    have hsingle := is_search_result_single normalize terms search_type show_hidden _ file info
      pre.length hk hi'
    have hdeep := fun j q => is_search_result_deep normalize terms search_type show_hidden _
      file info pre.length j q hk hi'
    have hsplit : (∃ i q, p = i :: q ∧ pre.length ≤ i ∧
          is_search_result normalize terms search_type show_hidden (i :: q)
            (GFile.mk data (pre ++ file :: rest)) = true) ↔
        ((∃ q, p = pre.length :: q ∧
          is_search_result normalize terms search_type show_hidden (pre.length :: q)
            (GFile.mk data (pre ++ file :: rest)) = true) ∨
        (∃ i q, p = i :: q ∧ pre.length + 1 ≤ i ∧
          is_search_result normalize terms search_type show_hidden (i :: q)
            (GFile.mk data (pre ++ file :: rest)) = true)) := by
      constructor
      · rintro ⟨i, q, h1, h2, h3⟩
        rcases Nat.eq_or_lt_of_le h2 with h | h
        · subst h; exact Or.inl ⟨q, h1, h3⟩
        · exact Or.inr ⟨i, q, h1, h, h3⟩
      · rintro (⟨q, h1, h3⟩ | ⟨i, q, h1, h2, h3⟩)
        · exact ⟨_, q, h1, le_refl _, h3⟩
        · exact ⟨i, q, h1, by omega, h3⟩
    rw [hsplit, ← ihr']
    simp only [search_staged_loop, hi]
    by_cases hvis : (!show_hidden && (info.is_hidden || info.is_backup)) = true
    · rw [if_pos hvis]
      have hnv : info_visible show_hidden info = false := by
        rw [info_visible_eq, hvis]
        rfl
      constructor
      · exact Or.inr
      · rintro (⟨q, _, h3⟩ | h)
        · exfalso
          cases q with
          | nil => rw [hsingle, hnv] at h3; simp at h3
          | cons j q => rw [hdeep, hnv] at h3; simp at h3
        · exact h
    · rw [if_neg hvis]
      have hv : info_visible show_hidden info = true := by
        rw [info_visible_eq, Bool.not_eq_true _ |>.mp hvis]
        rfl
      simp only [List.map_append, List.mem_append]
      have hown : p ∈ List.map Prod.fst (if thunar_tree_view_model_search_terms_match terms
            (normalize info.display_name) = true then
            [([pre.length], file.data.thunar_file)] else []) ↔
          (p = [pre.length] ∧ is_search_result normalize terms search_type show_hidden
            [pre.length] (GFile.mk data (pre ++ file :: rest)) = true) := by
        rw [hsingle, hv]
        split <;> simp_all
      have hsub : p ∈ List.map Prod.fst
            (if info.file_type = GFileType.G_FILE_TYPE_DIRECTORY ∧ search_type =
                ThunarStandardViewModelSearch.THUNAR_STANDARD_VIEW_MODEL_SEARCH_RECURSIVE then
              (search_staged normalize terms search_type show_hidden file).map
                (fun e => (pre.length :: e.1, e.2))
            else []) ↔
          (∃ j q, p = pre.length :: j :: q ∧
            is_search_result normalize terms search_type show_hidden (pre.length :: j :: q)
              (GFile.mk data (pre ++ file :: rest)) = true) := by
        by_cases hdir : info.file_type = GFileType.G_FILE_TYPE_DIRECTORY ∧ search_type =
            ThunarStandardViewModelSearch.THUNAR_STANDARD_VIEW_MODEL_SEARCH_RECURSIVE
        · have ihf := ih file (List.mem_cons_self _ _) info hi hdir.1
          simp only [if_pos hdir, List.map_map, List.mem_map, Function.comp_apply]
          constructor
          · rintro ⟨e, he, rfl⟩
            have hm := (ihf e.1).mp (List.mem_map.mpr ⟨e, he, rfl⟩)
            cases hq : e.1 with
            | nil => rw [hq, is_search_result_nil] at hm; simp at hm
            | cons j q =>
              refine ⟨j, q, rfl, ?_⟩
              rw [hdeep, hv, ← hq, hm]
              simp [hdir.1, hdir.2]
          · rintro ⟨j, q, rfl, h3⟩
            rw [hdeep] at h3
            simp only [Bool.and_eq_true] at h3
            obtain ⟨e, he, heq⟩ := List.mem_map.mp ((ihf (j :: q)).mpr h3.2)
            exact ⟨e, he, by rw [heq]⟩
        · simp only [if_neg hdir, List.map_nil, List.not_mem_nil, false_iff, not_exists,
            not_and]
          intro j q _ h3
          rw [hdeep] at h3
          simp only [Bool.and_eq_true, decide_eq_true_eq] at h3
          exact hdir ⟨h3.1.1.2, h3.1.2⟩
      rw [hown, hsub]
      constructor
      · rintro ((⟨j, q, h1, h3⟩ | h) | (h | ⟨h1, h3⟩))
        · exact Or.inl ⟨_, h1, h3⟩
        · exact Or.inr (Or.inl h)
        · exact Or.inr (Or.inr h)
        · exact Or.inl ⟨_, h1, h3⟩
      · rintro (⟨q, h1, h3⟩ | (h | h))
        · cases q with
          | nil => exact Or.inr (Or.inr ⟨h1, h3⟩)
          | cons j q => exact Or.inl (Or.inl ⟨j, q, h1, h3⟩)
        · exact Or.inl (Or.inr h)
        · exact Or.inr (Or.inl h)

theorem search_staged_mem (normalize : List Char → List Char)
    (terms : List (List Char)) (search_type : ThunarStandardViewModelSearch)
    (show_hidden : Bool) (dir : GFile) (h : EnumerationSucceeds dir) (p : List Nat) :
    p ∈ (search_staged normalize terms search_type show_hidden dir).map Prod.fst ↔
      is_search_result normalize terms search_type show_hidden p dir = true := by
  induction h generalizing p with
  | mk data children hen hinfo _ ih =>
    unfold search_staged
    simp only [hen, Bool.not_true, Bool.false_eq_true, if_false]
    have := search_staged_loop_mem normalize terms search_type show_hidden data children []
      hinfo (fun c hc info hi hd p => ih c hc info hi hd p) p
    simp only [List.length_nil, List.nil_append, Nat.zero_le, true_and] at this
    rw [this]
    constructor
    · rintro ⟨i, q, rfl, h⟩
      exact h
    · intro h
      cases p with
      | nil => rw [is_search_result_nil] at h; simp at h
      | cons i q => exact ⟨i, q, rfl, h⟩

theorem filterMap_fst_eq_map_snd {α β : Type} (g : α → Option β) (l : List (α × β))
    (h : ∀ e ∈ l, g e.1 = some e.2) : (l.map Prod.fst).filterMap g = l.map Prod.snd := by
  induction l with
  | nil => rfl
  | cons e l ih =>
    simp only [List.map_cons, List.filterMap_cons, h e (List.mem_cons_self _ _)]
    rw [ih (fun e' he' => h e' (List.mem_cons_of_mem _ he'))]

theorem enumerationSucceeds_of_files (data : GFileData) (children : List GFile)
    (hen : data.enumerable = true) (hr : data.uri_scheme_recent = false)
    (hf : ∀ c ∈ children, c.data.info.file_type ≠ GFileType.G_FILE_TYPE_DIRECTORY) :
    EnumerationSucceeds (GFile.mk data children) := by
  refine EnumerationSucceeds.mk data children hen ?_ ?_
  · intro c _
    simp [entry_info, hr]
  · intro c hc info hi hd
    simp only [entry_info, hr, Bool.false_eq_true, if_false, Option.some.injEq] at hi
    subst hi
    exact absurd hd (hf c hc)

theorem disk_d_enumerationSucceeds : EnumerationSucceeds disk_d := by
  refine EnumerationSucceeds.mk _ _ rfl ?_ ?_
  · intro c _
    rfl
  · intro c hc info hi hd
    simp only [List.mem_cons, List.mem_singleton, List.not_mem_nil, or_false] at hc
    rcases hc with rfl | rfl | rfl
    · simp only [entry_info] at hi
      cases hi
      cases hd
    · exact enumerationSucceeds_of_files _ _ rfl rfl (by
        intro c hc
        simp only [List.mem_singleton] at hc
        subst hc
        decide)
    · exact enumerationSucceeds_of_files _ _ rfl rfl (by
        intro c hc
        simp only [List.mem_cons, List.mem_singleton, List.not_mem_nil, or_false] at hc
        rcases hc with rfl | rfl <;> decide)

/-! ## The search under cancellation -/

theorem search_staged_loop_fst_length (normalize : List Char → List Char)
    (terms : List (List Char)) (search_type : ThunarStandardViewModelSearch)
    (show_hidden recent : Bool) (k : Nat) (rest : List GFile) :
    ∀ e ∈ (search_staged_loop normalize terms search_type show_hidden recent k rest).1,
      2 ≤ e.1.length := by
  induction rest generalizing k with
  | nil => intro e he; simp [search_staged_loop] at he
  | cons file rest ihr =>
    intro e he
    simp only [search_staged_loop] at he
    cases hinfo : entry_info recent file with
    | none => simp [hinfo] at he
    | some info =>
      simp only [hinfo] at he
      split at he
      · exact ihr (k + 1) e he
      · rcases List.mem_append.mp he with h | h
        · split at h
          · obtain ⟨e', he', rfl⟩ := List.mem_map.mp h
            have := (search_staged_entry normalize terms search_type show_hidden file e' he').1
            have hl : 0 < e'.1.length := List.length_pos.mpr this
            simp only [List.length_cons]
            omega
          · simp at h
        · exact ihr (k + 1) e h

theorem search_folder_loop_staged_sublist (normalize : List Char → List Char)
    (cancelled_from : Option Nat) (terms : List (List Char))
    (search_type : ThunarStandardViewModelSearch) (show_hidden : Bool)
    (rest : List GFile)
    (ih : ∀ c ∈ rest, ∀ run : SearchRun,
      ∃ S : List (List Nat × ThunarFile), S.Sublist (search_staged normalize terms search_type show_hidden c) ∧
        (thunar_tree_view_model_search_folder normalize cancelled_from terms search_type
          show_hidden c run).files_to_add = run.files_to_add ++ S.map Prod.snd ∧
        (thunar_tree_view_model_search_folder normalize cancelled_from terms search_type
          show_hidden c run).freed_file_used = run.freed_file_used)
    (k : Nat) (run : SearchRun) (files_found : List ThunarFile) :
    ∃ S1 S2 : List (List Nat × ThunarFile),
      S1.Sublist (search_staged_loop normalize terms search_type show_hidden false k rest).1 ∧
      S2.Sublist (search_staged_loop normalize terms search_type show_hidden false k rest).2 ∧
      (search_folder_loop normalize cancelled_from terms search_type show_hidden false rest
        (run, files_found)).1.files_to_add = run.files_to_add ++ S1.map Prod.snd ∧
      (search_folder_loop normalize cancelled_from terms search_type show_hidden false rest
        (run, files_found)).2 = S2.map Prod.snd ++ files_found ∧
      (search_folder_loop normalize cancelled_from terms search_type show_hidden false rest
        (run, files_found)).1.freed_file_used = run.freed_file_used := by
  induction rest generalizing k run files_found with
  | nil =>
    refine ⟨[], [], List.nil_sublist _, List.nil_sublist _, ?_, ?_, ?_⟩
    · simp only [search_folder_loop, look_cancelled]
      split <;> simp
    · simp only [search_folder_loop, look_cancelled]
      split <;> simp
    · simp only [search_folder_loop, look_cancelled]
      split <;> rfl
  | cons file rest ihr =>
    have ihr' := fun k run ff => ihr (fun c hc => ih c (List.mem_cons_of_mem _ hc)) k run ff
    have ihf := ih file (List.mem_cons_self _ _)
    have hstop : ∀ (r : SearchRun) (_ : r.files_to_add = run.files_to_add)
        (_ : r.freed_file_used = run.freed_file_used),
        ∃ S1 S2 : List (List Nat × ThunarFile),
          S1.Sublist (search_staged_loop normalize terms search_type show_hidden false k
            (file :: rest)).1 ∧
          S2.Sublist (search_staged_loop normalize terms search_type show_hidden false k
            (file :: rest)).2 ∧
          r.files_to_add = run.files_to_add ++ S1.map Prod.snd ∧
          files_found = S2.map Prod.snd ++ files_found ∧
          r.freed_file_used = run.freed_file_used := by
      intro r hr hfl
      exact ⟨[], [], List.nil_sublist _, List.nil_sublist _, by simp [hr], by simp, hfl⟩
    simp only [search_folder_loop, look_cancelled, Bool.false_eq_true, if_false]
    split
    · exact hstop _ rfl rfl
    · split
      · exact hstop _ rfl rfl
      · simp only [search_staged_loop, entry_info, Bool.false_eq_true, if_false]
        split
        · obtain ⟨S1, S2, h1, h2, h3, h4, h5⟩ := ihr' (k + 1)
            { run with checks := run.checks + 1 + 1 } files_found
          exact ⟨S1, S2, h1, h2, h3, h4, h5⟩
        · generalize hown : (if thunar_tree_view_model_search_terms_match terms
              (normalize file.data.info.display_name) = true then
              file.data.thunar_file :: files_found else files_found) = found'
          have hown' : ∃ O : List (List Nat × ThunarFile), O.Sublist (if thunar_tree_view_model_search_terms_match terms
              (normalize file.data.info.display_name) = true then
              [([k], file.data.thunar_file)] else []) ∧
              found' = O.map Prod.snd ++ files_found := by
            rw [← hown]
            split
            · exact ⟨_, List.Sublist.refl _, rfl⟩
            · exact ⟨[], List.nil_sublist _, rfl⟩
          obtain ⟨O, hO, hfound⟩ := hown'
          split
          · rename_i hdir
            obtain ⟨Sf, hSf, hf, hfl⟩ := ihf { run with checks := run.checks + 1 + 1 }
            obtain ⟨S1, S2, h1, h2, h3, h4, h5⟩ := ihr' (k + 1)
              (thunar_tree_view_model_search_folder normalize cancelled_from terms
                search_type show_hidden file { run with checks := run.checks + 1 + 1 }) found'
            refine ⟨Sf.map (fun e => (k :: e.1, e.2)) ++ S1, S2 ++ O,
              List.Sublist.append (hSf.map _) h1, List.Sublist.append h2 hO, ?_, ?_, ?_⟩
            · rw [h3, hf]
              simp [List.map_map, Function.comp_def]
            · rw [h4, hfound]
              simp
            · rw [h5, hfl]
          · obtain ⟨S1, S2, h1, h2, h3, h4, h5⟩ := ihr' (k + 1)
              { run with checks := run.checks + 1 + 1 } found'
            refine ⟨S1, S2 ++ O, by simpa using h1, List.Sublist.append h2 hO, ?_, ?_, h5⟩
            · rw [h3]
            · rw [h4, hfound]
              simp

theorem search_folder_staged_sublist (normalize : List Char → List Char)
    (cancelled_from : Option Nat) (terms : List (List Char))
    (search_type : ThunarStandardViewModelSearch) (show_hidden : Bool) (dir : GFile) :
    no_recent dir = true → ∀ run : SearchRun,
      ∃ S : List (List Nat × ThunarFile),
        S.Sublist (search_staged normalize terms search_type show_hidden dir) ∧
        (∀ e ∈ S, exo_job_is_cancelled cancelled_from
          ((thunar_tree_view_model_search_folder normalize cancelled_from terms search_type
            show_hidden dir run).checks - 1) = true → 2 ≤ e.1.length) ∧
        (thunar_tree_view_model_search_folder normalize cancelled_from terms search_type
          show_hidden dir run).files_to_add = run.files_to_add ++ S.map Prod.snd ∧
        (thunar_tree_view_model_search_folder normalize cancelled_from terms search_type
          show_hidden dir run).freed_file_used = run.freed_file_used := by
  induction dir using GFile.tree_induction with
  | h data children ih =>
    intro hnr run
    obtain ⟨hr, hcs⟩ := (no_recent_iff data children).mp hnr
    simp only [thunar_tree_view_model_search_folder, search_staged, look_cancelled, hr]
    cases hen : data.enumerable with
    | false => exact ⟨[], List.nil_sublist _, by simp, by simp, by simp⟩
    | true =>
      cases hop : exo_job_is_cancelled cancelled_from run.checks with
      | true => exact ⟨[], List.nil_sublist _, by simp, by simp, by simp⟩
      | false =>
        simp only [Bool.not_true, Bool.false_eq_true, Bool.or_self, if_false]
        obtain ⟨S1, S2, h1, h2, h3, h4, h5⟩ := search_folder_loop_staged_sublist normalize
          cancelled_from terms search_type show_hidden children
          (fun c hc run => by
            obtain ⟨S, hS, _, hf, hfl⟩ := ih c hc (hcs c hc) run
            exact ⟨S, hS, hf, hfl⟩) 0
          { run with checks := run.checks + 1 } []
        split
        · refine ⟨S1, h1.trans (List.sublist_append_left _ _), ?_, h3, h5⟩
          intro e he _
          exact search_staged_loop_fst_length normalize terms search_type show_hidden
            false 0 children e (h1.subset he)
        · rename_i hlast
          refine ⟨S1 ++ S2, List.Sublist.append h1 h2, ?_, ?_, h5⟩
          · intro e _ hc
            simp only [Nat.add_sub_cancel] at hc
            exact absurd hc hlast
          · simp only [h3, h4]
            simp

theorem search_staged_loop_snd_length (normalize : List Char → List Char)
    (terms : List (List Char)) (search_type : ThunarStandardViewModelSearch)
    (show_hidden recent : Bool) (k : Nat) (rest : List GFile) :
    ∀ e ∈ (search_staged_loop normalize terms search_type show_hidden recent k rest).2,
      e.1.length = 1 := by
  induction rest generalizing k with
  | nil => intro e he; simp [search_staged_loop] at he
  | cons file rest ihr =>
    intro e he
    simp only [search_staged_loop] at he
    cases hinfo : entry_info recent file with
    | none => simp [hinfo] at he
    | some info =>
      simp only [hinfo] at he
      split at he
      · exact ihr (k + 1) e he
      · rcases List.mem_append.mp he with h | h
        · exact ihr (k + 1) e h
        · split at h
          · simp only [List.mem_singleton] at h
            subst h
            rfl
          · simp at h

theorem search_staged_loop_fst_non_recursive (normalize : List Char → List Char)
    (terms : List (List Char)) (show_hidden recent : Bool) (k : Nat) (rest : List GFile) :
    (search_staged_loop normalize terms
      ThunarStandardViewModelSearch.THUNAR_STANDARD_VIEW_MODEL_SEARCH_NON_RECURSIVE
      show_hidden recent k rest).1 = [] := by
  induction rest generalizing k with
  | nil => simp [search_staged_loop]
  | cons file rest ihr =>
    simp only [search_staged_loop]
    cases hinfo : entry_info recent file with
    | none => rfl
    | some info =>
      simp only
      split
      · exact ihr (k + 1)
      · simp [ihr (k + 1)]

theorem search_staged_non_recursive_length (normalize : List Char → List Char)
    (terms : List (List Char)) (show_hidden : Bool) (dir : GFile) :
    ∀ e ∈ search_staged normalize terms
        ThunarStandardViewModelSearch.THUNAR_STANDARD_VIEW_MODEL_SEARCH_NON_RECURSIVE
        show_hidden dir, e.1.length = 1 := by
  cases dir with
  | mk data children =>
    intro e he
    simp only [search_staged] at he
    split at he
    · simp at he
    · rw [search_staged_loop_fst_non_recursive, List.nil_append] at he
      exact search_staged_loop_snd_length _ _ _ _ _ _ _ e he

/-! ## What a search stages, and the "recent" directory -/

/-- In a tree without "recent" directories, what a run of
`thunar_tree_view_model_search_folder` that is never cancelled and in which every
enumeration succeeds appends to `files_to_add` is the list of the files of the entries
at certain paths below the directory, no path occurring twice, and the paths are
exactly those of the search results: the entries lying in the directory or, for a
recursive search, below it through entries of type directory only, not hidden or
backup and not below such a directory unless hidden files are shown, whose normalized
display name contains every term.  The run uses no freed file. -/
theorem search_folder_stages_exactly_the_matches (normalize : List Char → List Char)
    (terms : List (List Char)) (search_type : ThunarStandardViewModelSearch)
    (show_hidden : Bool) (dir : GFile) (run : SearchRun) (h : EnumerationSucceeds dir)
    (hnr : no_recent dir = true) :
    (∃ paths : List (List Nat), paths.Nodup ∧
      (∀ p, p ∈ paths ↔
        is_search_result normalize terms search_type show_hidden p dir = true) ∧
      (thunar_tree_view_model_search_folder normalize none terms search_type show_hidden
        dir run).files_to_add = run.files_to_add ++
          paths.filterMap (fun p => (entry_at p dir).map (fun f => f.data.thunar_file))) ∧
    (thunar_tree_view_model_search_folder normalize none terms search_type show_hidden
      dir run).freed_file_used = run.freed_file_used := by
  refine ⟨⟨(search_staged normalize terms search_type show_hidden dir).map Prod.fst,
    search_staged_nodup normalize terms search_type show_hidden dir,
    search_staged_mem normalize terms search_type show_hidden dir h, ?_⟩, ?_⟩
  · rw [search_folder_uncancelled normalize terms search_type show_hidden dir hnr,
      filterMap_fst_eq_map_snd]
    intro e he
    exact (search_staged_entry normalize terms search_type show_hidden dir e he).2
  · obtain ⟨_, _, _, _, hfl⟩ := search_folder_staged_sublist normalize none terms
      search_type show_hidden dir hnr run
    exact hfl

/-- The recursive search for the term a in `disk_d`, hidden files not shown, stages ab
from the directory e and then a; ab in the hidden directory .hd is not staged. -/
theorem search_folder_stages_exactly_the_matches_witness :
    (thunar_tree_view_model_search_folder id none ["a".toList]
        ThunarStandardViewModelSearch.THUNAR_STANDARD_VIEW_MODEL_SEARCH_RECURSIVE false disk_d
        {}).files_to_add =
      [file_ab, file_a] ∧
    ∃ paths : List (List Nat), paths.Nodup ∧
      (∀ p, p ∈ paths ↔ is_search_result id ["a".toList]
        ThunarStandardViewModelSearch.THUNAR_STANDARD_VIEW_MODEL_SEARCH_RECURSIVE false p disk_d
          = true) ∧
      (thunar_tree_view_model_search_folder id none ["a".toList]
        ThunarStandardViewModelSearch.THUNAR_STANDARD_VIEW_MODEL_SEARCH_RECURSIVE false disk_d
        {}).files_to_add =
        ([] : List ThunarFile) ++
          paths.filterMap (fun p => (entry_at p disk_d).map (fun f => f.data.thunar_file)) :=
  ⟨rfl, (search_folder_stages_exactly_the_matches id ["a".toList]
    ThunarStandardViewModelSearch.THUNAR_STANDARD_VIEW_MODEL_SEARCH_RECURSIVE false disk_d {}
    disk_d_enumerationSucceeds rfl).1⟩

/-- In a "recent" directory that can be enumerated, a run that is never cancelled and
finds the target of the first entry uses the freed `GFile` of that target. -/
theorem search_folder_recent_sets_freed_file_used (normalize : List Char → List Char)
    (terms : List (List Char)) (search_type : ThunarStandardViewModelSearch)
    (show_hidden : Bool) (data : GFileData) (file : GFile) (rest : List GFile)
    (info : GFileInfo) (run : SearchRun) (hr : data.uri_scheme_recent = true)
    (hen : data.enumerable = true) (hq : file.data.target_info = some info) :
    (thunar_tree_view_model_search_folder normalize none terms search_type show_hidden
      (GFile.mk data (file :: rest)) run).freed_file_used = true := by
  simp [thunar_tree_view_model_search_folder, search_folder_loop, look_cancelled_none, hr,
    hen, hq]

theorem disk_recent_enumerationSucceeds : EnumerationSucceeds disk_recent := by
  refine EnumerationSucceeds.mk _ _ rfl ?_ ?_
  · intro c hc
    simp only [List.mem_singleton] at hc
    subst hc
    rfl
  · intro c hc info hi hd
    simp only [List.mem_singleton] at hc
    subst hc
    change some (_ : GFileInfo) = some info at hi
    cases hi
    cases hd

/-- C16 fails on the code.  The directory `disk_recent` has the scheme "recent" and one
entry, whose target can be queried and is named a: every enumeration succeeds, and the
entry is a result of the search for the term a, to be staged once.  The run of
`thunar_tree_view_model_search_folder`, never cancelled, calls `g_object_unref (file)`
right after the query of the target, which frees the `GFile`, and hands the same
`file` to `thunar_file_get` and `g_object_unref` later in the round: it ends with
`freed_file_used` set. -/
theorem search_folder_recent_uses_freed_file :
    EnumerationSucceeds disk_recent ∧
      is_search_result id ["a".toList]
        ThunarStandardViewModelSearch.THUNAR_STANDARD_VIEW_MODEL_SEARCH_NON_RECURSIVE false
        [0] disk_recent = true ∧
      (thunar_tree_view_model_search_folder id none ["a".toList]
        ThunarStandardViewModelSearch.THUNAR_STANDARD_VIEW_MODEL_SEARCH_NON_RECURSIVE false
        disk_recent {}).freed_file_used = true :=
  ⟨disk_recent_enumerationSucceeds, rfl, rfl⟩

/-! ## A call that ends cancelled -/

/-- C17, amended: in a tree without "recent" directories, if the last look of a call of
`thunar_tree_view_model_search_folder` at the cancellable finds the job cancelled (the
look after the loop, or the look on opening the enumerator), the call appends to
`files_to_add` only files that an uncancelled run stages for entries at least two
levels below the directory, in the same order: what the calls for subdirectories
merged before, and none of the matches of the directory itself.  For a search that is
not recursive, and when the job is cancelled before the call starts, `files_to_add`
is unchanged.  The run uses no freed file. -/
theorem search_folder_cancelled_merges_no_own_match (normalize : List Char → List Char)
    (cancelled_from : Option Nat) (terms : List (List Char))
    (search_type : ThunarStandardViewModelSearch) (show_hidden : Bool) (dir : GFile)
    (run : SearchRun) (hnr : no_recent dir = true)
    (hc : exo_job_is_cancelled cancelled_from
      ((thunar_tree_view_model_search_folder normalize cancelled_from terms search_type
        show_hidden dir run).checks - 1) = true) :
    (∃ S : List (List Nat × ThunarFile),
      S.Sublist (search_staged normalize terms search_type show_hidden dir) ∧
      (∀ e ∈ S, 2 ≤ e.1.length) ∧
      (thunar_tree_view_model_search_folder normalize cancelled_from terms search_type
        show_hidden dir run).files_to_add = run.files_to_add ++ S.map Prod.snd) ∧
    (search_type =
        ThunarStandardViewModelSearch.THUNAR_STANDARD_VIEW_MODEL_SEARCH_NON_RECURSIVE →
      (thunar_tree_view_model_search_folder normalize cancelled_from terms search_type
        show_hidden dir run).files_to_add = run.files_to_add) ∧
    (exo_job_is_cancelled cancelled_from run.checks = true →
      (thunar_tree_view_model_search_folder normalize cancelled_from terms search_type
        show_hidden dir run).files_to_add = run.files_to_add) ∧
    (thunar_tree_view_model_search_folder normalize cancelled_from terms search_type
      show_hidden dir run).freed_file_used = run.freed_file_used := by
  obtain ⟨S, hS, hlen, hf, hfl⟩ := search_folder_staged_sublist normalize cancelled_from terms
    search_type show_hidden dir hnr run
  refine ⟨⟨S, hS, fun e he => hlen e he hc, hf⟩, ?_, ?_, hfl⟩
  · intro hst
    subst hst
    have hnil : S = [] := by
      rw [List.eq_nil_iff_forall_not_mem]
      intro e he
      have h1 := search_staged_non_recursive_length normalize terms show_hidden dir e
        (hS.subset he)
      have h2 := hlen e he hc
      omega
    rw [hf, hnil]
    simp
  · intro hstart
    cases dir with
    | mk data children =>
      simp only [thunar_tree_view_model_search_folder, look_cancelled, hstart, Bool.true_or,
        if_true]

/-- In the recursive search of `disk_d` for the term a, cancelled from look 15 on, the
call for d sees the cancellation after its loop and appends only ab, staged by the
call for the directory e; the match a of d itself is not appended. -/
theorem search_folder_cancelled_merges_no_own_match_witness :
    no_recent disk_d = true ∧
    (thunar_tree_view_model_search_folder id (some 15) ["a".toList]
        ThunarStandardViewModelSearch.THUNAR_STANDARD_VIEW_MODEL_SEARCH_RECURSIVE false disk_d
        {}).files_to_add = [file_ab] ∧
    ∃ S : List (List Nat × ThunarFile),
      S.Sublist (search_staged id ["a".toList]
        ThunarStandardViewModelSearch.THUNAR_STANDARD_VIEW_MODEL_SEARCH_RECURSIVE false disk_d) ∧
      (∀ e ∈ S, 2 ≤ e.1.length) ∧
      (thunar_tree_view_model_search_folder id (some 15) ["a".toList]
        ThunarStandardViewModelSearch.THUNAR_STANDARD_VIEW_MODEL_SEARCH_RECURSIVE false disk_d
        {}).files_to_add = ([] : List ThunarFile) ++ S.map Prod.snd :=
  ⟨rfl, rfl, (search_folder_cancelled_merges_no_own_match id (some 15) ["a".toList]
    ThunarStandardViewModelSearch.THUNAR_STANDARD_VIEW_MODEL_SEARCH_RECURSIVE false disk_d {}
    rfl rfl).1⟩

/-- C17 as stated fails: in the recursive search of `disk_d` for the term a, with the
staging list empty at the start and the job cancelled from look 15 on, the call for d
finds the job cancelled at the look after its loop (look 16), and yet the staging
list has changed: it holds ab, merged by the call for the directory e. -/
theorem search_folder_cancelled_call_changes_staging_list :
    exo_job_is_cancelled (some 15)
        (search_folder_loop id (some 15) ["a".toList]
          ThunarStandardViewModelSearch.THUNAR_STANDARD_VIEW_MODEL_SEARCH_RECURSIVE false false
          disk_d.children ({ checks := 1 }, [])).1.checks = true ∧
      (thunar_tree_view_model_search_folder id (some 15) ["a".toList]
        ThunarStandardViewModelSearch.THUNAR_STANDARD_VIEW_MODEL_SEARCH_RECURSIVE false disk_d
        { checks := 0, files_to_add := [] }).files_to_add ≠ [] := by
  constructor
  · rfl
  · have h : (thunar_tree_view_model_search_folder id (some 15) ["a".toList]
        ThunarStandardViewModelSearch.THUNAR_STANDARD_VIEW_MODEL_SEARCH_RECURSIVE false disk_d
        { checks := 0, files_to_add := [] }).files_to_add = [file_ab] := rfl
    rw [h]
    exact List.cons_ne_nil _ _

/-! ## Directories that cannot be read -/

theorem open_failures_as_empty_list_eq_map (cs : List GFile) :
    open_failures_as_empty_list cs = cs.map open_failures_as_empty := by
  induction cs with
  | nil => rfl
  | cons c cs ih => simp [open_failures_as_empty_list, ih]

theorem open_failures_as_empty_entry_info (recent : Bool) (file : GFile) :
    entry_info recent (open_failures_as_empty file) = entry_info recent file := by
  cases file with
  | mk data children =>
    unfold open_failures_as_empty entry_info
    cases data.enumerable <;> rfl

theorem open_failures_as_empty_thunar_file (file : GFile) :
    (open_failures_as_empty file).data.thunar_file = file.data.thunar_file := by
  cases file with
  | mk data children =>
    unfold open_failures_as_empty
    cases data.enumerable <;> rfl

theorem search_staged_loop_open_failures (normalize : List Char → List Char)
    (terms : List (List Char)) (search_type : ThunarStandardViewModelSearch)
    (show_hidden recent : Bool) (rest : List GFile)
    (ih : ∀ c ∈ rest,
      search_staged normalize terms search_type show_hidden (open_failures_as_empty c) =
        search_staged normalize terms search_type show_hidden c) (k : Nat) :
    search_staged_loop normalize terms search_type show_hidden recent k
        (rest.map open_failures_as_empty) =
      search_staged_loop normalize terms search_type show_hidden recent k rest := by
  induction rest generalizing k with
  | nil => rfl
  | cons file rest ihr =>
    have ihr' := ihr (fun c hc => ih c (List.mem_cons_of_mem _ hc))
    simp only [List.map_cons, search_staged_loop, open_failures_as_empty_entry_info,
      open_failures_as_empty_thunar_file, ih file (List.mem_cons_self _ _), ihr']

theorem search_staged_open_failures (normalize : List Char → List Char)
    (terms : List (List Char)) (search_type : ThunarStandardViewModelSearch)
    (show_hidden : Bool) (dir : GFile) :
    search_staged normalize terms search_type show_hidden (open_failures_as_empty dir) =
      search_staged normalize terms search_type show_hidden dir := by
  induction dir using GFile.tree_induction with
  | h data children ih =>
    unfold open_failures_as_empty
    cases hen : data.enumerable with
    | false => simp [search_staged, search_staged_loop, hen]
    | true =>
      simp only [if_true, search_staged, hen, open_failures_as_empty_list_eq_map,
        search_staged_loop_open_failures normalize terms search_type show_hidden _ children ih]

theorem no_recent_open_failures (dir : GFile) :
    no_recent dir = true → no_recent (open_failures_as_empty dir) = true := by
  induction dir using GFile.tree_induction with
  | h data children ih =>
    intro hnr
    obtain ⟨hr, hcs⟩ := (no_recent_iff data children).mp hnr
    unfold open_failures_as_empty
    cases hen : data.enumerable with
    | false =>
      simp only [Bool.false_eq_true, if_false]
      exact (no_recent_iff _ _).mpr ⟨hr, fun c hc => absurd hc (List.not_mem_nil c)⟩
    | true =>
      simp only [if_true, open_failures_as_empty_list_eq_map]
      refine (no_recent_iff _ _).mpr ⟨hr, ?_⟩
      intro c hc
      obtain ⟨c', hc', rfl⟩ := List.mem_map.mp hc
      exact ih c' hc' (hcs c' hc')

/-- C18, amended: the job function `_thunar_job_search_directory` returns `FALSE`
exactly when the job is cancelled at its start or the query cannot be split.  That
an enumerator cannot be opened, for the directory of the job or for any directory
below it, is never a failure of the job; and in a tree without "recent" directories
a job that is never cancelled stages exactly what it would stage if every such
directory were empty, and uses no freed file. -/
theorem job_fails_iff_cancelled_at_start_or_no_split (normalize : List Char → List Char)
    (whitespace_regex : Option (List Char → List (List Char)))
    (cancelled_from : Option Nat) (mode : ThunarRecursiveSearchMode) (show_hidden : Bool)
    (is_source_device_local : Bool) (search_query_c : List Char) (directory : GFile)
    (run : SearchRun) :
    ((_thunar_job_search_directory normalize whitespace_regex cancelled_from mode show_hidden
        is_source_device_local search_query_c directory run).1 = false ↔
      (exo_job_is_cancelled cancelled_from run.checks = true ∨ whitespace_regex = none)) ∧
    (no_recent directory = true →
      (_thunar_job_search_directory normalize whitespace_regex none mode show_hidden
          is_source_device_local search_query_c directory run).2.files_to_add =
        (_thunar_job_search_directory normalize whitespace_regex none mode show_hidden
          is_source_device_local search_query_c (open_failures_as_empty directory)
          run).2.files_to_add ∧
      (_thunar_job_search_directory normalize whitespace_regex none mode show_hidden
          is_source_device_local search_query_c directory run).2.freed_file_used =
        run.freed_file_used) := by
  constructor
  · unfold _thunar_job_search_directory thunar_tree_view_model_split_search_query
      look_cancelled
    cases exo_job_is_cancelled cancelled_from run.checks <;>
      cases whitespace_regex <;> simp
  · intro hnr
    unfold _thunar_job_search_directory thunar_tree_view_model_split_search_query
    simp only [look_cancelled_none, Bool.false_eq_true, if_false]
    cases whitespace_regex with
    | none => exact ⟨rfl, rfl⟩
    | some g_regex_split =>
      simp only
      constructor
      · rw [search_folder_uncancelled _ _ _ _ _ hnr,
          search_folder_uncancelled _ _ _ _ _ (no_recent_open_failures directory hnr),
          search_staged_open_failures]
      · obtain ⟨_, _, _, _, hfl⟩ := search_folder_staged_sublist normalize none
          (g_regex_split search_query_c)
          (if mode = ThunarRecursiveSearchMode.THUNAR_RECURSIVE_SEARCH_ALWAYS ∨
              (mode = ThunarRecursiveSearchMode.THUNAR_RECURSIVE_SEARCH_LOCAL ∧
                is_source_device_local = true) then
            ThunarStandardViewModelSearch.THUNAR_STANDARD_VIEW_MODEL_SEARCH_RECURSIVE
          else ThunarStandardViewModelSearch.THUNAR_STANDARD_VIEW_MODEL_SEARCH_NON_RECURSIVE)
          show_hidden directory hnr { run with checks := run.checks + 1 }
        exact hfl

/-- The job for `disk_d_unreadable`, never cancelled, stages what it stages for the
empty directory: nothing. -/
theorem job_fails_iff_cancelled_at_start_or_no_split_witness :
    no_recent disk_d_unreadable = true ∧
      (_thunar_job_search_directory id (some whitespace_regex_split) none
          ThunarRecursiveSearchMode.THUNAR_RECURSIVE_SEARCH_ALWAYS false true "a".toList
          disk_d_unreadable {}).2.files_to_add =
        (_thunar_job_search_directory id (some whitespace_regex_split) none
          ThunarRecursiveSearchMode.THUNAR_RECURSIVE_SEARCH_ALWAYS false true "a".toList
          (open_failures_as_empty disk_d_unreadable) {}).2.files_to_add :=
  ⟨rfl, ((job_fails_iff_cancelled_at_start_or_no_split id (some whitespace_regex_split) none
    ThunarRecursiveSearchMode.THUNAR_RECURSIVE_SEARCH_ALWAYS false true "a".toList
    disk_d_unreadable {}).2 rfl).1⟩

/-- C18 as stated fails: for the directory `disk_d_unreadable`, for which no enumerator
can be opened, a job that is not cancelled and whose query splits returns `TRUE`; it
stages nothing. -/
theorem job_succeeds_when_top_level_enumerator_fails :
    disk_d_unreadable.data.enumerable = false ∧
      _thunar_job_search_directory id (some whitespace_regex_split) none
        ThunarRecursiveSearchMode.THUNAR_RECURSIVE_SEARCH_ALWAYS false true "a".toList
        disk_d_unreadable {} = (true, { checks := 2, files_to_add := [] }) :=
  ⟨rfl, rfl⟩

/-! ## A load that opens no folder -/

/-- C19, amended: when the folder factory returns no folder for the item's file, or
the file is not a directory, one dispatch of the load idle changes nothing in the
model but the item's `load_idle_id`, which is reset to 0, and removes the source from
the main loop: `item->folder` stays `NULL` and the node keeps the children it had, a
dummy child included. -/
theorem load_idle_without_folder_keeps_children
    (thunar_folder_get_for_file : ThunarFile → Option ThunarFolder)
    (model : ThunarTreeViewModel) (rt : Runtime) (item : List Nat) (node : GNode)
    (it : ThunarTreeViewModelItem)
    (hn : g_node_at item model.root = some node) (hd : node.data = some it)
    (hfail : it.file.is_directory = false ∨ thunar_folder_get_for_file it.file = none) :
    dispatch_item_load_idle thunar_folder_get_for_file model rt item =
        ({ model with
           root := g_node_update_at thunar_tree_view_model_item_load_idle_destroy item
             model.root },
          g_source_remove rt it.load_idle_id) ∧
      g_node_at item
          (dispatch_item_load_idle thunar_folder_get_for_file model rt item).1.root =
        some (GNode.mk (some { it with load_idle_id := 0 }) node.children) := by
  have hload : thunar_tree_view_model_item_load_idle thunar_folder_get_for_file model rt item
      = (model, rt) := by
    unfold thunar_tree_view_model_item_load_idle
    simp only [hn, hd]
    split
    · rfl
    · split
      · rfl
      · rcases hfail with h | h
        · simp [h]
        · simp [h]
  have hdisp : dispatch_item_load_idle thunar_folder_get_for_file model rt item =
      ({ model with
         root := g_node_update_at thunar_tree_view_model_item_load_idle_destroy item
           model.root },
        g_source_remove rt it.load_idle_id) := by
    unfold dispatch_item_load_idle
    simp only [hload, hn, hd, Option.some_bind]
  refine ⟨hdisp, ?_⟩
  rw [hdisp]
  simp only [g_node_at_update_at_self, hn, Option.map_some',
    thunar_tree_view_model_item_load_idle_destroy, hd]

/-- The load of d in `pending_model` with a factory that opens nothing leaves d with
its dummy child. -/
theorem load_idle_without_folder_keeps_children_witness :
    g_node_at [1] (dispatch_item_load_idle open_nothing pending_model pending_runtime [1]).1.root
      = some (GNode.mk (some { file := dir_d }) [GNode.mk none []]) :=
  (load_idle_without_folder_keeps_children open_nothing pending_model pending_runtime [1]
    (GNode.mk (some { file := dir_d, load_idle_id := 1 }) [GNode.mk none []])
    { file := dir_d, load_idle_id := 1 } rfl rfl (Or.inr rfl)).2

/-- C19 as stated fails: after the load of the directory d in `pending_model` with a
factory that returns no folder, the node of d is no leaf: it still has its dummy
child, and the model is `collapsed_model` again. -/
theorem load_idle_failure_leaves_dummy :
    dir_d.is_directory = true ∧ open_nothing dir_d = none ∧
      (g_node_at [1]
        (dispatch_item_load_idle open_nothing pending_model pending_runtime [1]).1.root).map
        GNode.children = some [GNode.mk none []] ∧
      (dispatch_item_load_idle open_nothing pending_model pending_runtime [1]).1.root =
        collapsed_model.root :=
  ⟨rfl, rfl, rfl, rfl⟩

/-! ## The sort column that is reported -/

/-- C20, amended: for every column that `thunar_tree_view_model_set_sort_column_id`
accepts and every order, `thunar_tree_view_model_get_sort_column_id` right after the
set reports that order and that column, except that `THUNAR_COLUMN_FILE_NAME` is
reported as `THUNAR_COLUMN_NAME`; and `thunar_tree_view_model_set_sort_func` and
`thunar_tree_view_model_set_default_sort_func` leave the model, and so what is
reported, unchanged. -/
theorem get_sort_column_id_after_set
    (calls : ThunarComparator → ThunarFile → ThunarFile → Bool → Int)
    (store store' : ThunarTreeViewModel) (sort_column_id : ThunarColumn) (order : GtkSortType)
    (func data destroy : Nat)
    (hset : thunar_tree_view_model_set_sort_column_id calls store sort_column_id order =
      some store') :
    thunar_tree_view_model_get_sort_column_id store' =
        some (reported_column sort_column_id, order) ∧
      thunar_tree_view_model_get_sort_column_id
          (thunar_tree_view_model_set_sort_func store sort_column_id func data destroy) =
        thunar_tree_view_model_get_sort_column_id store ∧
      thunar_tree_view_model_get_sort_column_id
          (thunar_tree_view_model_set_default_sort_func store func data destroy) =
        thunar_tree_view_model_get_sort_column_id store := by
  refine ⟨?_, rfl, rfl⟩
  unfold thunar_tree_view_model_set_sort_column_id at hset
  cases hc : sort_column_comparator store.folder_item_count sort_column_id with
  | none => rw [hc] at hset; simp at hset
  | some comparator =>
    rw [hc] at hset
    simp only [Option.some.injEq] at hset
    subst hset
    cases sort_column_id <;> cases order <;>
      simp only [sort_column_comparator] at hc <;>
      (try split at hc) <;>
      (try cases hc) <;>
      simp [thunar_tree_view_model_get_sort_column_id, ThunarComparator.pointer,
        ThunarComparator.address, reported_column]

/-- Setting the column `THUNAR_COLUMN_SIZE`, descending, on `sample_model` is accepted
and reported back. -/
theorem get_sort_column_id_after_set_witness :
    (thunar_tree_view_model_set_sort_column_id sample_calls sample_model
        ThunarColumn.THUNAR_COLUMN_SIZE GtkSortType.GTK_SORT_DESCENDING).isSome = true ∧
      (thunar_tree_view_model_set_sort_column_id sample_calls sample_model
        ThunarColumn.THUNAR_COLUMN_SIZE GtkSortType.GTK_SORT_DESCENDING).bind
          thunar_tree_view_model_get_sort_column_id =
        some (ThunarColumn.THUNAR_COLUMN_SIZE, GtkSortType.GTK_SORT_DESCENDING) := by
  refine ⟨rfl, ?_⟩
  have h := (get_sort_column_id_after_set sample_calls sample_model
    { sample_model with
      sort_func := ThunarComparator.thunar_cmp_files_by_size.pointer sample_calls
      sort_sign := -1 }
    ThunarColumn.THUNAR_COLUMN_SIZE GtkSortType.GTK_SORT_DESCENDING 0 0 0 rfl).1
  exact h

/-- C20 as stated fails: `thunar_tree_view_model_set_sort_column_id` accepts
`THUNAR_COLUMN_FILE_NAME`, and `thunar_tree_view_model_get_sort_column_id` right after
reports `THUNAR_COLUMN_NAME`, which is another column. -/
theorem get_sort_column_id_reports_name_for_file_name :
    (thunar_tree_view_model_set_sort_column_id sample_calls sample_model
        ThunarColumn.THUNAR_COLUMN_FILE_NAME GtkSortType.GTK_SORT_ASCENDING).bind
          thunar_tree_view_model_get_sort_column_id =
        some (ThunarColumn.THUNAR_COLUMN_NAME, GtkSortType.GTK_SORT_ASCENDING) ∧
      ThunarColumn.THUNAR_COLUMN_NAME ≠ ThunarColumn.THUNAR_COLUMN_FILE_NAME :=
  ⟨rfl, by decide⟩

/-! ## Eviction and re-expansion in general -/

theorem realized_path_cleanup (p : List Nat) (node : GNode)
    (hp : realized_path p node = true) (ha : no_evicted_ancestor p node = true) :
    realized_path p (cleanup_pre_order node) = true := by
  induction p generalizing node with
  | nil => rfl
  | cons i p ih =>
    simp only [no_evicted_ancestor, Bool.and_eq_true, Bool.not_eq_true'] at ha
    rw [cleanup_pre_order_of_not_evicted node ha.1]
    simp only [realized_path, GNode.children_mk, List.getElem?_map] at hp ⊢
    cases hc : node.children[i]? with
    | none => rw [hc] at hp; simp at hp
    | some c =>
      rw [hc] at hp
      simp only [Bool.and_eq_true] at hp
      have h2 := ha.2
      rw [hc] at h2
      simp only [Option.map_some', Bool.and_eq_true]
      exact ⟨by rw [cleanup_pre_order_data]; exact hp.1, ih c hp.2 h2⟩

theorem realized_path_update_at (f : GNode → GNode) (hf : ∀ n, (f n).data.isSome = true)
    (p : List Nat) (node : GNode) (hp : realized_path p node = true) :
    realized_path p (g_node_update_at f p node) = true := by
  induction p generalizing node with
  | nil => rfl
  | cons i p ih =>
    simp only [realized_path] at hp
    unfold g_node_update_at
    cases hc : node.children[i]? with
    | none => rw [hc] at hp; simp at hp
    | some c =>
      rw [hc] at hp
      simp only [Bool.and_eq_true] at hp
      have hlt : i < node.children.length := (List.getElem?_eq_some_iff.mp hc).1
      simp only [realized_path, GNode.children_mk, List.getElem?_set_self hlt,
        Bool.and_eq_true]
      refine ⟨?_, ih c hp.2⟩
      cases p with
      | nil => exact hf c
      | cons j q =>
        unfold g_node_update_at
        split
        · exact hp.1
        · exact hp.1

theorem item_notify_loading_tree_at_path (folder : ThunarFolder) (p : List Nat)
    (node : GNode) (hp : realized_path p node = true) :
    g_node_at p (item_notify_loading_tree folder node) =
      (g_node_at p node).map (item_notify_loading_tree folder) := by
  induction p generalizing node with
  | nil => simp [g_node_at]
  | cons i p ih =>
    simp only [realized_path] at hp
    cases hc : node.children[i]? with
    | none => rw [hc] at hp; simp at hp
    | some c =>
      rw [hc] at hp
      simp only [Bool.and_eq_true] at hp
      have hnd : G_NODE_HAS_DUMMY node = false := by
        cases hh : G_NODE_HAS_DUMMY node with
        | false => rfl
        | true =>
          exfalso
          obtain ⟨c0, hc0, hd0⟩ := (has_dummy_iff node).mp hh
          rw [hc0] at hc
          cases i with
          | zero =>
            simp only [List.getElem?_cons_zero, Option.some.injEq] at hc
            subst hc
            rw [hd0] at hp
            simp at hp
          | succ i => simp at hc
      have hch := item_notify_loading_tree_children folder node hnd
      simp only [g_node_at, hch, List.getElem?_map, hc, Option.map_some']
      exact ih c hp.2

theorem item_notify_loading_tree_of_evicted_node (folder : ThunarFolder)
    (it : ThunarTreeViewModelItem) (hf : it.folder = some folder.id)
    (hl : folder.loading = false) :
    item_notify_loading_tree folder (GNode.mk (some it) [GNode.mk none []]) =
      GNode.mk (some it) [] := by
  simp [item_notify_loading_tree, item_notify_loading_list, item_connected, hf, hl,
    item_notify_loading_node, G_NODE_HAS_DUMMY, thunar_tree_view_model_node_drop_dummy,
    g_node_n_children]

theorem item_load_idle_of_dummy
    (thunar_folder_get_for_file : ThunarFile → Option ThunarFolder)
    (m : ThunarTreeViewModel) (rt : Runtime) (p : List Nat) (it : ThunarTreeViewModelItem)
    (folder : ThunarFolder)
    (hn : g_node_at p m.root = some (GNode.mk (some it) [GNode.mk none []]))
    (hf : it.folder = none) (hdir : it.file.is_directory = true)
    (hget : thunar_folder_get_for_file it.file = some folder) :
    (thunar_tree_view_model_item_load_idle thunar_folder_get_for_file m rt p).1.root =
      (if folder.loading then
        g_node_update_at (fun n => GNode.mk
          (some { it with
            folder := some folder.id, add_files_timeout := rt.last_source_id + 1,
            files_to_add := it.files_to_add ++ folder.files }) n.children) p m.root
      else item_notify_loading_tree folder
        (g_node_update_at (fun n => GNode.mk
          (some { it with
            folder := some folder.id, add_files_timeout := rt.last_source_id + 1,
            files_to_add := it.files_to_add ++ folder.files }) n.children) p m.root)) := by
  have hit : (if folder.files.isEmpty then
        { it with folder := some folder.id, add_files_timeout := rt.last_source_id + 1 }
      else thunar_tree_view_model_item_files_added
        { it with folder := some folder.id, add_files_timeout := rt.last_source_id + 1 }
        folder.files) =
      { it with
        folder := some folder.id, add_files_timeout := rt.last_source_id + 1,
        files_to_add := it.files_to_add ++ folder.files } := by
    cases hfiles : folder.files with
    | nil => simp
    | cons f fs => simp [thunar_tree_view_model_item_files_added]
  unfold thunar_tree_view_model_item_load_idle
  simp only [hn, GNode.data_mk, hf, Option.isSome_none, Bool.false_eq_true, if_false,
    GNode.children_mk, hdir, hget, g_source_attach, hit]
  have hdum : G_NODE_HAS_DUMMY (GNode.mk (some it) [GNode.mk none []]) = true := rfl
  simp only [hdum, Bool.or_true, Bool.not_true, Bool.false_eq_true, if_false]
  cases folder.loading with
  | true =>
    simp only [if_true]
    rw [inc_loading_eq]
  | false =>
    simp only [Bool.false_eq_true, if_false]
    rw [g_object_notify_loading_eq, inc_loading_eq]

theorem dispatch_item_load_idle_node
    (thunar_folder_get_for_file : ThunarFile → Option ThunarFolder)
    (m : ThunarTreeViewModel) (rt : Runtime) (p : List Nat) (it : ThunarTreeViewModelItem)
    (folder : ThunarFolder) (hpath : realized_path p m.root = true)
    (hn : g_node_at p m.root = some (GNode.mk (some it) [GNode.mk none []]))
    (hf : it.folder = none) (hdir : it.file.is_directory = true)
    (hget : thunar_folder_get_for_file it.file = some folder) :
    g_node_at p (dispatch_item_load_idle thunar_folder_get_for_file m rt p).1.root =
      some (GNode.mk
        (some { it with
          load_idle_id := 0, folder := some folder.id,
          add_files_timeout := rt.last_source_id + 1,
          files_to_add := it.files_to_add ++ folder.files })
        (if folder.loading then [GNode.mk none []] else [])) := by
  unfold dispatch_item_load_idle
  simp only [g_node_at_update_at_self]
  rw [item_load_idle_of_dummy thunar_folder_get_for_file m rt p it folder hn hf hdir hget]
  cases hl : folder.loading with
  | true =>
    simp only [if_true, g_node_at_update_at_self, hn, Option.map_some', GNode.children_mk,
      thunar_tree_view_model_item_load_idle_destroy, GNode.data_mk]
  | false =>
    simp only [Bool.false_eq_true, if_false]
    rw [item_notify_loading_tree_at_path folder p _
      (realized_path_update_at
        (fun n : GNode => GNode.mk
          (some { it with
            folder := some folder.id, add_files_timeout := rt.last_source_id + 1,
            files_to_add := it.files_to_add ++ folder.files }) n.children)
        (fun _ => rfl) p m.root hpath)]
    simp only [g_node_at_update_at_self, hn, Option.map_some', GNode.children_mk]
    rw [item_notify_loading_tree_of_evicted_node folder _ rfl hl]
    simp only [thunar_tree_view_model_item_load_idle_destroy, GNode.data_mk,
      GNode.children_mk]

theorem item_add_files_node (m : ThunarTreeViewModel) (p : List Nat) (node : GNode)
    (it : ThunarTreeViewModelItem) (hn : g_node_at p m.root = some node)
    (hd : node.data = some it) (hf : it.folder.isSome = true)
    (hwf : node.children = [GNode.mk none []] ∨ node.children = []) :
    ∃ node', g_node_at p (thunar_tree_view_model_item_add_files m p).1.root = some node' ∧
      (child_files node'.children).Perm it.files_to_add ∧
      (it.files_to_add ≠ [] ∨ node.children = [] → AllRealized node'.children) ∧
      node'.data.map (fun i => i.file) = some it.file := by
  unfold thunar_tree_view_model_item_add_files
  simp only [hn, hd]
  have hfn : it.folder.isNone = false := by
    cases h : it.folder with
    | none => rw [h] at hf; simp at hf
    | some _ => rfl
  simp only [hfn, Bool.false_eq_true, if_false]
  cases hL : it.files_to_add with
  | nil =>
    simp only [List.isEmpty_nil, if_true]
    refine ⟨node, hn, ?_, ?_, by rw [hd]; rfl⟩
    · rcases hwf with h | h <;> rw [h] <;> simp [child_files]
    · rintro (h | h)
      · exact absurd rfl h
      · rw [h]; intro c hc; simp at hc
  | cons f fs =>
    simp only [List.isEmpty_cons, Bool.false_eq_true, if_false]
    have hwf' : node.children = [GNode.mk none []] ∨ AllRealized node.children := by
      rcases hwf with h | h
      · exact Or.inl h
      · right; rw [h]; intro c hc; simp at hc
    have hreal : realized_children node.children = [] := by
      rcases hwf with h | h <;> rw [h] <;> rfl
    refine ⟨GNode.mk (some { it with files_to_add := [] })
      (thunar_tree_view_model_add_children m node (f :: fs)).children, ?_, ?_, ?_, rfl⟩
    · rw [g_node_at_update_at_self, hn]
      rfl
    · simp only [GNode.children_mk]
      rw [add_children_eq m node (f :: fs) (List.cons_ne_nil _ _) hwf', hreal, List.append_nil]
      refine (child_files_perm (sort_children_perm m _)).trans ?_
      simp only [GNode.children_mk]
      rw [child_files_map_new]
      exact List.reverse_perm _
    · intro _
      simp only [GNode.children_mk]
      rw [add_children_eq m node (f :: fs) (List.cons_ne_nil _ _) hwf', hreal, List.append_nil]
      intro c hc
      have hc' := (sort_children_perm m _).subset hc
      simp only [GNode.children_mk] at hc'
      obtain ⟨g, _, rfl⟩ := List.mem_map.mp hc'
      rw [new_child_node_data]; rfl

/-- What eviction and re-expansion do in general.  An expanded item with an open
folder and `ref_count == 0`, reached through realized nodes none of which is evicted,
is swept; then its load idle runs, the factory opening `folder`, and then its
add-files step.  Afterwards the node carries one child for every file that was on the
item's staging list before the sweep and one for every file of the listing: the
staging list survives the eviction. -/
theorem evict_reexpand_child_files
    (thunar_folder_get_for_file : ThunarFile → Option ThunarFolder)
    (model : ThunarTreeViewModel) (rt : Runtime) (p : List Nat) (n : GNode)
    (it : ThunarTreeViewModelItem) (folder : ThunarFolder)
    (hpath : realized_path p model.root = true)
    (hn : g_node_at p model.root = some n) (hd : n.data = some it)
    (hev : is_evicted n = true) (hanc : no_evicted_ancestor p model.root = true)
    (hdir : it.file.is_directory = true)
    (hget : thunar_folder_get_for_file it.file = some folder) :
    ∃ node', g_node_at p
        (thunar_tree_view_model_item_add_files
          (dispatch_item_load_idle thunar_folder_get_for_file
            (thunar_tree_view_model_cleanup_idle model) rt p).1 p).1.root = some node' ∧
      node'.data.map (fun i => i.file) = some it.file ∧
      (child_files node'.children).Perm (it.files_to_add ++ folder.files) ∧
      (folder.loading = false → AllRealized node'.children) := by
  have hn1 : g_node_at p (thunar_tree_view_model_cleanup_idle model).root =
      some (GNode.mk (some { it with add_files_timeout := 0, folder := none })
        [GNode.mk none []]) := by
    show g_node_at p (cleanup_pre_order model.root) = _
    rw [cleanup_pre_order_at_path p model.root hanc, hn, Option.map_some',
      cleanup_pre_order_of_evicted n it hd hev]
  have hpath1 : realized_path p (thunar_tree_view_model_cleanup_idle model).root = true :=
    realized_path_cleanup p model.root hpath hanc
  have hdisp := dispatch_item_load_idle_node thunar_folder_get_for_file
    (thunar_tree_view_model_cleanup_idle model) rt p
    { it with add_files_timeout := 0, folder := none } folder hpath1 hn1 rfl hdir hget
  obtain ⟨node', h1, h2, h3, h4⟩ := item_add_files_node
    (dispatch_item_load_idle thunar_folder_get_for_file
      (thunar_tree_view_model_cleanup_idle model) rt p).1 p _ _ hdisp rfl rfl
    (by cases folder.loading <;> simp)
  refine ⟨node', h1, h4, h2, ?_⟩
  intro hl
  apply h3
  right
  simp [hl]

/-! ## The comparator of the size column -/

/-- Setting the size column is accepted; it keeps the item count mode and puts the
comparator in place that goes with it. -/
theorem set_sort_column_id_size
    (calls : ThunarComparator → ThunarFile → ThunarFile → Bool → Int)
    (store : ThunarTreeViewModel) (order : GtkSortType) :
    ∃ store', thunar_tree_view_model_set_sort_column_id calls store
        ThunarColumn.THUNAR_COLUMN_SIZE order = some store' ∧
      store'.folder_item_count = store.folder_item_count ∧
      store'.sort_func =
        (if store.folder_item_count ≠ ThunarFolderItemCount.THUNAR_FOLDER_ITEM_COUNT_NEVER then
          ThunarComparator.thunar_cmp_files_by_size_and_items_count
        else ThunarComparator.thunar_cmp_files_by_size).pointer calls := by
  unfold thunar_tree_view_model_set_sort_column_id
  by_cases h : store.folder_item_count ≠ ThunarFolderItemCount.THUNAR_FOLDER_ITEM_COUNT_NEVER
  · simp only [sort_column_comparator, if_pos h]
    exact ⟨_, rfl, rfl, rfl⟩
  · simp only [sort_column_comparator, if_neg h]
    exact ⟨_, rfl, rfl, rfl⟩

theorem set_folder_item_count_mode
    (calls : ThunarComparator → ThunarFile → ThunarFile → Bool → Int)
    (store : ThunarTreeViewModel) (mode : ThunarFolderItemCount) :
    (thunar_tree_view_model_set_folder_item_count calls store mode).folder_item_count = mode := by
  unfold thunar_tree_view_model_set_folder_item_count
  by_cases h : store.folder_item_count = mode
  · rw [if_pos h]; exact h
  · rw [if_neg h]
    simp only
    split <;> rfl

theorem set_folder_item_count_size_comparator
    (calls : ThunarComparator → ThunarFile → ThunarFile → Bool → Int)
    (store : ThunarTreeViewModel) (mode : ThunarFolderItemCount)
    (h : store.sort_func =
      (if store.folder_item_count ≠ ThunarFolderItemCount.THUNAR_FOLDER_ITEM_COUNT_NEVER then
        ThunarComparator.thunar_cmp_files_by_size_and_items_count
      else ThunarComparator.thunar_cmp_files_by_size).pointer calls) :
    (thunar_tree_view_model_set_folder_item_count calls store mode).sort_func =
      (if mode ≠ ThunarFolderItemCount.THUNAR_FOLDER_ITEM_COUNT_NEVER then
        ThunarComparator.thunar_cmp_files_by_size_and_items_count
      else ThunarComparator.thunar_cmp_files_by_size).pointer calls := by
  unfold thunar_tree_view_model_set_folder_item_count
  by_cases hm : store.folder_item_count = mode
  · rw [if_pos hm, h, hm]
  · rw [if_neg hm]
    have hid : store.sort_func.ident = ThunarComparator.thunar_cmp_files_by_size.address ∨
        store.sort_func.ident =
          ThunarComparator.thunar_cmp_files_by_size_and_items_count.address := by
      rw [h]
      by_cases hn : store.folder_item_count ≠
          ThunarFolderItemCount.THUNAR_FOLDER_ITEM_COUNT_NEVER
      · rw [if_pos hn]; exact Or.inr rfl
      · rw [if_neg hn]; exact Or.inl rfl
    simp only [if_pos hid]

/-- The state after a run of calls that starts from a model sorted by size keeps the
comparator of the size column that goes with the mode in place. -/
theorem sizeColumnCall_foldl
    (calls : ThunarComparator → ThunarFile → ThunarFile → Bool → Int)
    (cs : List SizeColumnCall) (store : ThunarTreeViewModel)
    (h : store.sort_func =
      (if store.folder_item_count ≠ ThunarFolderItemCount.THUNAR_FOLDER_ITEM_COUNT_NEVER then
        ThunarComparator.thunar_cmp_files_by_size_and_items_count
      else ThunarComparator.thunar_cmp_files_by_size).pointer calls) :
    (cs.foldl (SizeColumnCall.run calls) store).folder_item_count =
        SizeColumnCall.last_mode store.folder_item_count cs ∧
      (cs.foldl (SizeColumnCall.run calls) store).sort_func =
        (if SizeColumnCall.last_mode store.folder_item_count cs ≠
            ThunarFolderItemCount.THUNAR_FOLDER_ITEM_COUNT_NEVER then
          ThunarComparator.thunar_cmp_files_by_size_and_items_count
        else ThunarComparator.thunar_cmp_files_by_size).pointer calls := by
  induction cs generalizing store with
  | nil => exact ⟨rfl, h⟩
  | cons c cs ih =>
    cases c with
    | sort_by_size order =>
      obtain ⟨store', h1, h2, h3⟩ := set_sort_column_id_size calls store order
      have hrun : SizeColumnCall.run calls store (SizeColumnCall.sort_by_size order) = store' := by
        simp only [SizeColumnCall.run, h1]
      simp only [List.foldl_cons, hrun, SizeColumnCall.last_mode]
      rw [← h2]
      exact ih store' (by rw [h3, h2])
    | folder_item_count mode =>
      simp only [List.foldl_cons, SizeColumnCall.run, SizeColumnCall.last_mode]
      have hm := set_folder_item_count_mode calls store mode
      have := ih (thunar_tree_view_model_set_folder_item_count calls store mode)
        (by rw [hm]; exact set_folder_item_count_size_comparator calls store mode h)
      rw [hm] at this
      exact this

/-- C21: take any model, sort it by the size column, and let any run of calls of
`thunar_tree_view_model_set_sort_column_id (THUNAR_COLUMN_SIZE, _)` and
`thunar_tree_view_model_set_folder_item_count (mode)` follow, in any order.  In the
state `s` reached the mode is the one set last, the comparator is
`thunar_cmp_files_by_size_and_items_count` exactly when the mode is not `NEVER` and
`thunar_cmp_files_by_size` exactly when it is `NEVER`, and
`thunar_tree_view_model_get_sort_column_id` reports the size column.  On a model
`other` whose comparator is none of these two,
`thunar_tree_view_model_set_folder_item_count` leaves the comparator unchanged. -/
theorem size_column_comparator_follows_item_count
    (calls : ThunarComparator → ThunarFile → ThunarFile → Bool → Int)
    (store : ThunarTreeViewModel) (order : GtkSortType) (cs : List SizeColumnCall)
    (s other : ThunarTreeViewModel) (mode : ThunarFolderItemCount)
    (hs : s = cs.foldl (SizeColumnCall.run calls)
      (SizeColumnCall.run calls store (SizeColumnCall.sort_by_size order)))
    (hother : other.sort_func.ident ≠ ThunarComparator.thunar_cmp_files_by_size.address ∧
      other.sort_func.ident ≠
        ThunarComparator.thunar_cmp_files_by_size_and_items_count.address) :
    s.folder_item_count = SizeColumnCall.last_mode store.folder_item_count cs ∧
      (s.folder_item_count ≠ ThunarFolderItemCount.THUNAR_FOLDER_ITEM_COUNT_NEVER →
        s.sort_func =
          ThunarComparator.thunar_cmp_files_by_size_and_items_count.pointer calls) ∧
      (s.folder_item_count = ThunarFolderItemCount.THUNAR_FOLDER_ITEM_COUNT_NEVER →
        s.sort_func = ThunarComparator.thunar_cmp_files_by_size.pointer calls) ∧
      (s.sort_func.ident = ThunarComparator.thunar_cmp_files_by_size_and_items_count.address ↔
        s.folder_item_count ≠ ThunarFolderItemCount.THUNAR_FOLDER_ITEM_COUNT_NEVER) ∧
      (s.sort_func.ident = ThunarComparator.thunar_cmp_files_by_size.address ↔
        s.folder_item_count = ThunarFolderItemCount.THUNAR_FOLDER_ITEM_COUNT_NEVER) ∧
      (thunar_tree_view_model_get_sort_column_id s).map Prod.fst =
        some ThunarColumn.THUNAR_COLUMN_SIZE ∧
      (thunar_tree_view_model_set_folder_item_count calls other mode).sort_func =
        other.sort_func := by
  obtain ⟨store', h1, h2, h3⟩ := set_sort_column_id_size calls store order
  have hrun : SizeColumnCall.run calls store (SizeColumnCall.sort_by_size order) = store' := by
    simp only [SizeColumnCall.run, h1]
  rw [hrun] at hs
  obtain ⟨hmode, hfunc⟩ := sizeColumnCall_foldl calls cs store' (by rw [h3, h2])
  rw [← hs, h2] at hmode
  rw [← hs, h2, ← hmode] at hfunc
  refine ⟨hmode, ?_, ?_, ?_, ?_, ?_, ?_⟩
  · intro h; rw [hfunc, if_pos h]
  · intro h; rw [hfunc, if_neg (not_not.mpr h)]
  · by_cases h : s.folder_item_count ≠ ThunarFolderItemCount.THUNAR_FOLDER_ITEM_COUNT_NEVER
    · rw [hfunc, if_pos h]; exact ⟨fun _ => h, fun _ => rfl⟩
    · rw [hfunc, if_neg h]
      exact ⟨fun hc => absurd hc (by simp [ThunarComparator.pointer, ThunarComparator.address]),
        fun hc => absurd hc h⟩
  · by_cases h : s.folder_item_count ≠ ThunarFolderItemCount.THUNAR_FOLDER_ITEM_COUNT_NEVER
    · rw [hfunc, if_pos h]
      exact ⟨fun hc => absurd hc (by simp [ThunarComparator.pointer, ThunarComparator.address]),
        fun hc => absurd hc h⟩
    · rw [hfunc, if_neg h]; exact ⟨fun _ => not_not.mp h, fun _ => rfl⟩
  · by_cases h : s.folder_item_count ≠ ThunarFolderItemCount.THUNAR_FOLDER_ITEM_COUNT_NEVER
    · simp [thunar_tree_view_model_get_sort_column_id, hfunc, if_pos h,
        ThunarComparator.pointer, ThunarComparator.address]
    · simp [thunar_tree_view_model_get_sort_column_id, hfunc, if_neg h,
        ThunarComparator.pointer, ThunarComparator.address]
  · unfold thunar_tree_view_model_set_folder_item_count
    by_cases hm : other.folder_item_count = mode
    · rw [if_pos hm]
    · rw [if_neg hm]
      simp only
      rw [if_neg (not_or.mpr hother)]

/-- On `sample_model`: sorting by size, then the mode `ALWAYS`, then sorting by size
again in descending order, leaves `thunar_cmp_files_by_size_and_items_count` in place;
and the mode `ALWAYS` set on `sample_model` itself, which sorts by modification date,
keeps that comparator. -/
theorem size_column_comparator_follows_item_count_witness :
    ((([SizeColumnCall.folder_item_count
            ThunarFolderItemCount.THUNAR_FOLDER_ITEM_COUNT_ALWAYS,
          SizeColumnCall.sort_by_size GtkSortType.GTK_SORT_DESCENDING].foldl
        (SizeColumnCall.run sample_calls)
        (SizeColumnCall.run sample_calls sample_model
          (SizeColumnCall.sort_by_size GtkSortType.GTK_SORT_ASCENDING))).sort_func.ident =
        ThunarComparator.thunar_cmp_files_by_size_and_items_count.address) ↔
      ([SizeColumnCall.folder_item_count
            ThunarFolderItemCount.THUNAR_FOLDER_ITEM_COUNT_ALWAYS,
          SizeColumnCall.sort_by_size GtkSortType.GTK_SORT_DESCENDING].foldl
        (SizeColumnCall.run sample_calls)
        (SizeColumnCall.run sample_calls sample_model
          (SizeColumnCall.sort_by_size GtkSortType.GTK_SORT_ASCENDING))).folder_item_count ≠
        ThunarFolderItemCount.THUNAR_FOLDER_ITEM_COUNT_NEVER) ∧
      (thunar_tree_view_model_set_folder_item_count sample_calls sample_model
        ThunarFolderItemCount.THUNAR_FOLDER_ITEM_COUNT_ALWAYS).sort_func =
        sample_model.sort_func :=
  have h := size_column_comparator_follows_item_count sample_calls sample_model
    GtkSortType.GTK_SORT_ASCENDING
    [SizeColumnCall.folder_item_count ThunarFolderItemCount.THUNAR_FOLDER_ITEM_COUNT_ALWAYS,
      SizeColumnCall.sort_by_size GtkSortType.GTK_SORT_DESCENDING]
    _ sample_model ThunarFolderItemCount.THUNAR_FOLDER_ITEM_COUNT_ALWAYS rfl
    (by decide)
  ⟨h.2.2.2.1, h.2.2.2.2.2.2⟩

/-! ## The comparison of two files -/

theorem remove_post_order_none_aux :
    (∀ n : GNode, remove_post_order n = none) ∧
      (∀ l : List GNode, remove_post_order_list l = []) := by
  refine ⟨fun n => ?_, fun l => ?_⟩
  · exact @GNode.rec (fun n => remove_post_order n = none)
      (fun l => remove_post_order_list l = [])
      (fun data children ih => by
        simp only [remove_post_order, ih]
        rfl)
      (by simp only [remove_post_order_list])
      (fun c cs ihc ihcs => by
        simp only [remove_post_order_list, ihc, ihcs]) n
  · exact @GNode.rec_1 (fun n => remove_post_order n = none)
      (fun l => remove_post_order_list l = [])
      (fun data children ih => by
        simp only [remove_post_order, ih]
        rfl)
      (by simp only [remove_post_order_list])
      (fun c cs ihc ihcs => by
        simp only [remove_post_order_list, ihc, ihcs]) l

/-- The removing traversal leaves nothing of the node it starts from. -/
theorem remove_post_order_none (n : GNode) : remove_post_order n = none :=
  remove_post_order_none_aux.1 n

theorem node_holds_file_iff (file : ThunarFile) (c : GNode) :
    node_holds_file file c = true ↔ ∃ item, c.data = some item ∧ item.file.id = file.id := by
  unfold node_holds_file file_ptr_eq
  cases c.data with
  | none => simp
  | some item => simp

theorem child_files_cons (c : GNode) (cs : List GNode) :
    child_files (c :: cs) =
      (match c.data with
        | some item => [item.file]
        | none => []) ++ child_files cs := by
  unfold child_files
  cases h : c.data with
  | none => simp [List.filterMap_cons, h]
  | some item => simp [List.filterMap_cons, h]

theorem distinctEntries_tail {c : GNode} {cs : List GNode} (h : DistinctEntries (c :: cs)) :
    DistinctEntries cs := by
  unfold DistinctEntries at h ⊢
  rw [child_files_cons] at h
  rw [List.map_append] at h
  exact (List.nodup_append.mp h).2.1

theorem distinctEntries_head {c : GNode} {cs : List GNode} (h : DistinctEntries (c :: cs))
    (file : ThunarFile) (hc : node_holds_file file c = true) :
    ∀ c' ∈ cs, node_holds_file file c' = false := by
  intro c' hc'
  obtain ⟨item, hd, hid⟩ := (node_holds_file_iff file c).mp hc
  cases hh : node_holds_file file c' with
  | false => rfl
  | true =>
    exfalso
    obtain ⟨item', hd', hid'⟩ := (node_holds_file_iff file c').mp hh
    unfold DistinctEntries at h
    rw [child_files_cons, hd] at h
    simp only [List.singleton_append, List.map_cons, List.nodup_cons] at h
    apply h.1
    rw [hid, ← hid']
    apply List.mem_map.mpr
    refine ⟨item'.file, ?_, rfl⟩
    unfold child_files
    exact List.mem_filterMap.mpr ⟨c', hc', by rw [hd']; rfl⟩

theorem distinctEntries_filter (p : GNode → Bool) {cs : List GNode} (h : DistinctEntries cs) :
    DistinctEntries (cs.filter p) := by
  unfold DistinctEntries at h ⊢
  refine List.Nodup.sublist ?_ h
  apply List.Sublist.map
  unfold child_files
  exact List.Sublist.filterMap _ (List.filter_sublist cs)

/-- Among children with pairwise distinct entries, dropping the first child that holds
the file drops every child that holds it. -/
theorem remove_child_for_file_eq_filter (children : List GNode) (file : ThunarFile)
    (h : DistinctEntries children) :
    remove_child_for_file children file =
      children.filter (fun c => !node_holds_file file c) := by
  unfold remove_child_for_file
  induction children with
  | nil => rfl
  | cons c cs ih =>
    cases hc : node_holds_file file c with
    | true =>
      rw [List.eraseP_cons_of_pos hc, List.filter_cons_of_neg (by simp [hc])]
      symm
      apply List.filter_eq_self.mpr
      intro c' hc'
      rw [distinctEntries_head h file hc c' hc']
      rfl
    | false =>
      rw [List.eraseP_cons_of_neg (by simp [hc]), List.filter_cons_of_pos (by simp [hc]),
        ih (distinctEntries_tail h)]

theorem foldl_remove_child_eq_filter (files : List ThunarFile) (children : List GNode)
    (h : DistinctEntries children) :
    files.foldl remove_child_for_file children =
      children.filter (fun c => !holds_removed files c) := by
  induction files generalizing children with
  | nil =>
    simp only [List.foldl_nil, holds_removed, List.any_nil, Bool.not_false]
    exact (List.filter_eq_self.mpr (fun _ _ => rfl)).symm
  | cons file files ih =>
    rw [List.foldl_cons, remove_child_for_file_eq_filter children file h,
      ih _ (distinctEntries_filter _ h), List.filter_filter]
    congr 1
    funext c
    simp only [holds_removed, List.any_cons, Bool.not_or, Bool.and_comm]

theorem files_removed_loop_root (files : List ThunarFile) (root : GNode)
    (hidden : List ThunarFile) (h : DistinctEntries root.children) :
    (files_removed_loop files (root, hidden)).1 =
      GNode.mk root.data (root.children.filter (fun c => !holds_removed files c)) := by
  induction files generalizing root hidden with
  | nil =>
    simp only [files_removed_loop, holds_removed, List.any_nil, Bool.not_false]
    rw [List.filter_eq_self.mpr (fun _ _ => rfl)]
    exact (GNode.eta root).symm
  | cons file files ih =>
    simp only [files_removed_loop]
    rw [ih]
    · simp only [GNode.data_mk, GNode.children_mk]
      rw [remove_child_for_file_eq_filter root.children file h, List.filter_filter]
      congr 2
      funext c
      simp only [holds_removed, List.any_cons, Bool.not_or, Bool.and_comm]
    · simp only [GNode.children_mk]
      rw [remove_child_for_file_eq_filter root.children file h]
      exact distinctEntries_filter _ h

/-- C23: let the children of the root, and those of the node of an item whose open
folder is `folder`, carry pairwise distinct entries.  After
`thunar_tree_view_model_files_removed` on the root, and after
`thunar_tree_view_model_item_files_removed` on the node, for any list of removed
files: the children left are exactly the previous children that carry none of the
removed files, in their previous order and with their subtrees; so no child left
carries a removed file; and the removing traversal run on a child that carries one
leaves nothing of its subtree. -/
theorem remove_entries_leaves_the_other_children
    (store : ThunarTreeViewModel) (node : GNode) (item : ThunarTreeViewModelItem)
    (files : List ThunarFile) (folder : Nat)
    (hroot : DistinctEntries store.root.children)
    (hnode : DistinctEntries node.children)
    (hd : node.data = some item) (hf : item.folder = some folder) :
    (thunar_tree_view_model_files_removed store files).root.children =
        store.root.children.filter (fun c => !holds_removed files c) ∧
      (thunar_tree_view_model_item_files_removed node files folder).children =
        node.children.filter (fun c => !holds_removed files c) ∧
      (∀ c ∈ (thunar_tree_view_model_files_removed store files).root.children,
        ∀ file ∈ files, node_holds_file file c = false) ∧
      (∀ c ∈ (thunar_tree_view_model_item_files_removed node files folder).children,
        ∀ file ∈ files, node_holds_file file c = false) ∧
      (∀ c ∈ store.root.children ++ node.children, holds_removed files c = true →
        remove_post_order c = none) := by
  have h1 : (thunar_tree_view_model_files_removed store files).root.children =
      store.root.children.filter (fun c => !holds_removed files c) := by
    unfold thunar_tree_view_model_files_removed
    simp only
    rw [files_removed_loop_root files store.root store.hidden hroot, GNode.children_mk]
  have h2 : (thunar_tree_view_model_item_files_removed node files folder).children =
      node.children.filter (fun c => !holds_removed files c) := by
    unfold thunar_tree_view_model_item_files_removed
    simp only [hd, hf, bne_self_eq_false, Bool.false_eq_true, if_false, GNode.children_mk]
    exact foldl_remove_child_eq_filter files node.children hnode
  have hmem : ∀ l : List GNode, ∀ c ∈ l.filter (fun c => !holds_removed files c),
      ∀ file ∈ files, node_holds_file file c = false := by
    intro l c hc file hfile
    have hc2 := (List.mem_filter.mp hc).2
    simp only [holds_removed, Bool.not_eq_true', List.any_eq_false] at hc2
    simpa using hc2 file hfile
  refine ⟨h1, h2, ?_, ?_, fun c _ _ => remove_post_order_none c⟩
  · rw [h1]; exact hmem _
  · rw [h2]; exact hmem _

/-- On `shown_model`, whose root holds a, .h and the directory d, which holds b and
.h: removing .h and b from the root leaves a and d with its children; removing them
from d leaves d without children. -/
theorem remove_entries_leaves_the_other_children_witness :
    (thunar_tree_view_model_files_removed shown_model [file_h, file_b]).root.children =
        [leaf_of file_a,
          GNode.mk (some { file := dir_d, ref_count := 1, folder := some 7 })
            [leaf_of file_b, leaf_of file_h]] ∧
      (thunar_tree_view_model_item_files_removed
        (GNode.mk (some { file := dir_d, ref_count := 1, folder := some 7 })
          [leaf_of file_b, leaf_of file_h]) [file_h, file_b] 7).children = [] :=
  have h := remove_entries_leaves_the_other_children shown_model
    (GNode.mk (some { file := dir_d, ref_count := 1, folder := some 7 })
      [leaf_of file_b, leaf_of file_h])
    { file := dir_d, ref_count := 1, folder := some 7 } [file_h, file_b] 7
    (by unfold DistinctEntries; decide) (by unfold DistinctEntries; decide) rfl rfl
  ⟨h.1.trans rfl, h.2.1.trans rfl⟩

/-! ## The end of a search -/

theorem insert_files_children_perm (store : ThunarTreeViewModel) (files : List ThunarFile)
    (hreal : AllRealized store.root.children) :
    (thunar_tree_view_model_insert_files store files).root.children.Perm
      ((shown_files store.show_hidden files).map new_child_node ++ store.root.children) := by
  rw [insert_files_root store files hreal]
  refine (sort_children_perm store _).trans ?_
  simp only [GNode.children_mk]
  exact List.Perm.append_right _ ((List.reverse_perm _).map _)

theorem insert_files_hidden (store : ThunarTreeViewModel) (files : List ThunarFile) :
    (thunar_tree_view_model_insert_files store files).hidden =
      (files.filter (fun f => f.is_hidden)).reverse ++ store.hidden := by
  unfold thunar_tree_view_model_insert_files
  simp only [insert_files_loop_eq]

/-- C24: let `thunar_tree_view_model_search_finished` run on a model whose search is
active: the job handle is set and the drain timer is installed.  Then "search-done" is
emitted exactly once, and the model that its handlers find is the final one: every
file of the staging list that the hidden policy lets through has become a child of
the root next to the previous children, the hidden ones are on `store->hidden`, the
staging list is empty, the drain timer id is 0, its source is gone from the main loop,
and the job handle is `NULL`. -/
theorem search_finished_drains_then_signals
    (job : ThunarJob) (store : ThunarTreeViewModel) (rt : Runtime)
    (r : ThunarTreeViewModel × Runtime × List ThunarTreeViewModel)
    (hr : r = thunar_tree_view_model_search_finished job store rt)
    (hjob : store.recursive_search_job = some job)
    (htimer : 0 < store.update_search_results_timeout_id)
    (hreal : AllRealized store.root.children) :
    r.2.2 = [r.1] ∧
      r.1.root.children.Perm
        ((shown_files store.show_hidden store.files_to_add).map new_child_node ++
          store.root.children) ∧
      r.1.hidden =
        (store.files_to_add.filter (fun f => f.is_hidden)).reverse ++ store.hidden ∧
      r.1.files_to_add = [] ∧
      r.1.update_search_results_timeout_id = 0 ∧
      r.1.recursive_search_job = none ∧
      (∀ s ∈ r.2.1.sources, s.id ≠ store.update_search_results_timeout_id) := by
  have hjs : store.recursive_search_job.isSome = true := by rw [hjob]; rfl
  have ht : ({ store with recursive_search_job := none } :
      ThunarTreeViewModel).update_search_results_timeout_id > 0 := htimer
  have hval : r =
      ({ thunar_tree_view_model_insert_files { store with recursive_search_job := none }
            store.files_to_add with
          files_to_add := [], update_search_results_timeout_id := 0 },
        g_source_remove rt store.update_search_results_timeout_id,
        [{ thunar_tree_view_model_insert_files { store with recursive_search_job := none }
            store.files_to_add with
          files_to_add := [], update_search_results_timeout_id := 0 }]) := by
    rw [hr]
    unfold thunar_tree_view_model_search_finished
    simp only [hjs, if_true, if_pos ht]
    rfl
  rw [hval]
  refine ⟨rfl, ?_, ?_, rfl, rfl, rfl, ?_⟩
  · exact insert_files_children_perm { store with recursive_search_job := none }
      store.files_to_add hreal
  · exact insert_files_hidden { store with recursive_search_job := none } store.files_to_add
  · intro s hs
    simp only [g_source_remove, List.mem_filter, bne_iff_ne] at hs
    exact hs.2

/-- On `bound_model`, where a is shown, b is staged, and the job 1 and the drain
timer 2 exist: after the handler b is shown as well, nothing is staged, and one
"search-done" was emitted. -/
theorem search_finished_drains_then_signals_witness :
    (thunar_tree_view_model_search_finished
        { id := 1, search_query_c := "a".toList, directory := dir_d }
        bound_model bound_runtime).2.2.length = 1 ∧
      child_files (thunar_tree_view_model_search_finished
        { id := 1, search_query_c := "a".toList, directory := dir_d }
        bound_model bound_runtime).1.root.children = [file_a, file_b] ∧
      (thunar_tree_view_model_search_finished
        { id := 1, search_query_c := "a".toList, directory := dir_d }
        bound_model bound_runtime).1.files_to_add = [] :=
  have h := search_finished_drains_then_signals
    { id := 1, search_query_c := "a".toList, directory := dir_d } bound_model bound_runtime
    _ rfl rfl (by decide) (by intro c hc; simp [bound_model] at hc; rw [hc]; rfl)
  ⟨by rw [h.1]; rfl, by decide, h.2.2.2.1⟩

/-! ## The drain of the search results -/

theorem g_qsort_with_data_of_sorted {α : Type} (cmp : α → α → Int) (l : List α)
    (h : l.Pairwise (fun a b => cmp a b ≤ 0)) : g_qsort_with_data l cmp = l := by
  unfold g_qsort_with_data
  induction l with
  | nil => rfl
  | cons x xs ih =>
    rw [List.foldr_cons, ih (List.Pairwise.of_cons h)]
    cases xs with
    | nil => rfl
    | cons y ys =>
      have hxy : cmp x y ≤ 0 := (List.pairwise_cons.mp h).1 y (List.mem_cons_self _ _)
      simp only [g_qsort_insert, if_pos hxy]

/-- Sorting a node whose children are in comparator order changes nothing. -/
theorem sort_of_sorted (store : ThunarTreeViewModel) (node : GNode)
    (h : SiblingsSorted store node.children) :
    (thunar_tree_view_model_sort store node).1 = node := by
  unfold thunar_tree_view_model_sort
  split
  · rfl
  · split
    · rfl
    · simp only
      rw [g_qsort_with_data_of_sorted, sort_array_from_map_node]
      · exact GNode.eta node
      · unfold SiblingsSorted at h
        have : ((sort_array_from 0 node.children).map (fun t => t.node)).Pairwise
            (fun a b => thunar_tree_view_model_cmp_nodes_func a b store ≤ 0) := by
          rw [sort_array_from_map_node]; exact h
        rw [List.pairwise_map] at this
        exact this

theorem insert_files_nil_of_sorted (m : ThunarTreeViewModel)
    (h : SiblingsSorted m m.root.children) :
    (thunar_tree_view_model_insert_files m []).root = m.root ∧
      (thunar_tree_view_model_insert_files m []).hidden = m.hidden := by
  unfold thunar_tree_view_model_insert_files
  exact ⟨sort_of_sorted m m.root h, rfl⟩

/-- C28, amended: the drain `thunar_tree_view_model_add_search_files` turns every
staged file that the hidden policy lets through (a file that is not hidden, or any
file while `show_hidden` is set) into exactly one new child of the root next to the
previous children, puts the hidden ones on `store->hidden`, and leaves the staging
list empty; a second drain directly after it leaves the root, `store->hidden` and the
staging list as they are; and so does a drain of an empty staging list on any model
`m` whose root has its children in sort order. -/
theorem add_search_files_drains_once (model m : ThunarTreeViewModel)
    (hok : model.SortOk) (hreal : AllRealized model.root.children)
    (hempty : m.files_to_add = []) (hsorted : SiblingsSorted m m.root.children) :
    (thunar_tree_view_model_add_search_files model).1.root.children.Perm
        ((shown_files model.show_hidden model.files_to_add).map new_child_node ++
          model.root.children) ∧
      (thunar_tree_view_model_add_search_files model).1.hidden =
        (model.files_to_add.filter (fun f => f.is_hidden)).reverse ++ model.hidden ∧
      (thunar_tree_view_model_add_search_files model).1.files_to_add = [] ∧
      (thunar_tree_view_model_add_search_files
          (thunar_tree_view_model_add_search_files model).1).1.root =
        (thunar_tree_view_model_add_search_files model).1.root ∧
      (thunar_tree_view_model_add_search_files
          (thunar_tree_view_model_add_search_files model).1).1.hidden =
        (thunar_tree_view_model_add_search_files model).1.hidden ∧
      (thunar_tree_view_model_add_search_files
          (thunar_tree_view_model_add_search_files model).1).1.files_to_add = [] ∧
      (thunar_tree_view_model_add_search_files m).1.root = m.root ∧
      (thunar_tree_view_model_add_search_files m).1.hidden = m.hidden ∧
      (thunar_tree_view_model_add_search_files m).1.files_to_add = [] := by
  have hperm := insert_files_children_perm model model.files_to_add hreal
  have hreal2 : AllRealized
      (thunar_tree_view_model_insert_files model model.files_to_add).root.children := by
    intro c hc
    rcases List.mem_append.mp (hperm.subset hc) with h | h
    · obtain ⟨f, _, rfl⟩ := List.mem_map.mp h
      rw [new_child_node_data]; rfl
    · exact hreal c h
  have hs1 : SiblingsSorted model
      (thunar_tree_view_model_insert_files model model.files_to_add).root.children := by
    rw [insert_files_root model model.files_to_add hreal]
    refine sort_sorted_of_realized model _ hok ?_
    simp only [GNode.children_mk]
    intro c hc
    rcases List.mem_append.mp hc with h | h
    · obtain ⟨f, _, rfl⟩ := List.mem_map.mp h
      rw [new_child_node_data]; rfl
    · exact hreal c h
  have hdrain : ∀ x : ThunarTreeViewModel, SiblingsSorted x x.root.children →
      x.files_to_add = [] →
      (thunar_tree_view_model_add_search_files x).1.root = x.root ∧
        (thunar_tree_view_model_add_search_files x).1.hidden = x.hidden := by
    intro x hx he
    unfold thunar_tree_view_model_add_search_files
    simp only [he]
    exact insert_files_nil_of_sorted x hx
  have hs2 : SiblingsSorted (thunar_tree_view_model_add_search_files model).1
      (thunar_tree_view_model_add_search_files model).1.root.children :=
    siblingsSorted_congr model _ _ rfl rfl rfl rfl hs1
  have h2 := hdrain (thunar_tree_view_model_add_search_files model).1 hs2 rfl
  have h3 := hdrain m hsorted hempty
  exact ⟨hperm, insert_files_hidden model model.files_to_add, rfl, h2.1, h2.2, rfl,
    h3.1, h3.2, rfl⟩

/-- On `bound_model`, where a is shown and b is staged: the drain shows a and b and
empties the staging list, and a second drain leaves the root as it is. -/
theorem add_search_files_drains_once_witness :
    child_files (thunar_tree_view_model_add_search_files bound_model).1.root.children =
        [file_a, file_b] ∧
      (thunar_tree_view_model_add_search_files
          (thunar_tree_view_model_add_search_files bound_model).1).1.root =
        (thunar_tree_view_model_add_search_files bound_model).1.root ∧
      (thunar_tree_view_model_add_search_files sample_model).1.root = sample_model.root :=
  have h := add_search_files_drains_once bound_model sample_model
    ⟨compare_by_date_modified_isOrdering true, Or.inl rfl⟩
    (by intro c hc; simp [bound_model] at hc; rw [hc]; rfl) rfl (by decide)
  ⟨by decide, h.2.2.2.1, h.2.2.2.2.2.2.1⟩

/-- C28 as stated fails in two ways.  With `show_hidden` off, a staged hidden file is
not inserted into the tree by the drain: it goes to `store->hidden` only.  And a drain
of an empty staging list sorts the children of the root, so it changes their order
when they are not in sort order: b, a becomes a, b. -/
theorem add_search_files_skips_hidden_and_sorts :
    child_files (thunar_tree_view_model_add_search_files
        { sample_model with root := GNode.mk none [leaf_of file_a],
                            files_to_add := [file_h] }).1.root.children = [file_a] ∧
      (thunar_tree_view_model_add_search_files
        { sample_model with root := GNode.mk none [leaf_of file_a],
                            files_to_add := [file_h] }).1.hidden = [file_h] ∧
      child_files (thunar_tree_view_model_add_search_files
        { sample_model with root := GNode.mk none [leaf_of file_b, leaf_of file_a]
                          }).1.root.children = [file_a, file_b] ∧
      child_files (GNode.mk none [leaf_of file_b, leaf_of file_a]).children =
        [file_b, file_a] := by
  decide

/-! ## A cancelled search that still commits -/

/-- C25 fails on the code.  Search A (job 1, query "a") of `bound_model` has enumerated
the directory d and found a; its thread executes the check
`exo_job_is_cancelled` and finds the job not cancelled.  Then the main loop rebinds
the model with the query "b": job 1 is cancelled, the staging list and the tree are
emptied, and search B (job 2) is launched.  Then the thread of A executes its merge,
and the drain timer of B fires.  The file a, found by A, is on the staging list after
the cancellation and ends up in the tree of search B.  When the rebind comes before
the check, the same steps leave the staging list and the tree empty. -/
theorem cancelled_search_commits_after_check :
    (search_folder_loop id none ["a".toList]
        ThunarStandardViewModelSearch.THUNAR_STANDARD_VIEW_MODEL_SEARCH_NON_RECURSIVE
        false false disk_d.children ({}, [])).2 = [file_a] ∧
      (([ThreadStep.worker, ThreadStep.set_folder (some folder_d) (some "b".toList)].foldl
          (ThreadStep.run id (some whitespace_regex_split))
          { model := bound_model, rt := bound_runtime,
            job := { id := 1, search_query_c := "a".toList, directory := dir_d },
            tail := SearchFolderTail.at_check [file_a] }).rt.cancelled = [1] ∧
        ([ThreadStep.worker, ThreadStep.set_folder (some folder_d) (some "b".toList)].foldl
          (ThreadStep.run id (some whitespace_regex_split))
          { model := bound_model, rt := bound_runtime,
            job := { id := 1, search_query_c := "a".toList, directory := dir_d },
            tail := SearchFolderTail.at_check [file_a] }).model.recursive_search_job =
          some { id := 2, search_query_c := "b".toList, directory := dir_d } ∧
        ([ThreadStep.worker, ThreadStep.set_folder (some folder_d) (some "b".toList)].foldl
          (ThreadStep.run id (some whitespace_regex_split))
          { model := bound_model, rt := bound_runtime,
            job := { id := 1, search_query_c := "a".toList, directory := dir_d },
            tail := SearchFolderTail.at_check [file_a] }).model.files_to_add = [] ∧
        child_files
          ([ThreadStep.worker, ThreadStep.set_folder (some folder_d) (some "b".toList)].foldl
            (ThreadStep.run id (some whitespace_regex_split))
            { model := bound_model, rt := bound_runtime,
              job := { id := 1, search_query_c := "a".toList, directory := dir_d },
              tail := SearchFolderTail.at_check [file_a] }).model.root.children = []) ∧
      ([ThreadStep.worker, ThreadStep.set_folder (some folder_d) (some "b".toList),
          ThreadStep.worker].foldl
        (ThreadStep.run id (some whitespace_regex_split))
        { model := bound_model, rt := bound_runtime,
          job := { id := 1, search_query_c := "a".toList, directory := dir_d },
          tail := SearchFolderTail.at_check [file_a] }).model.files_to_add = [file_a] ∧
      child_files
        ([ThreadStep.worker, ThreadStep.set_folder (some folder_d) (some "b".toList),
            ThreadStep.worker, ThreadStep.add_search_files].foldl
          (ThreadStep.run id (some whitespace_regex_split))
          { model := bound_model, rt := bound_runtime,
            job := { id := 1, search_query_c := "a".toList, directory := dir_d },
            tail := SearchFolderTail.at_check [file_a] }).model.root.children = [file_a] ∧
      (([ThreadStep.set_folder (some folder_d) (some "b".toList), ThreadStep.worker,
            ThreadStep.worker, ThreadStep.add_search_files].foldl
          (ThreadStep.run id (some whitespace_regex_split))
          { model := bound_model, rt := bound_runtime,
            job := { id := 1, search_query_c := "a".toList, directory := dir_d },
            tail := SearchFolderTail.at_check [file_a] }).model.files_to_add = [] ∧
        child_files
          ([ThreadStep.set_folder (some folder_d) (some "b".toList), ThreadStep.worker,
              ThreadStep.worker, ThreadStep.add_search_files].foldl
            (ThreadStep.run id (some whitespace_regex_split))
            { model := bound_model, rt := bound_runtime,
              job := { id := 1, search_query_c := "a".toList, directory := dir_d },
              tail := SearchFolderTail.at_check [file_a] }).model.root.children = []) := by
  refine ⟨by decide, ⟨by decide, by decide, by decide, by decide⟩, by decide, by decide,
    by decide, by decide⟩

/-! ## The loading counter -/

/-- The two functions that change `model->loading` keep it from going negative. -/
theorem loading_nonneg_of_inc_dec (model : ThunarTreeViewModel) (h : 0 ≤ model.loading) :
    0 ≤ (thunar_tree_view_model_inc_loading model).loading ∧
      0 ≤ (thunar_tree_view_model_dec_loading model).loading ∧
      0 ≤ (thunar_tree_view_model_notify_loading model).loading := by
  unfold thunar_tree_view_model_notify_loading thunar_tree_view_model_inc_loading
    thunar_tree_view_model_dec_loading
  refine ⟨?_, ?_, ?_⟩
  · split
    · exact h
    · show 0 ≤ model.loading + 1
      omega
  · split
    · show 0 ≤ model.loading - 1
      omega
    · exact h
  · split
    · show 0 ≤ model.loading - 1
      omega
    · exact h

/-- C26 fails on the code.  The unbound `sample_model` is bound to the folder of d
while that folder is loading: the counter is 1 and
`thunar_tree_view_model_get_loading` answers `TRUE`, as it should.  Then the model is
unbound by `thunar_tree_view_model_set_folder (model, NULL, NULL)`: it has no folder
and no node, so it is loading no folder, but the counter is still 1 and
`thunar_tree_view_model_get_loading` still answers `TRUE`. -/
theorem get_loading_stays_true_after_unbind :
    ((thunar_tree_view_model_set_folder id (some whitespace_regex_split) sample_model {}
        (some folder_d_loading) none).1.loading = 1 ∧
      thunar_tree_view_model_get_loading
        (thunar_tree_view_model_set_folder id (some whitespace_regex_split) sample_model {}
          (some folder_d_loading) none).1 = true) ∧
      (thunar_tree_view_model_set_folder id (some whitespace_regex_split)
        (thunar_tree_view_model_set_folder id (some whitespace_regex_split) sample_model {}
          (some folder_d_loading) none).1
        (thunar_tree_view_model_set_folder id (some whitespace_regex_split) sample_model {}
          (some folder_d_loading) none).2 none none).1.folder = none ∧
      g_node_n_children (thunar_tree_view_model_set_folder id (some whitespace_regex_split)
        (thunar_tree_view_model_set_folder id (some whitespace_regex_split) sample_model {}
          (some folder_d_loading) none).1
        (thunar_tree_view_model_set_folder id (some whitespace_regex_split) sample_model {}
          (some folder_d_loading) none).2 none none).1.root = 0 ∧
      (thunar_tree_view_model_set_folder id (some whitespace_regex_split)
        (thunar_tree_view_model_set_folder id (some whitespace_regex_split) sample_model {}
          (some folder_d_loading) none).1
        (thunar_tree_view_model_set_folder id (some whitespace_regex_split) sample_model {}
          (some folder_d_loading) none).2 none none).1.loading = 1 ∧
      thunar_tree_view_model_get_loading
        (thunar_tree_view_model_set_folder id (some whitespace_regex_split)
          (thunar_tree_view_model_set_folder id (some whitespace_regex_split) sample_model {}
            (some folder_d_loading) none).1
          (thunar_tree_view_model_set_folder id (some whitespace_regex_split) sample_model {}
            (some folder_d_loading) none).2 none none).1 = true := by
  refine ⟨⟨by decide, by decide⟩, by decide, by decide, by decide, by decide⟩

/-! ## The file pairs of a job operation -/

theorem g_list_find_custom_is_ancestor_isSome {F : Type} (desc : F → F → Bool)
    (list : List F) (source_file : F) :
    (g_list_find_custom list source_file (is_ancestor desc)).isSome = true ↔
      ∃ x ∈ list, desc source_file x = true := by
  unfold g_list_find_custom is_ancestor
  rw [List.find?_isSome]
  constructor
  · rintro ⟨x, hx, h⟩
    refine ⟨x, hx, ?_⟩
    by_cases hd : desc source_file x = true
    · exact hd
    · simp [hd] at h
  · rintro ⟨x, hx, h⟩
    exact ⟨x, hx, by simp [h]⟩

/-- One call of `thunar_job_operation_add`: a pair whose source descends from a
recorded source changes nothing, any other pair is appended at the end. -/
theorem job_operation_add_eq {F : Type} (desc : F → F → Bool)
    (op : ThunarJobOperation F) (s t : F) :
    ((∃ x ∈ op.source_file_list, desc s x = true) →
        thunar_job_operation_add desc op s t = op) ∧
      ((∀ x ∈ op.source_file_list, desc s x = false) →
        thunar_job_operation_add desc op s t =
          { op with
            source_file_list := op.source_file_list ++ [s]
            target_file_list := op.target_file_list ++ [t] }) := by
  unfold thunar_job_operation_add
  constructor
  · intro h
    rw [if_pos ((g_list_find_custom_is_ancestor_isSome desc _ s).mpr h)]
  · intro h
    rw [if_neg]
    intro hc
    obtain ⟨x, hx, hd⟩ := (g_list_find_custom_is_ancestor_isSome desc _ s).mp hc
    rw [h x hx] at hd
    exact Bool.false_ne_true hd

theorem job_operation_add_invariant {F : Type} (desc : F → F → Bool)
    (op : ThunarJobOperation F) (s t : F) (done : List (F × F))
    (hlen : op.source_file_list.length = op.target_file_list.length)
    (hpw : op.source_file_list.Pairwise (fun earlier later => desc later earlier = false))
    (hsub : (op.source_file_list.zip op.target_file_list).Sublist done) :
    (thunar_job_operation_add desc op s t).source_file_list.length =
        (thunar_job_operation_add desc op s t).target_file_list.length ∧
      (thunar_job_operation_add desc op s t).source_file_list.Pairwise
        (fun earlier later => desc later earlier = false) ∧
      ((thunar_job_operation_add desc op s t).source_file_list.zip
        (thunar_job_operation_add desc op s t).target_file_list).Sublist (done ++ [(s, t)]) := by
  by_cases h : ∃ x ∈ op.source_file_list, desc s x = true
  · rw [(job_operation_add_eq desc op s t).1 h]
    exact ⟨hlen, hpw, hsub.trans (List.sublist_append_left _ _)⟩
  · have h' : ∀ x ∈ op.source_file_list, desc s x = false := by
      intro x hx
      cases hd : desc s x with
      | false => rfl
      | true => exact absurd ⟨x, hx, hd⟩ h
    rw [(job_operation_add_eq desc op s t).2 h']
    refine ⟨?_, ?_, ?_⟩
    · simp [hlen]
    · simp only
      rw [List.pairwise_append]
      refine ⟨hpw, List.pairwise_singleton _ _, ?_⟩
      intro a ha b hb
      rw [List.mem_singleton.mp hb]
      exact h' a ha
    · simp only
      rw [List.zip_append hlen]
      exact List.Sublist.append hsub (List.Sublist.refl _)

theorem job_operation_add_foldl {F : Type} (desc : F → F → Bool)
    (calls : List (F × F)) (op : ThunarJobOperation F) (done : List (F × F))
    (hlen : op.source_file_list.length = op.target_file_list.length)
    (hpw : op.source_file_list.Pairwise (fun earlier later => desc later earlier = false))
    (hsub : (op.source_file_list.zip op.target_file_list).Sublist done) :
    (calls.foldl (fun o p => thunar_job_operation_add desc o p.1 p.2) op).source_file_list.length =
        (calls.foldl (fun o p => thunar_job_operation_add desc o p.1 p.2)
          op).target_file_list.length ∧
      (calls.foldl (fun o p => thunar_job_operation_add desc o p.1 p.2)
        op).source_file_list.Pairwise (fun earlier later => desc later earlier = false) ∧
      ((calls.foldl (fun o p => thunar_job_operation_add desc o p.1 p.2)
          op).source_file_list.zip
        (calls.foldl (fun o p => thunar_job_operation_add desc o p.1 p.2)
          op).target_file_list).Sublist (done ++ calls) := by
  induction calls generalizing op done with
  | nil => simpa using ⟨hlen, hpw, hsub⟩
  | cons p ps ih =>
    obtain ⟨h1, h2, h3⟩ := job_operation_add_invariant desc op p.1 p.2 done hlen hpw hsub
    have := ih (thunar_job_operation_add desc op p.1 p.2) (done ++ [p]) h1 h2 h3
    simpa using this

/-- C27, amended: after any sequence of `thunar_job_operation_add` calls on a new job
operation, the source list and the target list have the same length; the pairs they
form, position by position, are pairs that were passed, in the order of the calls; and
no source file in the list is a descendant of a source file recorded before it.  In
one call, a pair whose source is a descendant of a recorded source is not added, and
every other pair is appended at the end of the two lists. -/
theorem job_operation_add_sequence {F : Type} (thunar_g_file_is_descendant : F → F → Bool)
    (kind : ThunarJobOperationKind) (calls : List (F × F))
    (op : ThunarJobOperation F) (s t : F) :
    (calls.foldl (fun o p => thunar_job_operation_add thunar_g_file_is_descendant o p.1 p.2)
        (thunar_job_operation_new kind)).source_file_list.length =
        (calls.foldl (fun o p => thunar_job_operation_add thunar_g_file_is_descendant o p.1 p.2)
          (thunar_job_operation_new kind)).target_file_list.length ∧
      ((calls.foldl (fun o p => thunar_job_operation_add thunar_g_file_is_descendant o p.1 p.2)
          (thunar_job_operation_new kind)).source_file_list.zip
        (calls.foldl (fun o p => thunar_job_operation_add thunar_g_file_is_descendant o p.1 p.2)
          (thunar_job_operation_new kind)).target_file_list).Sublist calls ∧
      (calls.foldl (fun o p => thunar_job_operation_add thunar_g_file_is_descendant o p.1 p.2)
        (thunar_job_operation_new kind)).source_file_list.Pairwise
        (fun earlier later => thunar_g_file_is_descendant later earlier = false) ∧
      ((∃ x ∈ op.source_file_list, thunar_g_file_is_descendant s x = true) →
        thunar_job_operation_add thunar_g_file_is_descendant op s t = op) ∧
      ((∀ x ∈ op.source_file_list, thunar_g_file_is_descendant s x = false) →
        thunar_job_operation_add thunar_g_file_is_descendant op s t =
          { op with
            source_file_list := op.source_file_list ++ [s]
            target_file_list := op.target_file_list ++ [t] }) := by
  obtain ⟨h1, h2, h3⟩ := job_operation_add_foldl thunar_g_file_is_descendant calls
    (thunar_job_operation_new kind) [] rfl List.Pairwise.nil (List.Sublist.refl _)
  rw [List.nil_append] at h3
  exact ⟨h1, h3, h2, job_operation_add_eq thunar_g_file_is_descendant op s t⟩

/-- With paths as files: the directory /a is added, then its file /a/b, then /c.  The
pair of /a/b is not recorded; on an operation that holds /a, the pair of /a/b changes
nothing. -/
theorem job_operation_add_sequence_witness :
    ([(["a"], ["x", "a"]), (["a", "b"], ["x", "a", "b"]), (["c"], ["x", "c"])].foldl
        (fun o p => thunar_job_operation_add path_is_descendant o p.1 p.2)
        (thunar_job_operation_new
          ThunarJobOperationKind.THUNAR_JOB_OPERATION_KIND_COPY)).source_file_list =
        [["a"], ["c"]] ∧
      thunar_job_operation_add path_is_descendant
          { operation_kind := ThunarJobOperationKind.THUNAR_JOB_OPERATION_KIND_COPY
            source_file_list := [["a"]], target_file_list := [["x", "a"]] }
          ["a", "b"] ["x", "a", "b"] =
        { operation_kind := ThunarJobOperationKind.THUNAR_JOB_OPERATION_KIND_COPY
          source_file_list := [["a"]], target_file_list := [["x", "a"]] } :=
  ⟨by decide,
    (job_operation_add_sequence path_is_descendant
      ThunarJobOperationKind.THUNAR_JOB_OPERATION_KIND_COPY []
      { operation_kind := ThunarJobOperationKind.THUNAR_JOB_OPERATION_KIND_COPY
        source_file_list := [["a"]], target_file_list := [["x", "a"]] }
      ["a", "b"] ["x", "a", "b"]).2.2.2.1 ⟨["a"], by decide, by decide⟩⟩

/-- C27 as stated fails: when the file /a/b is added before its directory /a, both
are recorded, and the list holds a source file, /a/b, that is a descendant of another
source file of the list, /a. -/
theorem job_operation_add_keeps_descendant_added_first :
    ([(["a", "b"], ["x", "a", "b"]), (["a"], ["x", "a"])].foldl
        (fun o p => thunar_job_operation_add path_is_descendant o p.1 p.2)
        (thunar_job_operation_new
          ThunarJobOperationKind.THUNAR_JOB_OPERATION_KIND_COPY)).source_file_list =
        [["a", "b"], ["a"]] ∧
      path_is_descendant ["a", "b"] ["a"] = true ∧
      (["a", "b"] : List String) ≠ ["a"] := by
  decide

/-! ## Paths of child indices -/

theorem g_node_at_append (q r : List Nat) (root : GNode) :
    g_node_at (q ++ r) root = (g_node_at q root).bind (g_node_at r) := by
  induction q generalizing root with
  | nil => rfl
  | cons i q ih =>
    simp only [List.cons_append, g_node_at]
    cases root.children[i]? with
    | none => rfl
    | some c => exact ih c

theorem g_node_at_snoc (q : List Nat) (n : Nat) (root parent : GNode)
    (h : g_node_at q root = some parent) :
    g_node_at (q ++ [n]) root = parent.children[n]? := by
  rw [g_node_at_append, h]
  show g_node_at [n] parent = parent.children[n]?
  simp only [g_node_at]
  cases parent.children[n]? <;> rfl

/-! ## Paths and iterators are inverse to each other -/

@[simp] theorem GNodeAt.addr_at_mk (a : Nat) (cs : List GNodeAt) : (GNodeAt.mk a cs).addr = a := rfl

@[simp] theorem GNodeAt.children_at_mk (a : Nat) (cs : List GNodeAt) :
    (GNodeAt.mk a cs).children = cs := rfl

theorem laid_out_list_iff (memory : Nat → Option GNodeCell) (parent : Option Nat)
    (cs : List GNodeAt) :
    laid_out_list memory parent cs = true ↔ ∀ c ∈ cs, laid_out memory parent c = true := by
  induction cs with
  | nil => simp [laid_out_list]
  | cons c cs ih => simp [laid_out_list, ih]

/-- What `laid_out` says of the node itself and of its children. -/
theorem laid_out_iff (memory : Nat → Option GNodeCell) (parent : Option Nat)
    (node : GNodeAt) :
    laid_out memory parent node = true ↔
      memory node.addr =
          some { parent := parent, children := node.children.map GNodeAt.addr } ∧
        (node.children.map GNodeAt.addr).Nodup ∧
        ∀ c ∈ node.children, laid_out memory (some node.addr) c = true := by
  cases node with
  | mk a cs =>
    simp only [laid_out, Bool.and_eq_true, decide_eq_true_eq, laid_out_list_iff,
      GNodeAt.addr_at_mk, GNodeAt.children_at_mk, and_assoc]

theorem descend_append (q r : List Nat) (node : GNodeAt) :
    GNodeAt.descend (q ++ r) node = (GNodeAt.descend q node).bind (GNodeAt.descend r) := by
  induction q generalizing node with
  | nil => rfl
  | cons i q ih =>
    simp only [List.cons_append, GNodeAt.descend]
    cases node.children[i]? with
    | none => rfl
    | some c => exact ih c

/-- The node that a list of indices leads to is laid out with the parent field that
belongs to it: that of the start for the empty list, else the address of the node one
step before the end. -/
theorem laid_out_descend (memory : Nat → Option GNodeCell) (p : List Nat) :
    ∀ (parent : Option Nat) (start node : GNodeAt), laid_out memory parent start = true →
      GNodeAt.descend p start = some node →
      ∃ parent', laid_out memory parent' node = true ∧ (p = [] → parent' = parent) ∧
        (∀ q n, p = q ++ [n] → ∃ above, GNodeAt.descend q start = some above ∧
          parent' = some above.addr ∧ above.children[n]? = some node) := by
  induction p with
  | nil =>
    intro parent start node hl hd
    simp only [GNodeAt.descend, Option.some.injEq] at hd
    subst hd
    exact ⟨parent, hl, fun _ => rfl, fun q n h => absurd h (by simp)⟩
  | cons i p ih =>
    intro parent start node hl hd
    simp only [GNodeAt.descend] at hd
    cases hc : start.children[i]? with
    | none => rw [hc] at hd; simp at hd
    | some c =>
      rw [hc] at hd
      have hlc : laid_out memory (some start.addr) c = true :=
        ((laid_out_iff memory parent start).mp hl).2.2 c (List.getElem?_mem hc)
      obtain ⟨parent', h1, h2, h3⟩ := ih (some start.addr) c node hlc hd
      refine ⟨parent', h1, fun h => absurd h (by simp), ?_⟩
      intro q n hq
      cases q with
      | nil =>
        simp only [List.nil_append, List.cons.injEq] at hq
        obtain ⟨rfl, rfl⟩ := hq
        simp only [GNodeAt.descend, Option.some.injEq] at hd
        subst hd
        exact ⟨start, rfl, h2 rfl, hc⟩
      | cons j q =>
        simp only [List.cons_append, List.cons.injEq] at hq
        obtain ⟨rfl, rfl⟩ := hq
        obtain ⟨above, ha, hb, hcn⟩ := h3 q n rfl
        exact ⟨above, by simp only [GNodeAt.descend, hc]; exact ha, hb, hcn⟩

theorem get_path_index_loop_found (node : Nat) (l : List Nat) (n k : Nat)
    (hnd : l.Nodup) (hn : l[n]? = some node) :
    get_path_index_loop node l k = some (k + n) := by
  induction l generalizing n k with
  | nil => simp at hn
  | cons x xs ih =>
    unfold get_path_index_loop
    cases n with
    | zero =>
      simp only [List.getElem?_cons_zero, Option.some.injEq] at hn
      rw [if_pos hn]
      rfl
    | succ n =>
      simp only [List.getElem?_cons_succ] at hn
      have hx : x ≠ node := by
        intro hc
        rw [hc] at hnd
        exact (List.nodup_cons.mp hnd).1 (List.getElem?_mem hn)
      rw [if_neg hx, ih n (k + 1) (List.nodup_cons.mp hnd).2 hn]
      congr 1
      omega

/-- The path of a node of the tree, computed from its address with enough fuel. -/
theorem get_path_of_node (memory : Nat → Option GNodeCell) (tree : GNodeAt)
    (hmem : laid_out memory none tree = true) (p : List Nat) :
    ∀ (node : GNodeAt) (fuel : Nat), GNodeAt.descend p tree = some node →
      1 ≤ fuel → p.length ≤ fuel →
      thunar_tree_view_model_get_path memory tree.addr fuel node.addr =
        some (p.map Int.ofNat) := by
  induction p using List.reverseRecOn with
  | nil =>
    intro node fuel hd h1 _
    simp only [GNodeAt.descend, Option.some.injEq] at hd
    subst hd
    obtain ⟨f, rfl⟩ : ∃ f, fuel = f + 1 := ⟨fuel - 1, by omega⟩
    have hcell := ((laid_out_iff memory none tree).mp hmem).1
    simp [thunar_tree_view_model_get_path, hcell]
  | append_singleton q n ih =>
    intro node fuel hd _ hlen
    simp only [List.length_append, List.length_singleton] at hlen
    obtain ⟨f, rfl⟩ : ∃ f, fuel = f + 1 := ⟨fuel - 1, by omega⟩
    obtain ⟨parent', hl, _, h3⟩ := laid_out_descend memory (q ++ [n]) none tree node hmem hd
    obtain ⟨above, ha, hb, hcn⟩ := h3 q n rfl
    subst hb
    obtain ⟨pa, hla, hpa, _⟩ := laid_out_descend memory q none tree above hmem ha
    have hcell := ((laid_out_iff memory _ node).mp hl).1
    have hacell := (laid_out_iff memory _ above).mp hla
    have hroot := ((laid_out_iff memory none tree).mp hmem).1
    have hpath : (if above.addr = tree.addr then some []
        else thunar_tree_view_model_get_path memory tree.addr f above.addr) =
        some (q.map Int.ofNat) := by
      by_cases hq : q = []
      · subst hq
        simp only [GNodeAt.descend, Option.some.injEq] at ha
        subst ha
        simp
      · have hne : above.addr ≠ tree.addr := by
          intro hc
          obtain ⟨q', n', rfl⟩ : ∃ q' n', q = q' ++ [n'] :=
            ⟨q.dropLast, q.getLast hq, (List.dropLast_append_getLast hq).symm⟩
          obtain ⟨pa2, hla2, _, h32⟩ := laid_out_descend memory (q' ++ [n']) none tree above
            hmem ha
          obtain ⟨above2, _, hb2, _⟩ := h32 q' n' rfl
          have hc2 := ((laid_out_iff memory _ above).mp hla2).1
          rw [hc, hroot, hb2] at hc2
          simp at hc2
        rw [if_neg hne]
        exact ih above f ha (by
          have : 0 < q.length := List.length_pos.mpr hq
          omega) (by omega)
    have hidx : get_path_index_loop node.addr (above.children.map GNodeAt.addr) 0 =
        some (0 + n) :=
      get_path_index_loop_found node.addr _ n 0 hacell.2.1 (by
        rw [List.getElem?_map, hcn]; rfl)
    simp only [thunar_tree_view_model_get_path, hcell, hpath, hacell.1, hidx]
    simp

theorem iter_nth_child_of_node (memory : Nat → Option GNodeCell) (root : Nat)
    (parent : Option Nat) (node : GNodeAt) (i : Int)
    (hl : laid_out memory parent node = true) :
    thunar_tree_view_model_iter_nth_child memory root (some node.addr) i =
      if 0 ≤ i then (node.children[i.toNat]?).map GNodeAt.addr else none := by
  unfold thunar_tree_view_model_iter_nth_child g_node_nth_child
  simp only [((laid_out_iff memory parent node).mp hl).1, List.getElem?_map]

theorem get_iter_loop_of_node (memory : Nat → Option GNodeCell) (root : Nat) (r : List Nat) :
    ∀ (parent : Option Nat) (start node : GNodeAt), laid_out memory parent start = true →
      GNodeAt.descend r start = some node →
      get_iter_loop memory root (r.map Int.ofNat) start.addr = some node.addr := by
  induction r with
  | nil =>
    intro parent start node _ hd
    simp only [GNodeAt.descend, Option.some.injEq] at hd
    subst hd
    rfl
  | cons i r ih =>
    intro parent start node hl hd
    simp only [GNodeAt.descend] at hd
    cases hc : start.children[i]? with
    | none => rw [hc] at hd; simp at hd
    | some c =>
      rw [hc] at hd
      have hlc : laid_out memory (some start.addr) c = true :=
        ((laid_out_iff memory parent start).mp hl).2.2 c (List.getElem?_mem hc)
      simp only [List.map_cons, get_iter_loop, Int.ofNat_eq_coe]
      rw [iter_nth_child_of_node memory root parent start i hl]
      simp only [Int.natCast_nonneg, if_true, Int.toNat_ofNat, hc, Option.map_some']
      exact ih (some start.addr) c node hlc hd

theorem get_iter_loop_some (memory : Nat → Option GNodeCell) (root : Nat)
    (indices : List Int) :
    ∀ (parent : Option Nat) (start : GNodeAt) (iter : Nat),
      laid_out memory parent start = true →
      get_iter_loop memory root indices start.addr = some iter →
      ∃ (r : List Nat) (node : GNodeAt), indices = r.map Int.ofNat ∧
        GNodeAt.descend r start = some node ∧ node.addr = iter := by
  induction indices with
  | nil =>
    intro parent start iter _ h
    simp only [get_iter_loop, Option.some.injEq] at h
    exact ⟨[], start, rfl, rfl, h⟩
  | cons i indices ih =>
    intro parent start iter hl h
    simp only [get_iter_loop] at h
    rw [iter_nth_child_of_node memory root parent start i hl] at h
    by_cases hi : 0 ≤ i
    · rw [if_pos hi] at h
      cases hc : start.children[i.toNat]? with
      | none => rw [hc] at h; simp at h
      | some c =>
        rw [hc] at h
        simp only [Option.map_some'] at h
        have hlc : laid_out memory (some start.addr) c = true :=
          ((laid_out_iff memory parent start).mp hl).2.2 c (List.getElem?_mem hc)
        obtain ⟨r, node, h1, h2, h3⟩ := ih (some start.addr) c iter hlc h
        refine ⟨i.toNat :: r, node, ?_, ?_, h3⟩
        · simp [h1, Int.toNat_of_nonneg hi]
        · simp only [GNodeAt.descend, hc]
          exact h2
    · rw [if_neg hi] at h
      simp at h

theorem get_iter_loop_out_of_range (memory : Nat → Option GNodeCell) (root : Nat)
    (pre : List Nat) (i : Int) (post : List Int) :
    ∀ (parent : Option Nat) (start level : GNodeAt), laid_out memory parent start = true →
      GNodeAt.descend pre start = some level →
      (i < 0 ∨ (level.children.length : Int) ≤ i) →
      get_iter_loop memory root (pre.map Int.ofNat ++ i :: post) start.addr = none := by
  induction pre with
  | nil =>
    intro parent start level hl hd hi
    simp only [GNodeAt.descend, Option.some.injEq] at hd
    subst hd
    simp only [List.map_nil, List.nil_append, get_iter_loop]
    rw [iter_nth_child_of_node memory root parent start i hl]
    by_cases h0 : 0 ≤ i
    · rw [if_pos h0, List.getElem?_eq_none (by
        have : (i.toNat : Int) = i := Int.toNat_of_nonneg h0
        rcases hi with hi | hi <;> omega)]
      rfl
    · rw [if_neg h0]
  | cons n pre ih =>
    intro parent start level hl hd hi
    simp only [GNodeAt.descend] at hd
    cases hc : start.children[n]? with
    | none => rw [hc] at hd; simp at hd
    | some c =>
      rw [hc] at hd
      have hlc : laid_out memory (some start.addr) c = true :=
        ((laid_out_iff memory parent start).mp hl).2.2 c (List.getElem?_mem hc)
      simp only [List.map_cons, List.cons_append, get_iter_loop, Int.ofNat_eq_coe]
      rw [iter_nth_child_of_node memory root parent start n hl]
      simp only [Int.natCast_nonneg, if_true, Int.toNat_ofNat, hc, Option.map_some']
      exact ih (some start.addr) c level hlc hd hi

theorem get_iter_eq_loop (memory : Nat → Option GNodeCell) (root : Nat) (path : List Int)
    (h : path ≠ []) :
    thunar_tree_view_model_get_iter memory root path = get_iter_loop memory root path root := by
  cases path with
  | nil => exact absurd rfl h
  | cons i indices => rfl

/-- C29: in a memory that holds the tree (every node lies at an address with its `parent`
field and the chain of its children; the virtual root has no parent), for every node
reached from the root by a non-empty list `p` of child indices
`thunar_tree_view_model_get_path`, given the address of the node and a depth bound of at
least the length of `p`, returns `p`, and `thunar_tree_view_model_get_iter` on `p`
succeeds with the address of that node; two positions with the same address are the
same position.  `get_iter` fails on every path with an index that is negative or not
below the number of children of the node that the indices before it lead to, and
wherever `get_iter` succeeds, the result is the address of the node at the path and
`get_path` of it is the path. -/
theorem get_path_and_get_iter_are_inverse (memory : Nat → Option GNodeCell)
    (tree : GNodeAt) (hmem : laid_out memory none tree = true) :
    (∀ (p : List Nat) (node : GNodeAt), p ≠ [] → GNodeAt.descend p tree = some node →
      (∀ fuel, p.length ≤ fuel →
        thunar_tree_view_model_get_path memory tree.addr fuel node.addr =
          some (p.map Int.ofNat)) ∧
      thunar_tree_view_model_get_iter memory tree.addr (p.map Int.ofNat) =
        some node.addr) ∧
    (∀ (p q : List Nat) (node other : GNodeAt), GNodeAt.descend p tree = some node →
      GNodeAt.descend q tree = some other → node.addr = other.addr → p = q) ∧
    (∀ (pre : List Nat) (level : GNodeAt) (i : Int) (post : List Int),
      GNodeAt.descend pre tree = some level →
      (i < 0 ∨ (level.children.length : Int) ≤ i) →
      thunar_tree_view_model_get_iter memory tree.addr (pre.map Int.ofNat ++ i :: post) =
        none) ∧
    (∀ (path : List Int) (iter : Nat),
      thunar_tree_view_model_get_iter memory tree.addr path = some iter →
      ∃ (p : List Nat) (node : GNodeAt), p ≠ [] ∧ path = p.map Int.ofNat ∧
        GNodeAt.descend p tree = some node ∧ node.addr = iter ∧
        ∀ fuel, path.length ≤ fuel →
          thunar_tree_view_model_get_path memory tree.addr fuel iter = some path) := by
  refine ⟨?_, ?_, ?_, ?_⟩
  · intro p node hp hd
    have hpos : 0 < p.length := List.length_pos.mpr hp
    refine ⟨fun fuel hf => get_path_of_node memory tree hmem p node fuel hd (by omega) hf, ?_⟩
    rw [get_iter_eq_loop memory tree.addr _ (by simpa using hp)]
    exact get_iter_loop_of_node memory tree.addr p none tree node hmem hd
  · intro p q node other hp hq haddr
    have h1 := get_path_of_node memory tree hmem p node (p.length + q.length + 1) hp
      (by omega) (by omega)
    have h2 := get_path_of_node memory tree hmem q other (p.length + q.length + 1) hq
      (by omega) (by omega)
    rw [haddr, h2, Option.some.injEq] at h1
    exact (List.map_injective_iff.mpr (fun a b h => Int.ofNat.inj h) h1).symm
  · intro pre level i post hd hi
    rw [get_iter_eq_loop memory tree.addr _ (by simp)]
    exact get_iter_loop_out_of_range memory tree.addr pre i post none tree level hmem hd hi
  · intro path iter h
    have hne : path ≠ [] := by
      intro hc
      rw [hc] at h
      simp [thunar_tree_view_model_get_iter] at h
    rw [get_iter_eq_loop memory tree.addr path hne] at h
    obtain ⟨p, node, h1, h2, h3⟩ := get_iter_loop_some memory tree.addr path none tree iter
      hmem h
    have hp : p ≠ [] := by
      intro hc
      rw [hc] at h1
      exact hne h1
    refine ⟨p, node, hp, h1, h2, h3, ?_⟩
    intro fuel hf
    have hpos : 0 < p.length := List.length_pos.mpr hp
    rw [h1, ← h3]
    rw [h1, List.length_map] at hf
    exact get_path_of_node memory tree hmem p node fuel h2 (by omega) hf

/-- The node at 105 of `sample_nodes` is the second child of the third child of the
root: its path is `[2, 1]`, and the iterator for that path is the node. -/
theorem get_path_and_get_iter_are_inverse_witness :
    laid_out sample_memory none sample_nodes = true ∧
      GNodeAt.descend [2, 1] sample_nodes = some (GNodeAt.mk 105 []) ∧
      thunar_tree_view_model_get_path sample_memory 100 2 105 = some [2, 1] ∧
      thunar_tree_view_model_get_iter sample_memory 100 [2, 1] = some 105 :=
  ⟨by decide, rfl,
    ((get_path_and_get_iter_are_inverse sample_memory sample_nodes (by decide)).1 [2, 1]
      (GNodeAt.mk 105 []) (by decide) rfl).1 2 (by decide),
    ((get_path_and_get_iter_are_inverse sample_memory sample_nodes (by decide)).1 [2, 1]
      (GNodeAt.mk 105 []) (by decide) rfl).2⟩

/-! ## One node moved among its siblings -/

theorem getElem?_take_cons_drop {α : Type} (E : List α) (k : Nat) (c : α) (t : Nat)
    (hk : k ≤ E.length) :
    (E.take k ++ c :: E.drop k)[t]? =
      if t < k then E[t]? else if t = k then some c else E[t - 1]? := by
  have hlen : (E.take k).length = k := by simp [hk]
  by_cases h1 : t < k
  · rw [if_pos h1, List.getElem?_append_left (by omega), List.getElem?_take_of_lt h1]
  · rw [if_neg h1, List.getElem?_append_right (by omega), hlen]
    by_cases h2 : t = k
    · rw [if_pos h2, h2]; simp
    · rw [if_neg h2]
      obtain ⟨d, hd⟩ : ∃ d, t - k = d + 1 := ⟨t - k - 1, by omega⟩
      rw [hd, List.getElem?_cons_succ, List.getElem?_drop]
      congr 1
      omega

theorem eraseIdx_take_cons_drop {α : Type} (E : List α) (k : Nat) (c : α)
    (hk : k ≤ E.length) : (E.take k ++ c :: E.drop k).eraseIdx k = E := by
  have hlen : (E.take k).length = k := by simp [hk]
  rw [List.eraseIdx_append_of_length_le (by omega), hlen, Nat.sub_self]
  simp

theorem insert_child_node_sorted_loop_take_drop (model : ThunarTreeViewModel) (child : GNode)
    (cs : List GNode) (pos : Nat) (hne : cs ≠ []) :
    ∃ k, k ≤ cs.length ∧ (insert_child_node_sorted_loop model child cs pos).2 = pos + k ∧
      (insert_child_node_sorted_loop model child cs pos).1 =
        cs.take k ++ child :: cs.drop k := by
  induction cs generalizing pos with
  | nil => exact absurd rfl hne
  | cons lp rest ih =>
    cases rest with
    | nil => exact ⟨1, by simp, by simp [insert_child_node_sorted_loop],
        by simp [insert_child_node_sorted_loop]⟩
    | cons next rest =>
      unfold insert_child_node_sorted_loop
      split
      · obtain ⟨k, hk, h2, h1⟩ := ih (pos + 1) (by simp)
        refine ⟨k + 1, by simp only [List.length_cons] at hk ⊢; omega, ?_, ?_⟩
        · simp only [h2]; omega
        · simp only [h1, List.take_succ_cons, List.drop_succ_cons, List.cons_append]
      · exact ⟨0, by simp, by simp, by simp⟩

/-- The sorted insertion links the child in at the returned position and leaves the
other children as they are. -/
theorem insert_child_node_sorted_take_drop (model : ThunarTreeViewModel)
    (parent child : GNode) :
    ∃ k, k ≤ parent.children.length ∧
      (thunar_tree_view_model_insert_child_node_sorted model parent child).2 = k ∧
      (thunar_tree_view_model_insert_child_node_sorted model parent child).1.children =
        parent.children.take k ++ child :: parent.children.drop k := by
  unfold thunar_tree_view_model_insert_child_node_sorted
  cases h : parent.children with
  | nil => exact ⟨0, by simp, rfl, by simp⟩
  | cons lp rest =>
    obtain ⟨k, hk, h2, h1⟩ :=
      insert_child_node_sorted_loop_take_drop model child (lp :: rest) 0 (by simp)
    refine ⟨k, hk, ?_, ?_⟩
    · simp only [h2]; omega
    · simp only [GNode.children_mk, h1]

theorem new_order_loop_perm (pb pa n : Nat) (hpb : pb < n) (hpa : pa < n) :
    (new_order_loop pb pa n 0 0).Perm (List.range n) := by
  have hget : ∀ t, t < n → (new_order_loop pb pa n 0 0)[t]? =
      some (if t = pa then pb
        else if (if t < pa then t else t - 1) < pb then (if t < pa then t else t - 1)
          else (if t < pa then t else t - 1) + 1) := by
    intro t ht
    have := new_order_loop_getElem pb pa n 0 0 t (by simp) ht
    simpa using this
  have hlen := new_order_loop_length pb pa n 0 0
  apply List.Subperm.perm_of_length_le
  · apply List.subperm_of_subset
    · rw [List.nodup_iff_getElem?_ne_getElem?]
      intro s t hst ht
      rw [hlen] at ht
      rw [hget s (by omega), hget t ht]
      intro hc
      simp only [Option.some.injEq] at hc
      split_ifs at hc <;> omega
    · intro x hx
      obtain ⟨t, ht, hxt⟩ := List.getElem_of_mem hx
      rw [hlen] at ht
      have := hget t ht
      rw [List.getElem?_eq_getElem (by rw [hlen]; exact ht), hxt] at this
      simp only [Option.some.injEq] at this
      rw [List.mem_range]
      split_ifs at this <;> omega
  · simp [hlen]

/-- C30: take a sibling group of at least two nodes and the child with index `node`
in it.  `thunar_tree_view_model_unlink_child` returns that index and leaves the other
children in their order.  `thunar_tree_view_model_insert_child_node_sorted` then
returns an index below the sibling count at which the child stands afterwards; all
nodes are kept, and without the child the list is the list of the other children in
their previous order.  When the two indices differ and a handler is connected,
`thunar_tree_view_model_reorder_if_req` emits a `new_order` array that is a
permutation of 0..n-1 and in which, for every position `t`, `new_order[t]` is the old
index of the node now at position `t`. -/
theorem reorder_if_req_new_order_maps_new_to_old (model : ThunarTreeViewModel)
    (parent child : GNode) (node : Nat) (u r : GNode × Nat)
    (hn : 2 ≤ g_node_n_children parent) (hchild : parent.children[node]? = some child)
    (hu : u = thunar_tree_view_model_unlink_child parent node)
    (hr : r = thunar_tree_view_model_insert_child_node_sorted model u.1 child) :
    u.2 = node ∧
      u.1.children = parent.children.eraseIdx node ∧
      r.2 < g_node_n_children parent ∧
      r.1.children[r.2]? = some child ∧
      r.1.children.eraseIdx r.2 = parent.children.eraseIdx node ∧
      r.1.children.Perm parent.children ∧
      g_node_n_children r.1 = g_node_n_children parent ∧
      (r.2 ≠ u.2 → model.has_handler = true →
        ∃ new_order : List Nat,
          thunar_tree_view_model_reorder_if_req model parent node = (r.1, some new_order) ∧
          new_order.Perm (List.range (g_node_n_children parent)) ∧
          ∀ t, t < g_node_n_children parent →
            r.1.children[t]? = (new_order[t]?).bind (fun old => parent.children[old]?)) := by
  have hlt : node < parent.children.length := by
    by_contra hc
    rw [List.getElem?_eq_none (by omega)] at hchild
    exact absurd hchild (by simp)
  have hu1 : u.1.children = parent.children.eraseIdx node := by rw [hu]; rfl
  have hu2 : u.2 = node := by rw [hu]; rfl
  have hE : (parent.children.eraseIdx node).length = parent.children.length - 1 := by
    rw [List.length_eraseIdx, if_pos hlt]
  obtain ⟨k, hk, hk2, hk1⟩ := insert_child_node_sorted_take_drop model u.1 child
  rw [← hr, hu1] at hk1
  rw [← hr] at hk2
  rw [hu1, hE] at hk
  unfold g_node_n_children at hn ⊢
  have hkE : k ≤ (parent.children.eraseIdx node).length := by rw [hE]; exact hk
  have hlenr : r.1.children.length = parent.children.length := by
    rw [hk1]
    simp only [List.length_append, List.length_take, List.length_cons, List.length_drop, hE]
    omega
  have hget := fun t => getElem?_take_cons_drop (parent.children.eraseIdx node) k child t hkE
  refine ⟨hu2, hu1, by omega, ?_, ?_, ?_, hlenr, ?_⟩
  · rw [hk2, hk1, hget k]
    simp
  · rw [hk2, hk1]
    exact eraseIdx_take_cons_drop _ k child hkE
  · rw [hk1]
    refine List.perm_middle.trans ?_
    rw [List.take_append_drop]
    exact cons_eraseIdx_perm parent.children node child hchild
  · intro hne hh
    refine ⟨new_order_loop node k parent.children.length 0 0, ?_, ?_, ?_⟩
    · unfold thunar_tree_view_model_reorder_if_req
      simp only [hchild, g_node_n_children]
      rw [if_neg (by omega), ← hu, ← hr, hu2, hk2]
      rw [hk2, hu2] at hne
      simp only [hne, hh, Bool.not_true, Bool.or_false, decide_False, Bool.false_eq_true,
        if_false, hlenr]
    · exact new_order_loop_perm node k parent.children.length hlt (by omega)
    · intro t ht
      have := new_order_loop_getElem node k parent.children.length 0 0 t (by simp) ht
      simp only [Nat.zero_add] at this
      rw [this, hk1, hget t]
      show _ = parent.children[_]?
      by_cases h1 : t = k
      · rw [if_neg (by omega), if_pos h1, if_pos h1, hchild]
      · rw [if_neg h1]
        by_cases h2 : t < k
        · rw [if_pos h2, if_pos h2, List.getElem?_eraseIdx]
          split_ifs <;> rfl
        · rw [if_neg h2, if_neg h1, if_neg h2, List.getElem?_eraseIdx]
          split_ifs <;> rfl

/-- On the siblings a, b, c after the date of c changed to 5: c has the index 2, is
linked in again at the index 0, and the array maps 0 to 2, 1 to 0 and 2 to 1. -/
theorem reorder_if_req_new_order_maps_new_to_old_witness :
    ∃ new_order : List Nat,
      thunar_tree_view_model_reorder_if_req sample_model
          (GNode.mk none
            [leaf_of file_a, leaf_of file_b, leaf_of { file_c with date_modified := 5 }]) 2 =
        ((thunar_tree_view_model_insert_child_node_sorted sample_model
          (thunar_tree_view_model_unlink_child
            (GNode.mk none
              [leaf_of file_a, leaf_of file_b, leaf_of { file_c with date_modified := 5 }])
            2).1
          (leaf_of { file_c with date_modified := 5 })).1, some new_order) ∧
      new_order.Perm (List.range 3) :=
  have h := (reorder_if_req_new_order_maps_new_to_old sample_model
    (GNode.mk none
      [leaf_of file_a, leaf_of file_b, leaf_of { file_c with date_modified := 5 }])
    (leaf_of { file_c with date_modified := 5 }) 2 _ _ (by decide) rfl rfl rfl).2.2.2.2.2.2.2
    (by decide) rfl
  h.imp (fun _ hx => ⟨hx.1, hx.2.1⟩)

end Thunar
